import Mathlib

/-!
# mchess: cache-aside player service

A shallow embedding of the player cache of `msvens/mchess`:

* `internal/service/player.go`    (the orchestrator: `PlayerService`),
* `internal/repository/player.go` (the cache store: `PlayerRepository`),
* `internal/api/handlers/players.go` (the HTTP handlers and their parsers).

Stateful code is written in explicit state-passing style over a `World`
(the rows of table `player_cache` plus the trace of external calls made so
far).  Everything the program cannot control (upstream answers, database
faults, the clocks, the JSON codec of the standard library) is read from an
`Env` of oracles that may depend on the whole history of the run.
-/

set_option maxRecDepth 100000

namespace Mchess

/-! ## Go errors -/

/-- Go error values: a plain message (`errors.New`) or a message that wraps an
inner error (`fmt.Errorf` with the verb `%w`). -/
inductive GoError where
  | errorString (s : String)
  | wrapError (msg : String) (err : GoError)
  deriving DecidableEq, Repr

/-- Method `Error()` of the error interface. -/
def GoError.Error : GoError → String
  | .errorString s => s
  | .wrapError msg _ => msg

/-- Method `Unwrap()`: the error wrapped by this one, if any. -/
def GoError.Unwrap : GoError → Option GoError
  | .errorString _ => none
  | .wrapError _ err => some err

/-- Call `fmt.Errorf(pre + "%w", err)`: the text is the text of `err` behind
`pre`, and the result wraps `err`. -/
def Errorf (pre : String) (err : GoError) : GoError :=
  .wrapError (pre ++ err.Error) err

/-! ## Package `time`

A `time.Time` is an instant together with a location.  The instant is kept as
an unbounded count of nanoseconds since the Unix epoch; the location is kept as
the offset (seconds east of UTC) in force at that instant.  `time.UTC` is offset
`0`.  The calendar is the proleptic Gregorian calendar of package `time`. -/

/-- Value of type `time.Time`. -/
structure Time where
  unixNano : Int
  offset : Int
  deriving DecidableEq, Repr

/-- Nanoseconds per second. -/
def nanosPerSecond : Int := 1000000000

/-- Seconds per day. -/
def secondsPerDay : Int := 86400

/-- Offset of location `time.UTC`. -/
def UTC : Int := 0

/-- Number of days from 1970-01-01 to the civil date `y-m-d` (month in 1..12). -/
def daysFromCivil (y m d : Int) : Int :=
  let y1 := if m ≤ 2 then y - 1 else y
  let era := y1 / 400
  let yoe := y1 % 400
  let mp := if m > 2 then m - 3 else m + 9
  let doy := (153 * mp + 2) / 5 + d - 1
  let doe := yoe * 365 + yoe / 4 - yoe / 100 + doy
  era * 146097 + doe - 719468

/-- Civil date (year, month, day) of the day that lies `z` days after 1970-01-01. -/
def civilFromDays (z : Int) : Int × Int × Int :=
  let z1 := z + 719468
  let era := z1 / 146097
  let doe := z1 % 146097
  let yoe := (doe - doe / 1460 + doe / 36524 - doe / 146096) / 365
  let doy := doe - (365 * yoe + yoe / 4 - yoe / 100)
  let mp := (5 * doy + 2) / 153
  let d := doy - (153 * mp + 2) / 5 + 1
  let m := if mp < 10 then mp + 3 else mp - 9
  let y := yoe + era * 400
  (if m ≤ 2 then y + 1 else y, m, d)

/-- Day number (days since 1970-01-01) of the wall-clock date of `t` in its own
location. -/
def Time.localDays (t : Time) : Int :=
  (t.unixNano + t.offset * nanosPerSecond) / (secondsPerDay * nanosPerSecond)

/-- Method `t.Year()`. -/
def Time.Year (t : Time) : Int := (civilFromDays t.localDays).1

/-- Method `t.Month()`, January = 1. -/
def Time.Month (t : Time) : Int := (civilFromDays t.localDays).2.1

/-- Method `t.Day()`. -/
def Time.Day (t : Time) : Int := (civilFromDays t.localDays).2.2

/-- Function `time.Date(year, month, day, hour, min, sec, nsec, loc)`.  The month
is normalised into 1..12 by carrying into the year; days, hours, minutes,
seconds and nanoseconds outside their usual range carry by plain addition. -/
def time.Date (year month day hour min sec nsec : Int) (loc : Int) : Time :=
  let m := month - 1
  let year1 := year + m / 12
  let month1 := m % 12 + 1
  let days := daysFromCivil year1 month1 1 + (day - 1)
  let unix := days * secondsPerDay + hour * 3600 + min * 60 + sec - loc
  { unixNano := unix * nanosPerSecond + nsec, offset := loc }

/-- Method `t.Before(u)`: the instant of `t` is earlier than that of `u`. -/
def Time.Before (t u : Time) : Bool := decide (t.unixNano < u.unixNano)

/-- Method `t.After(u)`. -/
def Time.After (t u : Time) : Bool := decide (u.unixNano < t.unixNano)

/-- Method `t.Add(d)` for a `time.Duration` of `d` nanoseconds. -/
def Time.Add (t : Time) (d : Int) : Time :=
  { unixNano := t.unixNano + d, offset := t.offset }

/-- Decimal digits of `n`, left-padded with zeros to `width` (`appendInt` of
package `time` for a non-negative argument). -/
def padNat (width : Nat) (n : Nat) : String :=
  let s := toString n
  String.mk (List.replicate (width - s.length) '0') ++ s

/-- Decimal form of `x` padded to `width` digits, with a leading minus sign for
negative numbers (`appendInt` of package `time`). -/
def appendInt (x : Int) (width : Nat) : String :=
  if x < 0 then "-" ++ padNat width (-x).toNat else padNat width x.toNat

/-- Call `t.Format("2006-01-02")`. -/
def Time.FormatDate (t : Time) : String :=
  appendInt t.Year 4 ++ "-" ++ appendInt t.Month 2 ++ "-" ++ appendInt t.Day 2

/-! ## `internal/service/player.go`: pure helpers -/

/-- Function `normalizeToMonthStart`:
`time.Date(date.Year(), date.Month(), 1, 0, 0, 0, 0, time.UTC)`. -/
def normalizeToMonthStart (date : Time) : Time :=
  time.Date date.Year date.Month 1 0 0 0 0 UTC

/-! ## `internal/model` -/

/-- Type `model.Date`: a struct that embeds a `time.Time`. -/
structure Date where
  Time : Time
  deriving DecidableEq, Repr

/-- Type `model.EloRating`; the pointer field `Date` is `none` when nil. -/
structure EloRating where
  Rating : Int
  Title : String
  Date : Option Date
  K : Int
  RapidRating : Int
  RapidK : Int
  BlitzRating : Int
  BlitzK : Int
  deriving DecidableEq, Repr

/-- Type `model.LaskRating`. -/
structure LaskRating where
  Rating : Int
  Date : Option Date
  deriving DecidableEq, Repr

/-- Type `model.PlayerInfo`; the pointer fields `Elo` and `Lask` are `none` when nil. -/
structure PlayerInfo where
  ID : Int
  FirstName : String
  LastName : String
  Birthdate : String
  Sex : Int
  FideID : Int
  Country : String
  Club : String
  ClubID : Int
  Elo : Option EloRating
  Lask : Option LaskRating
  deriving DecidableEq, Repr

/-- Contents of a `[]byte` holding a JSON document. -/
abbrev Bytes := String

/-- Type `model.PlayerCacheEntry`: one row of table `player_cache`. -/
structure PlayerCacheEntry where
  MemberID : Int
  RatingDate : Time
  FirstName : String
  LastName : String
  Club : String
  ClubID : Option Int
  FideID : Option Int
  EloStandard : Option Int
  EloRapid : Option Int
  EloBlitz : Option Int
  LaskRating : Option Int
  Data : Bytes
  FetchedAt : Time
  ExpiresAt : Option Time
  deriving DecidableEq, Repr

/-- Type `model.PlayerError`. -/
structure PlayerError where
  ID : Int
  Error : String
  deriving DecidableEq, Repr

/-- Type `model.PlayersResponse`.  A slice is `none` when it is the nil slice
and `some xs` when it is a non-nil slice with the elements `xs`. -/
structure PlayersResponse where
  Players : Option (List PlayerInfo)
  Errors : Option (List PlayerError)
  deriving DecidableEq, Repr

/-- Type `model.RatingHistoryResponse`. -/
structure RatingHistoryResponse where
  PlayerID : Int
  Ratings : Option (List PlayerInfo)
  deriving DecidableEq, Repr

/-- Built-in `append(s, x)` on a slice that may be nil. -/
def sliceAppend {α : Type} (s : Option (List α)) (x : α) : Option (List α) :=
  some (s.getD [] ++ [x])

/-- A Go map, as the lookup function of its keys. -/
abbrev GoMap (κ ν : Type) := κ → Option ν

/-- Result of `make(map[K]V)`: the empty map. -/
def GoMap.empty {κ ν : Type} : GoMap κ ν := fun _ => none

/-- Assignment `m[k] = v`. -/
def GoMap.set {κ ν : Type} [DecidableEq κ] (m : GoMap κ ν) (k : κ) (v : ν) : GoMap κ ν :=
  fun k1 => if k1 = k then some v else m k1

/-! ## The world outside the program -/

/-- External calls made by the program: the methods of the repository, the
fetches of the upstream client used by the service, readings of the clock with
`time.Now()`, and, for `Client.GetRaw`, the wait for the rate limiter and the
HTTP request. -/
inductive Event where
  | repoGet (memberID : Int) (ratingDate : Time)
  | repoGetByFideID (fideID : Int) (ratingDate : Time)
  | repoGetBatch (memberIDs : List Int) (ratingDate : Time)
  | repoGetRatingHistoryForDates (memberID : Int) (dates : List Time)
  | repoSave (player : PlayerInfo) (ratingDate : Time) (expiresAt : Option Time)
  | repoDeleteExpired
  | upstreamGetPlayer (memberID : Int) (date : String)
  | upstreamGetPlayerByFideID (fideID : Int) (date : String)
  | timeNow
  | limiterWait
  | httpDo (url : String)
  deriving DecidableEq, Repr

/-- What the database connection does with one statement. -/
inductive DBOutcome where
  /-- The statement runs and every row is delivered. -/
  | ok
  /-- The statement itself fails (`QueryContext`, `ExecContext`, or the query
  behind `QueryRowContext`). -/
  | queryError (err : GoError)
  /-- The statement runs, and `rows.Scan` fails on row number `n` (from 0). -/
  | scanError (n : Nat) (err : GoError)
  /-- The statement runs, and the iteration breaks off once `n` rows have been
  delivered: `rows.Next()` is false and `rows.Err()` is `err`. -/
  | rowsError (n : Nat) (err : GoError)
  deriving DecidableEq, Repr

/-- State of the world: the rows of table `player_cache`, and the external
calls made so far, oldest first. -/
structure World where
  rows : List PlayerCacheEntry
  trace : List Event
  deriving DecidableEq, Repr

/-- Record an external call. -/
def World.log (w : World) (e : Event) : World :=
  { w with trace := w.trace ++ [e] }

/-- What `http.Client.Do` hands back for a request that got a response: the status
code, and what `io.ReadAll` reads from the body. -/
structure HTTPReply where
  StatusCode : Int
  Body : Except GoError Bytes

/-- Everything the program does not control.  Each oracle is asked with the
trace of the run so far, so two calls of the same kind may be answered differently. -/
structure Env where
  /-- Field `PlayerService.cacheTTL` (from the configuration), in nanoseconds. -/
  cacheTTL : Int
  /-- Value returned by `time.Now()`. -/
  timeNow : List Event → Time
  /-- Value of `NOW()` inside a statement run by the database. -/
  dbNow : List Event → Time
  /-- Fate of the statement sent to the database. -/
  dbFault : List Event → DBOutcome
  /-- Function `json.Marshal` at type `*model.PlayerInfo`. -/
  marshal : PlayerInfo → Except GoError Bytes
  /-- Function `json.Unmarshal` at type `*model.PlayerInfo`. -/
  unmarshal : Bytes → Except GoError PlayerInfo
  /-- Method `upstream.Client.GetPlayer(ctx, memberID, date)`. -/
  upstreamGetPlayer : List Event → Int → String → Except GoError PlayerInfo
  /-- Method `upstream.Client.GetPlayerByFideID(ctx, fideID, date)`. -/
  upstreamGetPlayerByFideID : List Event → Int → String → Except GoError PlayerInfo
  /-- Interleaving in which the Go scheduler runs `n` goroutines of
  `fetchPlayersParallel`: the list of the goroutines (by number) that take the
  next step. -/
  schedule : List Event → Nat → List Nat
  /-- Field `Client.baseURL`. -/
  baseURL : String
  /-- Call `c.limiter.Wait(ctx)`: the error, `none` when the permit is granted. -/
  limiterWait : List Event → Option GoError
  /-- Error of `http.NewRequestWithContext` for a URL, `none` when the request is
  built. -/
  newRequest : String → Option GoError
  /-- Call `c.httpClient.Do(req)` for a GET request of a URL. -/
  httpDo : List Event → String → Except GoError HTTPReply
  /-- Function `url.PathEscape`. -/
  pathEscape : String → String

/-- Call `time.Now()`: reads the clock and records the reading. -/
def timeNow (env : Env) (w : World) : World × Time :=
  (w.log .timeNow, env.timeNow w.trace)

/-! ## `internal/repository/player.go` -/

/-- SQL condition `expires_at IS NULL OR expires_at > NOW()` on a row. -/
def live (now : Time) (r : PlayerCacheEntry) : Bool :=
  match r.ExpiresAt with
  | none => true
  | some e => now.Before e

/-- SQL comparison `rating_date = $n`: the same instant. -/
def sameDate (a b : Time) : Bool := decide (a.unixNano = b.unixNano)

/-- Error with which the iteration over the result breaks off once `i` rows have
been delivered, if it does. -/
def DBOutcome.rowsErrAt (fault : DBOutcome) (i : Nat) : Option GoError :=
  match fault with
  | .rowsError n e => if n = i then some e else none
  | _ => none

/-- Error of `Scan` on row number `i` of the result, if it fails there. -/
def DBOutcome.scanErrAt (fault : DBOutcome) (i : Nat) : Option GoError :=
  match fault with
  | .scanError n e => if n = i then some e else none
  | _ => none

/-- Result of `QueryRowContext(...).Scan(&data)`. -/
inductive RowResult where
  | noRows
  | failed (err : GoError)
  | row (data : Bytes)
  deriving DecidableEq, Repr

/-- Call `QueryRowContext(...).Scan(&data)`: the `data` column of the first row
that satisfies `cond`, `sql.ErrNoRows` when there is none, or the error of the
database.  A fault that strikes behind the first row is not seen. -/
def queryRow (fault : DBOutcome) (rows : List PlayerCacheEntry)
    (cond : PlayerCacheEntry → Bool) : RowResult :=
  match fault with
  | .queryError e => .failed e
  | _ =>
    match fault.rowsErrAt 0 with
    | some e => .failed e
    | none =>
      match rows.find? cond with
      | none => .noRows
      | some r =>
        match fault.scanErrAt 0 with
        | some e => .failed e
        | none => .row r.Data

/-- Method `PlayerRepository.Get`. -/
def PlayerRepository.Get (env : Env) (w : World) (memberID : Int) (ratingDate : Time) :
    World × Option PlayerInfo × Option GoError :=
  let w1 := w.log (.repoGet memberID ratingDate)
  let now := env.dbNow w1.trace
  match queryRow (env.dbFault w1.trace) w1.rows
      (fun r => decide (r.MemberID = memberID) && sameDate r.RatingDate ratingDate && live now r) with
  | .noRows => (w1, none, none)
  | .failed err => (w1, none, some (Errorf "query player cache: " err))
  | .row data =>
    match env.unmarshal data with
    | .error err => (w1, none, some (Errorf "unmarshal player data: " err))
    | .ok player => (w1, some player, none)

/-- Method `PlayerRepository.GetByFideID`. -/
def PlayerRepository.GetByFideID (env : Env) (w : World) (fideID : Int) (ratingDate : Time) :
    World × Option PlayerInfo × Option GoError :=
  let w1 := w.log (.repoGetByFideID fideID ratingDate)
  let now := env.dbNow w1.trace
  match queryRow (env.dbFault w1.trace) w1.rows
      (fun r => decide (r.FideID = some fideID) && sameDate r.RatingDate ratingDate && live now r) with
  | .noRows => (w1, none, none)
  | .failed err => (w1, none, some (Errorf "query player cache by fide id: " err))
  | .row data =>
    match env.unmarshal data with
    | .error err => (w1, none, some (Errorf "unmarshal player data: " err))
    | .ok player => (w1, some player, none)

/-- Loop over `rows.Next()` in `GetBatch`, on the rows the statement delivers;
`i` is the number of rows delivered before `rs`. -/
def GetBatch.scanRows (env : Env) (fault : DBOutcome) :
    Nat → List PlayerCacheEntry → GoMap Int PlayerInfo →
      Option (GoMap Int PlayerInfo) × Option GoError
  | i, [], result => (some result, fault.rowsErrAt i)
  | i, r :: rs, result =>
    match fault.rowsErrAt i with
    | some e => (some result, some e)
    | none =>
      match fault.scanErrAt i with
      | some e => (none, some (Errorf "scan row: " e))
      | none =>
        match env.unmarshal r.Data with
        | .error err => (none, some (Errorf "unmarshal player data: " err))
        | .ok player => GetBatch.scanRows env fault (i + 1) rs (result.set r.MemberID player)

/-- Method `PlayerRepository.GetBatch`. -/
def PlayerRepository.GetBatch (env : Env) (w : World) (memberIDs : List Int)
    (ratingDate : Time) : World × Option (GoMap Int PlayerInfo) × Option GoError :=
  let w1 := w.log (.repoGetBatch memberIDs ratingDate)
  if memberIDs.length = 0 then (w1, some GoMap.empty, none)
  else
    let now := env.dbNow w1.trace
    match env.dbFault w1.trace with
    | .queryError err => (w1, none, some (Errorf "query player cache batch: " err))
    | fault =>
      let rows := w1.rows.filter
        (fun r => decide (r.MemberID ∈ memberIDs) && sameDate r.RatingDate ratingDate && live now r)
      let out := GetBatch.scanRows env fault 0 rows GoMap.empty
      (w1, out.1, out.2)

/-- Row written by the `INSERT` of `Save` for `player`. -/
def Save.entry (player : PlayerInfo) (ratingDate : Time) (data : Bytes) (fetchedAt : Time)
    (expiresAt : Option Time) : PlayerCacheEntry :=
  { MemberID := player.ID
    RatingDate := ratingDate
    FirstName := player.FirstName
    LastName := player.LastName
    Club := player.Club
    ClubID := if player.ClubID ≠ 0 then some player.ClubID else none
    FideID := if player.FideID ≠ 0 then some player.FideID else none
    EloStandard := player.Elo.map (fun e => e.Rating)
    EloRapid := player.Elo.map (fun e => e.RapidRating)
    EloBlitz := player.Elo.map (fun e => e.BlitzRating)
    LaskRating := player.Lask.map (fun l => l.Rating)
    Data := data
    FetchedAt := fetchedAt
    ExpiresAt := expiresAt }

/-- Statement `INSERT ... ON CONFLICT (member_id, rating_date) DO UPDATE SET ...`:
a row with the key of `e` is overwritten in place, and `e` is added when there
is none. -/
def upsert (rows : List PlayerCacheEntry) (e : PlayerCacheEntry) : List PlayerCacheEntry :=
  let same := fun (r : PlayerCacheEntry) =>
    decide (r.MemberID = e.MemberID) && sameDate r.RatingDate e.RatingDate
  if rows.any same then rows.map (fun r => if same r then e else r) else rows ++ [e]

/-- Method `PlayerRepository.Save`; returns the error, `none` for nil. -/
def PlayerRepository.Save (env : Env) (w : World) (player : PlayerInfo) (ratingDate : Time)
    (expiresAt : Option Time) : World × Option GoError :=
  let w1 := w.log (.repoSave player ratingDate expiresAt)
  match env.marshal player with
  | .error err => (w1, some (Errorf "marshal player data: " err))
  | .ok data =>
    let (w2, fetchedAt) := timeNow env w1
    match env.dbFault w2.trace with
    | .queryError err => (w2, some (Errorf "insert player cache: " err))
    | _ =>
      ({ w2 with rows := upsert w2.rows (Save.entry player ratingDate data fetchedAt expiresAt) },
        none)

/-! ## `internal/service/player.go` -/

/-- Method `PlayerService.determineTTL`; `none` is the nil pointer (the record
never expires). -/
def PlayerService.determineTTL (env : Env) (w : World) (ratingDate : Time) :
    World × Option Time :=
  let (w1, now) := timeNow env w
  let currentMonth := time.Date now.Year now.Month 1 0 0 0 0 UTC
  if ratingDate.Before currentMonth then (w1, none)
  else
    let expires := now.Add env.cacheTTL
    (w1, some expires)

/-- Method `PlayerService.GetPlayer`; returns the pair `(*model.PlayerInfo, error)`. -/
def PlayerService.GetPlayer (env : Env) (w : World) (memberID : Int) (date : Time) :
    World × Option PlayerInfo × Option GoError :=
  let ratingDate := normalizeToMonthStart date
  let (w1, cached, _) := PlayerRepository.Get env w memberID ratingDate
  match cached with
  | some c => (w1, some c, none)
  | none =>
    let w2 := w1.log (.upstreamGetPlayer memberID date.FormatDate)
    match env.upstreamGetPlayer w1.trace memberID date.FormatDate with
    | .error err => (w2, none, some (Errorf "upstream fetch: " err))
    | .ok player =>
      let (w3, expiresAt) := PlayerService.determineTTL env w2 ratingDate
      let (w4, _) := PlayerRepository.Save env w3 player ratingDate expiresAt
      (w4, some player, none)

/-- State shared by the goroutines of `fetchPlayersParallel`. -/
structure ParState where
  /-- The world. -/
  w : World
  /-- Goroutines (by their position in `memberIDs`) whose call of the upstream
  has returned and that have not yet taken the mutex, with what it returned. -/
  waiting : List (Nat × Except GoError PlayerInfo)
  /-- Variable `results`. -/
  results : GoMap Int PlayerInfo
  /-- Variable `errors` (nil until the first append). -/
  errors : Option (List PlayerError)

/-- One step of the goroutine started for position `i` of `memberIDs`.  Its first
step is the call of the upstream, made without the mutex; its second step is
everything it does while it holds the mutex. -/
def fetchPlayersParallel.step (env : Env) (memberIDs : List Int) (dateStr : String)
    (ratingDate : Time) (expiresAt : Option Time) (st : ParState) (i : Nat) : ParState :=
  match memberIDs.get? i with
  | none => st
  | some memberID =>
    match st.waiting.lookup i with
    | none =>
      { st with
        w := st.w.log (.upstreamGetPlayer memberID dateStr)
        waiting := (i, env.upstreamGetPlayer st.w.trace memberID dateStr) :: st.waiting }
    | some (.error err) =>
      { st with
        waiting := st.waiting.filter (fun p => p.1 != i)
        errors := sliceAppend st.errors { ID := memberID, Error := err.Error } }
    | some (.ok player) =>
      let (w1, _) := PlayerRepository.Save env st.w player ratingDate expiresAt
      { st with
        w := w1
        waiting := st.waiting.filter (fun p => p.1 != i)
        results := st.results.set memberID player }

/-- Method `PlayerService.fetchPlayersParallel`.  One goroutine is started for
each position of `memberIDs`; they run in the interleaving chosen by the
scheduler, and `wg.Wait()` returns when the interleaving is exhausted. -/
def PlayerService.fetchPlayersParallel (env : Env) (w : World) (memberIDs : List Int)
    (date : Time) (ratingDate : Time) :
    World × GoMap Int PlayerInfo × Option (List PlayerError) :=
  let dateStr := date.FormatDate
  let (w1, expiresAt) := PlayerService.determineTTL env w ratingDate
  let st := (env.schedule w1.trace memberIDs.length).foldl
    (fetchPlayersParallel.step env memberIDs dateStr ratingDate expiresAt)
    { w := w1, waiting := [], results := GoMap.empty, errors := none }
  (st.w, st.results, st.errors)

/-- A complete run of `n` goroutines: every goroutine takes its two steps, in
any interleaving. -/
def Schedule (n : Nat) (sched : List Nat) : Prop :=
  sched.Perm (List.range n ++ List.range n)

/-- The scheduler runs every goroutine to its end (what `wg.Wait()` waits for). -/
def Env.Completes (env : Env) : Prop :=
  ∀ t n, Schedule n (env.schedule t n)

/-- The cache hits of a batch get: the map that `GetBatch` returns when it returns
no error, and the empty map when it returns an error (`GetPlayers` then discards
whatever map came with the error). -/
def batchHits (env : Env) (w : World) (memberIDs : List Int) (date : Time) :
    GoMap Int PlayerInfo :=
  let r := PlayerRepository.GetBatch env w memberIDs (normalizeToMonthStart date)
  if r.2.2.isSome then GoMap.empty else r.2.1.getD GoMap.empty

/-- Method `PlayerService.GetPlayers`; returns the pair
`(*model.PlayersResponse, error)`. -/
def PlayerService.GetPlayers (env : Env) (w : World) (memberIDs : List Int) (date : Time) :
    World × Option PlayersResponse × Option GoError :=
  let ratingDate := normalizeToMonthStart date
  let (w1, cached0, err) := PlayerRepository.GetBatch env w memberIDs ratingDate
  let cached : GoMap Int PlayerInfo := if err.isSome then GoMap.empty else cached0.getD GoMap.empty
  let missingIDs := memberIDs.filter (fun id => (cached id).isNone)
  if missingIDs.length > 0 then
    let (w2, fetched, errors) :=
      PlayerService.fetchPlayersParallel env w1 missingIDs date ratingDate
    let cached1 : GoMap Int PlayerInfo := fun id => (fetched id).orElse (fun _ => cached id)
    let response : PlayersResponse :=
      { Players := some (memberIDs.filterMap cached1), Errors := errors }
    (w2, some response, none)
  else
    let response : PlayersResponse :=
      { Players := some (memberIDs.filterMap cached), Errors := none }
    (w1, some response, none)

/-! ## Packages `strings`, `strconv` and `time.Parse`, as the handlers use them -/

/-- Call `strings.Split(s, ",")`: the pieces between the commas; a string
without a comma, the empty string too, is a single piece. -/
def splitComma : List Char → List (List Char)
  | [] => [[]]
  | c :: cs =>
    match splitComma cs with
    | [] => if c = ',' then [[], []] else [[c]]
    | p :: ps => if c = ',' then [] :: p :: ps else (c :: p) :: ps

/-- Function `unicode.IsSpace`. -/
def isSpace (c : Char) : Bool :=
  let n := c.toNat
  (9 ≤ n && n ≤ 13) || n = 32 || n = 133 || n = 160 || n = 5760 ||
    (8192 ≤ n && n ≤ 8202) || n = 8232 || n = 8233 || n = 8239 || n = 8287 || n = 12288

/-- Function `strings.TrimSpace`. -/
def TrimSpace (s : List Char) : List Char :=
  ((s.dropWhile isSpace).reverse.dropWhile isSpace).reverse

/-- Value of a string of decimal digits, most significant first. -/
def digitsValue (ds : List Char) : Int :=
  ds.foldl (fun n c => n * 10 + ((c.toNat : Int) - 48)) 0

/-- Sentinel `strconv.ErrSyntax`. -/
def ErrSyntax : GoError := .errorString "invalid syntax"

/-- Sentinel `strconv.ErrRange`. -/
def ErrRange : GoError := .errorString "value out of range"

/-- Function `strconv.Atoi` for a 64-bit `int`: an optional sign and at least
one decimal digit, with a value that fits 64 bits. -/
def Atoi (s : List Char) : Except GoError Int :=
  let neg := s.head? = some '-'
  let ds := if s.head? = some '-' ∨ s.head? = some '+' then s.tail else s
  if ds.isEmpty || !ds.all Char.isDigit then
    .error (.wrapError ("strconv.Atoi: parsing \"" ++ String.mk s ++ "\": invalid syntax")
      ErrSyntax)
  else
    let n := if neg then -digitsValue ds else digitsValue ds
    if n < -9223372036854775808 ∨ 9223372036854775807 < n then
      .error (.wrapError ("strconv.Atoi: parsing \"" ++ String.mk s ++ "\": value out of range")
        ErrRange)
    else .ok n

/-- Function `isLeap` of package `time`. -/
def isLeap (year : Int) : Bool :=
  year % 4 = 0 && (year % 100 ≠ 0 || year % 400 = 0)

/-- Function `daysIn` of package `time`: the number of days of a month. -/
def daysIn (month year : Int) : Int :=
  if month = 2 then (if isLeap year then 29 else 28)
  else if month = 4 ∨ month = 6 ∨ month = 9 ∨ month = 11 then 30
  else 31

/-- Two decimal digits at the head of the input (`getnum` with `fixed`), and
what follows them. -/
def getnum2 : List Char → Option (Int × List Char)
  | a :: b :: rest =>
    if a.isDigit && b.isDigit then some (digitsValue [a, b], rest) else none
  | _ => none

/-- Four decimal digits at the head of the input (layout element `2006`), and
what follows them. -/
def getYear4 : List Char → Option (Int × List Char)
  | a :: b :: c :: d :: rest =>
    if a.isDigit && b.isDigit && c.isDigit && d.isDigit then
      some (digitsValue [a, b, c, d], rest)
    else none
  | _ => none

/-- The literal `-` of a layout at the head of the input, and what follows it. -/
def skipDash : List Char → Option (List Char)
  | '-' :: rest => some rest
  | _ => none

/-- Call `time.Parse("2006-01-02", value)`; `none` when it returns an error. -/
def time.ParseDay (value : List Char) : Option Time := do
  let (year, v1) ← getYear4 value
  let v2 ← skipDash v1
  let (month, v3) ← getnum2 v2
  if month ≤ 0 ∨ 12 < month then none
  let v4 ← skipDash v3
  let (day, v5) ← getnum2 v4
  if !v5.isEmpty then none
  if day < 1 ∨ day > daysIn month year then none
  pure (time.Date year month day 0 0 0 0 UTC)

/-- Call `time.Parse("2006-01", value)`; `none` when it returns an error. -/
def time.ParseMonth (value : List Char) : Option Time := do
  let (year, v1) ← getYear4 value
  let v2 ← skipDash v1
  let (month, v3) ← getnum2 v2
  if month ≤ 0 ∨ 12 < month then none
  if !v3.isEmpty then none
  pure (time.Date year month 1 0 0 0 0 UTC)

/-! ## `internal/api/handlers/players.go` -/

/-- Type `handlers.ErrorResponse`. -/
structure ErrorResponse where
  Error : String
  Code : Int
  deriving DecidableEq, Repr

/-- Value encoded into the body of a response. -/
inductive Body where
  | error (e : ErrorResponse)
  | player (p : Option PlayerInfo)
  | players (r : Option PlayersResponse)
  | ratings (r : Option RatingHistoryResponse)
  | raw (data : Bytes)
  deriving DecidableEq, Repr

/-- What a handler has written to its `http.ResponseWriter`. -/
structure HTTPResponse where
  status : Int
  body : Body
  deriving DecidableEq, Repr

/-- Function `WriteJSON(w, status, data)`. -/
def WriteJSON (status : Int) (data : Body) : HTTPResponse :=
  { status := status, body := data }

/-- Modelled from the spec: function `WriteError` of package `handlers` is not
among the sources.  An invalid input is "surfaced immediately to the caller":
the status is written with an `ErrorResponse` that carries the message and the
status, as `WriteError` of `internal/api/response.go` does. -/
def WriteError (status : Int) (message : String) : HTTPResponse :=
  WriteJSON status (.error { Error := message, Code := status })

/-- Constant `http.StatusOK`. -/
def StatusOK : Int := 200

/-- Constant `http.StatusBadRequest`. -/
def StatusBadRequest : Int := 400

/-- Constant `http.StatusInternalServerError`. -/
def StatusInternalServerError : Int := 500

/-- Function `parseDate`. -/
def parseDate (env : Env) (w : World) (dateStr : String) : World × Time :=
  if dateStr = "" then timeNow env w
  else
    match time.ParseDay dateStr.data with
    | some t => (w, t)
    | none =>
      match time.ParseMonth dateStr.data with
      | some t => (w, t)
      | none => timeNow env w

/-- Loop of `parseIDs` over the parts of the input. -/
def parseIDs.loop : List (List Char) → List Int → Except GoError (List Int)
  | [], ids => .ok ids
  | p :: ps, ids =>
    let p1 := TrimSpace p
    if p1.isEmpty then parseIDs.loop ps ids
    else
      match Atoi p1 with
      | .error err => .error err
      | .ok id => parseIDs.loop ps (ids ++ [id])

/-- Function `parseIDs`. -/
def parseIDs (idsStr : String) : Except GoError (List Int) :=
  parseIDs.loop (splitComma idsStr.data) []

/-- Method `PlayerHandler.GetPlayers`.  `idsStr` and `dateStr` are the values of
`r.URL.Query().Get("ids")` and `r.URL.Query().Get("date")` (empty when the
parameter is absent). -/
def PlayerHandler.GetPlayers (env : Env) (w : World) (idsStr dateStr : String) :
    World × HTTPResponse :=
  if idsStr = "" then (w, WriteError StatusBadRequest "ids parameter is required")
  else
    match parseIDs idsStr with
    | .error _ => (w, WriteError StatusBadRequest "invalid ids format")
    | .ok ids =>
      if ids.length = 0 then (w, WriteError StatusBadRequest "at least one id is required")
      else if ids.length > 100 then (w, WriteError StatusBadRequest "maximum 100 ids allowed")
      else
        let (w1, date) := parseDate env w dateStr
        let (w2, response, err) := PlayerService.GetPlayers env w1 ids date
        match err with
        | some e => (w2, WriteError StatusInternalServerError e.Error)
        | none => (w2, WriteJSON StatusOK (.players response))

/-! ## Second part: the range get, the get by FIDE id, and the other handlers -/

/-- Seconds since the Unix epoch of the wall clock of `t` in its own location. -/
def Time.localSeconds (t : Time) : Int :=
  (t.unixNano + t.offset * nanosPerSecond) / nanosPerSecond

/-- Method `t.Hour()`. -/
def Time.Hour (t : Time) : Int := (t.localSeconds % secondsPerDay) / 3600

/-- Method `t.Minute()`. -/
def Time.Minute (t : Time) : Int := (t.localSeconds % 3600) / 60

/-- Method `t.Second()`. -/
def Time.Second (t : Time) : Int := t.localSeconds % 60

/-- Method `t.Nanosecond()`. -/
def Time.Nanosecond (t : Time) : Int := t.unixNano % nanosPerSecond

/-- Method `t.UTC()`: the same instant, shown in location UTC. -/
def Time.UTC (t : Time) : Time := { unixNano := t.unixNano, offset := 0 }

/-- Method `t.AddDate(years, months, days)`:
`Date(year+years, month+months, day+days, hour, min, sec, nsec, t.Location())`
on the date and the clock that `t` shows in its own location. -/
def Time.AddDate (t : Time) (years months days : Int) : Time :=
  time.Date (t.Year + years) (t.Month + months) (t.Day + days) t.Hour t.Minute t.Second
    t.Nanosecond t.offset

/-- Loop `for d := from; !d.After(to); d = d.AddDate(0, 1, 0)` of
`generateMonthRange`, run for at most `fuel` tests of its condition; `none` when
the fuel runs out before the condition fails. -/
def generateMonthRange.loop (to1 : Time) : Nat → Time → Option (List Time)
  | 0, _ => none
  | fuel + 1, d =>
    if d.After to1 then some []
    else (generateMonthRange.loop to1 fuel (d.AddDate 0 1 0)).map (fun ds => d :: ds)

/-- Number of tests that the loop of `generateMonthRange` cannot exceed: a step of
the loop moves `d` forward by at least 28 days. -/
def generateMonthRange.fuel (from1 to1 : Time) : Nat :=
  ((to1.unixNano - from1.unixNano) / (28 * secondsPerDay * nanosPerSecond)).toNat + 2

/-- Function `generateMonthRange`.  The loop is run with `generateMonthRange.fuel`,
which it never exhausts (`fuel_enough`). -/
def generateMonthRange (from1 to1 : Time) : List Time :=
  (generateMonthRange.loop (normalizeToMonthStart to1)
    (generateMonthRange.fuel (normalizeToMonthStart from1) (normalizeToMonthStart to1))
    (normalizeToMonthStart from1)).getD []

/-- Loop over `rows.Next()` in `GetRatingHistoryForDates`; the key of a row is its
`rating_date` in the format `2006-01-02`. -/
def GetRatingHistoryForDates.scanRows (env : Env) (fault : DBOutcome) :
    Nat → List PlayerCacheEntry → GoMap String PlayerInfo →
      Option (GoMap String PlayerInfo) × Option GoError
  | i, [], result => (some result, fault.rowsErrAt i)
  | i, r :: rs, result =>
    match fault.rowsErrAt i with
    | some e => (some result, some e)
    | none =>
      match fault.scanErrAt i with
      | some e => (none, some (Errorf "scan row: " e))
      | none =>
        match env.unmarshal r.Data with
        | .error err => (none, some (Errorf "unmarshal player data: " err))
        | .ok player =>
          GetRatingHistoryForDates.scanRows env fault (i + 1) rs
            (result.set r.RatingDate.FormatDate player)

/-- Method `PlayerRepository.GetRatingHistoryForDates`. -/
def PlayerRepository.GetRatingHistoryForDates (env : Env) (w : World) (memberID : Int)
    (dates : List Time) : World × Option (GoMap String PlayerInfo) × Option GoError :=
  let w1 := w.log (.repoGetRatingHistoryForDates memberID dates)
  if dates.length = 0 then (w1, some GoMap.empty, none)
  else
    let now := env.dbNow w1.trace
    match env.dbFault w1.trace with
    | .queryError err => (w1, none, some (Errorf "query rating history for dates: " err))
    | fault =>
      let rows := w1.rows.filter
        (fun r => decide (r.MemberID = memberID) && dates.any (sameDate r.RatingDate) && live now r)
      let out := GetRatingHistoryForDates.scanRows env fault 0 rows GoMap.empty
      (w1, out.1, out.2)

/-- Loop `for _, d := range missingDates` of `GetPlayerRatings`. -/
def GetPlayerRatings.fetchLoop (env : Env) (memberID : Int) :
    List Time → World → GoMap String PlayerInfo → World × GoMap String PlayerInfo
  | [], w, cached => (w, cached)
  | d :: ds, w, cached =>
    let w1 := w.log (.upstreamGetPlayer memberID d.FormatDate)
    match env.upstreamGetPlayer w.trace memberID d.FormatDate with
    | .error _ => GetPlayerRatings.fetchLoop env memberID ds w1 cached
    | .ok player =>
      let (w2, expiresAt) := PlayerService.determineTTL env w1 d
      let (w3, _) := PlayerRepository.Save env w2 player d expiresAt
      GetPlayerRatings.fetchLoop env memberID ds w3 (cached.set d.FormatDate player)

/-- The cache hits of a range get: the map that `GetRatingHistoryForDates` returns
when it returns no error, and the empty map when it returns an error. -/
def rangeHits (env : Env) (w : World) (memberID : Int) (dates : List Time) :
    GoMap String PlayerInfo :=
  let r := PlayerRepository.GetRatingHistoryForDates env w memberID dates
  if r.2.2.isSome then GoMap.empty else r.2.1.getD GoMap.empty

/-- Method `PlayerService.GetPlayerRatings`; returns the pair
`(*model.RatingHistoryResponse, error)`. -/
def PlayerService.GetPlayerRatings (env : Env) (w : World) (memberID : Int)
    (fromDate toDate : Time) : World × Option RatingHistoryResponse × Option GoError :=
  let dates := generateMonthRange fromDate toDate
  let (w1, cached0, err) := PlayerRepository.GetRatingHistoryForDates env w memberID dates
  let cached : GoMap String PlayerInfo :=
    if err.isSome then GoMap.empty else cached0.getD GoMap.empty
  let missingDates := dates.filter (fun d => (cached d.FormatDate).isNone)
  let (w2, cached1) := GetPlayerRatings.fetchLoop env memberID missingDates w1 cached
  let response : RatingHistoryResponse :=
    { PlayerID := memberID
      Ratings := some (dates.reverse.filterMap (fun d => cached1 d.FormatDate)) }
  (w2, some response, none)

/-- Method `PlayerService.GetPlayerByFideID`; returns the pair
`(*model.PlayerInfo, error)`. -/
def PlayerService.GetPlayerByFideID (env : Env) (w : World) (fideID : Int) (date : Time) :
    World × Option PlayerInfo × Option GoError :=
  let ratingDate := normalizeToMonthStart date
  let (w1, cached, _) := PlayerRepository.GetByFideID env w fideID ratingDate
  match cached with
  | some c => (w1, some c, none)
  | none =>
    let w2 := w1.log (.upstreamGetPlayerByFideID fideID date.FormatDate)
    match env.upstreamGetPlayerByFideID w1.trace fideID date.FormatDate with
    | .error err => (w2, none, some (Errorf "upstream fetch by FIDE ID: " err))
    | .ok player =>
      let (w3, expiresAt) := PlayerService.determineTTL env w2 ratingDate
      let (w4, _) := PlayerRepository.Save env w3 player ratingDate expiresAt
      (w4, some player, none)

/-- Method `PlayerHandler.GetPlayer`; `idStr` and `dateStr` are the URL parameters
`id` and `date`. -/
def PlayerHandler.GetPlayer (env : Env) (w : World) (idStr dateStr : String) :
    World × HTTPResponse :=
  match Atoi idStr.data with
  | .error _ => (w, WriteError StatusBadRequest "invalid player id")
  | .ok id =>
    let (w1, date) := parseDate env w dateStr
    let (w2, player, err) := PlayerService.GetPlayer env w1 id date
    match err with
    | some e => (w2, WriteError StatusInternalServerError e.Error)
    | none => (w2, WriteJSON StatusOK (.player player))

/-- Method `PlayerHandler.GetPlayerByFideID`. -/
def PlayerHandler.GetPlayerByFideID (env : Env) (w : World) (idStr dateStr : String) :
    World × HTTPResponse :=
  match Atoi idStr.data with
  | .error _ => (w, WriteError StatusBadRequest "invalid fide id")
  | .ok fideID =>
    let (w1, date) := parseDate env w dateStr
    let (w2, player, err) := PlayerService.GetPlayerByFideID env w1 fideID date
    match err with
    | some e => (w2, WriteError StatusInternalServerError e.Error)
    | none => (w2, WriteJSON StatusOK (.player player))

/-- Function `parseDateRange`; `monthsStr`, `fromStr` and `toStr` are the values of
the query parameters `months`, `from` and `to` (empty when absent). -/
def parseDateRange (env : Env) (w : World) (monthsStr fromStr toStr : String) :
    World × Time × Time :=
  let (w1, now) := timeNow env w
  let byMonths : Option Int :=
    if monthsStr ≠ "" then
      match Atoi monthsStr.data with
      | .ok months => if months > 0 then some months else none
      | .error _ => none
    else none
  match byMonths with
  | some months => (w1, now.AddDate 0 (-months) 0, now)
  | none =>
    let (w2, from1) := if fromStr ≠ "" then parseDate env w1 fromStr
      else (w1, now.AddDate 0 (-12) 0)
    let (w3, to1) := if toStr ≠ "" then parseDate env w2 toStr else (w2, now)
    (w3, from1, to1)

/-- Method `PlayerHandler.GetPlayerRatings`. -/
def PlayerHandler.GetPlayerRatings (env : Env) (w : World)
    (idStr monthsStr fromStr toStr : String) : World × HTTPResponse :=
  match Atoi idStr.data with
  | .error _ => (w, WriteError StatusBadRequest "invalid player id")
  | .ok id =>
    let (w1, fromDate, toDate) := parseDateRange env w monthsStr fromStr toStr
    let (w2, response, err) := PlayerService.GetPlayerRatings env w1 id fromDate toDate
    match err with
    | some e => (w2, WriteError StatusInternalServerError e.Error)
    | none => (w2, WriteJSON StatusOK (.ratings response))

/-! ## Observations on traces, and sample data -/

/-- The event is a call of the upstream fetcher. -/
def Event.isFetch : Event → Bool
  | .upstreamGetPlayer _ _ => true
  | .upstreamGetPlayerByFideID _ _ => true
  | _ => false

/-- The event is a call of `PlayerRepository.Save`. -/
def Event.isSave : Event → Bool
  | .repoSave _ _ _ => true
  | _ => false

/-- The event is a call of a method of the repository. -/
def Event.isStore : Event → Bool
  | .repoGet _ _ => true
  | .repoGetByFideID _ _ => true
  | .repoGetBatch _ _ => true
  | .repoGetRatingHistoryForDates _ _ => true
  | .repoSave _ _ _ => true
  | .repoDeleteExpired => true
  | _ => false

/-- Sample payload: member 12345 with all other fields zero. -/
def samplePlayer (id : Int) : PlayerInfo :=
  { ID := id, FirstName := "", LastName := "", Birthdate := "", Sex := 0, FideID := 0,
    Country := "", Club := "", ClubID := 0, Elo := none, Lask := none }

/-- Sample environment: the clocks stand at noon of 2024-06-20 UTC, the TTL is
24 hours, the database works, the upstream answers every member id with
`samplePlayer`, and the codec writes a sample payload as its id. -/
def sampleEnv : Env :=
  { cacheTTL := 86400 * nanosPerSecond
    timeNow := fun _ => time.Date 2024 6 20 12 0 0 0 UTC
    dbNow := fun _ => time.Date 2024 6 20 12 0 0 0 UTC
    dbFault := fun _ => .ok
    marshal := fun p => .ok (toString p.ID)
    unmarshal := fun s =>
      if s = "12345" then .ok (samplePlayer 12345)
      else if s = "0" then .ok (samplePlayer 0)
      else if s = "1" then .ok (samplePlayer 1)
      else if s = "3" then .ok (samplePlayer 3)
      else .error (.errorString "unexpected end of JSON input")
    upstreamGetPlayer := fun _ id _ => .ok (samplePlayer id)
    upstreamGetPlayerByFideID := fun _ _ _ => .error (.errorString "upstream error: status=404 body=")
    schedule := fun _ n => List.range n ++ List.range n
    baseURL := "https://member.schack.se/public/api/v1"
    limiterWait := fun _ => none
    newRequest := fun _ => none
    httpDo := fun _ _ => .ok { StatusCode := 200, Body := .ok "[]" }
    pathEscape := fun s => s }

/-- Sample environment in which every statement sent to the database fails. -/
def brokenStoreEnv : Env :=
  { sampleEnv with dbFault := fun _ => .queryError (.errorString "connection refused") }

/-- Sample environment in which every call of the upstream fails. -/
def brokenUpstreamEnv : Env :=
  { sampleEnv with
    upstreamGetPlayer := fun _ _ _ => .error (.errorString "upstream error: status=500 body=") }

/-- Sample environment in which the upstream answers every request with the
zero payload (a body such as `null`, which `json.Unmarshal` accepts and which
leaves every field, the id too, at zero). -/
def zeroPayloadEnv : Env :=
  { sampleEnv with upstreamGetPlayer := fun _ _ _ => .ok (samplePlayer 0) }

/-- Sample environment in which the upstream fails for member 2 and answers every
other member id with `samplePlayer`. -/
def partialEnv : Env :=
  { sampleEnv with
    upstreamGetPlayer := fun _ id _ =>
      if id = 2 then .error (.errorString "upstream error: status=404 body=")
      else .ok (samplePlayer id) }

/-- A date in June 2024. -/
def june15 : Time := time.Date 2024 6 15 0 0 0 0 UTC

/-- Sample store: one record for member 12345 and period 2024-06-01 that never
expires. -/
def sampleWorld : World :=
  { rows := [Save.entry (samplePlayer 12345) (time.Date 2024 6 1 0 0 0 0 UTC) "12345"
      (time.Date 2024 6 2 0 0 0 0 UTC) none]
    trace := [] }

/-- Another date in June 2024. -/
def june20 : Time := time.Date 2024 6 20 0 0 0 0 UTC

/-- The query value `7,7,...,7,` with `n` ids. -/
def manyIDs (n : Nat) : String :=
  String.mk (List.replicate n ['7', ',']).flatten

/-- The empty store. -/
def emptyWorld : World := { rows := [], trace := [] }

/-! ## Invariants of a run of `fetchPlayersParallel` -/

/-- Payload of a successful call of the upstream. -/
def payloadOf : Except GoError PlayerInfo → Option PlayerInfo
  | .ok p => some p
  | .error _ => none

/-- The call of the upstream failed. -/
def failedCall : Except GoError PlayerInfo → Bool
  | .ok _ => false
  | .error _ => true

/-- Text of the error of a failed call of the upstream (empty for a success). -/
def errorTextOf : Except GoError PlayerInfo → String
  | .ok _ => ""
  | .error e => e.Error

/-- The id at position `i` of a list of ids. -/
def idAt (ids : List Int) (i : Nat) : Int := (ids.get? i).getD 0

/-- Bookkeeping of a run: `rest` is what is left of the interleaving.  A
goroutine that waits for the mutex has one step left; any other goroutine has
both steps or no step left. -/
structure RunCount (ids : List Int) (st : ParState) (rest : List Nat) : Prop where
  bound : ∀ i ∈ rest, i < ids.length
  waiting : ∀ i, (st.waiting.lookup i).isSome = true → rest.count i = 1
  idle : ∀ i, st.waiting.lookup i = none → rest.count i = 2 ∨ rest.count i = 0

/-- State of a run against an upstream that answers the id `id` with `fetch id`:
the goroutines that wait hold the answer for their id, `results` holds the
payloads of the goroutines that are through, and `errors` holds one entry for
each goroutine that is through and whose call failed. -/
structure RunState (ids : List Int) (fetch : Int → Except GoError PlayerInfo) (st : ParState)
    (rest : List Nat) : Prop where
  vals : ∀ i r, st.waiting.lookup i = some r → r = fetch (idAt ids i)
  results : ∀ id p, st.results id = some p ↔
    ∃ i, ids.get? i = some id ∧ rest.count i = 0 ∧ fetch id = .ok p
  errors : (st.errors.getD []).Perm
    (((List.range ids.length).filter
        (fun i => decide (rest.count i = 0) && failedCall (fetch (idAt ids i)))).map
      (fun i => { ID := idAt ids i, Error := errorTextOf (fetch (idAt ids i)) }))

/-- The calls of the upstream in the trace of a run that started with the calls
`tr0`: one call for each goroutine that has taken its first step. -/
def RunFetches (ids : List Int) (ds : String) (tr0 : List Event) (st : ParState)
    (rest : List Nat) : Prop :=
  (st.w.trace.filter Event.isFetch).Perm
    (tr0 ++ ((List.range ids.length).filter (fun i => decide (rest.count i ≠ 2))).map
      (fun i => Event.upstreamGetPlayer (idAt ids i) ds))

/-- Midnight UTC of the first day of the month number `k`, counted from January of
year 0. -/
def monthStart (k : Int) : Time := time.Date (k / 12) (k % 12 + 1) 1 0 0 0 0 UTC

/-- Number of the month that `t` shows in its own location, counted from January of
year 0. -/
def Time.monthIndex (t : Time) : Int := t.Year * 12 + (t.Month - 1)

/-- The first days of `n` successive months, from month number `k`. -/
def monthsFrom (k : Int) : Nat → List Time
  | 0 => []
  | n + 1 => monthStart k :: monthsFrom (k + 1) n

/-- A time of 2024-07-01 01:00 in a location two hours east of UTC; in UTC it is
2024-06-30 23:00. -/
def julyFirstEast : Time := time.Date 2024 7 1 1 0 0 0 7200

/-- Sample store: one record for member 12345 and period 2024-06-01 that expired on
2024-06-10, before the clocks of `sampleEnv`. -/
def expiredWorld : World :=
  { rows := [Save.entry (samplePlayer 12345) (time.Date 2024 6 1 0 0 0 0 UTC) "12345"
      (time.Date 2024 6 9 0 0 0 0 UTC) (some (time.Date 2024 6 10 0 0 0 0 UTC))]
    trace := [] }

/-- Two rows are different records of the cache: they differ in the member id or
in the period. -/
def distinctKeys (a b : PlayerCacheEntry) : Prop :=
  ¬ (a.MemberID = b.MemberID ∧ a.RatingDate.unixNano = b.RatingDate.unixNano)

/-- The row `r` has the key of the row `e`: the same member id and the same period. -/
def sameKey (e r : PlayerCacheEntry) : Bool :=
  decide (r.MemberID = e.MemberID) && sameDate r.RatingDate e.RatingDate

/-- The map `cached` of `GetPlayerRatings` when its loop over `missingDates` has
ended: the cache hits, and the payloads fetched for the other periods. -/
def rangeCache (env : Env) (w : World) (memberID : Int) (fromDate toDate : Time) :
    GoMap String PlayerInfo :=
  let dates := generateMonthRange fromDate toDate
  let hits := rangeHits env w memberID dates
  (GetPlayerRatings.fetchLoop env memberID
    (dates.filter (fun d => (hits d.FormatDate).isNone))
    (w.log (.repoGetRatingHistoryForDates memberID dates)) hits).2

/-- The periods behind the `Ratings` of `GetPlayerRatings`: the periods of the range
for which `cached` holds a payload in the end, in the order of the last loop. -/
def ratingPeriods (env : Env) (w : World) (memberID : Int) (fromDate toDate : Time) :
    List Time :=
  (generateMonthRange fromDate toDate).reverse.filter
    (fun d => (rangeCache env w memberID fromDate toDate d.FormatDate).isSome)

/-- The trace `tr` records, after its first part `tr0`, a call of the upstream for
member `memberID` and date `s` that was made when the trace was `t`, and that
call returned `r`. -/
def fetchAnswered (env : Env) (tr0 tr : List Event) (memberID : Int) (s : String)
    (t : List Event) (r : Except GoError PlayerInfo) : Prop :=
  tr0 <+: t ∧ (t ++ [Event.upstreamGetPlayer memberID s]) <+: tr ∧
    env.upstreamGetPlayer t memberID s = r

/-- Sample environment in which the upstream answers every request with a payload
whose Elo rating carries the requested date. -/
def datedEnv : Env :=
  { sampleEnv with
    upstreamGetPlayer := fun _ id s =>
      .ok { samplePlayer id with
            Elo := some { Rating := 1500, Title := "", K := 20, RapidRating := 0, RapidK := 0,
                          BlitzRating := 0, BlitzK := 0,
                          Date := (time.ParseDay s.data).map (fun t => { Time := t }) } } }

/-- Sample environment in which the upstream fails for the date 2024-02-01 and answers
every other request like `datedEnv`. -/
def februaryFailsEnv : Env :=
  { sampleEnv with
    upstreamGetPlayer := fun tr id s =>
      if s = "2024-02-01" then .error (.errorString "upstream error: status=500 body=")
      else datedEnv.upstreamGetPlayer tr id s }

/-- The payload of `datedEnv` for member `id` and the date `y-m-d`. -/
def datedPlayer (id : Int) (y m d : Int) : PlayerInfo :=
  { samplePlayer id with
    Elo := some { Rating := 1500, Title := "", K := 20, RapidRating := 0, RapidK := 0,
                  BlitzRating := 0, BlitzK := 0,
                  Date := some { Time := time.Date y m d 0 0 0 0 UTC } } }

/-- A date in January 2024. -/
def jan15 : Time := time.Date 2024 1 15 0 0 0 0 UTC

/-- A date in March 2024. -/
def mar10 : Time := time.Date 2024 3 10 0 0 0 0 UTC

/-- The world `w1` comes from the world `w` by external calls among which every
call of `Save` has a period that is its own normalization. -/
inductive NormalizedSaves (env : Env) (w : World) : World → Prop where
  | refl : NormalizedSaves env w w
  | log (w1 : World) (e : Event) : NormalizedSaves env w w1 → e.isSave = false →
      NormalizedSaves env w (w1.log e)
  | save (w1 : World) (p : PlayerInfo) (rd : Time) (exp : Option Time) :
      NormalizedSaves env w w1 → normalizeToMonthStart rd = rd →
      NormalizedSaves env w (PlayerRepository.Save env w1 p rd exp).1

/-- Every call of `Save` recorded in the trace `ext` has a period that is its own
normalization: the first day of a month at 00:00 UTC. -/
def savesNormalized (ext : List Event) : Prop :=
  ∀ p rd exp, Event.repoSave p rd exp ∈ ext →
    normalizeToMonthStart rd = rd ∧ rd.Day = 1 ∧ rd.offset = UTC ∧
    rd.Hour = 0 ∧ rd.Minute = 0 ∧ rd.Second = 0 ∧ rd.Nanosecond = 0

/-- The worlds that the four gets of the service reach from an empty store, in any
number of calls and with any arguments. -/
inductive Reachable (env : Env) : World → Prop where
  | empty (tr : List Event) : Reachable env { rows := [], trace := tr }
  | getPlayer (w : World) (memberID : Int) (date : Time) : Reachable env w →
      Reachable env (PlayerService.GetPlayer env w memberID date).1
  | getPlayers (w : World) (memberIDs : List Int) (date : Time) : Reachable env w →
      Reachable env (PlayerService.GetPlayers env w memberIDs date).1
  | getPlayerByFideID (w : World) (fideID : Int) (date : Time) : Reachable env w →
      Reachable env (PlayerService.GetPlayerByFideID env w fideID date).1
  | getPlayerRatings (w : World) (memberID : Int) (fromDate toDate : Time) : Reachable env w →
      Reachable env (PlayerService.GetPlayerRatings env w memberID fromDate toDate).1

/-- The table holds normalized periods only, and at most one record for each
member id and period. -/
def StoreInv (w : World) : Prop :=
  (∀ r ∈ w.rows, normalizeToMonthStart r.RatingDate = r.RatingDate) ∧
  w.rows.Pairwise distinctKeys

/-- Sample environment in which the upstream answers a request by FIDE id with the
payload of member 12345, which carries no FIDE id (the field `fideid` is
omitted when empty). -/
def noFideEnv : Env :=
  { sampleEnv with upstreamGetPlayerByFideID := fun _ _ _ => .ok (samplePlayer 12345) }

/-- Sample payload: member 12345 with the FIDE id 1503014. -/
def fidePlayer : PlayerInfo := { samplePlayer 12345 with FideID := 1503014 }

/-- Sample environment in which the upstream answers a request by FIDE id with
`fidePlayer`, and the codec reads the document `12345` as `fidePlayer`. -/
def fideEnv : Env :=
  { sampleEnv with
    upstreamGetPlayerByFideID := fun _ _ _ => .ok fidePlayer
    unmarshal := fun s =>
      if s = "12345" then .ok fidePlayer
      else .error (.errorString "unexpected end of JSON input") }

/-- The integer of a segment of the `ids` value, after `strings.TrimSpace`: nothing
for an empty segment and for one that `strconv.Atoi` rejects. -/
def segmentID (p : List Char) : Option Int :=
  if TrimSpace p = [] then none
  else
    match Atoi (TrimSpace p) with
    | .ok id => some id
    | .error _ => none

/-- The segment is not empty after `strings.TrimSpace` and `strconv.Atoi` rejects it. -/
def badSegment (p : List Char) : Bool :=
  if TrimSpace p = [] then false
  else
    match Atoi (TrimSpace p) with
    | .ok _ => false
    | .error _ => true

/-- SQL condition `expires_at IS NOT NULL AND expires_at < NOW()` on a row. -/
def expired (now : Time) (r : PlayerCacheEntry) : Bool :=
  match r.ExpiresAt with
  | none => false
  | some e => e.Before now

/-- Method `PlayerRepository.DeleteExpired`; returns the pair `(int64, error)`.
The statement removes the rows that satisfy its condition; `RowsAffected()` of
the result (driver pgx) is the number of rows removed, without error. -/
def PlayerRepository.DeleteExpired (env : Env) (w : World) : World × Int × Option GoError :=
  let w1 := w.log .repoDeleteExpired
  let now := env.dbNow w1.trace
  match env.dbFault w1.trace with
  | .queryError err => (w1, 0, some (Errorf "delete expired cache: " err))
  | _ =>
    ({ w1 with rows := w1.rows.filter (fun r => !expired now r) },
      ((w1.rows.filter (expired now)).length : Int), none)

/-- Sample store: the expired record of `expiredWorld`, a record of member 1 that
expires on 2024-06-30 and a record of member 3 that never expires. -/
def mixedWorld : World :=
  { rows := [Save.entry (samplePlayer 12345) (time.Date 2024 6 1 0 0 0 0 UTC) "12345"
        (time.Date 2024 6 9 0 0 0 0 UTC) (some (time.Date 2024 6 10 0 0 0 0 UTC)),
      Save.entry (samplePlayer 1) (time.Date 2024 6 1 0 0 0 0 UTC) "1"
        (time.Date 2024 6 9 0 0 0 0 UTC) (some (time.Date 2024 6 30 0 0 0 0 UTC)),
      Save.entry (samplePlayer 3) (time.Date 2024 5 1 0 0 0 0 UTC) "3"
        (time.Date 2024 6 9 0 0 0 0 UTC) none]
    trace := [] }

/-- What `GetPlayers` holds for the id `id` when its fetches are through and the
upstream answers the id `id` with `fetch id`: the cache hit, or else the payload
fetched for it. -/
def batchPayload (env : Env) (w : World) (memberIDs : List Int) (date : Time)
    (fetch : Int → Except GoError PlayerInfo) (id : Int) : Option PlayerInfo :=
  (batchHits env w memberIDs date id).orElse (fun _ => payloadOf (fetch id))

/-- The id `id` is not a cache hit and its fetch fails. -/
def batchFails (env : Env) (w : World) (memberIDs : List Int) (date : Time)
    (fetch : Int → Except GoError PlayerInfo) (id : Int) : Bool :=
  (batchHits env w memberIDs date id).isNone && failedCall (fetch id)

/-! ## `internal/upstream/client.go` and the pass-through handlers -/

/-- Method `Client.GetRaw`; returns the pair `([]byte, error)`. -/
def Client.GetRaw (env : Env) (w : World) (path : String) :
    World × Option Bytes × Option GoError :=
  let w1 := w.log .limiterWait
  match env.limiterWait w.trace with
  | some err => (w1, none, some (Errorf "rate limit wait: " err))
  | none =>
    let url := env.baseURL ++ path
    match env.newRequest url with
    | some err => (w1, none, some (Errorf "create request: " err))
    | none =>
      let w2 := w1.log (.httpDo url)
      match env.httpDo w1.trace url with
      | .error err => (w2, none, some (Errorf "http request: " err))
      | .ok resp =>
        match resp.Body with
        | .error err => (w2, none, some (Errorf "read response: " err))
        | .ok body =>
          if resp.StatusCode ≠ StatusOK then
            (w2, none, some (.errorString
              ("upstream error: status=" ++ toString resp.StatusCode ++ " body=" ++ body)))
          else (w2, some body, none)

/-- Modelled from the spec: function `WriteRawJSON` of package `handlers` is not
among the sources.  A pass-through endpoint hands on what the upstream sent, so
the status is written with the bytes as the body. -/
def WriteRawJSON (status : Int) (data : Bytes) : HTTPResponse :=
  { status := status, body := .raw data }

/-- The statements with which every pass-through handler ends: the call of
`h.client.GetRaw(r.Context(), path)`, status 500 with the text of its error, or
status 200 with the bytes it returned. -/
def passThrough (env : Env) (w : World) (path : String) : World × HTTPResponse :=
  let (w1, data, err) := Client.GetRaw env w path
  match err with
  | some e => (w1, WriteError StatusInternalServerError e.Error)
  | none => (w1, WriteRawJSON StatusOK (data.getD ""))

/-- Verb `%d` of `fmt.Sprintf` for an `int`. -/
def fmtInt (n : Int) : String := toString n

/-- Method `OrganisationHandler.GetClubsInDistrict`. -/
def OrganisationHandler.GetClubsInDistrict (env : Env) (w : World) (districtIDStr : String) :
    World × HTTPResponse :=
  match Atoi districtIDStr.data with
  | .error _ => (w, WriteError StatusBadRequest "invalid district id")
  | .ok districtID => passThrough env w ("/organisation/district/clubs/" ++ fmtInt districtID)

/-- Method `OrganisationHandler.GetClub`. -/
def OrganisationHandler.GetClub (env : Env) (w : World) (clubIDStr : String) :
    World × HTTPResponse :=
  match Atoi clubIDStr.data with
  | .error _ => (w, WriteError StatusBadRequest "invalid club id")
  | .ok clubID => passThrough env w ("/organisation/club/" ++ fmtInt clubID)

/-- Method `OrganisationHandler.ClubNameExists`. -/
def OrganisationHandler.ClubNameExists (env : Env) (w : World) (name clubIDStr : String) :
    World × HTTPResponse :=
  match Atoi clubIDStr.data with
  | .error _ => (w, WriteError StatusBadRequest "invalid club id")
  | .ok clubID =>
    passThrough env w
      ("/organisation/club/exists/" ++ env.pathEscape name ++ "/" ++ fmtInt clubID)

/-- Method `RatingListHandler.GetFederationRatingList`. -/
def RatingListHandler.GetFederationRatingList (env : Env) (w : World)
    (date ratingTypeStr categoryStr : String) : World × HTTPResponse :=
  match Atoi ratingTypeStr.data with
  | .error _ => (w, WriteError StatusBadRequest "invalid rating type")
  | .ok ratingType =>
    match Atoi categoryStr.data with
    | .error _ => (w, WriteError StatusBadRequest "invalid category")
    | .ok category =>
      passThrough env w
        ("/ratinglist/federation/date/" ++ date ++ "/ratingtype/" ++ fmtInt ratingType
          ++ "/category/" ++ fmtInt category)

/-- Method `RatingListHandler.GetDistrictRatingList`. -/
def RatingListHandler.GetDistrictRatingList (env : Env) (w : World)
    (districtIDStr date ratingTypeStr categoryStr : String) : World × HTTPResponse :=
  match Atoi districtIDStr.data with
  | .error _ => (w, WriteError StatusBadRequest "invalid district id")
  | .ok districtID =>
    match Atoi ratingTypeStr.data with
    | .error _ => (w, WriteError StatusBadRequest "invalid rating type")
    | .ok ratingType =>
      match Atoi categoryStr.data with
      | .error _ => (w, WriteError StatusBadRequest "invalid category")
      | .ok category =>
        passThrough env w
          ("/ratinglist/district/" ++ fmtInt districtID ++ "/date/" ++ date ++ "/ratingtype/"
            ++ fmtInt ratingType ++ "/category/" ++ fmtInt category)

/-- Method `RatingListHandler.GetClubRatingList`. -/
def RatingListHandler.GetClubRatingList (env : Env) (w : World)
    (clubIDStr date ratingTypeStr categoryStr : String) : World × HTTPResponse :=
  match Atoi clubIDStr.data with
  | .error _ => (w, WriteError StatusBadRequest "invalid club id")
  | .ok clubID =>
    match Atoi ratingTypeStr.data with
    | .error _ => (w, WriteError StatusBadRequest "invalid rating type")
    | .ok ratingType =>
      match Atoi categoryStr.data with
      | .error _ => (w, WriteError StatusBadRequest "invalid category")
      | .ok category =>
        passThrough env w
          ("/ratinglist/club/" ++ fmtInt clubID ++ "/date/" ++ date ++ "/ratingtype/"
            ++ fmtInt ratingType ++ "/category/" ++ fmtInt category)

/-- Method `TournamentHandler.GetTournament`. -/
def TournamentHandler.GetTournament (env : Env) (w : World) (idStr : String) :
    World × HTTPResponse :=
  match Atoi idStr.data with
  | .error _ => (w, WriteError StatusBadRequest "invalid tournament id")
  | .ok id => passThrough env w ("/tournament/tournament/id/" ++ fmtInt id)

/-- Method `TournamentHandler.GetTournamentFromGroup`. -/
def TournamentHandler.GetTournamentFromGroup (env : Env) (w : World) (idStr : String) :
    World × HTTPResponse :=
  match Atoi idStr.data with
  | .error _ => (w, WriteError StatusBadRequest "invalid group id")
  | .ok id => passThrough env w ("/tournament/group/id/" ++ fmtInt id)

/-- Method `TournamentHandler.GetTournamentFromClass`. -/
def TournamentHandler.GetTournamentFromClass (env : Env) (w : World) (idStr : String) :
    World × HTTPResponse :=
  match Atoi idStr.data with
  | .error _ => (w, WriteError StatusBadRequest "invalid class id")
  | .ok id => passThrough env w ("/tournament/class/id/" ++ fmtInt id)

/-- Method `TournamentHandler.GetComingTournamentsByDistrict`. -/
def TournamentHandler.GetComingTournamentsByDistrict (env : Env) (w : World)
    (districtIDStr : String) : World × HTTPResponse :=
  match Atoi districtIDStr.data with
  | .error _ => (w, WriteError StatusBadRequest "invalid district id")
  | .ok districtID => passThrough env w ("/tournament/group/coming/" ++ fmtInt districtID)

/-- Method `TournamentHandler.SearchUpdatedTournamentsByDistrict`. -/
def TournamentHandler.SearchUpdatedTournamentsByDistrict (env : Env) (w : World)
    (startDate endDate districtIDStr : String) : World × HTTPResponse :=
  match Atoi districtIDStr.data with
  | .error _ => (w, WriteError StatusBadRequest "invalid district id")
  | .ok districtID =>
    passThrough env w
      ("/tournament/tournament/updated/" ++ startDate ++ "/" ++ endDate ++ "/"
        ++ fmtInt districtID)

/-- Method `TournamentHandler.SearchUpdatedGroupsByDistrict`. -/
def TournamentHandler.SearchUpdatedGroupsByDistrict (env : Env) (w : World)
    (startDate endDate districtIDStr : String) : World × HTTPResponse :=
  match Atoi districtIDStr.data with
  | .error _ => (w, WriteError StatusBadRequest "invalid district id")
  | .ok districtID =>
    passThrough env w
      ("/tournament/group/updated/" ++ startDate ++ "/" ++ endDate ++ "/" ++ fmtInt districtID)

/-- Method `ResultsHandler.GetResultTable`. -/
def ResultsHandler.GetResultTable (env : Env) (w : World) (idStr : String) :
    World × HTTPResponse :=
  match Atoi idStr.data with
  | .error _ => (w, WriteError StatusBadRequest "invalid group id")
  | .ok id => passThrough env w ("/tournamentresults/table/id/" ++ fmtInt id)

/-- Method `ResultsHandler.GetMemberTableResults`. -/
def ResultsHandler.GetMemberTableResults (env : Env) (w : World) (idStr : String) :
    World × HTTPResponse :=
  match Atoi idStr.data with
  | .error _ => (w, WriteError StatusBadRequest "invalid member id")
  | .ok id => passThrough env w ("/tournamentresults/table/memberid/" ++ fmtInt id)

/-- Method `ResultsHandler.GetRoundResults`. -/
def ResultsHandler.GetRoundResults (env : Env) (w : World) (idStr : String) :
    World × HTTPResponse :=
  match Atoi idStr.data with
  | .error _ => (w, WriteError StatusBadRequest "invalid group id")
  | .ok id => passThrough env w ("/tournamentresults/roundresults/id/" ++ fmtInt id)

/-- Method `ResultsHandler.GetTeamResultTable`. -/
def ResultsHandler.GetTeamResultTable (env : Env) (w : World) (idStr : String) :
    World × HTTPResponse :=
  match Atoi idStr.data with
  | .error _ => (w, WriteError StatusBadRequest "invalid group id")
  | .ok id => passThrough env w ("/tournamentresults/team/table/id/" ++ fmtInt id)

/-- Method `ResultsHandler.GetTeamRoundResults`. -/
def ResultsHandler.GetTeamRoundResults (env : Env) (w : World) (idStr : String) :
    World × HTTPResponse :=
  match Atoi idStr.data with
  | .error _ => (w, WriteError StatusBadRequest "invalid group id")
  | .ok id => passThrough env w ("/tournamentresults/team/roundresults/id/" ++ fmtInt id)

/-- Method `ResultsHandler.GetTeamRoundResultsForMember`. -/
def ResultsHandler.GetTeamRoundResultsForMember (env : Env) (w : World)
    (idStr memberIDStr : String) : World × HTTPResponse :=
  match Atoi idStr.data with
  | .error _ => (w, WriteError StatusBadRequest "invalid group id")
  | .ok id =>
    match Atoi memberIDStr.data with
    | .error _ => (w, WriteError StatusBadRequest "invalid member id")
    | .ok memberID =>
      passThrough env w
        ("/tournamentresults/team/roundresults/id/" ++ fmtInt id ++ "/memberid/"
          ++ fmtInt memberID)

/-- Method `ResultsHandler.GetMemberGames`. -/
def ResultsHandler.GetMemberGames (env : Env) (w : World) (idStr : String) :
    World × HTTPResponse :=
  match Atoi idStr.data with
  | .error _ => (w, WriteError StatusBadRequest "invalid member id")
  | .ok id => passThrough env w ("/tournamentresults/game/memberid/" ++ fmtInt id)

/-- Method `RegistrationHandler.GetTeamRegistration`. -/
def RegistrationHandler.GetTeamRegistration (env : Env) (w : World)
    (tournamentIDStr clubIDStr : String) : World × HTTPResponse :=
  match Atoi tournamentIDStr.data with
  | .error _ => (w, WriteError StatusBadRequest "invalid tournament id")
  | .ok tournamentID =>
    match Atoi clubIDStr.data with
    | .error _ => (w, WriteError StatusBadRequest "invalid club id")
    | .ok clubID =>
      passThrough env w
        ("/tournamentteamregistration/tournament/" ++ fmtInt tournamentID ++ "/club/"
          ++ fmtInt clubID)

/-- The parameter is not accepted by `strconv.Atoi`. -/
def malformedInt (s : String) : Prop := ∃ e, Atoi s.data = .error e

/-- The parameter is accepted by `strconv.Atoi`. -/
def wellFormedInt (s : String) : Prop := ∃ n, Atoi s.data = .ok n

/-- The answer to a malformed parameter: status 400 and an error body whose message
is `invalid` followed by the name of the parameter. -/
def invalidParam (what : String) : HTTPResponse :=
  WriteError StatusBadRequest ("invalid " ++ what)

/-- Sample environment in which the upstream answers every request with status 204
and an empty body. -/
def noContentEnv : Env :=
  { sampleEnv with httpDo := fun _ _ => .ok { StatusCode := 204, Body := .ok "" } }

/-- Sample environment in which the rate limiter gives no permit (the context is
cancelled). -/
def limitedEnv : Env :=
  { sampleEnv with limiterWait := fun _ => some (.errorString "context canceled") }

/-- Sample environment for a snapshot: the upstream of `datedEnv`, and a codec that
writes the payload of member 7 fetched for 2024-06-15 as a document of its own
and reads it back. -/
def snapshotEnv : Env :=
  { datedEnv with
    marshal := fun p =>
      .ok (if p = datedPlayer 7 2024 6 15 then "7 as of 2024-06-15" else toString p.ID)
    unmarshal := fun s =>
      if s = "7 as of 2024-06-15" then .ok (datedPlayer 7 2024 6 15)
      else sampleEnv.unmarshal s }

/-- Every call of the upstream in `ext` is a call of `GetPlayer` for an id of
`memberIDs` with the date `dateStr`, and every `Save` in `ext` has the period
`ratingDate`. -/
def batchEvents (memberIDs : List Int) (dateStr : String) (ratingDate : Time)
    (ext : List Event) : Prop :=
  ∀ e ∈ ext,
    (e.isFetch = true → ∃ id ∈ memberIDs, e = Event.upstreamGetPlayer id dateStr) ∧
    (e.isSave = true → ∃ p exp, e = Event.repoSave p ratingDate exp)

/-- Every call of the upstream in `ext` is a call of `GetPlayer` for `memberID` with
the formatted date of a period of `dates`, and every `Save` in `ext` has a period
of `dates`. -/
def rangeEvents (memberID : Int) (dates : List Time) (ext : List Event) : Prop :=
  ∀ e ∈ ext,
    (e.isFetch = true → ∃ d ∈ dates, e = Event.upstreamGetPlayer memberID d.FormatDate) ∧
    (e.isSave = true → ∃ p exp, ∃ d ∈ dates, e = Event.repoSave p d exp)

/-- Sample environment in which the clock stands at noon of 2024-03-31 UTC. -/
def march31Env : Env :=
  { sampleEnv with timeNow := fun _ => time.Date 2024 3 31 12 0 0 0 UTC }

/-- Sample environment in which the clock stands at noon of 2024-02-29 UTC. -/
def leapDayEnv : Env :=
  { sampleEnv with timeNow := fun _ => time.Date 2024 2 29 12 0 0 0 UTC }

/-! ## `internal/model/types.go`, with `Format` and `Parse` of package `time` -/

/-- The zero value of `time.Time`: January 1 of year 1, 00:00:00 UTC. -/
def Time.zero : Time := time.Date 1 1 1 0 0 0 0 Mchess.UTC

/-- Method `t.IsZero()`: the instant is that of the zero value. -/
def Time.IsZero (t : Time) : Bool := decide (t.unixNano = Time.zero.unixNano)

/-- Layout element `Z07:00` of `Format`: `Z` for the offset zero, and else the sign
and the hours and minutes of the offset, whose seconds are cut off. -/
def formatZone (offset : Int) : String :=
  if offset = 0 then "Z"
  else
    let zone := if offset < 0 then -((-offset) / 60) else offset / 60
    if zone < 0 then "-" ++ appendInt ((-zone) / 60) 2 ++ ":" ++ appendInt ((-zone) % 60) 2
    else "+" ++ appendInt (zone / 60) 2 ++ ":" ++ appendInt (zone % 60) 2

/-- Call `t.Format(time.RFC3339)`, layout `2006-01-02T15:04:05Z07:00`. -/
def Time.FormatRFC3339 (t : Time) : String :=
  appendInt t.Year 4 ++ "-" ++ appendInt t.Month 2 ++ "-" ++ appendInt t.Day 2 ++ "T" ++
    appendInt t.Hour 2 ++ ":" ++ appendInt t.Minute 2 ++ ":" ++ appendInt t.Second 2 ++
    formatZone t.offset

/-- One or two decimal digits at the head of the input (`getnum` without `fixed`),
and what follows them. -/
def getnum1 : List Char → Option (Int × List Char)
  | a :: b :: rest =>
    if a.isDigit then
      if b.isDigit then some (digitsValue [a, b], rest) else some (digitsValue [a], b :: rest)
    else none
  | [a] => if a.isDigit then some (digitsValue [a], []) else none
  | [] => none

/-- A literal character of a layout at the head of the input, and what follows it. -/
def skipChar (c : Char) : List Char → Option (List Char)
  | x :: rest => if x = c then some rest else none
  | [] => none

/-- Fractional seconds that `Parse` accepts behind the seconds although the layout
has none: a period or comma and digits, read as nanoseconds (digits beyond
the ninth are dropped). -/
def parseFraction : List Char → Int × List Char
  | sep :: d :: rest =>
    if (sep = '.' ∨ sep = ',') ∧ d.isDigit then
      (digitsValue ((((d :: rest).takeWhile Char.isDigit) ++ List.replicate 9 '0').take 9),
        (d :: rest).dropWhile Char.isDigit)
    else (0, sep :: d :: rest)
  | v => (0, v)

/-- Layout elements `15:04:05` of `Parse`: hour, minute, second, nanosecond, and
what follows them. -/
def parseClock (v : List Char) : Option (Int × Int × Int × Int × List Char) := do
  let (hour, v1) ← getnum1 v
  if 24 ≤ hour then none
  let v2 ← skipChar ':' v1
  let (min, v3) ← getnum2 v2
  if 60 ≤ min then none
  let v4 ← skipChar ':' v3
  let (sec, v5) ← getnum2 v4
  if 60 ≤ sec then none
  let (nsec, v6) := parseFraction v5
  pure (hour, min, sec, nsec, v6)

/-- Layout element `Z07:00` of `Parse`: the offset in seconds, and what follows. -/
def parseZone : List Char → Option (Int × List Char)
  | 'Z' :: rest => some (0, rest)
  | sign :: h1 :: h2 :: c :: m1 :: m2 :: rest =>
    if c ≠ ':' then none
    else if !(h1.isDigit && h2.isDigit && m1.isDigit && m2.isDigit) then none
    else if digitsValue [h1, h2] > 24 ∨ digitsValue [m1, m2] > 60 then none
    else if sign = '+' then some ((digitsValue [h1, h2] * 60 + digitsValue [m1, m2]) * 60, rest)
    else if sign = '-' then
      some (-((digitsValue [h1, h2] * 60 + digitsValue [m1, m2]) * 60), rest)
    else none
  | _ => none

/-- Call `time.Parse("2006-01-02T15:04:05Z07:00", value)`; `none` when it returns an
error.  The result shows the offset that was read. -/
def time.ParseRFC3339 (value : List Char) : Option Time := do
  let (year, v1) ← getYear4 value
  let v2 ← skipDash v1
  let (month, v3) ← getnum2 v2
  if month ≤ 0 ∨ 12 < month then none
  let v4 ← skipDash v3
  let (day, v5) ← getnum2 v4
  let v6 ← skipChar 'T' v5
  let (hour, min, sec, nsec, v7) ← parseClock v6
  let (zone, v8) ← parseZone v7
  if !v8.isEmpty then none
  if day < 1 ∨ day > daysIn month year then none
  pure { unixNano := (time.Date year month day hour min sec nsec UTC).unixNano
                       - zone * nanosPerSecond
         offset := zone }

/-- Call `time.Parse("2006-01-02T15:04:05", value)`; `none` when it returns an
error. -/
def time.ParseDateTime (value : List Char) : Option Time := do
  let (year, v1) ← getYear4 value
  let v2 ← skipDash v1
  let (month, v3) ← getnum2 v2
  if month ≤ 0 ∨ 12 < month then none
  let v4 ← skipDash v3
  let (day, v5) ← getnum2 v4
  let v6 ← skipChar 'T' v5
  let (hour, min, sec, nsec, v7) ← parseClock v6
  if !v7.isEmpty then none
  if day < 1 ∨ day > daysIn month year then none
  pure (time.Date year month day hour min sec nsec UTC)

/-- Call `strings.Trim(s, cutset)` for a cutset of one character. -/
def Trim (s : List Char) (cut : Char) : List Char :=
  ((s.dropWhile (fun c => c = cut)).reverse.dropWhile (fun c => c = cut)).reverse

/-- The `*time.ParseError` that `time.Parse` returns for a value and a layout (its
text is cut short). -/
def parseError (layout value : String) : GoError :=
  .errorString ("parsing time \"" ++ value ++ "\" as \"" ++ layout ++ "\": cannot parse")

/-- Method `Date.UnmarshalJSON`: the receiver after the call, and the error.  A call
of `time.Parse` that fails leaves the zero time in `d.Time`. -/
def Date.UnmarshalJSON (d : Date) (data : Bytes) : Date × Option GoError :=
  let s := Trim data.data '"'
  if s = [] ∨ s = "null".data then (d, none)
  else
    match time.ParseRFC3339 s with
    | some t => ({ Time := t }, none)
    | none =>
      match time.ParseDateTime s with
      | some t => ({ Time := t }, none)
      | none =>
        match time.ParseDay s with
        | some t => ({ Time := t }, none)
        | none => ({ Time := Time.zero }, some (parseError "2006-01-02" (String.mk s)))

/-- Method `Date.MarshalJSON`; returns the pair `([]byte, error)`. -/
def Date.MarshalJSON (d : Date) : Bytes × Option GoError :=
  if d.Time.IsZero then ("null", none)
  else ("\"" ++ d.Time.FormatRFC3339 ++ "\"", none)

/-- A date of the year 10000. -/
def year10000 : Date := { Time := time.Date 10000 1 1 0 0 0 0 UTC }

/-- A time of 2024-06-15 14:30:05 in a location two hours east of UTC. -/
def juneAfternoonEast : Date := { Time := time.Date 2024 6 15 14 30 5 0 7200 }


/-- A date of the year before the year 0. -/
def yearBeforeZero : Date := { Time := time.Date (-1) 1 1 0 0 0 0 UTC }

/-- A time of 2024-06-15 14:30:05 in a location thirty seconds east of UTC. -/
def juneHalfMinuteEast : Date := { Time := time.Date 2024 6 15 14 30 5 0 30 }

/-- A time of 2024-06-15 14:30:05 in a location twenty-five hours east of UTC. -/
def juneFarEast : Date := { Time := time.Date 2024 6 15 14 30 5 0 90000 }

/-- The calls of a run of `fetchPlayersParallel` that started at the trace `tr0`:
`moment i` is the trace at which the goroutine of position `i` called the
upstream.  Every goroutine that has taken its first step has made its call
within the run, different goroutines at different moments, and every call added
to the trace is the call of one of them; a goroutine that waits for the mutex
holds the answer to its call; `results` holds exactly the ids for which a
goroutine that is through was answered with a payload, each with such a
payload. -/
structure RunCalls (env : Env) (ids : List Int) (ds : String) (tr0 : List Event)
    (moment : Nat → List Event) (st : ParState) (rest : List Nat) : Prop where
  grows : tr0 <+: st.w.trace
  waiting : ∀ i r, st.waiting.lookup i = some r →
    r = env.upstreamGetPlayer (moment i) (idAt ids i) ds
  made : ∀ i, i < ids.length → rest.count i ≠ 2 →
    tr0 <+: moment i ∧ (moment i ++ [Event.upstreamGetPlayer (idAt ids i) ds]) <+: st.w.trace
  distinct : ∀ i j, i < ids.length → j < ids.length → rest.count i ≠ 2 → rest.count j ≠ 2 →
    moment i = moment j → i = j
  covered : ∀ t id s, (t ++ [Event.upstreamGetPlayer id s]) <+: st.w.trace →
    (t ++ [Event.upstreamGetPlayer id s]) <+: tr0 ∨
      ∃ i, i < ids.length ∧ rest.count i ≠ 2 ∧ moment i = t
  present : ∀ id, (st.results id).isSome = true ↔
    ∃ i p, ids.get? i = some id ∧ rest.count i = 0 ∧
      env.upstreamGetPlayer (moment i) id ds = .ok p
  payload : ∀ id p, st.results id = some p →
    ∃ i, ids.get? i = some id ∧ rest.count i = 0 ∧
      env.upstreamGetPlayer (moment i) id ds = .ok p

/-- The ids of a batch get that are not cache hits, in the caller's order (variable
`missingIDs` of `GetPlayers`). -/
def batchMisses (env : Env) (w : World) (memberIDs : List Int) (date : Time) : List Int :=
  memberIDs.filter (fun id => (batchHits env w memberIDs date id).isNone)

/-! ## The calendar -/

/-- The year of the era is recovered from the day of the era: `c` centuries, `q`
four-year cycles and `s` years into the era, on day `doy` of the year. -/
theorem civil_yoe (c q s doy : Int) (hc0 : 0 ≤ c) (hc1 : c ≤ 3) (hq0 : 0 ≤ q) (hq1 : q ≤ 24)
    (hs0 : 0 ≤ s) (hs1 : s ≤ 3) (hd0 : 0 ≤ doy)
    (hd1 : doy ≤ 364 ∨ (doy = 365 ∧ (s = 3 ∧ (q ≠ 24 ∨ c = 3)))) :
    ((36524 * c + 1461 * q + 365 * s + doy) - (36524 * c + 1461 * q + 365 * s + doy) / 1460
      + (36524 * c + 1461 * q + 365 * s + doy) / 36524
      - (36524 * c + 1461 * q + 365 * s + doy) / 146096) / 365 = 100 * c + 4 * q + s := by
  by_cases hex : q = 24 ∧ s = 3 ∧ doy = 365
  · obtain ⟨rfl, rfl, rfl⟩ := hex
    have : c = 3 := by omega
    subst this
    decide
  · have hB : (36524 * c + 1461 * q + 365 * s + doy) / 36524 = c := by omega
    have hC : (36524 * c + 1461 * q + 365 * s + doy) / 146096 = 0 := by omega
    have hA : (36524 * c + 1461 * q + 365 * s + doy) / 1460
        = 25 * c + q + (24 * c + q + 365 * s + doy) / 1460 := by omega
    rw [hA, hB, hC]
    have hF : doy = 365 → (24 * c + q + 365 * s + doy) / 1460 = 1 := by
      intro h; omega
    have hF0 : doy = 0 → (24 * c + q + 365 * s + doy) / 1460 = 0 := by
      intro h; omega
    have hF1 : 0 ≤ (24 * c + q + 365 * s + doy) / 1460 ∧
        (24 * c + q + 365 * s + doy) / 1460 ≤ 1 := by
      omega
    omega

/-- The civil date of a day number built from an era, a year of the era, a month
counted from March (`mp`) and a day of that month. -/
theorem civilFromDays_core (era yoe mp d : Int) (hy0 : 0 ≤ yoe) (hy1 : yoe < 400)
    (hmp0 : 0 ≤ mp) (hmp1 : mp ≤ 11) (hd1 : 1 ≤ d)
    (hd : (153 * mp + 2) / 5 + d - 1 < (153 * (mp + 1) + 2) / 5)
    (hfeb : mp = 11 → d ≤ 28 ∨ (d = 29 ∧ yoe % 4 = 3 ∧ (yoe % 100 ≠ 99 ∨ yoe = 399))) :
    civilFromDays (era * 146097 + (yoe * 365 + yoe / 4 - yoe / 100 + ((153 * mp + 2) / 5 + d - 1))
        - 719468)
      = (if (if mp < 10 then mp + 3 else mp - 9) ≤ 2 then yoe + era * 400 + 1
          else yoe + era * 400,
        if mp < 10 then mp + 3 else mp - 9, d) := by
  have hdoy0 : 0 ≤ (153 * mp + 2) / 5 + d - 1 := by omega
  have hdoy1 : (153 * mp + 2) / 5 + d - 1 ≤ 364 ∨
      ((153 * mp + 2) / 5 + d - 1 = 365 ∧
        (yoe % 4 = 3 ∧ ((yoe % 100) / 4 ≠ 24 ∨ yoe / 100 = 3))) := by
    by_cases h11 : mp = 11
    · rcases hfeb h11 with h | ⟨h1, h2, h3⟩
      · left; omega
      · right; omega
    · left; omega
  generalize hdoy : (153 * mp + 2) / 5 + d - 1 = doy at hdoy0 hdoy1 ⊢
  have hdoe : yoe * 365 + yoe / 4 - yoe / 100 + doy
      = 36524 * (yoe / 100) + 1461 * ((yoe % 100) / 4) + 365 * (yoe % 4) + doy := by omega
  have hyoe := civil_yoe (yoe / 100) ((yoe % 100) / 4) (yoe % 4) doy (by omega) (by omega)
    (by omega) (by omega) (by omega) (by omega) hdoy0 hdoy1
  rw [← hdoe] at hyoe
  have hyv : 100 * (yoe / 100) + 4 * ((yoe % 100) / 4) + yoe % 4 = yoe := by omega
  rw [hyv] at hyoe
  have hdoeb : 0 ≤ yoe * 365 + yoe / 4 - yoe / 100 + doy ∧
      yoe * 365 + yoe / 4 - yoe / 100 + doy ≤ 146096 := by omega
  generalize hdoeq : yoe * 365 + yoe / 4 - yoe / 100 + doy = doe at hyoe hdoeb
  unfold civilFromDays
  have hz : era * 146097 + doe - 719468 + 719468 = era * 146097 + doe := by ring
  have he : (era * 146097 + doe) / 146097 = era := by omega
  have hm : (era * 146097 + doe) % 146097 = doe := by omega
  simp only [hz, he, hm, hyoe]
  have hdoy2 : doe - (365 * yoe + yoe / 4 - yoe / 100) = doy := by omega
  rw [hdoy2]
  have hmpv : (5 * doy + 2) / 153 = mp := by omega
  rw [hmpv]
  have hdv : doy - (153 * mp + 2) / 5 + 1 = d := by omega
  rw [hdv]

theorem daysIn_eq (m y : Int) :
    daysIn m y =
      if m = 2 then (if y % 4 = 0 ∧ (y % 100 ≠ 0 ∨ y % 400 = 0) then 29 else 28)
      else if m = 4 ∨ m = 6 ∨ m = 9 ∨ m = 11 then 30 else 31 := by
  unfold daysIn isLeap
  have hl : ((decide (y % 4 = 0) && (decide (y % 100 ≠ 0) || decide (y % 400 = 0))) = true) ↔
      (y % 4 = 0 ∧ (y % 100 ≠ 0 ∨ y % 400 = 0)) := by
    simp only [Bool.and_eq_true, Bool.or_eq_true, decide_eq_true_eq]
  rw [if_congr hl rfl rfl]

/-- The civil date of a valid date is recovered from its day number. -/
theorem civilFromDays_daysFromCivil (y m d : Int) (hm1 : 1 ≤ m) (hm12 : m ≤ 12) (hd1 : 1 ≤ d)
    (hd : d ≤ daysIn m y) : civilFromDays (daysFromCivil y m d) = (y, m, d) := by
  rw [daysIn_eq] at hd
  unfold daysFromCivil
  dsimp only
  by_cases hm2 : m ≤ 2
  · have hm3 : ¬ m > 2 := by omega
    rw [if_pos hm2, if_neg hm3]
    have hdd : d ≤ 31 ∧ (m = 2 → d ≤ 28 ∨ (d = 29 ∧ y % 4 = 0 ∧ (y % 100 ≠ 0 ∨ y % 400 = 0))) := by
      split at hd
      · split at hd
        · exact ⟨by omega, fun _ => by omega⟩
        · exact ⟨by omega, fun _ => by omega⟩
      · split at hd
        · exact ⟨by omega, fun h => by omega⟩
        · exact ⟨by omega, fun h => by omega⟩
    have hmc : m = 1 ∨ m = 2 := by omega
    have hcore := civilFromDays_core ((y - 1) / 400) ((y - 1) % 400) (m + 9) d (by omega)
      (by omega) (by omega) (by omega) hd1
      (by rcases hmc with rfl | rfl <;> omega)
      (by intro h; have := hdd.2 (by omega); omega)
    rw [hcore]
    have h10 : ¬ m + 9 < 10 := by omega
    rw [if_neg h10, if_pos (by omega)]
    ext <;> dsimp only <;> omega
  · have hm3 : m > 2 := by omega
    rw [if_neg hm2, if_pos hm3]
    have hdd : d ≤ 31 ∧ (m = 4 ∨ m = 6 ∨ m = 9 ∨ m = 11 → d ≤ 30) := by
      split at hd
      · omega
      · split at hd
        · exact ⟨by omega, fun _ => hd⟩
        · rename_i h
          exact ⟨hd, fun h2 => absurd h2 h⟩
    have hmc : m = 3 ∨ m = 4 ∨ m = 5 ∨ m = 6 ∨ m = 7 ∨ m = 8 ∨ m = 9 ∨ m = 10 ∨ m = 11 ∨
        m = 12 := by omega
    have hcore := civilFromDays_core (y / 400) (y % 400) (m - 3) d (by omega) (by omega)
      (by omega) (by omega) hd1
      (by
        have := hdd.2
        rcases hmc with rfl | rfl | rfl | rfl | rfl | rfl | rfl | rfl | rfl | rfl <;> omega)
      (by intro h; omega)
    rw [hcore]
    have h10 : m - 3 < 10 := by omega
    rw [if_pos h10, if_neg (by omega)]
    ext <;> dsimp only <;> omega

theorem doe_decompose (doe : Int) (h0 : 0 ≤ doe) (h1 : doe ≤ 146096) :
    ∃ c q s doy : Int, 0 ≤ c ∧ c ≤ 3 ∧ 0 ≤ q ∧ q ≤ 24 ∧ 0 ≤ s ∧ s ≤ 3 ∧ 0 ≤ doy ∧
      (doy ≤ 364 ∨ (doy = 365 ∧ (s = 3 ∧ (q ≠ 24 ∨ c = 3)))) ∧
      doe = 36524 * c + 1461 * q + 365 * s + doy := by
  by_cases hlast : doe = 146096
  · exact ⟨3, 24, 3, 365, by omega, by omega, by omega, by omega, by omega, by omega, by omega,
      by omega, by omega⟩
  · by_cases hleap : (doe % 36524) % 1461 = 1460
    · exact ⟨doe / 36524, (doe % 36524) / 1461, 3, 365, by omega, by omega, by omega, by omega,
        by omega, by omega, by omega, by omega, by omega⟩
    · exact ⟨doe / 36524, (doe % 36524) / 1461, ((doe % 36524) % 1461) / 365,
        ((doe % 36524) % 1461) % 365, by omega, by omega, by omega, by omega, by omega,
        by omega, by omega, by omega, by omega⟩

/-- Every day number has a valid civil date, from which it is recovered. -/
theorem civilFromDays_spec (z : Int) :
    1 ≤ (civilFromDays z).2.1 ∧ (civilFromDays z).2.1 ≤ 12 ∧ 1 ≤ (civilFromDays z).2.2 ∧
    (civilFromDays z).2.2 ≤ daysIn (civilFromDays z).2.1 (civilFromDays z).1 ∧
    daysFromCivil (civilFromDays z).1 (civilFromDays z).2.1 (civilFromDays z).2.2 = z := by
  obtain ⟨c, q, s, doy, hc0, hc1, hq0, hq1, hs0, hs1, hd0, hd1, hdoe⟩ :=
    doe_decompose ((z + 719468) % 146097) (by omega) (by omega)
  have hmp : (5 * doy + 2) / 153 = 0 ∨ (5 * doy + 2) / 153 = 1 ∨ (5 * doy + 2) / 153 = 2 ∨
      (5 * doy + 2) / 153 = 3 ∨ (5 * doy + 2) / 153 = 4 ∨ (5 * doy + 2) / 153 = 5 ∨
      (5 * doy + 2) / 153 = 6 ∨ (5 * doy + 2) / 153 = 7 ∨ (5 * doy + 2) / 153 = 8 ∨
      (5 * doy + 2) / 153 = 9 ∨ (5 * doy + 2) / 153 = 10 ∨ (5 * doy + 2) / 153 = 11 := by
    omega
  generalize hmpv : (5 * doy + 2) / 153 = mp at hmp
  have hstart : (153 * mp + 2) / 5 ≤ doy ∧ doy < (153 * (mp + 1) + 2) / 5 := by
    rcases hmp with rfl | rfl | rfl | rfl | rfl | rfl | rfl | rfl | rfl | rfl | rfl | rfl <;>
      omega
  have hz : z = ((z + 719468) / 146097) * 146097 +
      ((100 * c + 4 * q + s) * 365 + (100 * c + 4 * q + s) / 4 - (100 * c + 4 * q + s) / 100 +
        ((153 * mp + 2) / 5 + (doy - (153 * mp + 2) / 5 + 1) - 1)) - 719468 := by
    have h4 : (100 * c + 4 * q + s) / 4 = 25 * c + q := by omega
    have h100 : (100 * c + 4 * q + s) / 100 = c := by omega
    rw [h4, h100]
    omega
  have hcore := civilFromDays_core ((z + 719468) / 146097) (100 * c + 4 * q + s) mp
    (doy - (153 * mp + 2) / 5 + 1) (by omega) (by omega) (by omega) (by omega) (by omega)
    (by omega) (by intro h; omega)
  rw [← hz] at hcore
  rw [hcore]
  dsimp only
  have hym : (100 * c + 4 * q + s + (z + 719468) / 146097 * 400) / 400 = (z + 719468) / 146097 ∧
      (100 * c + 4 * q + s + (z + 719468) / 146097 * 400) % 400 = 100 * c + 4 * q + s := by
    omega
  refine ⟨?_, ?_, by omega, ?_, ?_⟩
  · split <;> omega
  · split <;> omega
  · rw [daysIn_eq]
    rcases hmp with rfl | rfl | rfl | rfl | rfl | rfl | rfl | rfl | rfl | rfl | rfl | rfl
    all_goals norm_num
    all_goals omega
  · unfold daysFromCivil
    dsimp only
    by_cases h10 : mp < 10
    · have e1 : (if mp < 10 then mp + 3 else mp - 9) = mp + 3 := if_pos h10
      rw [e1]
      have e2 : ¬ mp + 3 ≤ 2 := by omega
      have e3 : mp + 3 > 2 := by omega
      rw [if_neg e2, if_neg e2, if_pos e3, hym.1, hym.2]
      have : mp + 3 - 3 = mp := by omega
      rw [this]
      omega
    · have e1 : (if mp < 10 then mp + 3 else mp - 9) = mp - 9 := if_neg h10
      rw [e1]
      have e2 : mp - 9 ≤ 2 := by omega
      have e3 : ¬ mp - 9 > 2 := by omega
      rw [if_pos e2, if_pos e2, if_neg e3]
      have e4 : 100 * c + 4 * q + s + (z + 719468) / 146097 * 400 + 1 - 1
          = 100 * c + 4 * q + s + (z + 719468) / 146097 * 400 := by omega
      rw [e4, hym.1, hym.2]
      have : mp - 9 + 9 = mp := by omega
      rw [this]
      omega

/-- The fields of a date built by `time.Date` for the first day of a month, at
midnight UTC. -/
theorem Date_first_fields (y m : Int) (hm1 : 1 ≤ m) (hm12 : m ≤ 12) :
    (time.Date y m 1 0 0 0 0 UTC).Year = y ∧ (time.Date y m 1 0 0 0 0 UTC).Month = m ∧
    (time.Date y m 1 0 0 0 0 UTC).Day = 1 ∧ (time.Date y m 1 0 0 0 0 UTC).offset = 0 ∧
    (time.Date y m 1 0 0 0 0 UTC).unixNano
      = daysFromCivil y m 1 * (secondsPerDay * nanosPerSecond) := by
  have hdays : (time.Date y m 1 0 0 0 0 UTC).localDays = daysFromCivil y m 1 := by
    unfold Time.localDays time.Date UTC secondsPerDay nanosPerSecond
    dsimp only
    have h1 : (m - 1) / 12 = 0 := by omega
    have h2 : (m - 1) % 12 + 1 = m := by omega
    rw [h1, h2, Int.add_zero y]
    generalize daysFromCivil y m 1 = D
    omega
  have hciv := civilFromDays_daysFromCivil y m 1 hm1 hm12 (by omega)
    (by rw [daysIn_eq]; split <;> (try split) <;> omega)
  refine ⟨?_, ?_, ?_, rfl, ?_⟩
  · unfold Time.Year
    rw [hdays, hciv]
  · unfold Time.Month
    rw [hdays, hciv]
  · unfold Time.Day
    rw [hdays, hciv]
  · unfold time.Date UTC secondsPerDay nanosPerSecond
    dsimp only
    have h1 : (m - 1) / 12 = 0 := by omega
    have h2 : (m - 1) % 12 + 1 = m := by omega
    rw [h1, h2, Int.add_zero y]
    generalize daysFromCivil y m 1 = D
    omega

theorem Month_range (t : Time) : 1 ≤ t.Month ∧ t.Month ≤ 12 := by
  have h := civilFromDays_spec t.localDays
  exact ⟨h.1, h.2.1⟩

/-- The result of `normalizeToMonthStart` is midnight UTC of day 1 of the year and
month that `date` shows in its own location. -/
theorem normalizeToMonthStart_fields (date : Time) :
    (normalizeToMonthStart date).Year = date.Year ∧
    (normalizeToMonthStart date).Month = date.Month ∧
    (normalizeToMonthStart date).Day = 1 ∧
    (normalizeToMonthStart date).offset = 0 ∧
    (normalizeToMonthStart date).unixNano
      = daysFromCivil date.Year date.Month 1 * (secondsPerDay * nanosPerSecond) :=
  Date_first_fields date.Year date.Month (Month_range date).1 (Month_range date).2

/-! ## Lemmas on the repository -/

theorem Get_world (env : Env) (w : World) (memberID : Int) (ratingDate : Time) :
    (PlayerRepository.Get env w memberID ratingDate).1 = w.log (.repoGet memberID ratingDate) := by
  unfold PlayerRepository.Get
  dsimp only
  split
  · rfl
  · rfl
  · split <;> rfl

theorem Get_error_no_record (env : Env) (w : World) (memberID : Int) (ratingDate : Time)
    (h : (PlayerRepository.Get env w memberID ratingDate).2.2.isSome) :
    (PlayerRepository.Get env w memberID ratingDate).2.1 = none := by
  unfold PlayerRepository.Get at h ⊢
  dsimp only at h ⊢
  split
  · rfl
  · rfl
  · rename_i data hq
    rw [hq] at h
    dsimp only at h
    split
    · rfl
    · rename_i player hu
      rw [hu] at h
      simp at h

theorem log_trace (w : World) (e : Event) : (w.log e).trace = w.trace ++ [e] := rfl

theorem log_rows (w : World) (e : Event) : (w.log e).rows = w.rows := rfl

theorem Save_trace (env : Env) (w : World) (player : PlayerInfo) (ratingDate : Time)
    (expiresAt : Option Time) :
    (PlayerRepository.Save env w player ratingDate expiresAt).1.trace.filter Event.isFetch
      = w.trace.filter Event.isFetch := by
  unfold PlayerRepository.Save timeNow
  dsimp only
  split
  · simp [log_trace, Event.isFetch]
  · split <;> simp [log_trace, Event.isFetch, World.log]

theorem determineTTL_trace (env : Env) (w : World) (ratingDate : Time) :
    (PlayerService.determineTTL env w ratingDate).1 = w.log .timeNow := by
  unfold PlayerService.determineTTL timeNow
  dsimp only
  split <;> rfl

theorem GetPlayer_of_hit (env : Env) (w : World) (memberID : Int) (date : Time)
    (record : PlayerInfo)
    (h : (PlayerRepository.Get env w memberID (normalizeToMonthStart date)).2.1 = some record) :
    PlayerService.GetPlayer env w memberID date
      = (w.log (.repoGet memberID (normalizeToMonthStart date)), some record, none) := by
  have hw := Get_world env w memberID (normalizeToMonthStart date)
  rcases hG : PlayerRepository.Get env w memberID (normalizeToMonthStart date) with ⟨w1, c, e⟩
  rw [hG] at h hw
  dsimp only at h hw
  subst h hw
  simp [PlayerService.GetPlayer, hG]

theorem GetPlayer_of_fetch_ok (env : Env) (w : World) (memberID : Int) (date : Time)
    (P : PlayerInfo)
    (hmiss : (PlayerRepository.Get env w memberID (normalizeToMonthStart date)).2.1 = none)
    (hfetch : env.upstreamGetPlayer
      (w.trace ++ [.repoGet memberID (normalizeToMonthStart date)]) memberID date.FormatDate
        = .ok P) :
    PlayerService.GetPlayer env w memberID date
      = ((PlayerRepository.Save env
          (PlayerService.determineTTL env
            ((w.log (.repoGet memberID (normalizeToMonthStart date))).log
              (.upstreamGetPlayer memberID date.FormatDate)) (normalizeToMonthStart date)).1
          P (normalizeToMonthStart date)
          (PlayerService.determineTTL env
            ((w.log (.repoGet memberID (normalizeToMonthStart date))).log
              (.upstreamGetPlayer memberID date.FormatDate)) (normalizeToMonthStart date)).2).1,
        some P, none) := by
  have hw := Get_world env w memberID (normalizeToMonthStart date)
  rcases hG : PlayerRepository.Get env w memberID (normalizeToMonthStart date) with ⟨w1, c, e⟩
  rw [hG] at hmiss hw
  dsimp only at hmiss hw
  subst hmiss hw
  simp [PlayerService.GetPlayer, hG, log_trace, hfetch]

/-! ## The single get -/

/-- Claim C1: when the store's `Get` for `(id, normalizeToMonthStart d)` returns a
record without error, `GetPlayer(id, d)` returns exactly that record with a nil
error; the only external call it makes is that `Get`, so the upstream fetcher
and `Save` are not called and the table is unchanged. -/
theorem GetPlayer_cache_hit (env : Env) (w : World) (memberID : Int) (date : Time)
    (record : PlayerInfo)
    (hget : (PlayerRepository.Get env w memberID (normalizeToMonthStart date)).2
      = (some record, none)) :
    (PlayerService.GetPlayer env w memberID date).2 = (some record, none) ∧
    (PlayerService.GetPlayer env w memberID date).1.trace
      = w.trace ++ [.repoGet memberID (normalizeToMonthStart date)] ∧
    (PlayerService.GetPlayer env w memberID date).1.trace.filter Event.isFetch
      = w.trace.filter Event.isFetch ∧
    (PlayerService.GetPlayer env w memberID date).1.trace.filter Event.isSave
      = w.trace.filter Event.isSave ∧
    (PlayerService.GetPlayer env w memberID date).1.rows = w.rows := by
  have hw := Get_world env w memberID (normalizeToMonthStart date)
  rcases hG : PlayerRepository.Get env w memberID (normalizeToMonthStart date) with ⟨w1, c, e⟩
  rw [hG] at hget hw
  simp only [Prod.mk.injEq] at hget
  obtain ⟨hc, -⟩ := hget
  subst hc
  dsimp only at hw
  subst hw
  simp [PlayerService.GetPlayer, hG, log_trace, log_rows, Event.isFetch, Event.isSave]

/-- Witness of C1: the sample store holds a record for member 12345 and June
2024, and a get for 2024-06-15 returns it without a fetch. -/
theorem GetPlayer_cache_hit_witness :
    (PlayerRepository.Get sampleEnv sampleWorld 12345 (normalizeToMonthStart june15)).2
      = (some (samplePlayer 12345), none) ∧
    (PlayerService.GetPlayer sampleEnv sampleWorld 12345 june15).2
      = (some (samplePlayer 12345), none) ∧
    (PlayerService.GetPlayer sampleEnv sampleWorld 12345 june15).1.trace.filter Event.isFetch
      = [] :=
  have h := GetPlayer_cache_hit sampleEnv sampleWorld 12345 june15 (samplePlayer 12345)
    (by decide)
  ⟨by decide, h.1, h.2.2.1⟩

/-- Claim C2: `determineTTL(p)` returns nil when `p` is strictly before the first
day of the month of `now`, and otherwise returns exactly `now + cacheTTL`, for
every period `p`, every reading `now` of `time.Now()` and every configured TTL.
The first day of the month of `now` is `normalizeToMonthStart now`: midnight UTC
of day 1 of the year and month that `now` shows in its own location. -/
theorem determineTTL_policy (env : Env) (w : World) (p : Time) :
    ((PlayerService.determineTTL env w p).2 =
      if p.unixNano < (normalizeToMonthStart (env.timeNow w.trace)).unixNano then none
      else some { unixNano := (env.timeNow w.trace).unixNano + env.cacheTTL
                  offset := (env.timeNow w.trace).offset }) ∧
    (normalizeToMonthStart (env.timeNow w.trace)).Year = (env.timeNow w.trace).Year ∧
    (normalizeToMonthStart (env.timeNow w.trace)).Month = (env.timeNow w.trace).Month ∧
    (normalizeToMonthStart (env.timeNow w.trace)).Day = 1 ∧
    (normalizeToMonthStart (env.timeNow w.trace)).offset = UTC ∧
    (normalizeToMonthStart (env.timeNow w.trace)).unixNano
      = daysFromCivil (env.timeNow w.trace).Year (env.timeNow w.trace).Month 1
        * (secondsPerDay * nanosPerSecond) := by
  refine ⟨?_, normalizeToMonthStart_fields (env.timeNow w.trace)⟩
  unfold PlayerService.determineTTL timeNow normalizeToMonthStart Time.Before Time.Add
  dsimp only
  by_cases h : p.unixNano <
      (time.Date (env.timeNow w.trace).Year (env.timeNow w.trace).Month 1 0 0 0 0 UTC).unixNano
  · simp [h]
  · simp [h]

/-- Claim C3: store failures never fail a single get.  When the store's `Get`
returns an error or no record and the upstream fetch succeeds with payload `P`,
`GetPlayer` returns `P` with a nil error, whatever `Save` does afterwards (the
database oracle of `env` is arbitrary, so `Save` may succeed or fail). -/
theorem GetPlayer_store_failures_nonfatal (env : Env) (w : World) (memberID : Int)
    (date : Time) (P : PlayerInfo)
    (hget : (PlayerRepository.Get env w memberID (normalizeToMonthStart date)).2.2.isSome ∨
      (PlayerRepository.Get env w memberID (normalizeToMonthStart date)).2.1 = none)
    (hfetch : env.upstreamGetPlayer
      (w.trace ++ [.repoGet memberID (normalizeToMonthStart date)]) memberID date.FormatDate
        = .ok P) :
    (PlayerService.GetPlayer env w memberID date).2 = (some P, none) := by
  have hmiss : (PlayerRepository.Get env w memberID (normalizeToMonthStart date)).2.1 = none :=
    hget.elim (Get_error_no_record env w memberID _) id
  have hw := Get_world env w memberID (normalizeToMonthStart date)
  rcases hG : PlayerRepository.Get env w memberID (normalizeToMonthStart date) with ⟨w1, c, e⟩
  rw [hG] at hmiss hw
  dsimp only at hmiss hw
  subst hmiss hw
  simp [PlayerService.GetPlayer, hG, log_trace, hfetch]

/-- Witness of C3: with a database that fails every statement (the read and the
write), a get on the sample store still returns the fetched payload. -/
theorem GetPlayer_store_failures_nonfatal_witness :
    (PlayerRepository.Get brokenStoreEnv sampleWorld 12345 (normalizeToMonthStart june15)).2.2.isSome
      ∧ (PlayerRepository.Save brokenStoreEnv sampleWorld (samplePlayer 12345)
          (normalizeToMonthStart june15) none).2.isSome
      ∧ (PlayerService.GetPlayer brokenStoreEnv sampleWorld 12345 june15).2
          = (some (samplePlayer 12345), none) :=
  ⟨by decide, by decide,
    GetPlayer_store_failures_nonfatal brokenStoreEnv sampleWorld 12345 june15
      (samplePlayer 12345) (Or.inl (by decide)) rfl⟩

/-- Claim C4: when the store returns no record (a miss or a store error),
`GetPlayer` calls the upstream fetcher exactly once, for the requested id and the
date as given; and if that fetch fails with `err`, it returns a nil payload and
an error that wraps `err`, and neither calls `Save` nor changes the table. -/
theorem GetPlayer_miss_fetches_once (env : Env) (w : World) (memberID : Int) (date : Time)
    (hget : (PlayerRepository.Get env w memberID (normalizeToMonthStart date)).2.2.isSome ∨
      (PlayerRepository.Get env w memberID (normalizeToMonthStart date)).2.1 = none) :
    (PlayerService.GetPlayer env w memberID date).1.trace.filter Event.isFetch
      = w.trace.filter Event.isFetch ++ [.upstreamGetPlayer memberID date.FormatDate] ∧
    ∀ err, env.upstreamGetPlayer
        (w.trace ++ [.repoGet memberID (normalizeToMonthStart date)]) memberID date.FormatDate
          = .error err →
      (PlayerService.GetPlayer env w memberID date).2
        = (none, some (Errorf "upstream fetch: " err)) ∧
      (Errorf "upstream fetch: " err).Unwrap = some err ∧
      (PlayerService.GetPlayer env w memberID date).1.trace.filter Event.isSave
        = w.trace.filter Event.isSave ∧
      (PlayerService.GetPlayer env w memberID date).1.rows = w.rows := by
  have hmiss : (PlayerRepository.Get env w memberID (normalizeToMonthStart date)).2.1 = none :=
    hget.elim (Get_error_no_record env w memberID _) id
  have hw := Get_world env w memberID (normalizeToMonthStart date)
  rcases hG : PlayerRepository.Get env w memberID (normalizeToMonthStart date) with ⟨w1, c, e⟩
  rw [hG] at hmiss hw
  dsimp only at hmiss hw
  subst hmiss hw
  constructor
  · simp only [PlayerService.GetPlayer, hG, log_trace]
    split
    · simp [log_trace, Event.isFetch]
    · simp only []
      rw [Save_trace, determineTTL_trace]
      simp [log_trace, Event.isFetch]
  · intro err herr
    simp [PlayerService.GetPlayer, hG, log_trace, herr, log_rows, Event.isSave, Errorf,
      GoError.Unwrap]

/-- Witness of C4: on the empty store, with an upstream that fails every call,
the get makes one fetch and returns the wrapped error. -/
theorem GetPlayer_miss_fetches_once_witness :
    (PlayerRepository.Get brokenUpstreamEnv emptyWorld 12345 (normalizeToMonthStart june15)).2.1
      = none ∧
    (PlayerService.GetPlayer brokenUpstreamEnv emptyWorld 12345 june15).1.trace.filter
        Event.isFetch = [.upstreamGetPlayer 12345 "2024-06-15"] ∧
    (PlayerService.GetPlayer brokenUpstreamEnv emptyWorld 12345 june15).2
      = (none, some (Errorf "upstream fetch: "
          (.errorString "upstream error: status=500 body="))) :=
  have h := GetPlayer_miss_fetches_once brokenUpstreamEnv emptyWorld 12345 june15
    (Or.inr (by decide))
  ⟨by decide, h.1.trans (by decide), (h.2 _ rfl).1⟩

/-- In the table after an upsert of `e`, the first row that satisfies a
condition which holds of `e` and only of rows with the key of `e`, is `e`. -/
theorem upsert_find (rows : List PlayerCacheEntry) (e : PlayerCacheEntry)
    (cond : PlayerCacheEntry → Bool) (he : cond e = true)
    (hkey : ∀ r, cond r = true →
      (decide (r.MemberID = e.MemberID) && sameDate r.RatingDate e.RatingDate) = true) :
    (upsert rows e).find? cond = some e := by
  unfold upsert
  dsimp only
  split
  · rename_i hany
    induction rows with
    | nil => simp at hany
    | cons r rs ih =>
      rw [List.map_cons, List.find?_cons]
      by_cases hr : (decide (r.MemberID = e.MemberID) && sameDate r.RatingDate e.RatingDate) = true
      · rw [if_pos hr, he]
      · have hc : cond r = false := by
          cases hcr : cond r with
          | false => rfl
          | true => exact absurd (hkey r hcr) hr
        have hany2 : rs.any (fun r =>
            decide (r.MemberID = e.MemberID) && sameDate r.RatingDate e.RatingDate) = true := by
          rw [List.any_cons, Bool.or_eq_true] at hany
          exact hany.resolve_left hr
        rw [if_neg hr, hc]
        exact ih hany2
  · rename_i hany
    have hnone : rows.find? cond = none := by
      rw [List.find?_eq_none]
      intro r hr hcr
      apply hany
      rw [List.any_eq_true]
      exact ⟨r, hr, hkey r hcr⟩
    rw [List.find?_append, hnone]
    simp [List.find?, he]

theorem Save_ok (env : Env) (w : World) (player : PlayerInfo) (ratingDate : Time)
    (expiresAt : Option Time)
    (h : (PlayerRepository.Save env w player ratingDate expiresAt).2 = none) :
    ∃ data, env.marshal player = .ok data ∧
      (PlayerRepository.Save env w player ratingDate expiresAt).1 =
        { rows := upsert w.rows (Save.entry player ratingDate data
            (env.timeNow (w.trace ++ [.repoSave player ratingDate expiresAt])) expiresAt)
          trace := w.trace ++ [.repoSave player ratingDate expiresAt, .timeNow] } := by
  cases hm : env.marshal player with
  | error err => simp [PlayerRepository.Save, hm] at h
  | ok data =>
    refine ⟨data, rfl, ?_⟩
    cases hf : env.dbFault (w.trace ++ [.repoSave player ratingDate expiresAt, .timeNow]) with
    | queryError err => simp [PlayerRepository.Save, hm, timeNow, World.log, hf] at h
    | ok => simp [PlayerRepository.Save, hm, timeNow, World.log, hf]
    | scanError n err => simp [PlayerRepository.Save, hm, timeNow, World.log, hf]
    | rowsError n err => simp [PlayerRepository.Save, hm, timeNow, World.log, hf]

/-- Counterexample to C5: the upstream answers the request for member 12345 with
a payload whose id is 0.  The get misses, the fetch and the `Save` succeed, and
the one row of the table has member id 0; the store has no record under the
requested key, and the repeated get fetches again. -/
theorem GetPlayer_saves_under_payload_id :
    (PlayerRepository.Get zeroPayloadEnv emptyWorld 12345 (normalizeToMonthStart june15)).2
      = (none, none) ∧
    (PlayerService.GetPlayer zeroPayloadEnv emptyWorld 12345 june15).2
      = (some (samplePlayer 0), none) ∧
    (PlayerService.GetPlayer zeroPayloadEnv emptyWorld 12345 june15).1.rows.map
      (fun r => (r.MemberID, r.RatingDate.FormatDate, r.Data)) = [(0, "2024-06-01", "0")] ∧
    (PlayerRepository.Get zeroPayloadEnv
      (PlayerService.GetPlayer zeroPayloadEnv emptyWorld 12345 june15).1 12345
      (normalizeToMonthStart june15)).2 = (none, none) ∧
    (PlayerService.GetPlayer zeroPayloadEnv
      (PlayerService.GetPlayer zeroPayloadEnv emptyWorld 12345 june15).1 12345
      june15).1.trace.filter Event.isFetch
      = [.upstreamGetPlayer 12345 "2024-06-15", .upstreamGetPlayer 12345 "2024-06-15"] := by
  refine ⟨by decide, by decide, by decide, by decide, by decide⟩

/-! ## The batch get -/

theorem lookup_cons_nat {β : Type} (i j : Nat) (r : β) (l : List (Nat × β)) :
    List.lookup i ((j, r) :: l) = if i = j then some r else List.lookup i l := by
  by_cases h : i = j
  · subst h
    simp [List.lookup]
  · have hb : (i == j) = false := by simpa using h
    simp [List.lookup, hb, h]

theorem lookup_filter_ne {β : Type} (i j : Nat) (l : List (Nat × β)) :
    List.lookup i (l.filter (fun p => p.1 != j)) = if i = j then none else List.lookup i l := by
  induction l with
  | nil => simp [List.lookup]
  | cons a l ih =>
    obtain ⟨k, r⟩ := a
    by_cases hk : k = j
    · subst hk
      have hf : ((k, r) :: l).filter (fun p => p.1 != k) = l.filter (fun p => p.1 != k) := by
        simp [List.filter]
      rw [hf, ih, lookup_cons_nat]
      by_cases h : i = k <;> simp [h]
    · have hf : ((k, r) :: l).filter (fun p => p.1 != j)
          = (k, r) :: l.filter (fun p => p.1 != j) := by
        have hb : (k != j) = true := by simpa using hk
        simp only [List.filter, hb]
      rw [hf, lookup_cons_nat, lookup_cons_nat, ih]
      by_cases h : i = k
      · subst h
        simp [hk]
      · simp [h]

theorem count_cons_nat (i j : Nat) (rest : List Nat) :
    (j :: rest).count i = rest.count i + (if i = j then 1 else 0) := by
  by_cases h : i = j
  · subst h
    simp
  · have h2 : j ≠ i := fun e => h e.symm
    simp [List.count_cons, h, h2]

/-- Filtering a duplicate-free list with a test that newly accepts `j` adds `j`. -/
theorem filter_insert_perm (l : List Nat) (hnd : l.Nodup) (j : Nat) (hj : j ∈ l)
    (p q : Nat → Bool) (hq : q j = true) (hp : p j = false)
    (hne : ∀ i, i ≠ j → q i = p i) : (l.filter q).Perm (j :: l.filter p) := by
  induction l with
  | nil => simp at hj
  | cons a l ih =>
    rw [List.nodup_cons] at hnd
    by_cases ha : a = j
    · subst ha
      have hsame : l.filter q = l.filter p := by
        apply List.filter_congr
        intro i hi
        exact hne i (fun e => hnd.1 (e ▸ hi))
      simp [List.filter, hq, hp, hsame]
    · have hjl : j ∈ l := by
        rcases List.mem_cons.mp hj with h | h
        · exact absurd h.symm ha
        · exact h
      have ih2 := ih hnd.2 hjl
      have hqa : q a = p a := hne a ha
      cases hpa : p a with
      | false =>
        have : q a = false := by rw [hqa, hpa]
        simpa [List.filter, hpa, this] using ih2
      | true =>
        have : q a = true := by rw [hqa, hpa]
        simp only [List.filter, hpa, this]
        exact (List.Perm.cons a ih2).trans (List.Perm.swap j a _)

theorem step_fetch (env : Env) (ids : List Int) (ds : String) (rd : Time) (exp : Option Time)
    (st : ParState) (j : Nat) (id : Int) (h1 : ids.get? j = some id)
    (h2 : st.waiting.lookup j = none) :
    fetchPlayersParallel.step env ids ds rd exp st j =
      { st with
        w := st.w.log (.upstreamGetPlayer id ds)
        waiting := (j, env.upstreamGetPlayer st.w.trace id ds) :: st.waiting } := by
  unfold fetchPlayersParallel.step
  rw [h1]
  dsimp only
  rw [h2]

theorem step_error (env : Env) (ids : List Int) (ds : String) (rd : Time) (exp : Option Time)
    (st : ParState) (j : Nat) (id : Int) (err : GoError) (h1 : ids.get? j = some id)
    (h2 : st.waiting.lookup j = some (.error err)) :
    fetchPlayersParallel.step env ids ds rd exp st j =
      { st with
        waiting := st.waiting.filter (fun p => p.1 != j)
        errors := sliceAppend st.errors { ID := id, Error := err.Error } } := by
  unfold fetchPlayersParallel.step
  rw [h1]
  dsimp only
  rw [h2]

theorem step_ok (env : Env) (ids : List Int) (ds : String) (rd : Time) (exp : Option Time)
    (st : ParState) (j : Nat) (id : Int) (player : PlayerInfo) (h1 : ids.get? j = some id)
    (h2 : st.waiting.lookup j = some (.ok player)) :
    fetchPlayersParallel.step env ids ds rd exp st j =
      { st with
        w := (PlayerRepository.Save env st.w player rd exp).1
        waiting := st.waiting.filter (fun p => p.1 != j)
        results := st.results.set id player } := by
  unfold fetchPlayersParallel.step
  rw [h1]
  dsimp only
  rw [h2]

theorem step_waiting_some (env : Env) (ids : List Int) (ds : String) (rd : Time)
    (exp : Option Time) (st : ParState) (j : Nat) (id : Int)
    (r : Except GoError PlayerInfo) (h1 : ids.get? j = some id)
    (h2 : st.waiting.lookup j = some r) :
    (fetchPlayersParallel.step env ids ds rd exp st j).waiting
      = st.waiting.filter (fun p => p.1 != j) := by
  cases r with
  | error err => rw [step_error env ids ds rd exp st j id err h1 h2]
  | ok player => rw [step_ok env ids ds rd exp st j id player h1 h2]

theorem idAt_of_lt (ids : List Int) (j : Nat) (h : j < ids.length) :
    ∃ id, ids.get? j = some id ∧ idAt ids j = id := by
  refine ⟨ids.get ⟨j, h⟩, List.get?_eq_get h, ?_⟩
  unfold idAt
  rw [List.get?_eq_get h]
  rfl

theorem RunCount_head_count {ids : List Int} {st : ParState} {j : Nat} {rest : List Nat}
    (h : RunCount ids st (j :: rest)) :
    (st.waiting.lookup j = none → rest.count j = 1) ∧
    (∀ r, st.waiting.lookup j = some r → rest.count j = 0) := by
  have hc := count_cons_nat j j rest
  rw [if_pos rfl] at hc
  constructor
  · intro hn
    rcases h.idle j hn with h2 | h0
    · omega
    · omega
  · intro r hr
    have := h.waiting j (by rw [hr]; rfl)
    omega

theorem RunCount_step (env : Env) (ids : List Int) (ds : String) (rd : Time)
    (exp : Option Time) (st : ParState) (j : Nat) (rest : List Nat)
    (h : RunCount ids st (j :: rest)) :
    RunCount ids (fetchPlayersParallel.step env ids ds rd exp st j) rest := by
  obtain ⟨id, hid, -⟩ := idAt_of_lt ids j (h.bound j (List.mem_cons_self _ _))
  have hcnt : ∀ i, i ≠ j → (j :: rest).count i = rest.count i := by
    intro i hi
    rw [count_cons_nat, if_neg hi, Nat.add_zero]
  cases hl : st.waiting.lookup j with
  | none =>
    have hj := (RunCount_head_count h).1 hl
    rw [step_fetch env ids ds rd exp st j id hid hl]
    refine ⟨fun i hi => h.bound i (List.mem_cons_of_mem _ hi), ?_, ?_⟩
    · intro i hi
      dsimp only at hi
      rw [lookup_cons_nat] at hi
      by_cases hij : i = j
      · rw [hij]; exact hj
      · rw [if_neg hij] at hi
        rw [← hcnt i hij]
        exact h.waiting i hi
    · intro i hi
      dsimp only at hi
      rw [lookup_cons_nat] at hi
      by_cases hij : i = j
      · rw [if_pos hij] at hi
        exact absurd hi (by simp)
      · rw [if_neg hij] at hi
        rw [← hcnt i hij]
        exact h.idle i hi
  | some r =>
    have hj := (RunCount_head_count h).2 r hl
    have hw := step_waiting_some env ids ds rd exp st j id r hid hl
    refine ⟨fun i hi => h.bound i (List.mem_cons_of_mem _ hi), ?_, ?_⟩
    · intro i hi
      rw [hw, lookup_filter_ne] at hi
      by_cases hij : i = j
      · rw [if_pos hij] at hi
        exact absurd hi (by simp)
      · rw [if_neg hij] at hi
        rw [← hcnt i hij]
        exact h.waiting i hi
    · intro i hi
      rw [hw, lookup_filter_ne] at hi
      by_cases hij : i = j
      · rw [hij]; exact Or.inr hj
      · rw [if_neg hij] at hi
        rw [← hcnt i hij]
        exact h.idle i hi

theorem RunCount_init (ids : List Int) (w : World) (sched : List Nat)
    (hs : Schedule ids.length sched) :
    RunCount ids { w := w, waiting := [], results := GoMap.empty, errors := none } sched := by
  have hc : ∀ i, sched.count i = (List.range ids.length).count i + (List.range ids.length).count i := by
    intro i
    rw [hs.count_eq, List.count_append]
  refine ⟨?_, ?_, ?_⟩
  · intro i hi
    have := hs.mem_iff.mp hi
    rw [List.mem_append, or_self, List.mem_range] at this
    exact this
  · intro i hi
    simp [List.lookup] at hi
  · intro i _
    rw [hc]
    by_cases hi : i < ids.length
    · left
      rw [List.count_eq_one_of_mem (List.nodup_range _) (List.mem_range.mpr hi)]
    · right
      rw [List.count_eq_zero_of_not_mem (by rwa [List.mem_range])]

theorem RunFetches_step (env : Env) (ids : List Int) (ds : String) (rd : Time)
    (exp : Option Time) (tr0 : List Event) (st : ParState) (j : Nat) (rest : List Nat)
    (hc : RunCount ids st (j :: rest)) (h : RunFetches ids ds tr0 st (j :: rest)) :
    RunFetches ids ds tr0 (fetchPlayersParallel.step env ids ds rd exp st j) rest := by
  have hjlt := hc.bound j (List.mem_cons_self _ _)
  obtain ⟨id, hid, hidAt⟩ := idAt_of_lt ids j hjlt
  have hcnt : ∀ i, i ≠ j → (j :: rest).count i = rest.count i := by
    intro i hi
    rw [count_cons_nat, if_neg hi, Nat.add_zero]
  have hcj := count_cons_nat j j rest
  rw [if_pos rfl] at hcj
  unfold RunFetches at h ⊢
  cases hl : st.waiting.lookup j with
  | none =>
    have hj := (RunCount_head_count hc).1 hl
    rw [step_fetch env ids ds rd exp st j id hid hl]
    have hperm := filter_insert_perm (List.range ids.length) (List.nodup_range _) j
      (List.mem_range.mpr hjlt) (fun i => decide ((j :: rest).count i ≠ 2))
      (fun i => decide (rest.count i ≠ 2)) (by simp [hj]) (by simp [hcj, hj])
      (fun i hi => by simp only [hcnt i hi])
    have hmap := hperm.map (fun i => Event.upstreamGetPlayer (idAt ids i) ds)
    rw [List.map_cons, hidAt] at hmap
    have hfil : (st.w.log (.upstreamGetPlayer id ds)).trace.filter Event.isFetch
        = st.w.trace.filter Event.isFetch ++ [.upstreamGetPlayer id ds] := by
      simp [log_trace, Event.isFetch]
    dsimp only
    rw [hfil]
    exact (List.perm_append_singleton _ _).trans
      (((List.Perm.cons _ h).trans List.perm_middle.symm).trans
        (List.Perm.append_left tr0 hmap.symm))
  | some r =>
    have hj := (RunCount_head_count hc).2 r hl
    have hsame : (List.range ids.length).filter (fun i => decide (rest.count i ≠ 2))
        = (List.range ids.length).filter (fun i => decide ((j :: rest).count i ≠ 2)) := by
      apply List.filter_congr
      intro i _
      by_cases hij : i = j
      · subst hij
        simp [hcj, hj]
      · rw [hcnt i hij]
    rw [hsame]
    cases r with
    | error err =>
      rw [step_error env ids ds rd exp st j id err hid hl]
      exact h
    | ok player =>
      rw [step_ok env ids ds rd exp st j id player hid hl]
      dsimp only
      rw [Save_trace]
      exact h

theorem RunState_step (env : Env) (ids : List Int) (ds : String) (rd : Time)
    (exp : Option Time) (fetch : Int → Except GoError PlayerInfo)
    (hdet : ∀ t, ∀ id ∈ ids, env.upstreamGetPlayer t id ds = fetch id)
    (st : ParState) (j : Nat) (rest : List Nat)
    (hc : RunCount ids st (j :: rest)) (h : RunState ids fetch st (j :: rest)) :
    RunState ids fetch (fetchPlayersParallel.step env ids ds rd exp st j) rest := by
  have hjlt := hc.bound j (List.mem_cons_self _ _)
  obtain ⟨id, hid, hidAt⟩ := idAt_of_lt ids j hjlt
  have hmem : id ∈ ids := List.get?_mem hid
  have hcnt : ∀ i, i ≠ j → (j :: rest).count i = rest.count i := by
    intro i hi
    rw [count_cons_nat, if_neg hi, Nat.add_zero]
  have hcj := count_cons_nat j j rest
  rw [if_pos rfl] at hcj
  -- the characterisation of `results` moves along when the head goroutine is not through
  have hres_same : rest.count j ≠ 0 → ∀ id1 p,
      (∃ i, ids.get? i = some id1 ∧ (j :: rest).count i = 0 ∧ fetch id1 = .ok p) ↔
      (∃ i, ids.get? i = some id1 ∧ rest.count i = 0 ∧ fetch id1 = .ok p) := by
    intro hne id1 p
    constructor
    · rintro ⟨i, h1, h2, h3⟩
      have hij : i ≠ j := by
        rintro rfl
        omega
      exact ⟨i, h1, by rw [← hcnt i hij]; exact h2, h3⟩
    · rintro ⟨i, h1, h2, h3⟩
      have hij : i ≠ j := by
        rintro rfl
        exact hne h2
      exact ⟨i, h1, by rw [hcnt i hij]; exact h2, h3⟩
  cases hl : st.waiting.lookup j with
  | none =>
    have hj := (RunCount_head_count hc).1 hl
    rw [step_fetch env ids ds rd exp st j id hid hl]
    refine ⟨?_, ?_, ?_⟩
    · intro i r hi
      dsimp only at hi
      rw [lookup_cons_nat] at hi
      by_cases hij : i = j
      · rw [if_pos hij] at hi
        rw [hij, hidAt, ← Option.some.inj hi]
        exact hdet _ id hmem
      · rw [if_neg hij] at hi
        exact h.vals i r hi
    · intro id1 p
      rw [← hres_same (by omega) id1 p]
      exact h.results id1 p
    · have hsame : (List.range ids.length).filter
            (fun i => decide (rest.count i = 0) && failedCall (fetch (idAt ids i)))
          = (List.range ids.length).filter
            (fun i => decide ((j :: rest).count i = 0) && failedCall (fetch (idAt ids i))) := by
        apply List.filter_congr
        intro i _
        by_cases hij : i = j
        · subst hij
          simp [hcj, hj]
        · rw [hcnt i hij]
      rw [hsame]
      exact h.errors
  | some r =>
    have hj := (RunCount_head_count hc).2 r hl
    have hr : r = fetch id := by rw [← hidAt]; exact h.vals j r hl
    have hvals : ∀ i r1, (st.waiting.filter (fun p => p.1 != j)).lookup i = some r1 →
        r1 = fetch (idAt ids i) := by
      intro i r1 hi
      rw [lookup_filter_ne] at hi
      by_cases hij : i = j
      · rw [if_pos hij] at hi
        exact absurd hi (by simp)
      · rw [if_neg hij] at hi
        exact h.vals i r1 hi
    cases r with
    | error err =>
      rw [step_error env ids ds rd exp st j id err hid hl]
      refine ⟨hvals, ?_, ?_⟩
      · intro id1 p
        dsimp only
        rw [h.results id1 p]
        constructor
        · rintro ⟨i, h1, h2, h3⟩
          have hij : i ≠ j := by
            rintro rfl
            omega
          exact ⟨i, h1, by rw [← hcnt i hij]; exact h2, h3⟩
        · rintro ⟨i, h1, h2, h3⟩
          have hij : i ≠ j := by
            rintro rfl
            rw [hid] at h1
            rw [← Option.some.inj h1, ← hr] at h3
            exact absurd h3 (by simp)
          exact ⟨i, h1, by rw [hcnt i hij]; exact h2, h3⟩
      · have hperm := filter_insert_perm (List.range ids.length) (List.nodup_range _) j
          (List.mem_range.mpr hjlt)
          (fun i => decide ((j :: rest).count i = 0) && failedCall (fetch (idAt ids i)))
          (fun i => decide (rest.count i = 0) && failedCall (fetch (idAt ids i)))
          (by simp [hj, hidAt, ← hr, failedCall]) (by simp [hcj, hj])
          (fun i hi => by simp only [hcnt i hi])
        have hmap := hperm.map
          (fun i => ({ ID := idAt ids i, Error := errorTextOf (fetch (idAt ids i)) } : PlayerError))
        rw [List.map_cons, hidAt, ← hr] at hmap
        dsimp only [sliceAppend, Option.getD_some, errorTextOf] at hmap ⊢
        exact (List.perm_append_singleton _ _).trans
          ((List.Perm.cons _ h.errors).trans hmap.symm)
    | ok player =>
      rw [step_ok env ids ds rd exp st j id player hid hl]
      refine ⟨hvals, ?_, ?_⟩
      · intro id1 p
        dsimp only [GoMap.set]
        by_cases hid1 : id1 = id
        · subst hid1
          rw [if_pos rfl]
          constructor
          · intro hp
            exact ⟨j, hid, hj, by rw [← hr, ← Option.some.inj hp]⟩
          · rintro ⟨i, _, _, h3⟩
            rw [← hr] at h3
            rw [Except.ok.inj h3]
        · rw [if_neg hid1, h.results id1 p]
          constructor
          · rintro ⟨i, h1, h2, h3⟩
            have hij : i ≠ j := by
              rintro rfl
              omega
            exact ⟨i, h1, by rw [← hcnt i hij]; exact h2, h3⟩
          · rintro ⟨i, h1, h2, h3⟩
            have hij : i ≠ j := by
              rintro rfl
              rw [hid] at h1
              exact hid1 (Option.some.inj h1).symm
            exact ⟨i, h1, by rw [hcnt i hij]; exact h2, h3⟩
      · have hsame : (List.range ids.length).filter
              (fun i => decide (rest.count i = 0) && failedCall (fetch (idAt ids i)))
            = (List.range ids.length).filter
              (fun i => decide ((j :: rest).count i = 0) && failedCall (fetch (idAt ids i))) := by
          apply List.filter_congr
          intro i _
          by_cases hij : i = j
          · subst hij
            simp [hcj, hj, hidAt, ← hr, failedCall]
          · rw [hcnt i hij]
        rw [hsame]
        exact h.errors

theorem run_count (env : Env) (ids : List Int) (ds : String) (rd : Time) (exp : Option Time) :
    ∀ (rest : List Nat) (st : ParState), RunCount ids st rest →
      RunCount ids (rest.foldl (fetchPlayersParallel.step env ids ds rd exp) st) [] := by
  intro rest
  induction rest with
  | nil => intro st h; exact h
  | cons j rest ih =>
    intro st h
    exact ih _ (RunCount_step env ids ds rd exp st j rest h)

theorem run_fetches (env : Env) (ids : List Int) (ds : String) (rd : Time) (exp : Option Time)
    (tr0 : List Event) :
    ∀ (rest : List Nat) (st : ParState), RunCount ids st rest → RunFetches ids ds tr0 st rest →
      RunFetches ids ds tr0 (rest.foldl (fetchPlayersParallel.step env ids ds rd exp) st) [] := by
  intro rest
  induction rest with
  | nil => intro st _ h; exact h
  | cons j rest ih =>
    intro st hc h
    exact ih _ (RunCount_step env ids ds rd exp st j rest hc)
      (RunFetches_step env ids ds rd exp tr0 st j rest hc h)

theorem run_state (env : Env) (ids : List Int) (ds : String) (rd : Time) (exp : Option Time)
    (fetch : Int → Except GoError PlayerInfo)
    (hdet : ∀ t, ∀ id ∈ ids, env.upstreamGetPlayer t id ds = fetch id) :
    ∀ (rest : List Nat) (st : ParState), RunCount ids st rest → RunState ids fetch st rest →
      RunState ids fetch (rest.foldl (fetchPlayersParallel.step env ids ds rd exp) st) [] := by
  intro rest
  induction rest with
  | nil => intro st _ h; exact h
  | cons j rest ih =>
    intro st hc h
    exact ih _ (RunCount_step env ids ds rd exp st j rest hc)
      (RunState_step env ids ds rd exp fetch hdet st j rest hc h)

theorem Schedule_count_two {n : Nat} {sched : List Nat} (hs : Schedule n sched) (i : Nat)
    (hi : i < n) : sched.count i = 2 := by
  rw [hs.count_eq, List.count_append,
    List.count_eq_one_of_mem (List.nodup_range _) (List.mem_range.mpr hi)]

theorem map_idAt_range (ids : List Int) : (List.range ids.length).map (idAt ids) = ids := by
  apply List.ext_get
  · simp
  · intro i h1 h2
    obtain ⟨id, hid, hidAt⟩ := idAt_of_lt ids i h2
    simp only [List.get_eq_getElem, List.getElem_map, List.getElem_range]
    rw [hidAt]
    have := List.get?_eq_get h2
    rw [hid] at this
    exact Option.some.inj this

theorem map_filter_idAt {β : Type} (ids : List Int) (q : Int → Bool) (g : Int → β) :
    ((List.range ids.length).filter (fun i => q (idAt ids i))).map (fun i => g (idAt ids i))
      = (ids.filter q).map g := by
  have h := map_idAt_range ids
  conv_rhs => rw [← h]
  rw [List.filter_map, List.map_map]
  rfl

/-- The upstream calls of `fetchPlayersParallel`: one for each position of
`memberIDs`, whatever the calls return. -/
theorem fetchPlayersParallel_fetches (env : Env) (w : World) (ids : List Int) (date rd : Time)
    (hs : env.Completes) :
    ((PlayerService.fetchPlayersParallel env w ids date rd).1.trace.filter Event.isFetch).Perm
      (w.trace.filter Event.isFetch ++
        ids.map (fun id => Event.upstreamGetPlayer id date.FormatDate)) := by
  unfold PlayerService.fetchPlayersParallel
  have hw := determineTTL_trace env w rd
  rcases hT : PlayerService.determineTTL env w rd with ⟨w1, exp⟩
  rw [hT] at hw
  dsimp only at hw ⊢
  have hsched := hs w1.trace ids.length
  have hc := RunCount_init ids w1 _ hsched
  have hinit : RunFetches ids date.FormatDate (w.trace.filter Event.isFetch)
      { w := w1, waiting := [], results := GoMap.empty, errors := none }
      (env.schedule w1.trace ids.length) := by
    unfold RunFetches
    have hnil : (List.range ids.length).filter
        (fun i => decide ((env.schedule w1.trace ids.length).count i ≠ 2)) = [] := by
      rw [List.filter_eq_nil_iff]
      intro i hi
      simp [Schedule_count_two hsched i (List.mem_range.mp hi)]
    rw [hnil, hw]
    simp [log_trace, Event.isFetch]
  have hfin := run_fetches env ids date.FormatDate rd exp _ _ _ hc hinit
  unfold RunFetches at hfin
  have hall : (List.range ids.length).filter (fun i => decide (([] : List Nat).count i ≠ 2))
      = List.range ids.length := by
    rw [List.filter_eq_self]
    intro i _
    simp
  rw [hall] at hfin
  have hmap : (List.range ids.length).map
      (fun i => Event.upstreamGetPlayer (idAt ids i) date.FormatDate)
      = ids.map (fun id => Event.upstreamGetPlayer id date.FormatDate) := by
    conv_rhs => rw [← map_idAt_range ids]
    rw [List.map_map]
    rfl
  rw [hmap] at hfin
  exact hfin

/-- The outcome of `fetchPlayersParallel` against an upstream that answers each id
of the list with `fetch id`: `results` holds the payloads of the ids whose call
succeeds, and `errors` holds one entry for each position whose call fails. -/
theorem fetchPlayersParallel_outcome (env : Env) (w : World) (ids : List Int) (date rd : Time)
    (fetch : Int → Except GoError PlayerInfo) (hs : env.Completes)
    (hdet : ∀ t, ∀ id ∈ ids, env.upstreamGetPlayer t id date.FormatDate = fetch id) :
    (∀ id p, (PlayerService.fetchPlayersParallel env w ids date rd).2.1 id = some p ↔
      id ∈ ids ∧ fetch id = .ok p) ∧
    ((PlayerService.fetchPlayersParallel env w ids date rd).2.2.getD []).Perm
      ((ids.filter (fun id => failedCall (fetch id))).map
        (fun id => { ID := id, Error := errorTextOf (fetch id) })) := by
  unfold PlayerService.fetchPlayersParallel
  rcases hT : PlayerService.determineTTL env w rd with ⟨w1, exp⟩
  dsimp only
  have hsched := hs w1.trace ids.length
  have hc := RunCount_init ids w1 _ hsched
  have hinit : RunState ids fetch
      { w := w1, waiting := [], results := GoMap.empty, errors := none }
      (env.schedule w1.trace ids.length) := by
    refine ⟨?_, ?_, ?_⟩
    · intro i r hi
      simp [List.lookup] at hi
    · intro id p
      constructor
      · intro h
        simp [GoMap.empty] at h
      · rintro ⟨i, h1, h2, _⟩
        have hlt : i < ids.length := by
          by_contra hge
          rw [List.get?_eq_none.mpr (by omega)] at h1
          simp at h1
        rw [Schedule_count_two hsched i hlt] at h2
        omega
    · have hnil : (List.range ids.length).filter
          (fun i => decide ((env.schedule w1.trace ids.length).count i = 0) &&
            failedCall (fetch (idAt ids i))) = [] := by
        rw [List.filter_eq_nil_iff]
        intro i hi
        simp [Schedule_count_two hsched i (List.mem_range.mp hi)]
      rw [hnil]
      exact List.Perm.refl _
  have hfin := run_state env ids date.FormatDate rd exp fetch hdet _ _ hc hinit
  constructor
  · intro id p
    rw [hfin.results id p]
    constructor
    · rintro ⟨i, h1, _, h3⟩
      exact ⟨List.get?_mem h1, h3⟩
    · rintro ⟨h1, h3⟩
      obtain ⟨i, hi⟩ := List.mem_iff_get?.mp h1
      exact ⟨i, hi, List.count_nil _, h3⟩
  · have herr := hfin.errors
    have hsimp : (List.range ids.length).filter
        (fun i => decide (([] : List Nat).count i = 0) && failedCall (fetch (idAt ids i)))
        = (List.range ids.length).filter (fun i => failedCall (fetch (idAt ids i))) := by
      apply List.filter_congr
      intro i _
      simp
    rw [hsimp, map_filter_idAt ids (fun id => failedCall (fetch id))
      (fun id => ({ ID := id, Error := errorTextOf (fetch id) } : PlayerError))] at herr
    exact herr

theorem GetBatch_world (env : Env) (w : World) (ids : List Int) (rd : Time) :
    (PlayerRepository.GetBatch env w ids rd).1 = w.log (.repoGetBatch ids rd) := by
  unfold PlayerRepository.GetBatch
  dsimp only
  split
  · rfl
  · split <;> rfl

/-- Method `GetPlayers`, with the parts of its result named. -/
theorem GetPlayers_eq (env : Env) (w : World) (ids : List Int) (date : Time) :
    PlayerService.GetPlayers env w ids date =
      if (ids.filter (fun id => (batchHits env w ids date id).isNone)).length > 0 then
        ((PlayerService.fetchPlayersParallel env
            (w.log (.repoGetBatch ids (normalizeToMonthStart date)))
            (ids.filter (fun id => (batchHits env w ids date id).isNone)) date
            (normalizeToMonthStart date)).1,
          some
            { Players := some (ids.filterMap (fun id =>
                ((PlayerService.fetchPlayersParallel env
                  (w.log (.repoGetBatch ids (normalizeToMonthStart date)))
                  (ids.filter (fun id => (batchHits env w ids date id).isNone)) date
                  (normalizeToMonthStart date)).2.1 id).orElse
                  (fun _ => batchHits env w ids date id)))
              Errors := (PlayerService.fetchPlayersParallel env
                (w.log (.repoGetBatch ids (normalizeToMonthStart date)))
                (ids.filter (fun id => (batchHits env w ids date id).isNone)) date
                (normalizeToMonthStart date)).2.2 },
          none)
      else
        (w.log (.repoGetBatch ids (normalizeToMonthStart date)),
          some { Players := some (ids.filterMap (batchHits env w ids date)), Errors := none },
          none) := by
  have hw := GetBatch_world env w ids (normalizeToMonthStart date)
  have hb : batchHits env w ids date
      = (if (PlayerRepository.GetBatch env w ids (normalizeToMonthStart date)).2.2.isSome
          then GoMap.empty
          else (PlayerRepository.GetBatch env w ids (normalizeToMonthStart date)).2.1.getD
            GoMap.empty) := rfl
  rw [hb]
  unfold PlayerService.GetPlayers
  dsimp only
  generalize PlayerRepository.GetBatch env w ids (normalizeToMonthStart date) = g at hw ⊢
  obtain ⟨w1, c, e⟩ := g
  dsimp only at hw ⊢
  subst hw
  split <;> rfl

/-- Claim C6: for a list of distinct member ids none of which is a cache hit, and an
upstream that answers the id `id` with `fetch id`, `GetPlayers` returns a response
whose `Players` are the payloads of the succeeding ids in input order, and whose
`Errors` are, up to their order, one entry for each failing id, with that id and
the text of its error, and no other entry. -/
theorem GetPlayers_partial_failure (env : Env) (w : World) (ids : List Int) (date : Time)
    (fetch : Int → Except GoError PlayerInfo)
    (hs : env.Completes)
    (hnodup : ids.Nodup)
    (hmiss : ∀ id ∈ ids, batchHits env w ids date id = none)
    (hdet : ∀ t, ∀ id ∈ ids, env.upstreamGetPlayer t id date.FormatDate = fetch id) :
    ∃ resp, (PlayerService.GetPlayers env w ids date).2 = (some resp, none) ∧
      resp.Players = some (ids.filterMap (fun id => payloadOf (fetch id))) ∧
      (resp.Errors.getD []).Perm
        ((ids.filter (fun id => failedCall (fetch id))).map
          (fun id => { ID := id, Error := errorTextOf (fetch id) })) ∧
      ((resp.Errors.getD []).map PlayerError.ID).Nodup := by
  have hall : ids.filter (fun id => (batchHits env w ids date id).isNone) = ids := by
    rw [List.filter_eq_self]
    intro id hid
    rw [hmiss id hid]
    rfl
  rw [GetPlayers_eq, hall]
  have hnd : ∀ l : List PlayerError,
      l.Perm ((ids.filter (fun id => failedCall (fetch id))).map
        (fun id => { ID := id, Error := errorTextOf (fetch id) })) →
      (l.map PlayerError.ID).Nodup := by
    intro l hl
    rw [(hl.map PlayerError.ID).nodup_iff, List.map_map]
    have : (PlayerError.ID ∘ fun id => ({ ID := id, Error := errorTextOf (fetch id) } : PlayerError))
        = id := rfl
    rw [this, List.map_id]
    exact hnodup.filter _
  by_cases hlen : ids.length > 0
  · rw [if_pos hlen]
    obtain ⟨hres, herr⟩ := fetchPlayersParallel_outcome env
      (w.log (.repoGetBatch ids (normalizeToMonthStart date))) ids date
      (normalizeToMonthStart date) fetch hs hdet
    refine ⟨_, rfl, ?_, herr, hnd _ herr⟩
    dsimp only
    congr 1
    apply List.filterMap_congr
    intro id hid
    rw [hmiss id hid]
    cases hf : fetch id with
    | error e =>
      have hn : (PlayerService.fetchPlayersParallel env
          (w.log (.repoGetBatch ids (normalizeToMonthStart date))) ids date
          (normalizeToMonthStart date)).2.1 id = none := by
        rw [Option.eq_none_iff_forall_not_mem]
        intro p hp
        have := ((hres id p).mp hp).2
        rw [hf] at this
        exact absurd this (by simp)
      rw [hn]
      rfl
    | ok p =>
      rw [(hres id p).mpr ⟨hid, hf⟩]
      rfl
  · rw [if_neg hlen]
    have hnil : ids = [] := List.eq_nil_of_length_eq_zero (by omega)
    subst hnil
    exact ⟨_, rfl, rfl, List.Perm.refl _, by simp⟩

/-- Witness of C6: the batch `[1, 2, 3]` on the empty store, with an upstream that
fails for member 2. -/
theorem GetPlayers_partial_failure_witness :
    (∀ id ∈ [1, 2, 3], batchHits partialEnv emptyWorld [1, 2, 3] june15 id = none) ∧
    ∃ resp, (PlayerService.GetPlayers partialEnv emptyWorld [1, 2, 3] june15).2
        = (some resp, none) ∧
      resp.Players = some [samplePlayer 1, samplePlayer 3] ∧
      (resp.Errors.getD []).Perm [{ ID := 2, Error := "upstream error: status=404 body=" }] :=
  have h := GetPlayers_partial_failure partialEnv emptyWorld [1, 2, 3] june15
    (fun id => if id = 2 then .error (.errorString "upstream error: status=404 body=")
      else .ok (samplePlayer id))
    (fun _ _ => List.Perm.refl _) (by decide) (by decide) (fun _ _ _ => rfl)
  ⟨by decide, h.imp (fun _ hr => ⟨hr.1, hr.2.1, hr.2.2.1⟩)⟩

theorem GetPlayers_error_nil (env : Env) (w : World) (ids : List Int) (date : Time) :
    (PlayerService.GetPlayers env w ids date).2.2 = none := by
  rw [GetPlayers_eq]
  split <;> rfl

/-- Claim C9: `GetPlayers` never reports an overall failure.  For every input list
and every environment (so for every outcome of the store read, of each fetch and
of each `Save`, and for every interleaving) it returns a non-nil response with a
non-nil `Players` list and a nil error. -/
theorem GetPlayers_never_fails (env : Env) (w : World) (ids : List Int) (date : Time) :
    ∃ (resp : PlayersResponse) (players : List PlayerInfo),
      (PlayerService.GetPlayers env w ids date).2 = (some resp, none) ∧
      resp.Players = some players := by
  rw [GetPlayers_eq]
  split
  · exact ⟨_, _, rfl, rfl⟩
  · exact ⟨_, _, rfl, rfl⟩

/-- Claim C8: in `GetPlayers` the upstream is called exactly for the requested ids
that are not cache hits.  The upstream calls added to the trace are, up to
their order, one call for each position of `memberIDs` whose id is not a hit
(the cache hits are the map that `GetBatch` returned without error).  So an id
that is a hit causes no call, an id that is not causes one call for each time it
is requested, and this holds whatever the calls return: a failing fetch does
not keep any other fetch from being made. -/
theorem GetPlayers_fetches_only_missing (env : Env) (w : World) (ids : List Int) (date : Time)
    (hs : env.Completes) :
    ((PlayerService.GetPlayers env w ids date).1.trace.filter Event.isFetch).Perm
      (w.trace.filter Event.isFetch ++
        (ids.filter (fun id => (batchHits env w ids date id).isNone)).map
          (fun id => Event.upstreamGetPlayer id date.FormatDate)) ∧
    ∀ id, ((PlayerService.GetPlayers env w ids date).1.trace.filter Event.isFetch).count
        (Event.upstreamGetPlayer id date.FormatDate)
      = (w.trace.filter Event.isFetch).count (Event.upstreamGetPlayer id date.FormatDate) +
        (if (batchHits env w ids date id).isNone then ids.count id else 0) := by
  have hperm : ((PlayerService.GetPlayers env w ids date).1.trace.filter Event.isFetch).Perm
      (w.trace.filter Event.isFetch ++
        (ids.filter (fun id => (batchHits env w ids date id).isNone)).map
          (fun id => Event.upstreamGetPlayer id date.FormatDate)) := by
    rw [GetPlayers_eq]
    by_cases hlen : (ids.filter (fun id => (batchHits env w ids date id).isNone)).length > 0
    · rw [if_pos hlen]
      have h := fetchPlayersParallel_fetches env
        (w.log (.repoGetBatch ids (normalizeToMonthStart date)))
        (ids.filter (fun id => (batchHits env w ids date id).isNone)) date
        (normalizeToMonthStart date) hs
      have hlog : (w.log (.repoGetBatch ids (normalizeToMonthStart date))).trace.filter
          Event.isFetch = w.trace.filter Event.isFetch := by
        simp [log_trace, Event.isFetch]
      rw [hlog] at h
      exact h
    · rw [if_neg hlen]
      have hnil : ids.filter (fun id => (batchHits env w ids date id).isNone) = [] :=
        List.eq_nil_of_length_eq_zero (by omega)
      rw [hnil]
      simp [log_trace, Event.isFetch]
  refine ⟨hperm, ?_⟩
  intro id
  rw [hperm.count_eq, List.count_append]
  congr 1
  have hinj : Function.Injective (fun id => Event.upstreamGetPlayer id date.FormatDate) := by
    intro a b hab
    injection hab
  rw [List.count_map_of_injective _ _ hinj]
  cases hb : (batchHits env w ids date id).isNone with
  | true =>
    rw [if_pos rfl]
    exact List.count_filter (by simpa using hb)
  | false =>
    rw [if_neg (by simp)]
    apply List.count_eq_zero_of_not_mem
    intro hmem
    rw [List.mem_filter, hb] at hmem
    exact absurd hmem.2 (by simp)

/-- Witness of C8: the batch `[12345, 2, 3]` on the sample store, which holds member
12345, with an upstream that fails for member 2: members 2 and 3 are fetched. -/
theorem GetPlayers_fetches_only_missing_witness :
    ((PlayerService.GetPlayers partialEnv sampleWorld [12345, 2, 3] june15).1.trace.filter
      Event.isFetch).Perm
      [.upstreamGetPlayer 2 "2024-06-15", .upstreamGetPlayer 3 "2024-06-15"] :=
  (GetPlayers_fetches_only_missing partialEnv sampleWorld [12345, 2, 3] june15
    (fun _ _ => List.Perm.refl _)).1.trans (List.Perm.of_eq (by decide))

/-! ## The batch handler -/

theorem parseIDs_empty : parseIDs "" = .ok [] := rfl

/-- Claim C10: the batch handler rejects an over-sized batch before any I/O.  When
the `ids` value parses to more than 100 ids, `PlayerHandler.GetPlayers` answers
with status 400 and leaves the world as it was: it makes no external call at all,
so the service, the store and the upstream are not called.  When it parses to
exactly 100 ids the size check lets it through: the handler calls the service
with the parsed ids and answers with status 200. -/
theorem GetPlayers_handler_batch_limit (env : Env) (w : World) (idsStr dateStr : String)
    (ids : List Int) (hparse : parseIDs idsStr = .ok ids) :
    (ids.length > 100 →
      PlayerHandler.GetPlayers env w idsStr dateStr
        = (w, { status := 400,
                body := .error { Error := "maximum 100 ids allowed", Code := 400 } })) ∧
    (ids.length = 100 →
      (PlayerHandler.GetPlayers env w idsStr dateStr).1
        = (PlayerService.GetPlayers env (parseDate env w dateStr).1 ids
            (parseDate env w dateStr).2).1 ∧
      (PlayerHandler.GetPlayers env w idsStr dateStr).2
        = { status := 200,
            body := .players (PlayerService.GetPlayers env (parseDate env w dateStr).1 ids
              (parseDate env w dateStr).2).2.1 }) := by
  have hne : ids.length ≥ 100 → idsStr ≠ "" := by
    intro hlen he
    rw [he, parseIDs_empty] at hparse
    injection hparse with h
    rw [← h] at hlen
    simp at hlen
  constructor
  · intro hlen
    have h0 : ¬ ids.length = 0 := by omega
    unfold PlayerHandler.GetPlayers
    rw [if_neg (hne (by omega)), hparse]
    dsimp only
    rw [if_neg h0, if_pos hlen]
    rfl
  · intro hlen
    have h0 : ¬ ids.length = 0 := by omega
    have h100 : ¬ ids.length > 100 := by omega
    have hr := GetPlayers_error_nil env (parseDate env w dateStr).1 ids
      (parseDate env w dateStr).2
    unfold PlayerHandler.GetPlayers
    rw [if_neg (hne (by omega)), hparse]
    dsimp only
    rw [if_neg h0, if_neg h100]
    rcases hP : PlayerService.GetPlayers env (parseDate env w dateStr).1 ids
      (parseDate env w dateStr).2 with ⟨w2, r, e⟩
    rw [hP] at hr
    dsimp only at hr
    subst hr
    exact ⟨rfl, rfl⟩

/-- Witness of C10: 101 ids are rejected without any call, and 100 ids are served. -/
theorem GetPlayers_handler_batch_limit_witness :
    PlayerHandler.GetPlayers sampleEnv emptyWorld (manyIDs 101) "2024-06-15"
      = (emptyWorld, { status := 400,
                       body := .error { Error := "maximum 100 ids allowed", Code := 400 } }) ∧
    (PlayerHandler.GetPlayers sampleEnv emptyWorld (manyIDs 100) "2024-06-15").2.status = 200 :=
  ⟨(GetPlayers_handler_batch_limit sampleEnv emptyWorld (manyIDs 101) "2024-06-15"
      (List.replicate 101 7) rfl).1 (by decide),
    congrArg HTTPResponse.status
      ((GetPlayers_handler_batch_limit sampleEnv emptyWorld (manyIDs 100) "2024-06-15"
        (List.replicate 100 7) rfl).2 (by decide)).2⟩

theorem yearDays_step (y : Int) :
    (y / 400) * 146097 + ((y % 400) * 365 + (y % 400) / 4 - (y % 400) / 100)
      = ((y - 1) / 400) * 146097 + (((y - 1) % 400) * 365 + ((y - 1) % 400) / 4
          - ((y - 1) % 400) / 100) + 365
        + (if y % 4 = 0 ∧ (y % 100 ≠ 0 ∨ y % 400 = 0) then 1 else 0) := by
  by_cases h0 : y % 400 = 0
  · have e1 : (y - 1) / 400 = y / 400 - 1 := by omega
    have e2 : (y - 1) % 400 = 399 := by omega
    rw [e1, e2, h0, if_pos (by omega)]
    omega
  · have e1 : (y - 1) / 400 = y / 400 := by omega
    have e2 : (y - 1) % 400 = y % 400 - 1 := by omega
    rw [e1, e2]
    by_cases hl : y % 4 = 0 ∧ (y % 100 ≠ 0 ∨ y % 400 = 0)
    · rw [if_pos hl]
      omega
    · rw [if_neg hl]
      omega

/-- The first day of the next month lies `daysIn` days behind the first day of a
month. -/
theorem daysFromCivil_next_month (y m : Int) (hm1 : 1 ≤ m) (hm12 : m ≤ 12) :
    daysFromCivil (y + m / 12) (m % 12 + 1) 1 = daysFromCivil y m 1 + daysIn m y := by
  have hmc : m = 1 ∨ m = 2 ∨ m = 3 ∨ m = 4 ∨ m = 5 ∨ m = 6 ∨ m = 7 ∨ m = 8 ∨ m = 9 ∨
      m = 10 ∨ m = 11 ∨ m = 12 := by omega
  rw [daysIn_eq]
  have hy := yearDays_step y
  unfold daysFromCivil
  rcases hmc with rfl | rfl | rfl | rfl | rfl | rfl | rfl | rfl | rfl | rfl | rfl | rfl
  all_goals norm_num
  all_goals omega

theorem normalizeToMonthStart_eq_monthStart (t : Time) :
    normalizeToMonthStart t = monthStart t.monthIndex := by
  have hm := Month_range t
  unfold normalizeToMonthStart monthStart Time.monthIndex
  have h1 : (t.Year * 12 + (t.Month - 1)) / 12 = t.Year := by omega
  have h2 : (t.Year * 12 + (t.Month - 1)) % 12 + 1 = t.Month := by omega
  rw [h1, h2]

theorem monthStart_fields (k : Int) :
    (monthStart k).Year = k / 12 ∧ (monthStart k).Month = k % 12 + 1 ∧
    (monthStart k).Day = 1 ∧ (monthStart k).offset = 0 ∧
    (monthStart k).unixNano
      = daysFromCivil (k / 12) (k % 12 + 1) 1 * (secondsPerDay * nanosPerSecond) :=
  Date_first_fields (k / 12) (k % 12 + 1) (by omega) (by omega)

theorem monthStart_monthIndex (k : Int) : (monthStart k).monthIndex = k := by
  have h := monthStart_fields k
  unfold Time.monthIndex
  rw [h.1, h.2.1]
  omega

theorem monthStart_clock (k : Int) :
    (monthStart k).Hour = 0 ∧ (monthStart k).Minute = 0 ∧ (monthStart k).Second = 0 ∧
    (monthStart k).Nanosecond = 0 := by
  have h := monthStart_fields k
  unfold Time.Hour Time.Minute Time.Second Time.Nanosecond Time.localSeconds
  rw [h.2.2.2.1, h.2.2.2.2]
  unfold secondsPerDay nanosPerSecond
  generalize daysFromCivil (k / 12) (k % 12 + 1) 1 = D
  refine ⟨?_, ?_, ?_, ?_⟩ <;> omega

theorem monthStart_AddDate (k : Int) : (monthStart k).AddDate 0 1 0 = monthStart (k + 1) := by
  have h := monthStart_fields k
  have hc := monthStart_clock k
  unfold Time.AddDate
  rw [h.1, h.2.1, h.2.2.1, h.2.2.2.1, hc.1, hc.2.1, hc.2.2.1, hc.2.2.2]
  unfold monthStart time.Date UTC
  have e1 : k / 12 + 0 + (k % 12 + 1 + 1 - 1) / 12 = (k + 1) / 12 + ((k + 1) % 12 + 1 - 1) / 12 := by
    omega
  have e2 : (k % 12 + 1 + 1 - 1) % 12 + 1 = ((k + 1) % 12 + 1 - 1) % 12 + 1 := by omega
  simp only [e1, e2]
  rfl

theorem monthStart_step (k : Int) :
    (monthStart (k + 1)).unixNano = (monthStart k).unixNano +
      daysIn (k % 12 + 1) (k / 12) * (secondsPerDay * nanosPerSecond) := by
  have h := daysFromCivil_next_month (k / 12) (k % 12 + 1) (by omega) (by omega)
  have e1 : k / 12 + (k % 12 + 1) / 12 = (k + 1) / 12 := by omega
  have e2 : (k % 12 + 1) % 12 + 1 = (k + 1) % 12 + 1 := by omega
  rw [e1, e2] at h
  rw [(monthStart_fields (k + 1)).2.2.2.2, (monthStart_fields k).2.2.2.2, h]
  ring

theorem daysIn_bounds (m y : Int) : 28 ≤ daysIn m y ∧ daysIn m y ≤ 31 := by
  rw [daysIn_eq]
  split
  · split <;> omega
  · split <;> omega

theorem monthStart_add_ge (k : Int) (n : Nat) :
    (monthStart k).unixNano + 28 * (n : Int) * (secondsPerDay * nanosPerSecond)
      ≤ (monthStart (k + n)).unixNano := by
  induction n with
  | zero => simp
  | succ n ih =>
    have hs := monthStart_step (k + n)
    have hb := daysIn_bounds ((k + n) % 12 + 1) ((k + n) / 12)
    have e : k + ((n + 1 : Nat) : Int) = k + n + 1 := by push_cast; ring
    rw [e, hs]
    unfold secondsPerDay nanosPerSecond at *
    push_cast
    nlinarith [hb.1]

theorem monthStart_lt_iff (j k : Int) :
    (monthStart j).unixNano < (monthStart k).unixNano ↔ j < k := by
  have key : ∀ a b : Int, a < b → (monthStart a).unixNano < (monthStart b).unixNano := by
    intro a b hab
    have h := monthStart_add_ge a (b - a).toNat
    have e : a + ((b - a).toNat : Int) = b := by omega
    rw [e] at h
    have hpos : (1 : Int) ≤ ((b - a).toNat : Int) := by omega
    unfold secondsPerDay nanosPerSecond at h
    nlinarith
  constructor
  · intro h
    by_contra hn
    rcases lt_or_eq_of_le (not_lt.mp hn) with h1 | h1
    · have := key k j h1
      omega
    · rw [h1] at h
      omega
  · exact key j k

theorem monthsFrom_length (k : Int) (n : Nat) : (monthsFrom k n).length = n := by
  induction n generalizing k with
  | zero => rfl
  | succ n ih => simp [monthsFrom, ih]

theorem monthsFrom_get (n : Nat) : ∀ (k : Int) (i : Nat), i < n →
    (monthsFrom k n).get? i = some (monthStart (k + i)) := by
  induction n with
  | zero => intro k i h; omega
  | succ n ih =>
    intro k i h
    cases i with
    | zero => simp [monthsFrom]
    | succ i =>
      have := ih (k + 1) i (by omega)
      simp only [monthsFrom, List.get?_cons_succ, this]
      congr 2
      push_cast
      ring

theorem mem_monthsFrom (n : Nat) : ∀ (k : Int) (d : Time), d ∈ monthsFrom k n ↔
    ∃ i : Nat, i < n ∧ d = monthStart (k + i) := by
  induction n with
  | zero => intro k d; simp [monthsFrom]
  | succ n ih =>
    intro k d
    simp only [monthsFrom, List.mem_cons, ih]
    constructor
    · rintro (h | ⟨i, hi, h⟩)
      · exact ⟨0, by omega, by simpa using h⟩
      · refine ⟨i + 1, by omega, ?_⟩
        rw [h]
        congr 1
        push_cast
        ring
    · rintro ⟨i, hi, h⟩
      cases i with
      | zero => left; simpa using h
      | succ i =>
        right
        refine ⟨i, by omega, ?_⟩
        rw [h]
        congr 1
        push_cast
        ring

/-- The loop of `generateMonthRange` between two firsts of months ends by its
condition as soon as it has fuel for one test more than there are months. -/
theorem loop_monthStart (k1 : Int) : ∀ (n : Nat) (k : Int), 1 ≤ n → (k1 - k + 2).toNat ≤ n →
    generateMonthRange.loop (monthStart k1) n (monthStart k)
      = some (monthsFrom k (k1 - k + 1).toNat) := by
  intro n
  induction n with
  | zero => intro k h; omega
  | succ n ih =>
    intro k _ hn
    unfold generateMonthRange.loop
    by_cases hk : k1 < k
    · have hafter : (monthStart k).After (monthStart k1) = true := by
        unfold Time.After
        simpa using (monthStart_lt_iff k1 k).mpr hk
      rw [if_pos hafter]
      have : (k1 - k + 1).toNat = 0 := by omega
      rw [this]
      rfl
    · have hafter : ¬ (monthStart k).After (monthStart k1) = true := by
        unfold Time.After
        simpa using fun h => hk ((monthStart_lt_iff k1 k).mp h)
      rw [if_neg hafter, monthStart_AddDate, ih (k + 1) (by omega) (by omega)]
      have : (k1 - k + 1).toNat = (k1 - (k + 1) + 1).toNat + 1 := by omega
      rw [this]
      rfl

theorem fuel_enough (k0 k1 : Int) :
    (k1 - k0 + 2).toNat ≤ generateMonthRange.fuel (monthStart k0) (monthStart k1) ∧
    1 ≤ generateMonthRange.fuel (monthStart k0) (monthStart k1) := by
  unfold generateMonthRange.fuel
  refine ⟨?_, by omega⟩
  by_cases h : k0 ≤ k1
  · have hge := monthStart_add_ge k0 (k1 - k0).toNat
    have e : k0 + ((k1 - k0).toNat : Int) = k1 := by omega
    rw [e] at hge
    have e2 : ((k1 - k0).toNat : Int) = k1 - k0 := by omega
    rw [e2] at hge
    unfold secondsPerDay nanosPerSecond at *
    have hq : k1 - k0 ≤ ((monthStart k1).unixNano - (monthStart k0).unixNano)
        / (28 * 86400 * 1000000000) := by
      apply Int.le_ediv_of_mul_le (by norm_num)
      linarith
    omega
  · omega

/-- Function `generateMonthRange` returns the firsts of the months from the month
of `from` to the month of `to`. -/
theorem generateMonthRange_eq (from1 to1 : Time) :
    generateMonthRange from1 to1
      = monthsFrom from1.monthIndex (to1.monthIndex - from1.monthIndex + 1).toNat := by
  unfold generateMonthRange
  rw [normalizeToMonthStart_eq_monthStart, normalizeToMonthStart_eq_monthStart]
  have hf := fuel_enough from1.monthIndex to1.monthIndex
  rw [loop_monthStart _ _ _ hf.2 hf.1]
  rfl

/-! ## The period normaliser and the month range -/

/-- Claim C13: `normalizeToMonthStart` is idempotent. -/
theorem normalizeToMonthStart_idempotent (d : Time) :
    normalizeToMonthStart (normalizeToMonthStart d) = normalizeToMonthStart d := by
  have h := normalizeToMonthStart_fields d
  show time.Date (normalizeToMonthStart d).Year (normalizeToMonthStart d).Month 1 0 0 0 0 UTC
    = normalizeToMonthStart d
  rw [h.1, h.2.1]
  rfl

theorem daysFromCivil_day (y m d : Int) :
    daysFromCivil y m d = daysFromCivil y m 1 + (d - 1) := by
  unfold daysFromCivil
  dsimp only
  omega

/-- Counterexample to C14: a time of 2024-07-01 01:00 at two hours east of UTC is
2024-06-30 23:00 in UTC, so the month it falls in when expressed in UTC is June
2024; `normalizeToMonthStart` returns 2024-07-01 00:00 UTC, not 2024-06-01. -/
theorem normalizeToMonthStart_uses_local_month :
    julyFirstEast.UTC.FormatDate = "2024-06-30" ∧
    julyFirstEast.UTC.unixNano = julyFirstEast.unixNano ∧
    normalizeToMonthStart julyFirstEast = time.Date 2024 7 1 0 0 0 0 UTC ∧
    normalizeToMonthStart julyFirstEast ≠
      time.Date julyFirstEast.UTC.Year julyFirstEast.UTC.Month 1 0 0 0 0 UTC := by
  refine ⟨by decide, by decide, by decide, by decide⟩

/-- Claim C14, amended: `normalizeToMonthStart(d)` is 00:00:00 UTC on the first day
of the month that `d` shows in its own location: its fields are the year and the
month of `d`, day 1, midnight, in UTC, and the wall clock of `d` in its own
location lies in that month.  For a `d` carried in UTC this is the first day of
the month that `d` falls in when it is expressed in UTC. -/
theorem normalizeToMonthStart_first_of_local_month (d : Time) :
    normalizeToMonthStart d = time.Date d.Year d.Month 1 0 0 0 0 UTC ∧
    (normalizeToMonthStart d).Year = d.Year ∧
    (normalizeToMonthStart d).Month = d.Month ∧
    (normalizeToMonthStart d).Day = 1 ∧
    (normalizeToMonthStart d).Hour = 0 ∧ (normalizeToMonthStart d).Minute = 0 ∧
    (normalizeToMonthStart d).Second = 0 ∧ (normalizeToMonthStart d).Nanosecond = 0 ∧
    (normalizeToMonthStart d).offset = UTC ∧
    (normalizeToMonthStart d).unixNano ≤ d.unixNano + d.offset * nanosPerSecond ∧
    d.unixNano + d.offset * nanosPerSecond
      < ((normalizeToMonthStart d).AddDate 0 1 0).unixNano ∧
    (d.offset = UTC →
      normalizeToMonthStart d = time.Date d.UTC.Year d.UTC.Month 1 0 0 0 0 UTC) := by
  have hf := normalizeToMonthStart_fields d
  have hm := normalizeToMonthStart_eq_monthStart d
  have hc := monthStart_clock d.monthIndex
  rw [← hm] at hc
  refine ⟨rfl, hf.1, hf.2.1, hf.2.2.1, hc.1, hc.2.1, hc.2.2.1, hc.2.2.2, hf.2.2.2.1, ?_, ?_, ?_⟩
  · have hs := civilFromDays_spec d.localDays
    have hday := daysFromCivil_day (civilFromDays d.localDays).1 (civilFromDays d.localDays).2.1
      (civilFromDays d.localDays).2.2
    rw [hf.2.2.2.2]
    have hz : d.localDays = (d.unixNano + d.offset * nanosPerSecond)
        / (secondsPerDay * nanosPerSecond) := rfl
    have hY : d.Year = (civilFromDays d.localDays).1 := rfl
    have hM : d.Month = (civilFromDays d.localDays).2.1 := rfl
    rw [hY, hM]
    unfold secondsPerDay nanosPerSecond at *
    omega
  · have hs := civilFromDays_spec d.localDays
    have hday := daysFromCivil_day (civilFromDays d.localDays).1 (civilFromDays d.localDays).2.1
      (civilFromDays d.localDays).2.2
    have hnext := daysFromCivil_next_month d.Year d.Month (Month_range d).1 (Month_range d).2
    rw [hm, monthStart_AddDate, (monthStart_fields (d.monthIndex + 1)).2.2.2.2]
    have e1 : (d.monthIndex + 1) / 12 = d.Year + d.Month / 12 := by
      have := Month_range d
      unfold Time.monthIndex
      omega
    have e2 : (d.monthIndex + 1) % 12 + 1 = d.Month % 12 + 1 := by
      have := Month_range d
      unfold Time.monthIndex
      omega
    rw [e1, e2, hnext]
    have hz : d.localDays = (d.unixNano + d.offset * nanosPerSecond)
        / (secondsPerDay * nanosPerSecond) := rfl
    have hY : d.Year = (civilFromDays d.localDays).1 := rfl
    have hM : d.Month = (civilFromDays d.localDays).2.1 := rfl
    rw [hY, hM]
    unfold secondsPerDay nanosPerSecond at *
    omega
  · intro h0
    have : d.UTC = d := by
      cases d
      simp only [Time.UTC, UTC] at h0 ⊢
      rw [h0]
    rw [this]
    rfl

/-- Witness of C14 (amended): a time carried in UTC. -/
theorem normalizeToMonthStart_first_of_local_month_witness :
    june15.offset = UTC ∧
    normalizeToMonthStart june15 = time.Date june15.UTC.Year june15.UTC.Month 1 0 0 0 0 UTC :=
  ⟨rfl, (normalizeToMonthStart_first_of_local_month june15).2.2.2.2.2.2.2.2.2.2.2 rfl⟩

theorem monthsFrom_pairwise (n : Nat) : ∀ k : Int,
    (monthsFrom k n).Pairwise (fun a b => a.unixNano < b.unixNano) := by
  induction n with
  | zero => intro k; exact List.Pairwise.nil
  | succ n ih =>
    intro k
    refine List.Pairwise.cons ?_ (ih (k + 1))
    intro d hd
    obtain ⟨i, _, rfl⟩ := (mem_monthsFrom n (k + 1) d).mp hd
    exact (monthStart_lt_iff _ _).mpr (by omega)

theorem monthsFrom_getLast (n : Nat) : ∀ k : Int,
    (monthsFrom k (n + 1)).getLast? = some (monthStart (k + n)) := by
  induction n with
  | zero => intro k; simp [monthsFrom]
  | succ n ih =>
    intro k
    have h := ih (k + 1)
    show (monthStart k :: (monthStart (k + 1) :: monthsFrom (k + 1 + 1) n)).getLast? = _
    rw [List.getLast?_cons_cons]
    have e : k + ((n + 1 : Nat) : Int) = k + 1 + n := by push_cast; ring
    rw [e]
    exact h

theorem monthIndex_le_iff (a b : Time) :
    (normalizeToMonthStart a).unixNano ≤ (normalizeToMonthStart b).unixNano ↔
      a.monthIndex ≤ b.monthIndex := by
  rw [normalizeToMonthStart_eq_monthStart, normalizeToMonthStart_eq_monthStart]
  have h := monthStart_lt_iff b.monthIndex a.monthIndex
  constructor
  · intro hle
    by_contra hn
    have := h.mpr (by omega)
    omega
  · intro hle
    by_contra hn
    have := h.mp (by omega)
    omega

/-- Claim C15: for `normalize(from) <= normalize(to)`, `generateMonthRange` terminates
(its loop ends by its own condition for every amount of fuel from
`generateMonthRange.fuel` on) and returns a strictly ascending list that starts
with `normalize(from)` and ends with `normalize(to)`; every element is a first
of a month at 00:00 UTC; each element is the one before it moved on by exactly
one calendar month; and the length is `12 * (year difference) + (month
difference) + 1`. -/
theorem generateMonthRange_spec (from1 to1 : Time)
    (h : (normalizeToMonthStart from1).unixNano ≤ (normalizeToMonthStart to1).unixNano) :
    (∀ n, generateMonthRange.fuel (normalizeToMonthStart from1) (normalizeToMonthStart to1) ≤ n →
      generateMonthRange.loop (normalizeToMonthStart to1) n (normalizeToMonthStart from1)
        = some (generateMonthRange from1 to1)) ∧
    (generateMonthRange from1 to1).Pairwise (fun a b => a.unixNano < b.unixNano) ∧
    (generateMonthRange from1 to1).head? = some (normalizeToMonthStart from1) ∧
    (generateMonthRange from1 to1).getLast? = some (normalizeToMonthStart to1) ∧
    (∀ d ∈ generateMonthRange from1 to1,
      normalizeToMonthStart d = d ∧ d.Day = 1 ∧ d.offset = UTC ∧
      d.Hour = 0 ∧ d.Minute = 0 ∧ d.Second = 0 ∧ d.Nanosecond = 0) ∧
    (∀ i a b, (generateMonthRange from1 to1).get? i = some a →
      (generateMonthRange from1 to1).get? (i + 1) = some b →
      b = a.AddDate 0 1 0 ∧ b.Year * 12 + b.Month = a.Year * 12 + a.Month + 1) ∧
    ((generateMonthRange from1 to1).length : Int)
      = 12 * ((normalizeToMonthStart to1).Year - (normalizeToMonthStart from1).Year)
        + ((normalizeToMonthStart to1).Month - (normalizeToMonthStart from1).Month) + 1 := by
  have hk := (monthIndex_le_iff from1 to1).mp h
  have heq := generateMonthRange_eq from1 to1
  have hlen : (to1.monthIndex - from1.monthIndex + 1).toNat
      = (to1.monthIndex - from1.monthIndex).toNat + 1 := by omega
  refine ⟨?_, ?_, ?_, ?_, ?_, ?_, ?_⟩
  · intro n hn
    have hf := fuel_enough from1.monthIndex to1.monthIndex
    rw [heq, normalizeToMonthStart_eq_monthStart, normalizeToMonthStart_eq_monthStart] at *
    exact loop_monthStart _ n _ (by omega) (by omega)
  · rw [heq]
    exact monthsFrom_pairwise _ _
  · rw [heq, hlen, normalizeToMonthStart_eq_monthStart]
    rfl
  · rw [heq, hlen, monthsFrom_getLast, normalizeToMonthStart_eq_monthStart]
    congr 2
    omega
  · intro d hd
    rw [heq] at hd
    obtain ⟨i, _, rfl⟩ := (mem_monthsFrom _ _ d).mp hd
    have hf := monthStart_fields (from1.monthIndex + i)
    have hc := monthStart_clock (from1.monthIndex + i)
    refine ⟨?_, hf.2.2.1, hf.2.2.2.1, hc.1, hc.2.1, hc.2.2.1, hc.2.2.2⟩
    rw [normalizeToMonthStart_eq_monthStart, monthStart_monthIndex]
  · intro i a b ha hb
    rw [heq] at ha hb
    have hi : i + 1 < (to1.monthIndex - from1.monthIndex + 1).toNat := by
      by_contra hn
      rw [List.get?_eq_none.mpr (by rw [monthsFrom_length]; omega)] at hb
      simp at hb
    rw [monthsFrom_get _ _ i (by omega)] at ha
    rw [monthsFrom_get _ _ (i + 1) hi] at hb
    have ea := Option.some.inj ha
    have eb := Option.some.inj hb
    subst ea eb
    have e : from1.monthIndex + ((i + 1 : Nat) : Int) = from1.monthIndex + i + 1 := by
      push_cast; ring
    rw [e, monthStart_AddDate]
    refine ⟨rfl, ?_⟩
    have h1 : (monthStart (from1.monthIndex + i + 1)).Year * 12
        + ((monthStart (from1.monthIndex + i + 1)).Month - 1) = from1.monthIndex + i + 1 :=
      monthStart_monthIndex (from1.monthIndex + i + 1)
    have h2 : (monthStart (from1.monthIndex + i)).Year * 12
        + ((monthStart (from1.monthIndex + i)).Month - 1) = from1.monthIndex + i :=
      monthStart_monthIndex (from1.monthIndex + i)
    omega
  · rw [heq, monthsFrom_length, (normalizeToMonthStart_fields to1).1,
      (normalizeToMonthStart_fields to1).2.1, (normalizeToMonthStart_fields from1).1,
      (normalizeToMonthStart_fields from1).2.1]
    unfold Time.monthIndex at hk ⊢
    omega

/-- Witness of C15: the range from 2024-01-15 to 2024-03-10. -/
theorem generateMonthRange_spec_witness :
    (generateMonthRange (time.Date 2024 1 15 0 0 0 0 UTC) (time.Date 2024 3 10 0 0 0 0 UTC)).map
      Time.FormatDate = ["2024-01-01", "2024-02-01", "2024-03-01"] ∧
    (generateMonthRange (time.Date 2024 1 15 0 0 0 0 UTC)
      (time.Date 2024 3 10 0 0 0 0 UTC)).Pairwise (fun a b => a.unixNano < b.unixNano) :=
  ⟨by decide,
    (generateMonthRange_spec (time.Date 2024 1 15 0 0 0 0 UTC) (time.Date 2024 3 10 0 0 0 0 UTC)
      (by decide)).2.1⟩

/-! ## The cache store -/

theorem live_iff (now : Time) (r : PlayerCacheEntry) :
    live now r = true ↔
      (r.ExpiresAt = none ∨ ∃ e, r.ExpiresAt = some e ∧ now.unixNano < e.unixNano) := by
  unfold live
  cases h : r.ExpiresAt with
  | none => simp
  | some e => simp [Time.Before]

theorem queryRow_row (fault : DBOutcome) (rows : List PlayerCacheEntry)
    (cond : PlayerCacheEntry → Bool) (data : Bytes) (h : queryRow fault rows cond = .row data) :
    ∃ r ∈ rows, cond r = true ∧ r.Data = data := by
  unfold queryRow at h
  cases hf : rows.find? cond with
  | none =>
    rw [hf] at h
    cases fault <;> simp [DBOutcome.rowsErrAt] at h <;> (split at h <;> simp at h)
  | some r =>
    have hr := List.find?_some hf
    have hm := List.mem_of_find?_eq_some hf
    refine ⟨r, hm, hr, ?_⟩
    rw [hf] at h
    cases fault with
    | ok => simpa [DBOutcome.rowsErrAt, DBOutcome.scanErrAt] using h
    | queryError e => simp at h
    | scanError n e =>
      simp only [DBOutcome.rowsErrAt, DBOutcome.scanErrAt] at h
      split at h
      · simp at h
      · simpa using h
    | rowsError n e =>
      simp only [DBOutcome.rowsErrAt, DBOutcome.scanErrAt] at h
      split at h
      · simp at h
      · simpa using h

theorem GetBatch_scanRows_sound (env : Env) (fault : DBOutcome)
    (Good : Int → PlayerInfo → Prop) :
    ∀ (rs : List PlayerCacheEntry) (i : Nat) (result m : GoMap Int PlayerInfo),
      (∀ r ∈ rs, ∀ p, env.unmarshal r.Data = .ok p → Good r.MemberID p) →
      (∀ id p, result id = some p → Good id p) →
      (GetBatch.scanRows env fault i rs result).1 = some m →
      ∀ id p, m id = some p → Good id p := by
  intro rs
  induction rs with
  | nil =>
    intro i result m _ hres h
    simp only [GetBatch.scanRows] at h
    rw [← Option.some.inj h]
    exact hres
  | cons r rs ih =>
    intro i result m hrs hres h
    unfold GetBatch.scanRows at h
    cases h1 : fault.rowsErrAt i with
    | some e =>
      rw [h1] at h
      rw [← Option.some.inj h]
      exact hres
    | none =>
      rw [h1] at h
      cases h2 : fault.scanErrAt i with
      | some e => rw [h2] at h; simp at h
      | none =>
        rw [h2] at h
        cases h3 : env.unmarshal r.Data with
        | error e => rw [h3] at h; simp at h
        | ok player =>
          rw [h3] at h
          refine ih (i + 1) _ m (fun r1 hr1 => hrs r1 (List.mem_cons_of_mem _ hr1)) ?_ h
          intro id p hp
          unfold GoMap.set at hp
          by_cases hid : id = r.MemberID
          · rw [if_pos hid] at hp
            rw [hid, ← Option.some.inj hp]
            exact hrs r (List.mem_cons_self _ _) player h3
          · rw [if_neg hid] at hp
            exact hres id p hp

theorem Ratings_scanRows_sound (env : Env) (fault : DBOutcome)
    (Good : String → PlayerInfo → Prop) :
    ∀ (rs : List PlayerCacheEntry) (i : Nat) (result m : GoMap String PlayerInfo),
      (∀ r ∈ rs, ∀ p, env.unmarshal r.Data = .ok p → Good r.RatingDate.FormatDate p) →
      (∀ key p, result key = some p → Good key p) →
      (GetRatingHistoryForDates.scanRows env fault i rs result).1 = some m →
      ∀ key p, m key = some p → Good key p := by
  intro rs
  induction rs with
  | nil =>
    intro i result m _ hres h
    simp only [GetRatingHistoryForDates.scanRows] at h
    rw [← Option.some.inj h]
    exact hres
  | cons r rs ih =>
    intro i result m hrs hres h
    unfold GetRatingHistoryForDates.scanRows at h
    cases h1 : fault.rowsErrAt i with
    | some e =>
      rw [h1] at h
      rw [← Option.some.inj h]
      exact hres
    | none =>
      rw [h1] at h
      cases h2 : fault.scanErrAt i with
      | some e => rw [h2] at h; simp at h
      | none =>
        rw [h2] at h
        cases h3 : env.unmarshal r.Data with
        | error e => rw [h3] at h; simp at h
        | ok player =>
          rw [h3] at h
          refine ih (i + 1) _ m (fun r1 hr1 => hrs r1 (List.mem_cons_of_mem _ hr1)) ?_ h
          intro key p hp
          unfold GoMap.set at hp
          by_cases hid : key = r.RatingDate.FormatDate
          · rw [if_pos hid] at hp
            rw [hid, ← Option.some.inj hp]
            exact hrs r (List.mem_cons_self _ _) player h3
          · rw [if_neg hid] at hp
            exact hres key p hp

/-- A row of the table that is live at the instant `now`: its `expiresAt` is null or
strictly later than `now`. -/
theorem Get_sound (env : Env) (w : World) (memberID : Int) (rd : Time) (p : PlayerInfo)
    (h : (PlayerRepository.Get env w memberID rd).2.1 = some p) :
    ∃ r ∈ w.rows, r.MemberID = memberID ∧ r.RatingDate.unixNano = rd.unixNano ∧
      live (env.dbNow (w.trace ++ [.repoGet memberID rd])) r = true ∧
      env.unmarshal r.Data = .ok p := by
  unfold PlayerRepository.Get at h
  dsimp only at h
  split at h
  · simp at h
  · simp at h
  · rename_i data hq
    obtain ⟨r, hm, hc, hd⟩ := queryRow_row _ _ _ _ hq
    simp only [Bool.and_eq_true, decide_eq_true_eq, sameDate] at hc
    refine ⟨r, hm, hc.1.1, hc.1.2, hc.2, ?_⟩
    rw [hd]
    cases hu : env.unmarshal data with
    | error e => rw [hu] at h; simp at h
    | ok q => rw [hu] at h; simp at h; rw [h]

theorem GetByFideID_sound (env : Env) (w : World) (fideID : Int) (rd : Time) (p : PlayerInfo)
    (h : (PlayerRepository.GetByFideID env w fideID rd).2.1 = some p) :
    ∃ r ∈ w.rows, r.FideID = some fideID ∧ r.RatingDate.unixNano = rd.unixNano ∧
      live (env.dbNow (w.trace ++ [.repoGetByFideID fideID rd])) r = true ∧
      env.unmarshal r.Data = .ok p := by
  unfold PlayerRepository.GetByFideID at h
  dsimp only at h
  split at h
  · simp at h
  · simp at h
  · rename_i data hq
    obtain ⟨r, hm, hc, hd⟩ := queryRow_row _ _ _ _ hq
    simp only [Bool.and_eq_true, decide_eq_true_eq, sameDate] at hc
    refine ⟨r, hm, hc.1.1, hc.1.2, hc.2, ?_⟩
    rw [hd]
    cases hu : env.unmarshal data with
    | error e => rw [hu] at h; simp at h
    | ok q => rw [hu] at h; simp at h; rw [h]

theorem GetBatch_sound (env : Env) (w : World) (ids : List Int) (rd : Time)
    (m : GoMap Int PlayerInfo) (h : (PlayerRepository.GetBatch env w ids rd).2.1 = some m)
    (id : Int) (p : PlayerInfo) (hp : m id = some p) :
    ∃ r ∈ w.rows, r.MemberID = id ∧ id ∈ ids ∧ r.RatingDate.unixNano = rd.unixNano ∧
      live (env.dbNow (w.trace ++ [.repoGetBatch ids rd])) r = true ∧
      env.unmarshal r.Data = .ok p := by
  unfold PlayerRepository.GetBatch at h
  dsimp only at h
  split at h
  · simp only [Option.some.injEq] at h
    rw [← h] at hp
    simp [GoMap.empty] at hp
  · split at h
    · simp at h
    · refine GetBatch_scanRows_sound env _
        (fun id p => ∃ r ∈ w.rows, r.MemberID = id ∧ id ∈ ids ∧
          r.RatingDate.unixNano = rd.unixNano ∧
          live (env.dbNow (w.trace ++ [.repoGetBatch ids rd])) r = true ∧
          env.unmarshal r.Data = .ok p) _ 0 GoMap.empty m ?_ ?_ h id p hp
      · intro r hr q hq
        rw [List.mem_filter] at hr
        obtain ⟨hm, hc⟩ := hr
        simp only [Bool.and_eq_true, decide_eq_true_eq, sameDate] at hc
        exact ⟨r, hm, rfl, hc.1.1, hc.1.2, hc.2, hq⟩
      · intro id p hp
        simp [GoMap.empty] at hp

theorem GetRatingHistoryForDates_sound (env : Env) (w : World) (memberID : Int)
    (dates : List Time) (m : GoMap String PlayerInfo)
    (h : (PlayerRepository.GetRatingHistoryForDates env w memberID dates).2.1 = some m)
    (key : String) (p : PlayerInfo) (hp : m key = some p) :
    ∃ r ∈ w.rows, r.MemberID = memberID ∧ r.RatingDate.FormatDate = key ∧
      (∃ d ∈ dates, r.RatingDate.unixNano = d.unixNano) ∧
      live (env.dbNow (w.trace ++ [.repoGetRatingHistoryForDates memberID dates])) r = true ∧
      env.unmarshal r.Data = .ok p := by
  unfold PlayerRepository.GetRatingHistoryForDates at h
  dsimp only at h
  split at h
  · simp only [Option.some.injEq] at h
    rw [← h] at hp
    simp [GoMap.empty] at hp
  · split at h
    · simp at h
    · refine Ratings_scanRows_sound env _
        (fun key p => ∃ r ∈ w.rows, r.MemberID = memberID ∧ r.RatingDate.FormatDate = key ∧
          (∃ d ∈ dates, r.RatingDate.unixNano = d.unixNano) ∧
          live (env.dbNow (w.trace ++ [.repoGetRatingHistoryForDates memberID dates])) r = true ∧
          env.unmarshal r.Data = .ok p) _ 0 GoMap.empty m ?_ ?_ h key p hp
      · intro r hr q hq
        rw [List.mem_filter] at hr
        obtain ⟨hm, hc⟩ := hr
        simp only [Bool.and_eq_true, decide_eq_true_eq, List.any_eq_true, sameDate] at hc
        exact ⟨r, hm, hc.1.1, rfl, hc.1.2, hc.2, hq⟩
      · intro key p hp
        simp [GoMap.empty] at hp

theorem GetByFideID_world (env : Env) (w : World) (fideID : Int) (rd : Time) :
    (PlayerRepository.GetByFideID env w fideID rd).1 = w.log (.repoGetByFideID fideID rd) := by
  unfold PlayerRepository.GetByFideID
  dsimp only
  split
  · rfl
  · rfl
  · split <;> rfl

theorem GetRatingHistoryForDates_world (env : Env) (w : World) (memberID : Int)
    (dates : List Time) :
    (PlayerRepository.GetRatingHistoryForDates env w memberID dates).1
      = w.log (.repoGetRatingHistoryForDates memberID dates) := by
  unfold PlayerRepository.GetRatingHistoryForDates
  dsimp only
  split
  · rfl
  · split <;> rfl

/-- Claim C16: every read operation of the cache store returns a record only if it
is live at the time of the read.  Each record returned by `Get`, `GetByFideID`,
`GetBatch` and `GetRatingHistoryForDates` is the decoded `data` of a row of the
table with the requested key whose `expiresAt` is null or strictly greater than
the `NOW()` of that read; and no read changes the table, so a row that is not
returned because it has expired is still stored. -/
theorem reads_return_only_live (env : Env) (w : World) :
    (∀ memberID rd p, (PlayerRepository.Get env w memberID rd).2.1 = some p →
      ∃ r ∈ w.rows, r.MemberID = memberID ∧ r.RatingDate.unixNano = rd.unixNano ∧
        (r.ExpiresAt = none ∨ ∃ e, r.ExpiresAt = some e ∧
          (env.dbNow (w.trace ++ [.repoGet memberID rd])).unixNano < e.unixNano) ∧
        env.unmarshal r.Data = .ok p) ∧
    (∀ fideID rd p, (PlayerRepository.GetByFideID env w fideID rd).2.1 = some p →
      ∃ r ∈ w.rows, r.FideID = some fideID ∧ r.RatingDate.unixNano = rd.unixNano ∧
        (r.ExpiresAt = none ∨ ∃ e, r.ExpiresAt = some e ∧
          (env.dbNow (w.trace ++ [.repoGetByFideID fideID rd])).unixNano < e.unixNano) ∧
        env.unmarshal r.Data = .ok p) ∧
    (∀ ids rd m id p, (PlayerRepository.GetBatch env w ids rd).2.1 = some m → m id = some p →
      ∃ r ∈ w.rows, r.MemberID = id ∧ id ∈ ids ∧ r.RatingDate.unixNano = rd.unixNano ∧
        (r.ExpiresAt = none ∨ ∃ e, r.ExpiresAt = some e ∧
          (env.dbNow (w.trace ++ [.repoGetBatch ids rd])).unixNano < e.unixNano) ∧
        env.unmarshal r.Data = .ok p) ∧
    (∀ memberID dates m key p,
      (PlayerRepository.GetRatingHistoryForDates env w memberID dates).2.1 = some m →
      m key = some p →
      ∃ r ∈ w.rows, r.MemberID = memberID ∧ r.RatingDate.FormatDate = key ∧
        (∃ d ∈ dates, r.RatingDate.unixNano = d.unixNano) ∧
        (r.ExpiresAt = none ∨ ∃ e, r.ExpiresAt = some e ∧
          (env.dbNow (w.trace ++ [.repoGetRatingHistoryForDates memberID dates])).unixNano
            < e.unixNano) ∧
        env.unmarshal r.Data = .ok p) ∧
    (∀ memberID rd, (PlayerRepository.Get env w memberID rd).1.rows = w.rows) ∧
    (∀ fideID rd, (PlayerRepository.GetByFideID env w fideID rd).1.rows = w.rows) ∧
    (∀ ids rd, (PlayerRepository.GetBatch env w ids rd).1.rows = w.rows) ∧
    (∀ memberID dates,
      (PlayerRepository.GetRatingHistoryForDates env w memberID dates).1.rows = w.rows) := by
  refine ⟨?_, ?_, ?_, ?_, ?_, ?_, ?_, ?_⟩
  · intro memberID rd p h
    obtain ⟨r, hm, h1, h2, h3, h4⟩ := Get_sound env w memberID rd p h
    exact ⟨r, hm, h1, h2, (live_iff _ _).mp h3, h4⟩
  · intro fideID rd p h
    obtain ⟨r, hm, h1, h2, h3, h4⟩ := GetByFideID_sound env w fideID rd p h
    exact ⟨r, hm, h1, h2, (live_iff _ _).mp h3, h4⟩
  · intro ids rd m id p h hp
    obtain ⟨r, hm, h1, h2, h3, h4, h5⟩ := GetBatch_sound env w ids rd m h id p hp
    exact ⟨r, hm, h1, h2, h3, (live_iff _ _).mp h4, h5⟩
  · intro memberID dates m key p h hp
    obtain ⟨r, hm, h1, h2, h3, h4, h5⟩ :=
      GetRatingHistoryForDates_sound env w memberID dates m h key p hp
    exact ⟨r, hm, h1, h2, h3, (live_iff _ _).mp h4, h5⟩
  · intro memberID rd
    rw [Get_world]
    rfl
  · intro fideID rd
    rw [GetByFideID_world]
    rfl
  · intro ids rd
    rw [GetBatch_world]
    rfl
  · intro memberID dates
    rw [GetRatingHistoryForDates_world]
    rfl

/-- Witness of C16: the record of the sample store is returned and comes from a live
row; the expired record of `expiredWorld` is not returned, and stays in the table. -/
theorem reads_return_only_live_witness :
    (∃ r ∈ sampleWorld.rows, r.MemberID = 12345 ∧
      r.RatingDate.unixNano = (time.Date 2024 6 1 0 0 0 0 UTC).unixNano ∧
      (r.ExpiresAt = none ∨ ∃ e, r.ExpiresAt = some e ∧
        (sampleEnv.dbNow (sampleWorld.trace ++
          [.repoGet 12345 (time.Date 2024 6 1 0 0 0 0 UTC)])).unixNano < e.unixNano) ∧
      sampleEnv.unmarshal r.Data = .ok (samplePlayer 12345)) ∧
    (PlayerRepository.Get sampleEnv expiredWorld 12345 (time.Date 2024 6 1 0 0 0 0 UTC)).2
      = (none, none) ∧
    (PlayerRepository.Get sampleEnv expiredWorld 12345 (time.Date 2024 6 1 0 0 0 0 UTC)).1.rows
      = expiredWorld.rows :=
  ⟨(reads_return_only_live sampleEnv sampleWorld).1 12345 (time.Date 2024 6 1 0 0 0 0 UTC)
      (samplePlayer 12345) (by decide),
    by decide, by decide⟩

theorem sameKey_self (e : PlayerCacheEntry) : sameKey e e = true := by
  simp [sameKey, sameDate]

theorem sameKey_iff (e r : PlayerCacheEntry) :
    sameKey e r = true ↔
      r.MemberID = e.MemberID ∧ r.RatingDate.unixNano = e.RatingDate.unixNano := by
  simp [sameKey, sameDate]

theorem upsert_eq (rows : List PlayerCacheEntry) (e : PlayerCacheEntry) :
    upsert rows e =
      if rows.any (sameKey e) then rows.map (fun r => if sameKey e r then e else r)
      else rows ++ [e] := rfl

theorem sameKey_replace (e r : PlayerCacheEntry) :
    sameKey e (if sameKey e r then e else r) = sameKey e r := by
  by_cases hr : sameKey e r = true
  · rw [if_pos hr, sameKey_self, hr]
  · rw [if_neg hr]

theorem filter_sameKey_length (e : PlayerCacheEntry) (rows : List PlayerCacheEntry)
    (h : rows.Pairwise distinctKeys) : (rows.filter (sameKey e)).length ≤ 1 := by
  have hp := h.sublist (List.filter_sublist (l := rows) (p := sameKey e))
  have hall : ∀ r ∈ rows.filter (sameKey e),
      r.MemberID = e.MemberID ∧ r.RatingDate.unixNano = e.RatingDate.unixNano := by
    intro r hr
    exact (sameKey_iff e r).mp (List.mem_filter.mp hr).2
  generalize rows.filter (sameKey e) = l at hp hall
  cases l with
  | nil => simp
  | cons a l =>
    cases l with
    | nil => simp
    | cons b l =>
      exfalso
      have hab := (List.pairwise_cons.mp hp).1 b (List.mem_cons_self _ _)
      have ha := hall a (List.mem_cons_self _ _)
      have hb := hall b (List.mem_cons_of_mem _ (List.mem_cons_self _ _))
      exact hab ⟨ha.1.trans hb.1.symm, ha.2.trans hb.2.symm⟩

theorem upsert_filter_same (rows : List PlayerCacheEntry) (e : PlayerCacheEntry)
    (h : rows.Pairwise distinctKeys) : (upsert rows e).filter (sameKey e) = [e] := by
  rw [upsert_eq]
  split
  · rename_i hany
    rw [List.filter_map]
    have hc : (sameKey e ∘ fun r => if sameKey e r then e else r) = sameKey e := by
      funext r
      exact sameKey_replace e r
    rw [hc]
    have hlen := filter_sameKey_length e rows h
    obtain ⟨r, hr, hs⟩ := List.any_eq_true.mp hany
    have hmem : r ∈ rows.filter (sameKey e) := List.mem_filter.mpr ⟨hr, hs⟩
    have hall : ∀ a ∈ rows.filter (sameKey e), sameKey e a = true :=
      fun a ha => (List.mem_filter.mp ha).2
    generalize rows.filter (sameKey e) = l at hlen hmem hall
    cases l with
    | nil => simp at hmem
    | cons a l =>
      cases l with
      | nil =>
        have ha := hall a (List.mem_cons_self _ _)
        simp only [List.map_cons, List.map_nil, ha, if_true]
      | cons b l => simp at hlen
  · rename_i hany
    have hnone : ∀ r ∈ rows, ¬ sameKey e r = true :=
      fun r hr hs => hany (List.any_eq_true.mpr ⟨r, hr, hs⟩)
    rw [List.filter_append, List.filter_eq_nil_iff.mpr hnone]
    simp only [List.filter, sameKey_self, List.nil_append]

theorem upsert_filter_other (rows : List PlayerCacheEntry) (e : PlayerCacheEntry) :
    (upsert rows e).filter (fun r => !sameKey e r) = rows.filter (fun r => !sameKey e r) := by
  rw [upsert_eq]
  split
  · rw [List.filter_map]
    have hc : ((fun r => !sameKey e r) ∘ fun r => if sameKey e r then e else r)
        = fun r => !sameKey e r := by
      funext r
      show (!sameKey e (if sameKey e r then e else r)) = !sameKey e r
      rw [sameKey_replace]
    rw [hc]
    conv_rhs => rw [← List.map_id (rows.filter _)]
    apply List.map_congr_left
    intro r hr
    have := (List.mem_filter.mp hr).2
    have hn : ¬ sameKey e r = true := by simpa using this
    rw [if_neg hn]
    rfl
  · rw [List.filter_append]
    simp [List.filter, sameKey_self]

theorem upsert_pairwise (rows : List PlayerCacheEntry) (e : PlayerCacheEntry)
    (h : rows.Pairwise distinctKeys) : (upsert rows e).Pairwise distinctKeys := by
  rw [upsert_eq]
  split
  · rw [List.pairwise_map]
    refine h.imp ?_
    intro a b hab hnew
    apply hab
    have ka : ∀ r : PlayerCacheEntry,
        (if sameKey e r then e else r).MemberID = r.MemberID ∧
        (if sameKey e r then e else r).RatingDate.unixNano = r.RatingDate.unixNano := by
      intro r
      by_cases hr : sameKey e r = true
      · rw [if_pos hr]
        have := (sameKey_iff e r).mp hr
        exact ⟨this.1.symm, this.2.symm⟩
      · rw [if_neg hr]
        exact ⟨rfl, rfl⟩
    rw [(ka a).1, (ka b).1, (ka a).2, (ka b).2] at hnew
    exact hnew
  · rename_i hany
    have hnone : ∀ r ∈ rows, ¬ sameKey e r = true :=
      fun r hr hs => hany (List.any_eq_true.mpr ⟨r, hr, hs⟩)
    rw [List.pairwise_append]
    refine ⟨h, List.pairwise_singleton _ _, ?_⟩
    intro a ha b hb
    rw [List.mem_singleton] at hb
    subst hb
    intro hk
    exact hnone a ha ((sameKey_iff _ a).mpr hk)

/-- Claim C17: `Save` is an upsert that keeps the key unique.  On a table with at most
one record per (member id, period), after a successful `Save(player, period,
expiresAt)` the records for `(player.ID, period)` are exactly one row; its
payload is the document marshalled from `player`, its `fetchedAt` is the reading
of `time.Now()` in this call and its `expiresAt` is the one given; every
record with another key is unchanged; and the table still has at most one
record per key. -/
theorem Save_upsert (env : Env) (w : World) (player : PlayerInfo) (period : Time)
    (expiresAt : Option Time)
    (huniq : w.rows.Pairwise distinctKeys)
    (hok : (PlayerRepository.Save env w player period expiresAt).2 = none) :
    ∃ data row, env.marshal player = .ok data ∧
      (PlayerRepository.Save env w player period expiresAt).1.rows.filter
        (fun r => decide (r.MemberID = player.ID) && sameDate r.RatingDate period) = [row] ∧
      row.MemberID = player.ID ∧ row.RatingDate = period ∧ row.Data = data ∧
      row.FetchedAt = env.timeNow (w.trace ++ [.repoSave player period expiresAt]) ∧
      row.ExpiresAt = expiresAt ∧
      (PlayerRepository.Save env w player period expiresAt).1.rows.filter
        (fun r => !(decide (r.MemberID = player.ID) && sameDate r.RatingDate period))
        = w.rows.filter
          (fun r => !(decide (r.MemberID = player.ID) && sameDate r.RatingDate period)) ∧
      (PlayerRepository.Save env w player period expiresAt).1.rows.Pairwise distinctKeys := by
  obtain ⟨data, hm, hS⟩ := Save_ok env w player period expiresAt hok
  have hrows : (PlayerRepository.Save env w player period expiresAt).1.rows
      = upsert w.rows (Save.entry player period data
        (env.timeNow (w.trace ++ [Event.repoSave player period expiresAt])) expiresAt) := by
    rw [hS]
  rw [hrows]
  have h1 := upsert_filter_same w.rows (Save.entry player period data
    (env.timeNow (w.trace ++ [Event.repoSave player period expiresAt])) expiresAt) huniq
  have h2 := upsert_filter_other w.rows (Save.entry player period data
    (env.timeNow (w.trace ++ [Event.repoSave player period expiresAt])) expiresAt)
  have h3 := upsert_pairwise w.rows (Save.entry player period data
    (env.timeNow (w.trace ++ [Event.repoSave player period expiresAt])) expiresAt) huniq
  exact ⟨data, Save.entry player period data
    (env.timeNow (w.trace ++ [Event.repoSave player period expiresAt])) expiresAt,
    hm, h1, rfl, rfl, rfl, rfl, rfl, h2, h3⟩

/-- Witness of C17: a `Save` for member 12345 and June 2024 on the store that holds
an expired record for that key leaves one record, the new one. -/
theorem Save_upsert_witness :
    expiredWorld.rows.Pairwise distinctKeys ∧
    (PlayerRepository.Save sampleEnv expiredWorld (samplePlayer 12345)
      (time.Date 2024 6 1 0 0 0 0 UTC) none).1.rows
      = [Save.entry (samplePlayer 12345) (time.Date 2024 6 1 0 0 0 0 UTC) "12345"
          (time.Date 2024 6 20 12 0 0 0 UTC) none] ∧
    ∃ data row, sampleEnv.marshal (samplePlayer 12345) = .ok data ∧
      (PlayerRepository.Save sampleEnv expiredWorld (samplePlayer 12345)
        (time.Date 2024 6 1 0 0 0 0 UTC) none).1.rows.filter
        (fun r => decide (r.MemberID = (samplePlayer 12345).ID) &&
          sameDate r.RatingDate (time.Date 2024 6 1 0 0 0 0 UTC)) = [row] :=
  have h := Save_upsert sampleEnv expiredWorld (samplePlayer 12345)
    (time.Date 2024 6 1 0 0 0 0 UTC) none (List.pairwise_singleton _ _) (by decide)
  ⟨List.pairwise_singleton _ _, by decide,
    h.elim (fun data h1 => h1.elim (fun row h2 => ⟨data, row, h2.1, h2.2.1⟩))⟩

theorem digitsValue_snoc (xs : List Char) (c : Char) :
    digitsValue (xs ++ [c]) = digitsValue xs * 10 + ((c.toNat : Int) - 48) := by
  simp [digitsValue, List.foldl_append]

theorem digitChar_value (k : Nat) (h : k < 10) :
    ((Nat.digitChar k).toNat : Int) - 48 = k ∧ Nat.digitChar k ≠ '-' := by
  interval_cases k <;> exact ⟨rfl, by decide⟩

theorem toDigitsCore_append (f n : Nat) (ds : List Char) :
    Nat.toDigitsCore 10 f n ds = Nat.toDigitsCore 10 f n [] ++ ds := by
  induction f generalizing n ds with
  | zero => simp [Nat.toDigitsCore]
  | succ f ih =>
    simp only [Nat.toDigitsCore]
    split
    · simp
    · rw [ih (n / 10) (_ :: ds), ih (n / 10) [_]]
      simp

theorem toDigitsCore_value (f n : Nat) (h : n < f) :
    digitsValue (Nat.toDigitsCore 10 f n []) = n ∧
      '-' ∉ Nat.toDigitsCore 10 f n [] := by
  induction f generalizing n with
  | zero => omega
  | succ f ih =>
    have hd := digitChar_value (n % 10) (Nat.mod_lt _ (by decide))
    simp only [Nat.toDigitsCore]
    split
    · rename_i h0
      have : digitsValue [Nat.digitChar (n % 10)] = ((Nat.digitChar (n % 10)).toNat : Int) - 48 := by
        simp [digitsValue]
      rw [this, hd.1]
      refine ⟨by omega, ?_⟩
      simp only [List.mem_singleton]
      exact fun h => hd.2 h.symm
    · rename_i h0
      have hlt : n / 10 < f := by omega
      rw [toDigitsCore_append, digitsValue_snoc, (ih (n / 10) hlt).1, hd.1]
      refine ⟨by omega, ?_⟩
      simp only [List.mem_append, List.mem_singleton, not_or]
      exact ⟨(ih (n / 10) hlt).2, fun h => hd.2 h.symm⟩

theorem toString_value (n : Nat) :
    digitsValue (toString n).data = n ∧ '-' ∉ (toString n).data := by
  show digitsValue (Nat.repr n).data = n ∧ '-' ∉ (Nat.repr n).data
  unfold Nat.repr Nat.toDigits
  exact toDigitsCore_value (n + 1) n (by omega)

theorem digitsValue_zeros (k : Nat) (ds : List Char) :
    digitsValue (List.replicate k '0' ++ ds) = digitsValue ds := by
  induction k with
  | zero => rfl
  | succ k ih =>
    rw [List.replicate_succ, List.cons_append]
    unfold digitsValue at ih ⊢
    rw [List.foldl_cons]
    exact ih

theorem padNat_value (w n : Nat) :
    digitsValue (padNat w n).data = n ∧ '-' ∉ (padNat w n).data := by
  unfold padNat
  simp only [String.data_append]
  refine ⟨?_, ?_⟩
  · rw [digitsValue_zeros]
    exact (toString_value n).1
  · simp only [List.mem_append, not_or]
    refine ⟨?_, (toString_value n).2⟩
    intro h
    have := List.eq_of_mem_replicate h
    exact absurd this (by decide)

theorem appendInt_inj (x y : Int) (w : Nat) (h : appendInt x w = appendInt y w) : x = y := by
  have hd := congrArg String.data h
  unfold appendInt at hd
  by_cases hx : x < 0 <;> by_cases hy : y < 0
  · rw [if_pos hx, if_pos hy] at hd
    simp only [String.data_append] at hd
    have h1 := List.append_cancel_left hd
    have h2 := congrArg digitsValue h1
    rw [(padNat_value _ _).1, (padNat_value _ _).1] at h2
    omega
  · rw [if_pos hx, if_neg hy] at hd
    simp only [String.data_append] at hd
    exfalso
    apply (padNat_value w y.toNat).2
    rw [← hd]
    exact List.mem_append_left _ (by decide)
  · rw [if_neg hx, if_pos hy] at hd
    simp only [String.data_append] at hd
    exfalso
    apply (padNat_value w x.toNat).2
    rw [hd]
    exact List.mem_append_left _ (by decide)
  · rw [if_neg hx, if_neg hy] at hd
    have h2 := congrArg digitsValue hd
    rw [(padNat_value _ _).1, (padNat_value _ _).1] at h2
    omega

theorem appendInt_month_length (m : Int) (h1 : 1 ≤ m) (h2 : m ≤ 12) :
    (appendInt m 2).data.length = 2 := by
  have : m = 1 ∨ m = 2 ∨ m = 3 ∨ m = 4 ∨ m = 5 ∨ m = 6 ∨ m = 7 ∨ m = 8 ∨ m = 9 ∨ m = 10 ∨
      m = 11 ∨ m = 12 := by omega
  rcases this with h | h | h | h | h | h | h | h | h | h | h | h <;> subst h <;> rfl

theorem FormatDate_monthStart_inj (j k : Int)
    (h : (monthStart j).FormatDate = (monthStart k).FormatDate) : j = k := by
  have hj := monthStart_fields j
  have hk := monthStart_fields k
  unfold Time.FormatDate at h
  rw [hj.1, hj.2.1, hj.2.2.1, hk.1, hk.2.1, hk.2.2.1] at h
  have hd := congrArg String.data h
  simp only [String.data_append] at hd
  have lj := appendInt_month_length (j % 12 + 1) (by omega) (by omega)
  have lk := appendInt_month_length (k % 12 + 1) (by omega) (by omega)
  rw [List.append_assoc, List.append_assoc, List.append_assoc, List.append_assoc,
    List.append_assoc, List.append_assoc] at hd
  have h1 := List.append_inj' hd (by simp [lj, lk])
  have hy := appendInt_inj _ _ 4 (String.ext h1.1)
  have h2 := List.append_cancel_left h1.2
  have h3 := List.append_inj h2 (by rw [lj, lk])
  have hm := appendInt_inj _ _ 2 (String.ext h3.1)
  omega

/-! ## The range get -/

theorem Save_trace_ext (env : Env) (w : World) (player : PlayerInfo) (ratingDate : Time)
    (expiresAt : Option Time) :
    ∃ ext, (PlayerRepository.Save env w player ratingDate expiresAt).1.trace = w.trace ++ ext ∧
      ext.filter Event.isFetch = [] := by
  unfold PlayerRepository.Save timeNow
  dsimp only
  split
  · exact ⟨[Event.repoSave player ratingDate expiresAt], rfl, rfl⟩
  · split
    · exact ⟨[Event.repoSave player ratingDate expiresAt, Event.timeNow],
        by simp [log_trace], rfl⟩
    · exact ⟨[Event.repoSave player ratingDate expiresAt, Event.timeNow],
        by simp [log_trace], rfl⟩

theorem fetchLoop_cons (env : Env) (memberID : Int) (d : Time) (ds : List Time) (w : World)
    (cached : GoMap String PlayerInfo) :
    GetPlayerRatings.fetchLoop env memberID (d :: ds) w cached =
      match env.upstreamGetPlayer w.trace memberID d.FormatDate with
      | .error _ => GetPlayerRatings.fetchLoop env memberID ds
          (w.log (.upstreamGetPlayer memberID d.FormatDate)) cached
      | .ok player =>
        GetPlayerRatings.fetchLoop env memberID ds
          (PlayerRepository.Save env
            (PlayerService.determineTTL env (w.log (.upstreamGetPlayer memberID d.FormatDate)) d).1
            player d
            (PlayerService.determineTTL env (w.log (.upstreamGetPlayer memberID d.FormatDate)) d).2).1
          (cached.set d.FormatDate player) := by
  rfl

theorem fetchLoop_nil (env : Env) (memberID : Int) (w : World)
    (cached : GoMap String PlayerInfo) :
    GetPlayerRatings.fetchLoop env memberID [] w cached = (w, cached) := rfl

/-- One turn of the loop over `missingDates`. -/
theorem fetchLoop_step (env : Env) (memberID : Int) (d : Time) (ds : List Time) (w : World)
    (cached : GoMap String PlayerInfo) :
    ∃ wn ext,
      GetPlayerRatings.fetchLoop env memberID (d :: ds) w cached
        = GetPlayerRatings.fetchLoop env memberID ds wn
          (match payloadOf (env.upstreamGetPlayer w.trace memberID d.FormatDate) with
            | some p => cached.set d.FormatDate p
            | none => cached) ∧
      wn.trace = w.trace ++ Event.upstreamGetPlayer memberID d.FormatDate :: ext ∧
      ext.filter Event.isFetch = [] := by
  rw [fetchLoop_cons]
  cases h : env.upstreamGetPlayer w.trace memberID d.FormatDate with
  | error e => exact ⟨_, [], rfl, rfl, rfl⟩
  | ok p =>
    obtain ⟨ext, he, hf⟩ := Save_trace_ext env
      (PlayerService.determineTTL env (w.log (.upstreamGetPlayer memberID d.FormatDate)) d).1 p d
      (PlayerService.determineTTL env (w.log (.upstreamGetPlayer memberID d.FormatDate)) d).2
    refine ⟨_, Event.timeNow :: ext, rfl, ?_, ?_⟩
    · rw [he, determineTTL_trace]
      simp [log_trace]
    · rw [List.filter_cons, hf]
      rfl

theorem fetchLoop_spec (env : Env) (memberID : Int) :
    ∀ (ds : List Time) (w : World) (cached : GoMap String PlayerInfo),
      (ds.map Time.FormatDate).Nodup →
      (∃ ext, (GetPlayerRatings.fetchLoop env memberID ds w cached).1.trace = w.trace ++ ext ∧
        ext.filter Event.isFetch
          = ds.map (fun d => Event.upstreamGetPlayer memberID d.FormatDate)) ∧
      (∀ s, s ∉ ds.map Time.FormatDate →
        (GetPlayerRatings.fetchLoop env memberID ds w cached).2 s = cached s) ∧
      (∀ d ∈ ds, ∃ t, w.trace <+: t ∧
        (t ++ [Event.upstreamGetPlayer memberID d.FormatDate])
          <+: (GetPlayerRatings.fetchLoop env memberID ds w cached).1.trace ∧
        (GetPlayerRatings.fetchLoop env memberID ds w cached).2 d.FormatDate
          = (payloadOf (env.upstreamGetPlayer t memberID d.FormatDate)).orElse
              (fun _ => cached d.FormatDate)) := by
  intro ds
  induction ds with
  | nil =>
    intro w cached _
    rw [fetchLoop_nil]
    refine ⟨⟨[], by simp, rfl⟩, fun s _ => rfl, ?_⟩
    intro d hd
    simp at hd
  | cons d ds ih =>
    intro w cached hnd
    rw [List.map_cons, List.nodup_cons] at hnd
    obtain ⟨wn, ext, heq, hwn, hext⟩ := fetchLoop_step env memberID d ds w cached
    rw [heq]
    generalize hcn : (match payloadOf (env.upstreamGetPlayer w.trace memberID d.FormatDate) with
      | some p => cached.set d.FormatDate p
      | none => cached) = cn
    have hcn1 : ∀ s, s ≠ d.FormatDate → cn s = cached s := by
      intro s hs
      rw [← hcn]
      split
      · simp [GoMap.set, hs]
      · rfl
    have hcn2 : cn d.FormatDate
        = (payloadOf (env.upstreamGetPlayer w.trace memberID d.FormatDate)).orElse
            (fun _ => cached d.FormatDate) := by
      rw [← hcn]
      split
      · rename_i p hp
        rw [hp]
        simp [GoMap.set]
      · rename_i hp
        rw [hp]
        rfl
    obtain ⟨⟨ext1, ht1, hf1⟩, h2, h3⟩ := ih wn cn hnd.2
    refine ⟨⟨Event.upstreamGetPlayer memberID d.FormatDate :: ext ++ ext1, ?_, ?_⟩, ?_, ?_⟩
    · rw [ht1, hwn]
      simp
    · rw [List.cons_append, List.filter_cons, List.filter_append, hext, hf1]
      rfl
    · intro s hs
      rw [List.map_cons, List.mem_cons, not_or] at hs
      rw [h2 s hs.2, hcn1 s hs.1]
    · intro d1 hd1
      rw [List.mem_cons] at hd1
      rcases hd1 with rfl | hd1
      · refine ⟨w.trace, List.prefix_refl _, ?_, ?_⟩
        · rw [ht1, hwn]
          exact ⟨ext ++ ext1, by simp⟩
        · rw [h2 _ hnd.1, hcn2]
      · obtain ⟨t, hp1, hp2, hv⟩ := h3 d1 hd1
        refine ⟨t, ?_, hp2, ?_⟩
        · exact List.IsPrefix.trans ⟨_, hwn.symm⟩ hp1
        · rw [hv, hcn1]
          intro hs
          exact hnd.1 (hs ▸ List.mem_map_of_mem _ hd1)

/-- A call that a trace records once was made at one moment. -/
theorem fetch_moment_unique (tr0 ext t1 t2 : List Event) (e : Event)
    (hc : ext.count e = 1) (h1 : tr0 <+: t1) (h2 : tr0 <+: t2)
    (p1 : (t1 ++ [e]) <+: tr0 ++ ext) (p2 : (t2 ++ [e]) <+: tr0 ++ ext) : t1 = t2 := by
  obtain ⟨a1, rfl⟩ := h1
  obtain ⟨a2, rfl⟩ := h2
  obtain ⟨c1, hc1⟩ := p1
  obtain ⟨c2, hc2⟩ := p2
  rw [List.append_assoc, List.append_assoc] at hc1 hc2
  have e1 := List.append_cancel_left hc1
  have e2 := List.append_cancel_left hc2
  have hcount : (a1 ++ ([e] ++ c1)).count e = 1 := by rw [e1]; exact hc
  simp only [List.count_append, List.count_cons_self, List.count_nil] at hcount
  have n1 : e ∉ a1 := fun h => by
    have := List.count_pos_iff.mpr h
    omega
  have n2 : e ∉ c1 := fun h => by
    have := List.count_pos_iff.mpr h
    omega
  have := (List.append_cons_inj_of_not_mem n1 n2).mp
    (show a1 ++ e :: c1 = a2 ++ e :: c2 from by rw [← List.singleton_append, e1,
      ← List.singleton_append (l := c2), e2])
  rw [this.1]

/-- Method `GetPlayerRatings`, with the parts of its result named. -/
theorem GetPlayerRatings_eq (env : Env) (w : World) (memberID : Int) (fromDate toDate : Time) :
    PlayerService.GetPlayerRatings env w memberID fromDate toDate =
      ((GetPlayerRatings.fetchLoop env memberID
          ((generateMonthRange fromDate toDate).filter (fun d =>
            (rangeHits env w memberID (generateMonthRange fromDate toDate) d.FormatDate).isNone))
          (w.log (.repoGetRatingHistoryForDates memberID (generateMonthRange fromDate toDate)))
          (rangeHits env w memberID (generateMonthRange fromDate toDate))).1,
        some { PlayerID := memberID
               Ratings := some ((generateMonthRange fromDate toDate).reverse.filterMap
                 (fun d => rangeCache env w memberID fromDate toDate d.FormatDate)) },
        none) := by
  have hw := GetRatingHistoryForDates_world env w memberID (generateMonthRange fromDate toDate)
  unfold PlayerService.GetPlayerRatings rangeCache rangeHits
  dsimp only
  generalize PlayerRepository.GetRatingHistoryForDates env w memberID
    (generateMonthRange fromDate toDate) = g at hw ⊢
  obtain ⟨w1, c, e⟩ := g
  dsimp only at hw ⊢
  subst hw
  rfl

/-- The formatted periods of a month range are pairwise different. -/
theorem generateMonthRange_format_nodup (from1 to1 : Time) :
    (generateMonthRange from1 to1).Nodup ∧
    ((generateMonthRange from1 to1).map Time.FormatDate).Nodup := by
  rw [generateMonthRange_eq]
  have hp := monthsFrom_pairwise (to1.monthIndex - from1.monthIndex + 1).toNat from1.monthIndex
  have hnd : (monthsFrom from1.monthIndex (to1.monthIndex - from1.monthIndex + 1).toNat).Nodup :=
    hp.imp (fun h heq => by rw [heq] at h; exact lt_irrefl _ h)
  refine ⟨hnd, List.Nodup.map_on ?_ hnd⟩
  intro x hx y hy hxy
  obtain ⟨i, _, rfl⟩ := (mem_monthsFrom _ _ x).mp hx
  obtain ⟨j, _, rfl⟩ := (mem_monthsFrom _ _ y).mp hy
  rw [FormatDate_monthStart_inj _ _ hxy]

theorem filterMap_periods {α β : Type} (f : α → Option β) : ∀ l : List α,
    List.Forall₂ (fun p r => f p = some r) (l.filter (fun p => (f p).isSome)) (l.filterMap f) := by
  intro l
  induction l with
  | nil => exact List.Forall₂.nil
  | cons a l ih =>
    cases h : f a with
    | none =>
      rw [List.filter_cons_of_neg (by simp [h]), List.filterMap_cons_none h]
      exact ih
    | some b =>
      rw [List.filter_cons_of_pos (by simp [h]), List.filterMap_cons_some h]
      exact List.Forall₂.cons h ih

/-- The run of the loop of `GetPlayerRatings` over the missing periods: what it adds
to the trace, and what `cached` holds for each period of the range in the end. -/
theorem rangeLoop_facts (env : Env) (w : World) (memberID : Int) (fromDate toDate : Time) :
    ∃ ext,
      (PlayerService.GetPlayerRatings env w memberID fromDate toDate).1.trace
        = w.trace ++ [Event.repoGetRatingHistoryForDates memberID
            (generateMonthRange fromDate toDate)] ++ ext ∧
      ext.filter Event.isFetch
        = ((generateMonthRange fromDate toDate).filter (fun d =>
            (rangeHits env w memberID (generateMonthRange fromDate toDate) d.FormatDate).isNone)).map
          (fun d => Event.upstreamGetPlayer memberID d.FormatDate) ∧
      (∀ p ∈ generateMonthRange fromDate toDate, ∀ r,
        rangeHits env w memberID (generateMonthRange fromDate toDate) p.FormatDate = some r →
        rangeCache env w memberID fromDate toDate p.FormatDate = some r ∧
        Event.upstreamGetPlayer memberID p.FormatDate ∉ ext) ∧
      (∀ p ∈ generateMonthRange fromDate toDate,
        rangeHits env w memberID (generateMonthRange fromDate toDate) p.FormatDate = none →
        ext.count (Event.upstreamGetPlayer memberID p.FormatDate) = 1 ∧
        ∃ t, (w.trace ++ [Event.repoGetRatingHistoryForDates memberID
              (generateMonthRange fromDate toDate)]) <+: t ∧
          (t ++ [Event.upstreamGetPlayer memberID p.FormatDate])
            <+: (w.trace ++ [Event.repoGetRatingHistoryForDates memberID
              (generateMonthRange fromDate toDate)] ++ ext) ∧
          rangeCache env w memberID fromDate toDate p.FormatDate
            = payloadOf (env.upstreamGetPlayer t memberID p.FormatDate)) := by
  rw [GetPlayerRatings_eq]
  unfold rangeCache
  dsimp only
  generalize hdates : generateMonthRange fromDate toDate = dates
  generalize hhits : rangeHits env w memberID dates = hits
  have hnd0 := (generateMonthRange_format_nodup fromDate toDate).2
  rw [hdates] at hnd0
  have hsub : (dates.filter (fun d => (hits d.FormatDate).isNone)).Sublist dates :=
    List.filter_sublist _
  have hnd : ((dates.filter (fun d => (hits d.FormatDate).isNone)).map Time.FormatDate).Nodup :=
    hnd0.sublist (hsub.map _)
  obtain ⟨⟨ext, ht, hf⟩, h2, h3⟩ := fetchLoop_spec env memberID
    (dates.filter (fun d => (hits d.FormatDate).isNone))
    (w.log (.repoGetRatingHistoryForDates memberID dates)) hits hnd
  have hinj : Function.Injective (fun s => Event.upstreamGetPlayer memberID s) := by
    intro a b hab
    injection hab
  refine ⟨ext, ht, hf, ?_, ?_⟩
  · intro p _ r hr
    have hnot : p.FormatDate ∉
        (dates.filter (fun d => (hits d.FormatDate).isNone)).map Time.FormatDate := by
      intro hm
      obtain ⟨d, hd, hdp⟩ := List.mem_map.mp hm
      have := (List.mem_filter.mp hd).2
      rw [hdp, hr] at this
      simp at this
    refine ⟨by rw [h2 _ hnot, hr], ?_⟩
    intro hm
    have hm2 : Event.upstreamGetPlayer memberID p.FormatDate ∈ ext.filter Event.isFetch :=
      List.mem_filter.mpr ⟨hm, rfl⟩
    rw [hf] at hm2
    obtain ⟨d, hd, hdp⟩ := List.mem_map.mp hm2
    exact hnot (List.mem_map.mpr ⟨d, hd, hinj hdp⟩)
  · intro p hp hn
    have hmem : p ∈ dates.filter (fun d => (hits d.FormatDate).isNone) :=
      List.mem_filter.mpr ⟨hp, by rw [hn]; rfl⟩
    obtain ⟨t, hp1, hp2, hv⟩ := h3 p hmem
    refine ⟨?_, t, hp1, ?_, ?_⟩
    · have hc : ext.count (Event.upstreamGetPlayer memberID p.FormatDate)
          = (ext.filter Event.isFetch).count (Event.upstreamGetPlayer memberID p.FormatDate) :=
        (List.count_filter rfl).symm
      rw [hc, hf]
      have hnd2 : ((dates.filter (fun d => (hits d.FormatDate).isNone)).map
          (fun d => Event.upstreamGetPlayer memberID d.FormatDate)).Nodup := by
        have := hnd.map hinj
        rwa [List.map_map] at this
      exact List.count_eq_one_of_mem hnd2 (List.mem_map.mpr ⟨p, hmem, rfl⟩)
    · rw [ht] at hp2
      exact hp2
    · rw [hv, hn]
      cases payloadOf (env.upstreamGetPlayer t memberID p.FormatDate) <;> rfl

/-- Claim C11: the `Ratings` of `GetPlayerRatings` are the payloads of a strictly
descending (newest first) list of periods, `ratingPeriods`: the entries of
`Ratings` are, one for one and in this order, what the service holds for these
periods.  Each of the periods is an element of the expanded range, is the first
day of a month at 00:00 UTC and lies between `normalize(from)` and
`normalize(to)` inclusive; no period and no formatted period appears twice.
For a `from` in January 2024 and a `to` in March 2024 (such as 2024-01-15 and
2024-03-10), when a payload is held for every period of the range, the periods
are `[2024-03-01, 2024-02-01, 2024-01-01]`. -/
theorem GetPlayerRatings_newest_first (env : Env) (w : World) (memberID : Int)
    (fromDate toDate : Time) :
    ∃ resp ratings,
      (PlayerService.GetPlayerRatings env w memberID fromDate toDate).2 = (some resp, none) ∧
      resp.Ratings = some ratings ∧
      List.Forall₂ (fun p r => rangeCache env w memberID fromDate toDate p.FormatDate = some r)
        (ratingPeriods env w memberID fromDate toDate) ratings ∧
      (ratingPeriods env w memberID fromDate toDate).Pairwise
        (fun a b => b.unixNano < a.unixNano) ∧
      (ratingPeriods env w memberID fromDate toDate).Nodup ∧
      ((ratingPeriods env w memberID fromDate toDate).map Time.FormatDate).Nodup ∧
      (∀ p ∈ ratingPeriods env w memberID fromDate toDate,
        p ∈ generateMonthRange fromDate toDate ∧
        normalizeToMonthStart p = p ∧ p.Day = 1 ∧ p.offset = UTC ∧
        p.Hour = 0 ∧ p.Minute = 0 ∧ p.Second = 0 ∧ p.Nanosecond = 0 ∧
        (normalizeToMonthStart fromDate).unixNano ≤ p.unixNano ∧
        p.unixNano ≤ (normalizeToMonthStart toDate).unixNano) ∧
      (fromDate.Year = 2024 → fromDate.Month = 1 → toDate.Year = 2024 → toDate.Month = 3 →
        (∀ d ∈ generateMonthRange fromDate toDate,
          (rangeCache env w memberID fromDate toDate d.FormatDate).isSome) →
        ratingPeriods env w memberID fromDate toDate
          = [time.Date 2024 3 1 0 0 0 0 UTC, time.Date 2024 2 1 0 0 0 0 UTC,
             time.Date 2024 1 1 0 0 0 0 UTC]) := by
  rw [GetPlayerRatings_eq]
  have hsub : (ratingPeriods env w memberID fromDate toDate).Sublist
      (generateMonthRange fromDate toDate).reverse := List.filter_sublist _
  have hnd := generateMonthRange_format_nodup fromDate toDate
  have heq := generateMonthRange_eq fromDate toDate
  have hasc : (generateMonthRange fromDate toDate).Pairwise
      (fun a b => a.unixNano < b.unixNano) := by
    rw [heq]
    exact monthsFrom_pairwise _ _
  refine ⟨_, _, rfl, rfl, filterMap_periods _ _, ?_, ?_, ?_, ?_, ?_⟩
  · exact (List.pairwise_reverse.mpr hasc).sublist hsub
  · exact (List.nodup_reverse.mpr hnd.1).sublist hsub
  · have h := List.nodup_reverse.mpr hnd.2
    rw [← List.map_reverse] at h
    exact h.sublist (hsub.map _)
  · intro p hp
    have hmem : p ∈ generateMonthRange fromDate toDate := List.mem_reverse.mp (hsub.subset hp)
    refine ⟨hmem, ?_⟩
    rw [heq] at hmem
    obtain ⟨i, hi, rfl⟩ := (mem_monthsFrom _ _ p).mp hmem
    have hf := monthStart_fields (fromDate.monthIndex + i)
    have hc := monthStart_clock (fromDate.monthIndex + i)
    refine ⟨?_, hf.2.2.1, hf.2.2.2.1, hc.1, hc.2.1, hc.2.2.1, hc.2.2.2, ?_, ?_⟩
    · rw [normalizeToMonthStart_eq_monthStart, monthStart_monthIndex]
    · rw [normalizeToMonthStart_eq_monthStart]
      have := monthStart_lt_iff (fromDate.monthIndex + i) fromDate.monthIndex
      by_contra hn
      have := this.mp (by omega)
      omega
    · rw [normalizeToMonthStart_eq_monthStart]
      have := monthStart_lt_iff toDate.monthIndex (fromDate.monthIndex + i)
      by_contra hn
      have := this.mp (by omega)
      omega
  · intro hy1 hm1 hy2 hm2 hall
    unfold ratingPeriods
    rw [List.filter_eq_self.mpr (fun d hd => hall d (List.mem_reverse.mp hd)), heq]
    unfold Time.monthIndex
    rw [hy1, hm1, hy2, hm2]
    decide

/-- Witness of C11: the range from 2024-01-15 to 2024-03-10 for member 7 on the empty
store, with an upstream that answers every request: the ratings are those of
March, February and January 2024, in this order. -/
theorem GetPlayerRatings_newest_first_witness :
    (PlayerService.GetPlayerRatings datedEnv emptyWorld 7 jan15 mar10).2
      = (some { PlayerID := 7
                Ratings := some [datedPlayer 7 2024 3 1, datedPlayer 7 2024 2 1,
                  datedPlayer 7 2024 1 1] }, none) ∧
    ratingPeriods datedEnv emptyWorld 7 jan15 mar10
      = [time.Date 2024 3 1 0 0 0 0 UTC, time.Date 2024 2 1 0 0 0 0 UTC,
         time.Date 2024 1 1 0 0 0 0 UTC] :=
  ⟨by decide,
    (GetPlayerRatings_newest_first datedEnv emptyWorld 7 jan15 mar10).elim
      (fun _ h => h.elim (fun _ h2 =>
        h2.2.2.2.2.2.2.2 (by decide) (by decide) (by decide) (by decide) (by decide)))⟩

/-- Claim C12: `GetPlayerRatings` always returns a nil error and a response whose
`Ratings` hold, newest first, one entry for each period of the expanded range
for which `cached` holds a payload in the end.  The calls of the upstream that
it makes are one call for each period that the store did not return live, in
ascending order, whatever the earlier calls returned.  For a period `p` of the
range, `cached` holds the payload `r` if and only if the store returned `r`
live for `p` or the call of the upstream for `p` returned `r`; and when the
call for `p` returned an error, `p` has no entry. -/
theorem GetPlayerRatings_fetch_failures (env : Env) (w : World) (memberID : Int)
    (fromDate toDate : Time) :
    (PlayerService.GetPlayerRatings env w memberID fromDate toDate).2.2 = none ∧
    (∃ resp, (PlayerService.GetPlayerRatings env w memberID fromDate toDate).2.1 = some resp ∧
      resp.PlayerID = memberID ∧
      resp.Ratings = some ((generateMonthRange fromDate toDate).reverse.filterMap
        (fun d => rangeCache env w memberID fromDate toDate d.FormatDate))) ∧
    (∃ ext, (PlayerService.GetPlayerRatings env w memberID fromDate toDate).1.trace
        = w.trace ++ [Event.repoGetRatingHistoryForDates memberID
            (generateMonthRange fromDate toDate)] ++ ext ∧
      ext.filter Event.isFetch
        = ((generateMonthRange fromDate toDate).filter (fun d =>
            (rangeHits env w memberID (generateMonthRange fromDate toDate) d.FormatDate).isNone)).map
          (fun d => Event.upstreamGetPlayer memberID d.FormatDate)) ∧
    (∀ p ∈ generateMonthRange fromDate toDate, ∀ r,
      rangeCache env w memberID fromDate toDate p.FormatDate = some r ↔
        (rangeHits env w memberID (generateMonthRange fromDate toDate) p.FormatDate = some r ∨
          ∃ t, fetchAnswered env
            (w.trace ++ [Event.repoGetRatingHistoryForDates memberID
              (generateMonthRange fromDate toDate)])
            (PlayerService.GetPlayerRatings env w memberID fromDate toDate).1.trace
            memberID p.FormatDate t (.ok r))) ∧
    (∀ p ∈ generateMonthRange fromDate toDate, ∀ t e,
      fetchAnswered env
        (w.trace ++ [Event.repoGetRatingHistoryForDates memberID
          (generateMonthRange fromDate toDate)])
        (PlayerService.GetPlayerRatings env w memberID fromDate toDate).1.trace
        memberID p.FormatDate t (.error e) →
      rangeCache env w memberID fromDate toDate p.FormatDate = none) := by
  obtain ⟨ext, ht, hf, hhit, hmiss⟩ := rangeLoop_facts env w memberID fromDate toDate
  have key : ∀ p ∈ generateMonthRange fromDate toDate, ∀ t x,
      fetchAnswered env
        (w.trace ++ [Event.repoGetRatingHistoryForDates memberID
          (generateMonthRange fromDate toDate)])
        (PlayerService.GetPlayerRatings env w memberID fromDate toDate).1.trace
        memberID p.FormatDate t x →
      rangeHits env w memberID (generateMonthRange fromDate toDate) p.FormatDate = none ∧
      rangeCache env w memberID fromDate toDate p.FormatDate = payloadOf x := by
    intro p hp t x hfa
    obtain ⟨h1, h2, h3⟩ := hfa
    rw [ht] at h2
    have hin : Event.upstreamGetPlayer memberID p.FormatDate ∈ ext := by
      obtain ⟨a, rfl⟩ := h1
      obtain ⟨c, hc⟩ := h2
      rw [List.append_assoc, List.append_assoc] at hc
      have := List.append_cancel_left hc
      rw [← this]
      simp
    cases hh : rangeHits env w memberID (generateMonthRange fromDate toDate) p.FormatDate with
    | some r => exact absurd hin (hhit p hp r hh).2
    | none =>
      obtain ⟨hcount, t0, q1, q2, hv⟩ := hmiss p hp hh
      have := fetch_moment_unique _ ext t t0 _ hcount h1 q1 h2 q2
      subst this
      exact ⟨rfl, by rw [hv, h3]⟩
  refine ⟨?_, ?_, ⟨ext, ht, hf⟩, ?_, ?_⟩
  · rw [GetPlayerRatings_eq]
  · rw [GetPlayerRatings_eq]
    exact ⟨_, rfl, rfl, rfl⟩
  · intro p hp r
    constructor
    · intro hc
      cases hh : rangeHits env w memberID (generateMonthRange fromDate toDate) p.FormatDate with
      | some r1 =>
        left
        rw [← hc, (hhit p hp r1 hh).1]
      | none =>
        right
        obtain ⟨_, t0, q1, q2, hv⟩ := hmiss p hp hh
        refine ⟨t0, q1, ?_, ?_⟩
        · rw [ht]
          exact q2
        · rw [hv] at hc
          cases hx : env.upstreamGetPlayer t0 memberID p.FormatDate with
          | error e => rw [hx] at hc; simp [payloadOf] at hc
          | ok r1 =>
            rw [hx] at hc
            simp only [payloadOf, Option.some.injEq] at hc
            rw [hc]
    · rintro (hh | ⟨t, hfa⟩)
      · exact (hhit p hp r hh).1
      · exact (key p hp t _ hfa).2
  · intro p hp t e hfa
    exact (key p hp t _ hfa).2

/-- Witness of C12: the range from 2024-01-15 to 2024-03-10 for member 7 on the empty
store, with an upstream that fails for February 2024: all three periods are
fetched, and the ratings are those of March and January. -/
theorem GetPlayerRatings_fetch_failures_witness :
    (PlayerService.GetPlayerRatings februaryFailsEnv emptyWorld 7 jan15 mar10).2
      = (some { PlayerID := 7
                Ratings := some [datedPlayer 7 2024 3 1, datedPlayer 7 2024 1 1] }, none) ∧
    (PlayerService.GetPlayerRatings februaryFailsEnv emptyWorld 7 jan15 mar10).1.trace.filter
        Event.isFetch
      = [.upstreamGetPlayer 7 "2024-01-01", .upstreamGetPlayer 7 "2024-02-01",
         .upstreamGetPlayer 7 "2024-03-01"] ∧
    rangeCache februaryFailsEnv emptyWorld 7 jan15 mar10 "2024-02-01" = none :=
  ⟨by decide, by decide,
    (GetPlayerRatings_fetch_failures februaryFailsEnv emptyWorld 7 jan15 mar10).2.2.2.2
      (time.Date 2024 2 1 0 0 0 0 UTC) (by decide)
      [.repoGetRatingHistoryForDates 7 (generateMonthRange jan15 mar10),
        .upstreamGetPlayer 7 "2024-01-01", .timeNow,
        .repoSave (datedPlayer 7 2024 1 1) (time.Date 2024 1 1 0 0 0 0 UTC) none, .timeNow]
      (.errorString "upstream error: status=500 body=")
      ⟨by decide, by decide, rfl⟩⟩

/-! ## Normalized periods in the store -/

theorem normalize_monthStart (k : Int) : normalizeToMonthStart (monthStart k) = monthStart k := by
  rw [normalizeToMonthStart_eq_monthStart, monthStart_monthIndex]

theorem normalize_twice (d : Time) :
    normalizeToMonthStart (normalizeToMonthStart d) = normalizeToMonthStart d := by
  rw [normalizeToMonthStart_eq_monthStart d, normalize_monthStart]

theorem normalized_fields (rd : Time) (h : normalizeToMonthStart rd = rd) :
    rd.Day = 1 ∧ rd.offset = UTC ∧ rd.Hour = 0 ∧ rd.Minute = 0 ∧ rd.Second = 0 ∧
    rd.Nanosecond = 0 := by
  rw [normalizeToMonthStart_eq_monthStart] at h
  rw [← h]
  have hf := monthStart_fields rd.monthIndex
  have hc := monthStart_clock rd.monthIndex
  exact ⟨hf.2.2.1, hf.2.2.2.1, hc.1, hc.2.1, hc.2.2.1, hc.2.2.2⟩

theorem Save_trace_full (env : Env) (w : World) (player : PlayerInfo) (ratingDate : Time)
    (expiresAt : Option Time) :
    ∃ ext, (PlayerRepository.Save env w player ratingDate expiresAt).1.trace
        = w.trace ++ Event.repoSave player ratingDate expiresAt :: ext ∧
      ∀ x ∈ ext, x.isSave = false := by
  unfold PlayerRepository.Save timeNow
  dsimp only
  split
  · exact ⟨[], rfl, by simp⟩
  · split
    · exact ⟨[Event.timeNow], by simp [log_trace], by simp [Event.isSave]⟩
    · exact ⟨[Event.timeNow], by simp [log_trace], by simp [Event.isSave]⟩

theorem Save_rows (env : Env) (w : World) (player : PlayerInfo) (ratingDate : Time)
    (expiresAt : Option Time) :
    (PlayerRepository.Save env w player ratingDate expiresAt).1.rows = w.rows ∨
    ∃ e, e.MemberID = player.ID ∧ e.RatingDate = ratingDate ∧
      (PlayerRepository.Save env w player ratingDate expiresAt).1.rows = upsert w.rows e := by
  unfold PlayerRepository.Save timeNow
  dsimp only
  split
  · exact Or.inl rfl
  · split
    · exact Or.inl rfl
    · exact Or.inr ⟨_, rfl, rfl, rfl⟩

theorem upsert_mem (rows : List PlayerCacheEntry) (e r : PlayerCacheEntry)
    (h : r ∈ upsert rows e) : r ∈ rows ∨ r = e := by
  rw [upsert_eq] at h
  split at h
  · obtain ⟨a, ha, rfl⟩ := List.mem_map.mp h
    by_cases hs : sameKey e a = true
    · rw [if_pos hs]; exact Or.inr rfl
    · rw [if_neg hs]; exact Or.inl ha
  · rw [List.mem_append, List.mem_singleton] at h
    exact h

theorem NormalizedSaves_trace (env : Env) (w w1 : World) (h : NormalizedSaves env w w1) :
    ∃ ext, w1.trace = w.trace ++ ext ∧ savesNormalized ext := by
  induction h with
  | refl => exact ⟨[], by simp, fun p rd exp hm => by simp at hm⟩
  | log w1 e _ he ih =>
    obtain ⟨ext, ht, hs⟩ := ih
    refine ⟨ext ++ [e], by rw [log_trace, ht, List.append_assoc], ?_⟩
    intro p rd exp hm
    rw [List.mem_append, List.mem_singleton] at hm
    rcases hm with hm | hm
    · exact hs p rd exp hm
    · rw [← hm] at he
      simp [Event.isSave] at he
  | save w1 p rd exp _ hn ih =>
    obtain ⟨ext, ht, hs⟩ := ih
    obtain ⟨ext1, ht1, hs1⟩ := Save_trace_full env w1 p rd exp
    refine ⟨ext ++ Event.repoSave p rd exp :: ext1, by rw [ht1, ht, List.append_assoc], ?_⟩
    intro p1 rd1 exp1 hm
    rw [List.mem_append, List.mem_cons] at hm
    rcases hm with hm | hm | hm
    · exact hs p1 rd1 exp1 hm
    · injection hm with _ h2 _
      rw [h2]
      exact ⟨hn, normalized_fields rd hn⟩
    · have := hs1 _ hm
      simp [Event.isSave] at this

theorem NormalizedSaves_inv (env : Env) (w w1 : World) (h : NormalizedSaves env w w1)
    (hi : StoreInv w) : StoreInv w1 := by
  induction h with
  | refl => exact hi
  | log w1 e _ _ ih => exact ih
  | save w1 p rd exp _ hn ih =>
    rcases Save_rows env w1 p rd exp with hr | ⟨e, _, he, hr⟩
    · unfold StoreInv
      rw [hr]
      exact ih
    · unfold StoreInv
      rw [hr]
      refine ⟨?_, upsert_pairwise _ _ ih.2⟩
      intro r hr1
      rcases upsert_mem _ _ _ hr1 with h1 | h1
      · exact ih.1 r h1
      · rw [h1, he]
        exact hn

theorem GetPlayer_saves (env : Env) (w : World) (memberID : Int) (date : Time) (w0 : World)
    (h1 : NormalizedSaves env w0 (w.log (.repoGet memberID (normalizeToMonthStart date)))) :
    NormalizedSaves env w0 (PlayerService.GetPlayer env w memberID date).1 := by
  have hw := Get_world env w memberID (normalizeToMonthStart date)
  unfold PlayerService.GetPlayer
  dsimp only
  generalize PlayerRepository.Get env w memberID (normalizeToMonthStart date) = g at hw ⊢
  obtain ⟨w1, c, e⟩ := g
  dsimp only at hw ⊢
  subst hw
  split
  · exact h1
  · split
    · exact .log _ _ h1 rfl
    · dsimp only
      have h3 := NormalizedSaves.log _ Event.timeNow
        (NormalizedSaves.log _ (Event.upstreamGetPlayer memberID date.FormatDate) h1 rfl) rfl
      rw [← determineTTL_trace env _ (normalizeToMonthStart date)] at h3
      exact .save _ _ _ _ h3 (normalize_twice date)

theorem GetPlayerByFideID_saves (env : Env) (w : World) (fideID : Int) (date : Time)
    (w0 : World)
    (h1 : NormalizedSaves env w0 (w.log (.repoGetByFideID fideID (normalizeToMonthStart date)))) :
    NormalizedSaves env w0 (PlayerService.GetPlayerByFideID env w fideID date).1 := by
  have hw := GetByFideID_world env w fideID (normalizeToMonthStart date)
  unfold PlayerService.GetPlayerByFideID
  dsimp only
  generalize PlayerRepository.GetByFideID env w fideID (normalizeToMonthStart date) = g at hw ⊢
  obtain ⟨w1, c, e⟩ := g
  dsimp only at hw ⊢
  subst hw
  split
  · exact h1
  · split
    · exact .log _ _ h1 rfl
    · dsimp only
      have h3 := NormalizedSaves.log _ Event.timeNow
        (NormalizedSaves.log _ (Event.upstreamGetPlayerByFideID fideID date.FormatDate) h1 rfl) rfl
      rw [← determineTTL_trace env _ (normalizeToMonthStart date)] at h3
      exact .save _ _ _ _ h3 (normalize_twice date)

theorem step_saves (env : Env) (w : World) (ids : List Int) (ds : String) (rd : Time)
    (exp : Option Time) (hn : normalizeToMonthStart rd = rd) (st : ParState) (i : Nat)
    (h : NormalizedSaves env w st.w) :
    NormalizedSaves env w (fetchPlayersParallel.step env ids ds rd exp st i).w := by
  unfold fetchPlayersParallel.step
  split
  · exact h
  · split
    · exact .log _ _ h rfl
    · exact h
    · exact .save _ _ _ _ h hn

theorem run_saves (env : Env) (w : World) (ids : List Int) (ds : String) (rd : Time)
    (exp : Option Time) (hn : normalizeToMonthStart rd = rd) (sched : List Nat) :
    ∀ st : ParState, NormalizedSaves env w st.w →
      NormalizedSaves env w
        (sched.foldl (fetchPlayersParallel.step env ids ds rd exp) st).w := by
  induction sched with
  | nil => intro st h; exact h
  | cons i sched ih =>
    intro st h
    exact ih _ (step_saves env w ids ds rd exp hn st i h)

theorem GetPlayers_saves (env : Env) (w : World) (memberIDs : List Int) (date : Time)
    (w0 : World)
    (h1 : NormalizedSaves env w0 (w.log (.repoGetBatch memberIDs (normalizeToMonthStart date)))) :
    NormalizedSaves env w0 (PlayerService.GetPlayers env w memberIDs date).1 := by
  rw [GetPlayers_eq]
  split
  · dsimp only
    unfold PlayerService.fetchPlayersParallel
    dsimp only
    apply run_saves env w0 _ _ _ _ (normalize_twice date)
    dsimp only
    rw [determineTTL_trace]
    exact .log _ _ h1 rfl
  · exact h1

theorem fetchLoop_saves (env : Env) (w0 : World) (memberID : Int) :
    ∀ (ds : List Time) (w : World) (cached : GoMap String PlayerInfo),
      (∀ d ∈ ds, normalizeToMonthStart d = d) → NormalizedSaves env w0 w →
      NormalizedSaves env w0 (GetPlayerRatings.fetchLoop env memberID ds w cached).1 := by
  intro ds
  induction ds with
  | nil => intro w cached _ h; rw [fetchLoop_nil]; exact h
  | cons d ds ih =>
    intro w cached hd h
    rw [fetchLoop_cons]
    have h2 : NormalizedSaves env w0 (w.log (.upstreamGetPlayer memberID d.FormatDate)) :=
      .log _ _ h rfl
    split
    · exact ih _ _ (fun x hx => hd x (List.mem_cons_of_mem _ hx)) h2
    · apply ih _ _ (fun x hx => hd x (List.mem_cons_of_mem _ hx))
      have h3 := NormalizedSaves.log _ Event.timeNow h2 rfl
      rw [← determineTTL_trace env _ d] at h3
      exact .save _ _ _ _ h3 (hd d (List.mem_cons_self _ _))

theorem GetPlayerRatings_saves (env : Env) (w : World) (memberID : Int)
    (fromDate toDate : Time) (w0 : World)
    (h1 : NormalizedSaves env w0
      (w.log (.repoGetRatingHistoryForDates memberID (generateMonthRange fromDate toDate)))) :
    NormalizedSaves env w0
      (PlayerService.GetPlayerRatings env w memberID fromDate toDate).1 := by
  rw [GetPlayerRatings_eq]
  dsimp only
  apply fetchLoop_saves
  · intro d hd
    have hm := (List.mem_filter.mp hd).1
    rw [generateMonthRange_eq] at hm
    obtain ⟨i, _, rfl⟩ := (mem_monthsFrom _ _ d).mp hm
    exact normalize_monthStart _
  · exact h1

theorem Reachable_inv (env : Env) (w : World) (h : Reachable env w) : StoreInv w := by
  induction h with
  | empty tr => exact ⟨fun r hr => by simp at hr, List.Pairwise.nil⟩
  | getPlayer w id date _ ih =>
    exact NormalizedSaves_inv env _ _ (GetPlayer_saves env w id date w (.log _ _ .refl rfl)) ih
  | getPlayers w ids date _ ih =>
    exact NormalizedSaves_inv env _ _ (GetPlayers_saves env w ids date w (.log _ _ .refl rfl)) ih
  | getPlayerByFideID w id date _ ih =>
    exact NormalizedSaves_inv env _ _
      (GetPlayerByFideID_saves env w id date w (.log _ _ .refl rfl)) ih
  | getPlayerRatings w id f t _ ih =>
    exact NormalizedSaves_inv env _ _
      (GetPlayerRatings_saves env w id f t w (.log _ _ .refl rfl)) ih

theorem same_month_unixNano (a b : Time) (ha : normalizeToMonthStart a = a)
    (hb : normalizeToMonthStart b = b) (hy : a.Year = b.Year) (hm : a.Month = b.Month) :
    a = b := by
  rw [← ha, ← hb]
  unfold normalizeToMonthStart
  rw [hy, hm]

/-- Claim C18: every `Save` issued by `GetPlayer`, `GetPlayers`, `GetPlayerByFideID`
and `GetPlayerRatings` uses a period that is its own normalization (day 1,
00:00 UTC), for every input: the calls that each of them adds to the trace hold
no `Save` with another period.  So in every store state reached from an empty
store by these four operations, every record has a normalized period, and no
two records of the same member have periods in the same calendar month. -/
theorem saves_use_normalized_periods (env : Env) :
    (∀ w memberID date, ∃ ext,
      (PlayerService.GetPlayer env w memberID date).1.trace = w.trace ++ ext ∧
      savesNormalized ext) ∧
    (∀ w memberIDs date, ∃ ext,
      (PlayerService.GetPlayers env w memberIDs date).1.trace = w.trace ++ ext ∧
      savesNormalized ext) ∧
    (∀ w fideID date, ∃ ext,
      (PlayerService.GetPlayerByFideID env w fideID date).1.trace = w.trace ++ ext ∧
      savesNormalized ext) ∧
    (∀ w memberID fromDate toDate, ∃ ext,
      (PlayerService.GetPlayerRatings env w memberID fromDate toDate).1.trace
        = w.trace ++ ext ∧
      savesNormalized ext) ∧
    (∀ w, Reachable env w →
      (∀ r ∈ w.rows, normalizeToMonthStart r.RatingDate = r.RatingDate ∧
        r.RatingDate.Day = 1 ∧ r.RatingDate.offset = UTC) ∧
      w.rows.Pairwise (fun a b => ¬ (a.MemberID = b.MemberID ∧
        a.RatingDate.Year = b.RatingDate.Year ∧ a.RatingDate.Month = b.RatingDate.Month))) := by
  refine ⟨?_, ?_, ?_, ?_, ?_⟩
  · intro w id date
    exact NormalizedSaves_trace env _ _ (GetPlayer_saves env w id date w (.log _ _ .refl rfl))
  · intro w ids date
    exact NormalizedSaves_trace env _ _ (GetPlayers_saves env w ids date w (.log _ _ .refl rfl))
  · intro w id date
    exact NormalizedSaves_trace env _ _
      (GetPlayerByFideID_saves env w id date w (.log _ _ .refl rfl))
  · intro w id f t
    exact NormalizedSaves_trace env _ _
      (GetPlayerRatings_saves env w id f t w (.log _ _ .refl rfl))
  · intro w hw
    have hi := Reachable_inv env w hw
    refine ⟨?_, ?_⟩
    · intro r hr
      have hn := hi.1 r hr
      have hf := normalized_fields _ hn
      exact ⟨hn, hf.1, hf.2.1⟩
    · have hall : ∀ a ∈ w.rows, ∀ b ∈ w.rows, distinctKeys a b →
          ¬ (a.MemberID = b.MemberID ∧
            a.RatingDate.Year = b.RatingDate.Year ∧ a.RatingDate.Month = b.RatingDate.Month) := by
        intro a ha b hb hd hsame
        apply hd
        refine ⟨hsame.1, ?_⟩
        rw [same_month_unixNano _ _ (hi.1 a ha) (hi.1 b hb) hsame.2.1 hsame.2.2]
      exact hi.2.imp_of_mem (fun ha hb hd => hall _ ha _ hb hd)

/-- Witness of C18: two gets of member 12345 for two days of June 2024, from the
empty store, leave one record, with period 2024-06-01. -/
theorem saves_use_normalized_periods_witness :
    (PlayerService.GetPlayer sampleEnv
      (PlayerService.GetPlayer sampleEnv emptyWorld 12345 june15).1 12345 june20).1.rows.map
        (fun r => (r.MemberID, r.RatingDate.FormatDate)) = [(12345, "2024-06-01")] ∧
    (PlayerService.GetPlayer sampleEnv
      (PlayerService.GetPlayer sampleEnv emptyWorld 12345 june15).1 12345 june20).1.rows.Pairwise
      (fun a b => ¬ (a.MemberID = b.MemberID ∧
        a.RatingDate.Year = b.RatingDate.Year ∧ a.RatingDate.Month = b.RatingDate.Month)) :=
  ⟨by decide,
    ((saves_use_normalized_periods sampleEnv).2.2.2.2 _
      (.getPlayer _ 12345 june20 (.getPlayer _ 12345 june15 (.empty [])))).2⟩

/-! ## The get by FIDE id -/

/-- In the table after an upsert of `e`, the first row that satisfies a condition
which holds of `e` and, among the rows of the table, only of rows with the key
of `e`, is `e`. -/
theorem upsert_find_mem (rows : List PlayerCacheEntry) (e : PlayerCacheEntry)
    (cond : PlayerCacheEntry → Bool) (he : cond e = true)
    (hkey : ∀ r ∈ rows, cond r = true → sameKey e r = true) :
    (upsert rows e).find? cond = some e := by
  rw [upsert_eq]
  split
  · rename_i hany
    induction rows with
    | nil => simp at hany
    | cons r rs ih =>
      rw [List.map_cons, List.find?_cons]
      by_cases hr : sameKey e r = true
      · rw [if_pos hr, he]
      · have hc : cond r = false := by
          cases hcr : cond r with
          | false => rfl
          | true => exact absurd (hkey r (List.mem_cons_self _ _) hcr) hr
        have hany2 : rs.any (sameKey e) = true := by
          rw [List.any_cons, Bool.or_eq_true] at hany
          exact hany.resolve_left hr
        rw [if_neg hr, hc]
        exact ih (fun x hx => hkey x (List.mem_cons_of_mem _ hx)) hany2
  · rename_i hany
    have hnone : rows.find? cond = none := by
      rw [List.find?_eq_none]
      intro r hr hcr
      apply hany
      rw [List.any_eq_true]
      exact ⟨r, hr, hkey r hr hcr⟩
    rw [List.find?_append, hnone]
    simp [List.find?, he]

theorem GetPlayerByFideID_of_hit (env : Env) (w : World) (fideID : Int) (date : Time)
    (record : PlayerInfo)
    (h : (PlayerRepository.GetByFideID env w fideID (normalizeToMonthStart date)).2.1
      = some record) :
    PlayerService.GetPlayerByFideID env w fideID date
      = (w.log (.repoGetByFideID fideID (normalizeToMonthStart date)), some record, none) := by
  have hw := GetByFideID_world env w fideID (normalizeToMonthStart date)
  rcases hG : PlayerRepository.GetByFideID env w fideID (normalizeToMonthStart date)
    with ⟨w1, c, e⟩
  rw [hG] at h hw
  dsimp only at h hw
  subst h hw
  simp [PlayerService.GetPlayerByFideID, hG]

theorem GetPlayerByFideID_of_fetch_ok (env : Env) (w : World) (fideID : Int) (date : Time)
    (P : PlayerInfo)
    (hmiss : (PlayerRepository.GetByFideID env w fideID (normalizeToMonthStart date)).2.1 = none)
    (hfetch : env.upstreamGetPlayerByFideID
      (w.trace ++ [.repoGetByFideID fideID (normalizeToMonthStart date)]) fideID date.FormatDate
        = .ok P) :
    PlayerService.GetPlayerByFideID env w fideID date
      = ((PlayerRepository.Save env
          (PlayerService.determineTTL env
            ((w.log (.repoGetByFideID fideID (normalizeToMonthStart date))).log
              (.upstreamGetPlayerByFideID fideID date.FormatDate)) (normalizeToMonthStart date)).1
          P (normalizeToMonthStart date)
          (PlayerService.determineTTL env
            ((w.log (.repoGetByFideID fideID (normalizeToMonthStart date))).log
              (.upstreamGetPlayerByFideID fideID date.FormatDate)) (normalizeToMonthStart date)).2).1,
        some P, none) := by
  have hw := GetByFideID_world env w fideID (normalizeToMonthStart date)
  rcases hG : PlayerRepository.GetByFideID env w fideID (normalizeToMonthStart date)
    with ⟨w1, c, e⟩
  rw [hG] at hmiss hw
  dsimp only at hmiss hw
  subst hmiss hw
  simp [PlayerService.GetPlayerByFideID, hG, log_trace, hfetch]

/-- Counterexample to C19: the upstream answers the request for the FIDE id 1503014
with a payload that carries no FIDE id.  The get misses, the fetch and the `Save`
succeed, and the one row of the table has a null `fide_id`; the store's
`GetByFideID` for the requested id still finds nothing, and the repeated get
fetches again. -/
theorem GetPlayerByFideID_saves_payload_fide_id :
    (PlayerRepository.GetByFideID noFideEnv emptyWorld 1503014 (normalizeToMonthStart june15)).2
      = (none, none) ∧
    (PlayerService.GetPlayerByFideID noFideEnv emptyWorld 1503014 june15).2
      = (some (samplePlayer 12345), none) ∧
    (PlayerService.GetPlayerByFideID noFideEnv emptyWorld 1503014 june15).1.rows.map
      (fun r => (r.MemberID, r.FideID, r.RatingDate.FormatDate, r.Data))
      = [(12345, none, "2024-06-01", "12345")] ∧
    (PlayerRepository.GetByFideID noFideEnv
      (PlayerService.GetPlayerByFideID noFideEnv emptyWorld 1503014 june15).1 1503014
      (normalizeToMonthStart june15)).2 = (none, none) ∧
    (PlayerService.GetPlayerByFideID noFideEnv
      (PlayerService.GetPlayerByFideID noFideEnv emptyWorld 1503014 june15).1 1503014
      june15).1.trace.filter Event.isFetch
      = [.upstreamGetPlayerByFideID 1503014 "2024-06-15",
         .upstreamGetPlayerByFideID 1503014 "2024-06-15"] := by
  refine ⟨by decide, by decide, by decide, by decide, by decide⟩

/-! ## Malformed dates -/

theorem parseDate_malformed (env : Env) (w : World) (s : String) (hne : s ≠ "")
    (hday : time.ParseDay s.data = none) (hmonth : time.ParseMonth s.data = none) :
    parseDate env w s = (w.log .timeNow, env.timeNow w.trace) := by
  unfold parseDate
  rw [if_neg hne, hday, hmonth]
  rfl

theorem parseDate_empty (env : Env) (w : World) :
    parseDate env w "" = (w.log .timeNow, env.timeNow w.trace) := by
  unfold parseDate
  rw [if_pos rfl]
  rfl

theorem GetPlayer_store_call (env : Env) (w : World) (memberID : Int) (date : Time) :
    Event.repoGet memberID (normalizeToMonthStart date)
      ∈ (PlayerService.GetPlayer env w memberID date).1.trace := by
  obtain ⟨ext, ht, _⟩ := NormalizedSaves_trace env _ _
    (GetPlayer_saves env w memberID date _ .refl)
  rw [ht, log_trace]
  simp

theorem GetPlayerByFideID_store_call (env : Env) (w : World) (fideID : Int) (date : Time) :
    Event.repoGetByFideID fideID (normalizeToMonthStart date)
      ∈ (PlayerService.GetPlayerByFideID env w fideID date).1.trace := by
  obtain ⟨ext, ht, _⟩ := NormalizedSaves_trace env _ _
    (GetPlayerByFideID_saves env w fideID date _ .refl)
  rw [ht, log_trace]
  simp

theorem GetPlayers_store_call (env : Env) (w : World) (memberIDs : List Int) (date : Time) :
    Event.repoGetBatch memberIDs (normalizeToMonthStart date)
      ∈ (PlayerService.GetPlayers env w memberIDs date).1.trace := by
  obtain ⟨ext, ht, _⟩ := NormalizedSaves_trace env _ _
    (GetPlayers_saves env w memberIDs date _ .refl)
  rw [ht, log_trace]
  simp

theorem GetPlayerRatings_store_call (env : Env) (w : World) (memberID : Int)
    (fromDate toDate : Time) :
    Event.repoGetRatingHistoryForDates memberID (generateMonthRange fromDate toDate)
      ∈ (PlayerService.GetPlayerRatings env w memberID fromDate toDate).1.trace := by
  obtain ⟨ext, ht, _⟩ := NormalizedSaves_trace env _ _
    (GetPlayerRatings_saves env w memberID fromDate toDate _ .refl)
  rw [ht, log_trace]
  simp

/-- The handler `GetPlayer` for a well-formed id. -/
theorem GetPlayer_handler_valid (env : Env) (w : World) (idStr dateStr : String) (id : Int)
    (h : Atoi idStr.data = .ok id) :
    (PlayerHandler.GetPlayer env w idStr dateStr).1
      = (PlayerService.GetPlayer env (parseDate env w dateStr).1 id
          (parseDate env w dateStr).2).1 ∧
    ((PlayerHandler.GetPlayer env w idStr dateStr).2.status = StatusOK ∨
      (PlayerHandler.GetPlayer env w idStr dateStr).2.status = StatusInternalServerError) := by
  unfold PlayerHandler.GetPlayer
  rw [h]
  dsimp only
  split
  · exact ⟨rfl, Or.inr rfl⟩
  · exact ⟨rfl, Or.inl rfl⟩

/-- The handler `GetPlayerByFideID` for a well-formed id. -/
theorem GetPlayerByFideID_handler_valid (env : Env) (w : World) (idStr dateStr : String)
    (id : Int) (h : Atoi idStr.data = .ok id) :
    (PlayerHandler.GetPlayerByFideID env w idStr dateStr).1
      = (PlayerService.GetPlayerByFideID env (parseDate env w dateStr).1 id
          (parseDate env w dateStr).2).1 ∧
    ((PlayerHandler.GetPlayerByFideID env w idStr dateStr).2.status = StatusOK ∨
      (PlayerHandler.GetPlayerByFideID env w idStr dateStr).2.status
        = StatusInternalServerError) := by
  unfold PlayerHandler.GetPlayerByFideID
  rw [h]
  dsimp only
  split
  · exact ⟨rfl, Or.inr rfl⟩
  · exact ⟨rfl, Or.inl rfl⟩

/-- The handler `GetPlayers` for a well-formed list of one to a hundred ids. -/
theorem GetPlayers_handler_valid (env : Env) (w : World) (idsStr dateStr : String)
    (ids : List Int) (hne : idsStr ≠ "") (h : parseIDs idsStr = .ok ids)
    (h0 : 0 < ids.length) (h100 : ids.length ≤ 100) :
    (PlayerHandler.GetPlayers env w idsStr dateStr).1
      = (PlayerService.GetPlayers env (parseDate env w dateStr).1 ids
          (parseDate env w dateStr).2).1 ∧
    (PlayerHandler.GetPlayers env w idsStr dateStr).2.status = StatusOK := by
  have herr := GetPlayers_error_nil env (parseDate env w dateStr).1 ids
    (parseDate env w dateStr).2
  unfold PlayerHandler.GetPlayers
  rw [if_neg hne, h]
  dsimp only
  rw [if_neg (by omega), if_neg (by omega)]
  generalize PlayerService.GetPlayers env (parseDate env w dateStr).1 ids
    (parseDate env w dateStr).2 = g at herr ⊢
  obtain ⟨w2, r, e⟩ := g
  dsimp only at herr ⊢
  subst herr
  exact ⟨rfl, rfl⟩

/-- The handler `GetPlayerRatings` for a well-formed id. -/
theorem GetPlayerRatings_handler_valid (env : Env) (w : World)
    (idStr monthsStr fromStr toStr : String) (id : Int) (h : Atoi idStr.data = .ok id) :
    (PlayerHandler.GetPlayerRatings env w idStr monthsStr fromStr toStr).1
      = (PlayerService.GetPlayerRatings env (parseDateRange env w monthsStr fromStr toStr).1 id
          (parseDateRange env w monthsStr fromStr toStr).2.1
          (parseDateRange env w monthsStr fromStr toStr).2.2).1 ∧
    (PlayerHandler.GetPlayerRatings env w idStr monthsStr fromStr toStr).2.status = StatusOK := by
  unfold PlayerHandler.GetPlayerRatings
  rw [h]
  dsimp only
  rw [GetPlayerRatings_eq]
  exact ⟨rfl, rfl⟩

/-- Counterexample to C20: the date `2024-13-45` is not empty and is neither a valid
`YYYY-MM-DD` nor a valid `YYYY-MM` date.  The handler `GetPlayer` answers the
request for member 12345 with status 200 and the payload, after a read of the
store, a call of the upstream for the current date and a `Save`. -/
theorem malformed_date_not_rejected :
    "2024-13-45" ≠ "" ∧ time.ParseDay "2024-13-45".data = none ∧
    time.ParseMonth "2024-13-45".data = none ∧
    (PlayerHandler.GetPlayer sampleEnv emptyWorld "12345" "2024-13-45").2
      = WriteJSON StatusOK (.player (some (samplePlayer 12345))) ∧
    (PlayerHandler.GetPlayer sampleEnv emptyWorld "12345" "2024-13-45").1.trace.filter
        Event.isFetch = [.upstreamGetPlayer 12345 "2024-06-20"] ∧
    (PlayerHandler.GetPlayer sampleEnv emptyWorld "12345" "2024-13-45").1.trace.filter
        Event.isStore
      = [.repoGet 12345 (time.Date 2024 6 1 0 0 0 0 UTC),
         .repoSave (samplePlayer 12345) (time.Date 2024 6 1 0 0 0 0 UTC)
           (some (time.Date 2024 6 21 12 0 0 0 UTC))] := by
  refine ⟨by decide, by decide, by decide, by decide, by decide, by decide⟩

/-- Claim C20, amended: a malformed date is not rejected; it is read as the current
time.  For every date string that is not empty and is neither a valid
`YYYY-MM-DD` nor a valid `YYYY-MM` date, `parseDate` returns the reading of
`time.Now()`.  The handlers `GetPlayer`, `GetPlayerByFideID` and `GetPlayers`
answer such a request exactly as they answer a request without a date: for
well-formed ids they call the store for the month of the current time and answer
with status 200 (or 500 when the service fails), never with 400.  The handler
`GetPlayerRatings` takes the current time for a malformed `from` or `to`,
calls the store and answers with status 200.  A malformed id is answered with
status 400 before any external call, whatever the date. -/
theorem malformed_date_falls_back_to_now (env : Env) (w : World) (s : String)
    (hne : s ≠ "") (hday : time.ParseDay s.data = none)
    (hmonth : time.ParseMonth s.data = none) :
    parseDate env w s = (w.log .timeNow, env.timeNow w.trace) ∧
    (∀ idStr, PlayerHandler.GetPlayer env w idStr s = PlayerHandler.GetPlayer env w idStr "") ∧
    (∀ idStr, PlayerHandler.GetPlayerByFideID env w idStr s
      = PlayerHandler.GetPlayerByFideID env w idStr "") ∧
    (∀ idsStr, PlayerHandler.GetPlayers env w idsStr s
      = PlayerHandler.GetPlayers env w idsStr "") ∧
    (∀ idStr id, Atoi idStr.data = .ok id →
      ((PlayerHandler.GetPlayer env w idStr s).2.status = StatusOK ∨
        (PlayerHandler.GetPlayer env w idStr s).2.status = StatusInternalServerError) ∧
      Event.repoGet id (normalizeToMonthStart (env.timeNow w.trace))
        ∈ (PlayerHandler.GetPlayer env w idStr s).1.trace) ∧
    (∀ idStr id, Atoi idStr.data = .ok id →
      ((PlayerHandler.GetPlayerByFideID env w idStr s).2.status = StatusOK ∨
        (PlayerHandler.GetPlayerByFideID env w idStr s).2.status
          = StatusInternalServerError) ∧
      Event.repoGetByFideID id (normalizeToMonthStart (env.timeNow w.trace))
        ∈ (PlayerHandler.GetPlayerByFideID env w idStr s).1.trace) ∧
    (∀ idsStr ids, idsStr ≠ "" → parseIDs idsStr = .ok ids → 0 < ids.length →
      ids.length ≤ 100 →
      (PlayerHandler.GetPlayers env w idsStr s).2.status = StatusOK ∧
      Event.repoGetBatch ids (normalizeToMonthStart (env.timeNow w.trace))
        ∈ (PlayerHandler.GetPlayers env w idsStr s).1.trace) ∧
    (∀ idStr id toStr, Atoi idStr.data = .ok id →
      (parseDateRange env w "" s toStr).2.1 = env.timeNow (w.trace ++ [.timeNow]) ∧
      (PlayerHandler.GetPlayerRatings env w idStr "" s toStr).2.status = StatusOK ∧
      ∃ dates, Event.repoGetRatingHistoryForDates id dates
        ∈ (PlayerHandler.GetPlayerRatings env w idStr "" s toStr).1.trace) ∧
    (∀ idStr id fromStr, Atoi idStr.data = .ok id →
      (parseDateRange env w "" fromStr s).2.2
        = env.timeNow (parseDateRange env w "" fromStr "").1.trace ∧
      (PlayerHandler.GetPlayerRatings env w idStr "" fromStr s).2.status = StatusOK ∧
      ∃ dates, Event.repoGetRatingHistoryForDates id dates
        ∈ (PlayerHandler.GetPlayerRatings env w idStr "" fromStr s).1.trace) ∧
    (∀ idStr e, Atoi idStr.data = .error e →
      PlayerHandler.GetPlayer env w idStr s = (w, WriteError StatusBadRequest "invalid player id") ∧
      PlayerHandler.GetPlayerByFideID env w idStr s
        = (w, WriteError StatusBadRequest "invalid fide id") ∧
      ∀ fromStr toStr, PlayerHandler.GetPlayerRatings env w idStr "" fromStr toStr
        = (w, WriteError StatusBadRequest "invalid player id")) := by
  have hp := parseDate_malformed env w s hne hday hmonth
  have he := parseDate_empty env w
  refine ⟨hp, ?_, ?_, ?_, ?_, ?_, ?_, ?_, ?_, ?_⟩
  · intro idStr
    unfold PlayerHandler.GetPlayer
    rw [hp, he]
  · intro idStr
    unfold PlayerHandler.GetPlayerByFideID
    rw [hp, he]
  · intro idsStr
    unfold PlayerHandler.GetPlayers
    rw [hp, he]
  · intro idStr id hid
    obtain ⟨h1, h2⟩ := GetPlayer_handler_valid env w idStr s id hid
    refine ⟨h2, ?_⟩
    rw [h1, hp]
    exact GetPlayer_store_call env _ id _
  · intro idStr id hid
    obtain ⟨h1, h2⟩ := GetPlayerByFideID_handler_valid env w idStr s id hid
    refine ⟨h2, ?_⟩
    rw [h1, hp]
    exact GetPlayerByFideID_store_call env _ id _
  · intro idsStr ids h1 h2 h3 h4
    obtain ⟨g1, g2⟩ := GetPlayers_handler_valid env w idsStr s ids h1 h2 h3 h4
    refine ⟨g2, ?_⟩
    rw [g1, hp]
    exact GetPlayers_store_call env _ ids _
  · intro idStr id toStr hid
    obtain ⟨g1, g2⟩ := GetPlayerRatings_handler_valid env w idStr "" s toStr id hid
    refine ⟨?_, g2, generateMonthRange (parseDateRange env w "" s toStr).2.1
      (parseDateRange env w "" s toStr).2.2, ?_⟩
    · unfold parseDateRange timeNow
      dsimp only
      rw [if_neg (by simp), if_pos hne]
      dsimp only
      rw [parseDate_malformed env _ s hne hday hmonth]
      rfl
    · rw [g1]
      exact GetPlayerRatings_store_call env _ id _ _
  · intro idStr id fromStr hid
    obtain ⟨g1, g2⟩ := GetPlayerRatings_handler_valid env w idStr "" fromStr s id hid
    refine ⟨?_, g2, generateMonthRange (parseDateRange env w "" fromStr s).2.1
      (parseDateRange env w "" fromStr s).2.2, ?_⟩
    · unfold parseDateRange timeNow
      dsimp only
      rw [if_neg (by simp)]
      dsimp only
      generalize (if fromStr ≠ "" then parseDate env (w.log .timeNow) fromStr
        else (w.log .timeNow, (env.timeNow w.trace).AddDate 0 (-12) 0)) = X
      obtain ⟨w2, f⟩ := X
      dsimp only
      rw [if_pos hne, if_neg (by simp), parseDate_malformed env w2 s hne hday hmonth]
    · rw [g1]
      exact GetPlayerRatings_store_call env _ id _ _
  · intro idStr e hid
    refine ⟨?_, ?_, ?_⟩
    · unfold PlayerHandler.GetPlayer
      rw [hid]
    · unfold PlayerHandler.GetPlayerByFideID
      rw [hid]
    · intro fromStr toStr
      unfold PlayerHandler.GetPlayerRatings
      rw [hid]

/-- Witness of C20 (amended): the date `2024-13-45` in a request for member 12345 on
the sample store, which holds the record of June 2024: the handler answers like
for a request without a date, with status 200. -/
theorem malformed_date_falls_back_to_now_witness :
    PlayerHandler.GetPlayer sampleEnv sampleWorld "12345" "2024-13-45"
      = PlayerHandler.GetPlayer sampleEnv sampleWorld "12345" "" ∧
    (PlayerHandler.GetPlayer sampleEnv sampleWorld "12345" "2024-13-45").2
      = WriteJSON StatusOK (.player (some (samplePlayer 12345))) :=
  ⟨(malformed_date_falls_back_to_now sampleEnv sampleWorld "2024-13-45" (by decide)
      (by decide) (by decide)).2.1 "12345", by decide⟩

/-! ## Parsing the list of ids -/

theorem splitComma_ne_nil (cs : List Char) : splitComma cs ≠ [] := by
  induction cs with
  | nil => simp [splitComma]
  | cons c cs ih =>
    unfold splitComma
    split
    · split <;> simp
    · split <;> simp

/-- The pieces of `strings.Split(s, ",")` hold no comma, and joined by commas they
give `s` back. -/
theorem splitComma_spec (cs : List Char) :
    (∀ p ∈ splitComma cs, ',' ∉ p) ∧ [','].intercalate (splitComma cs) = cs := by
  induction cs with
  | nil => simp [splitComma, List.intercalate]
  | cons c cs ih =>
    unfold splitComma
    cases h : splitComma cs with
    | nil => exact absurd h (splitComma_ne_nil cs)
    | cons p ps =>
      rw [h] at ih
      dsimp only
      by_cases hc : c = ','
      · rw [if_pos hc]
        refine ⟨?_, ?_⟩
        · intro q hq
          rw [List.mem_cons] at hq
          rcases hq with rfl | hq
          · simp
          · exact ih.1 q hq
        · have := ih.2
          simp only [List.intercalate, List.intersperse, List.flatten, List.nil_append,
            List.singleton_append] at this ⊢
          rw [hc]
          cases ps with
          | nil =>
            simp only [List.intersperse, List.flatten, List.append_nil] at this ⊢
            rw [this]
          | cons q qs =>
            simp only [List.intersperse, List.flatten, List.singleton_append] at this ⊢
            rw [this]
      · rw [if_neg hc]
        refine ⟨?_, ?_⟩
        · intro q hq
          rw [List.mem_cons] at hq
          rcases hq with rfl | hq
          · intro hm
            rw [List.mem_cons] at hm
            rcases hm with hm | hm
            · exact hc hm.symm
            · exact ih.1 p (List.mem_cons_self _ _) hm
          · exact ih.1 q (List.mem_cons_of_mem _ hq)
        · have := ih.2
          cases ps with
          | nil =>
            simp only [List.intercalate, List.intersperse, List.flatten, List.append_nil] at this ⊢
            rw [this]
          | cons q qs =>
            simp only [List.intercalate, List.intersperse, List.flatten, List.cons_append] at this ⊢
            rw [this]

theorem parseIDs_loop_cons (p : List Char) (ps : List (List Char)) (ids : List Int) :
    parseIDs.loop (p :: ps) ids =
      if (TrimSpace p).isEmpty then parseIDs.loop ps ids
      else
        match Atoi (TrimSpace p) with
        | .error err => .error err
        | .ok id => parseIDs.loop ps (ids ++ [id]) := rfl

theorem isEmpty_iff_nil (l : List Char) : l.isEmpty = true ↔ l = [] := by
  cases l <;> simp

/-- The loop of `parseIDs` when no segment is rejected. -/
theorem parseIDs_loop_ok : ∀ (ps : List (List Char)) (ids : List Int),
    (∀ p ∈ ps, badSegment p = false) →
    parseIDs.loop ps ids = .ok (ids ++ ps.filterMap segmentID) := by
  intro ps
  induction ps with
  | nil => intro ids _; simp [parseIDs.loop]
  | cons p ps ih =>
    intro ids h
    have hp := h p (List.mem_cons_self _ _)
    have hrest := fun q hq => h q (List.mem_cons_of_mem _ hq)
    rw [parseIDs_loop_cons]
    unfold badSegment at hp
    by_cases he : TrimSpace p = []
    · rw [if_pos ((isEmpty_iff_nil _).mpr he), ih ids hrest]
      have : segmentID p = none := by unfold segmentID; rw [if_pos he]
      rw [List.filterMap_cons_none this]
    · rw [if_neg he] at hp
      rw [if_neg (fun h => he ((isEmpty_iff_nil _).mp h))]
      cases ha : Atoi (TrimSpace p) with
      | error e => rw [ha] at hp; simp at hp
      | ok id =>
        dsimp only
        rw [ih _ hrest]
        have : segmentID p = some id := by unfold segmentID; rw [if_neg he, ha]
        rw [List.filterMap_cons_some this, List.append_assoc]
        rfl

/-- The loop of `parseIDs` when a segment is rejected. -/
theorem parseIDs_loop_error : ∀ (ps : List (List Char)) (ids : List Int),
    (∃ p ∈ ps, badSegment p = true) → ∃ e, parseIDs.loop ps ids = .error e := by
  intro ps
  induction ps with
  | nil => intro ids h; obtain ⟨p, hp, _⟩ := h; simp at hp
  | cons p ps ih =>
    intro ids h
    rw [parseIDs_loop_cons]
    by_cases hb : badSegment p = true
    · unfold badSegment at hb
      by_cases he : TrimSpace p = []
      · rw [if_pos he] at hb; simp at hb
      · rw [if_neg (fun h => he ((isEmpty_iff_nil _).mp h))]
        rw [if_neg he] at hb
        cases ha : Atoi (TrimSpace p) with
        | error e => exact ⟨e, rfl⟩
        | ok id => rw [ha] at hb; simp at hb
    · have hrest : ∃ q ∈ ps, badSegment q = true := by
        obtain ⟨q, hq, hqb⟩ := h
        rw [List.mem_cons] at hq
        rcases hq with rfl | hq
        · exact absurd hqb hb
        · exact ⟨q, hq, hqb⟩
      split
      · exact ih ids hrest
      · split
        · exact ⟨_, rfl⟩
        · exact ih _ hrest

theorem badSegment_iff (p : List Char) :
    badSegment p = true ↔ TrimSpace p ≠ [] ∧ ∃ e, Atoi (TrimSpace p) = .error e := by
  unfold badSegment
  by_cases he : TrimSpace p = []
  · rw [if_pos he]; simp [he]
  · rw [if_neg he]
    cases ha : Atoi (TrimSpace p) with
    | error e => simp [he]
    | ok id => simp

/-- Function `parseIDs`: an error exactly when a segment is rejected, and the ids of
the segments otherwise. -/
theorem parseIDs_cases (s : String) :
    ((∃ p ∈ splitComma s.data, badSegment p = true) ∧ ∃ e, parseIDs s = .error e) ∨
    ((∀ p ∈ splitComma s.data, badSegment p = false) ∧
      parseIDs s = .ok ((splitComma s.data).filterMap segmentID)) := by
  by_cases h : ∃ p ∈ splitComma s.data, badSegment p = true
  · exact Or.inl ⟨h, parseIDs_loop_error _ [] h⟩
  · right
    have h2 : ∀ p ∈ splitComma s.data, badSegment p = false := by
      intro p hp
      cases hb : badSegment p with
      | false => rfl
      | true => exact absurd ⟨p, hp, hb⟩ h
    refine ⟨h2, ?_⟩
    unfold parseIDs
    rw [parseIDs_loop_ok _ [] h2]
    rfl

/-- Claim C28: `parseIDs` splits its input on commas (the segments hold no comma and,
joined by commas, give the input back), trims each segment and skips the empty
ones.  It returns an error if and only if some segment that is not empty after
trimming is rejected by `strconv.Atoi`; otherwise it returns the integers of
the non-empty segments from left to right.  So `1,,2` and ` 1 , 2 ` both give
`[1, 2]`, and `,` gives the empty list without error. -/
theorem parseIDs_spec (s : String) :
    (∀ p ∈ splitComma s.data, ',' ∉ p) ∧
    [','].intercalate (splitComma s.data) = s.data ∧
    ((∃ e, parseIDs s = .error e) ↔
      ∃ p ∈ splitComma s.data, TrimSpace p ≠ [] ∧ ∃ e, Atoi (TrimSpace p) = .error e) ∧
    ((∀ p ∈ splitComma s.data, TrimSpace p = [] ∨ ∃ id, Atoi (TrimSpace p) = .ok id) →
      parseIDs s = .ok ((splitComma s.data).filterMap segmentID)) ∧
    (∀ p id, segmentID p = some id ↔ TrimSpace p ≠ [] ∧ Atoi (TrimSpace p) = .ok id) ∧
    parseIDs "1,,2" = .ok [1, 2] ∧ parseIDs " 1 , 2 " = .ok [1, 2] ∧ parseIDs "," = .ok [] := by
  have hs := splitComma_spec s.data
  refine ⟨hs.1, hs.2, ?_, ?_, ?_, rfl, rfl, rfl⟩
  · constructor
    · intro he
      rcases parseIDs_cases s with ⟨⟨p, hp, hb⟩, _⟩ | ⟨_, hok⟩
      · exact ⟨p, hp, (badSegment_iff p).mp hb⟩
      · obtain ⟨e, he⟩ := he
        rw [hok] at he
        cases he
    · rintro ⟨p, hp, hb⟩
      exact parseIDs_loop_error _ [] ⟨p, hp, (badSegment_iff p).mpr hb⟩
  · intro h
    rcases parseIDs_cases s with ⟨⟨p, hp, hb⟩, _⟩ | ⟨_, hok⟩
    · obtain ⟨hne, e, he⟩ := (badSegment_iff p).mp hb
      rcases h p hp with h1 | ⟨id, h1⟩
      · exact absurd h1 hne
      · rw [h1] at he
        cases he
    · exact hok
  · intro p id
    unfold segmentID
    by_cases he : TrimSpace p = []
    · rw [if_pos he]; simp [he]
    · rw [if_neg he]
      cases ha : Atoi (TrimSpace p) with
      | error e => simp
      | ok n => simp [he]

/-- Witness of C28: the value `7, x,8` has the rejected segment ` x`, and the value
`7,,8` has none. -/
theorem parseIDs_spec_witness :
    (∃ e, parseIDs "7, x,8" = .error e) ∧ parseIDs "7,,8" = .ok [7, 8] :=
  ⟨((parseIDs_spec "7, x,8").2.2.1).mpr
      ⟨[' ', 'x'], by decide, by decide, _, rfl⟩,
    ((parseIDs_spec "7,,8").2.2.2.1 (by
      intro p hp
      rw [show splitComma "7,,8".data = [['7'], [], ['8']] from by decide] at hp
      simp only [List.mem_cons, List.mem_singleton, List.not_mem_nil, or_false] at hp
      rcases hp with rfl | rfl | rfl
      · exact Or.inr ⟨7, rfl⟩
      · exact Or.inl rfl
      · exact Or.inr ⟨8, rfl⟩)).trans rfl⟩

/-- Claim C21: an empty batch is rejected before any I/O.  When the `ids` value is
missing or empty, or holds only commas and whitespace (every segment is empty
after trimming, so it parses to zero ids), or holds a segment that is not empty
after trimming and is not an integer, `PlayerHandler.GetPlayers` answers with
status 400 and an error body, and leaves the world as it was: it makes no
external call, so the service is not called. -/
theorem GetPlayers_handler_rejects_empty (env : Env) (w : World) (idsStr dateStr : String)
    (h : idsStr = "" ∨ (∀ p ∈ splitComma idsStr.data, TrimSpace p = []) ∨
      (∃ p ∈ splitComma idsStr.data, TrimSpace p ≠ [] ∧ ∃ e, Atoi (TrimSpace p) = .error e)) :
    (PlayerHandler.GetPlayers env w idsStr dateStr).1 = w ∧
    (PlayerHandler.GetPlayers env w idsStr dateStr).2.status = StatusBadRequest ∧
    (∃ msg, (PlayerHandler.GetPlayers env w idsStr dateStr).2.body
      = .error { Error := msg, Code := StatusBadRequest }) ∧
    ((∀ p ∈ splitComma idsStr.data, TrimSpace p = []) → parseIDs idsStr = .ok []) := by
  have hzero : (∀ p ∈ splitComma idsStr.data, TrimSpace p = []) → parseIDs idsStr = .ok [] := by
    intro hall
    have hb : ∀ p ∈ splitComma idsStr.data, badSegment p = false := by
      intro p hp
      unfold badSegment
      rw [if_pos (hall p hp)]
    unfold parseIDs
    rw [parseIDs_loop_ok _ [] hb]
    have : (splitComma idsStr.data).filterMap segmentID = [] := by
      rw [List.filterMap_eq_nil_iff]
      intro p hp
      unfold segmentID
      rw [if_pos (hall p hp)]
    rw [this]
    rfl
  have key : ∃ msg, PlayerHandler.GetPlayers env w idsStr dateStr
      = (w, WriteError StatusBadRequest msg) := by
    unfold PlayerHandler.GetPlayers
    by_cases he : idsStr = ""
    · exact ⟨_, if_pos he⟩
    · rcases h with h | h | h
      · exact absurd h he
      · refine ⟨"at least one id is required", ?_⟩
        rw [if_neg he, hzero h]
        rfl
      · obtain ⟨p, hp, hb⟩ := h
        obtain ⟨e, herr⟩ := parseIDs_loop_error (splitComma idsStr.data) []
          ⟨p, hp, (badSegment_iff p).mpr hb⟩
        have herr2 : parseIDs idsStr = .error e := herr
        refine ⟨"invalid ids format", ?_⟩
        rw [if_neg he, herr2]
  obtain ⟨msg, hk⟩ := key
  rw [hk]
  exact ⟨rfl, rfl, ⟨msg, rfl⟩, hzero⟩

/-- Witness of C21: the value ` , ,` holds only commas and whitespace. -/
theorem GetPlayers_handler_rejects_empty_witness :
    PlayerHandler.GetPlayers sampleEnv sampleWorld " , ," "2024-06-15"
      = (sampleWorld, WriteError StatusBadRequest "at least one id is required") ∧
    (PlayerHandler.GetPlayers sampleEnv sampleWorld " , ," "2024-06-15").1 = sampleWorld :=
  ⟨by decide,
    (GetPlayers_handler_rejects_empty sampleEnv sampleWorld " , ," "2024-06-15"
      (Or.inr (Or.inl (by decide)))).1⟩

/-! ## Deleting expired records, and the empty range -/

theorem DeleteExpired_cases (env : Env) (w : World) :
    (PlayerRepository.DeleteExpired env w).1.trace = w.trace ++ [Event.repoDeleteExpired] ∧
    (((PlayerRepository.DeleteExpired env w).2.2.isSome = true ∧
        (PlayerRepository.DeleteExpired env w).1.rows = w.rows ∧
        (PlayerRepository.DeleteExpired env w).2.1 = 0) ∨
      ((PlayerRepository.DeleteExpired env w).2.2 = none ∧
        (PlayerRepository.DeleteExpired env w).1.rows
          = w.rows.filter (fun r =>
            !expired (env.dbNow (w.trace ++ [Event.repoDeleteExpired])) r) ∧
        (PlayerRepository.DeleteExpired env w).2.1
          = ((w.rows.filter
            (expired (env.dbNow (w.trace ++ [Event.repoDeleteExpired])))).length : Int))) := by
  unfold PlayerRepository.DeleteExpired
  dsimp only
  split
  · exact ⟨rfl, Or.inl ⟨rfl, rfl, rfl⟩⟩
  · exact ⟨rfl, Or.inr ⟨rfl, rfl, rfl⟩⟩

theorem expired_iff (now : Time) (r : PlayerCacheEntry) :
    expired now r = true ↔ ∃ e, r.ExpiresAt = some e ∧ e.unixNano < now.unixNano := by
  unfold expired
  cases r.ExpiresAt with
  | none => simp
  | some e => simp [Time.Before]

theorem filter_length_split {α : Type} (p : α → Bool) (l : List α) :
    (l.filter p).length + (l.filter (fun a => !p a)).length = l.length := by
  induction l with
  | nil => rfl
  | cons a l ih =>
    cases h : p a with
    | true =>
      rw [List.filter_cons_of_pos h, List.filter_cons_of_neg (by simp [h])]
      simp only [List.length_cons]
      omega
    | false =>
      rw [List.filter_cons_of_neg (by simp [h]), List.filter_cons_of_pos (by simp [h])]
      simp only [List.length_cons]
      omega

/-- Claim C30: `DeleteExpired` never removes a record that a read would still return.
The table it leaves is the old table without some rows, in the old order; every
row it removes has a non-null `expiresAt` strictly before the `NOW()` of the
statement, so it is not live then nor at any later instant; every row with a
null `expiresAt`, and every row that is live at that or a later instant,
survives; and the count returned without error is the number of rows
removed (with an error nothing is removed and the count is 0). -/
theorem DeleteExpired_removes_only_expired (env : Env) (w : World) :
    (PlayerRepository.DeleteExpired env w).1.rows.Sublist w.rows ∧
    (∀ r ∈ w.rows, r ∉ (PlayerRepository.DeleteExpired env w).1.rows →
      (∃ e, r.ExpiresAt = some e ∧
        e.unixNano < (env.dbNow (w.trace ++ [Event.repoDeleteExpired])).unixNano) ∧
      ∀ now2 : Time, (env.dbNow (w.trace ++ [Event.repoDeleteExpired])).unixNano ≤ now2.unixNano →
        live now2 r = false) ∧
    (∀ r ∈ w.rows, r.ExpiresAt = none → r ∈ (PlayerRepository.DeleteExpired env w).1.rows) ∧
    (∀ r ∈ w.rows, ∀ now2 : Time,
      (env.dbNow (w.trace ++ [Event.repoDeleteExpired])).unixNano ≤ now2.unixNano →
      live now2 r = true → r ∈ (PlayerRepository.DeleteExpired env w).1.rows) ∧
    ((PlayerRepository.DeleteExpired env w).2.2 = none →
      (PlayerRepository.DeleteExpired env w).2.1
        = (w.rows.length : Int) - ((PlayerRepository.DeleteExpired env w).1.rows.length : Int)) ∧
    ((PlayerRepository.DeleteExpired env w).2.2.isSome = true →
      (PlayerRepository.DeleteExpired env w).1.rows = w.rows ∧
      (PlayerRepository.DeleteExpired env w).2.1 = 0) := by
  obtain ⟨_, hc⟩ := DeleteExpired_cases env w
  have hlive : ∀ (r : PlayerCacheEntry) (now2 : Time),
      (env.dbNow (w.trace ++ [Event.repoDeleteExpired])).unixNano ≤ now2.unixNano →
      expired (env.dbNow (w.trace ++ [Event.repoDeleteExpired])) r = true →
      live now2 r = false := by
    intro r now2 hle he
    obtain ⟨e, h1, h2⟩ := (expired_iff _ r).mp he
    unfold live
    rw [h1]
    simp only [Time.Before, decide_eq_false_iff_not, not_lt]
    omega
  rcases hc with ⟨herr, hrows, hcount⟩ | ⟨hok, hrows, hcount⟩
  · rw [hrows, hcount]
    refine ⟨List.Sublist.refl _, ?_, ?_, ?_, ?_, ?_⟩
    · intro r hr hn
      exact absurd hr hn
    · intro r hr _
      exact hr
    · intro r hr _ _ _
      exact hr
    · intro hnone
      rw [hnone] at herr
      simp at herr
    · intro _
      exact ⟨rfl, rfl⟩
  · rw [hrows, hcount]
    refine ⟨List.filter_sublist _, ?_, ?_, ?_, ?_, ?_⟩
    · intro r hr hn
      have he : expired (env.dbNow (w.trace ++ [Event.repoDeleteExpired])) r = true := by
        by_contra hne
        apply hn
        rw [List.mem_filter]
        exact ⟨hr, by simpa using hne⟩
      exact ⟨(expired_iff _ r).mp he, fun now2 hle => hlive r now2 hle he⟩
    · intro r hr hnone
      rw [List.mem_filter]
      refine ⟨hr, ?_⟩
      unfold expired
      rw [hnone]
      rfl
    · intro r hr now2 hle hl
      rw [List.mem_filter]
      refine ⟨hr, ?_⟩
      cases he : expired (env.dbNow (w.trace ++ [Event.repoDeleteExpired])) r with
      | false => rfl
      | true =>
        rw [hlive r now2 hle he] at hl
        cases hl
    · intro _
      have := filter_length_split
        (expired (env.dbNow (w.trace ++ [Event.repoDeleteExpired]))) w.rows
      omega
    · intro hsome
      rw [hok] at hsome
      simp at hsome

/-- Witness of C30: on a store with one expired record, one record that expires
later and one that never expires, `DeleteExpired` removes the first and
returns 1. -/
theorem DeleteExpired_removes_only_expired_witness :
    (PlayerRepository.DeleteExpired sampleEnv mixedWorld).2 = (1, none) ∧
    (PlayerRepository.DeleteExpired sampleEnv mixedWorld).1.rows.map
      (fun r => r.MemberID) = [1, 3] ∧
    (PlayerRepository.DeleteExpired sampleEnv mixedWorld).2.1
      = (mixedWorld.rows.length : Int)
        - ((PlayerRepository.DeleteExpired sampleEnv mixedWorld).1.rows.length : Int) :=
  ⟨by decide, by decide,
    (DeleteExpired_removes_only_expired sampleEnv mixedWorld).2.2.2.2.1 (by decide)⟩

/-- Claim C29: when `normalize(from)` is strictly after `normalize(to)`,
`generateMonthRange` returns the empty list; the store's
`GetRatingHistoryForDates` for an empty list of dates returns an empty map and
no error whatever the database would do (it sends no statement); and
`GetPlayerRatings` makes no call of the upstream and returns a nil error and a
response with the requested id and an empty, non-nil `Ratings` list. -/
theorem GetPlayerRatings_empty_range (env : Env) (w : World) (memberID : Int)
    (fromDate toDate : Time)
    (h : (normalizeToMonthStart toDate).unixNano < (normalizeToMonthStart fromDate).unixNano) :
    generateMonthRange fromDate toDate = [] ∧
    (∀ n, generateMonthRange.loop (normalizeToMonthStart toDate) (n + 1)
      (normalizeToMonthStart fromDate) = some []) ∧
    PlayerRepository.GetRatingHistoryForDates env w memberID []
      = (w.log (.repoGetRatingHistoryForDates memberID []), some GoMap.empty, none) ∧
    PlayerService.GetPlayerRatings env w memberID fromDate toDate
      = (w.log (.repoGetRatingHistoryForDates memberID []),
          some { PlayerID := memberID, Ratings := some [] }, none) ∧
    (PlayerService.GetPlayerRatings env w memberID fromDate toDate).1.trace.filter Event.isFetch
      = w.trace.filter Event.isFetch := by
  have hk : toDate.monthIndex < fromDate.monthIndex := by
    have := monthIndex_le_iff fromDate toDate
    by_contra hn
    have := this.mpr (by omega)
    omega
  have hnil : generateMonthRange fromDate toDate = [] := by
    rw [generateMonthRange_eq]
    have : (toDate.monthIndex - fromDate.monthIndex + 1).toNat = 0 := by omega
    rw [this]
    rfl
  have hstore : PlayerRepository.GetRatingHistoryForDates env w memberID []
      = (w.log (.repoGetRatingHistoryForDates memberID []), some GoMap.empty, none) := rfl
  have hget : PlayerService.GetPlayerRatings env w memberID fromDate toDate
      = (w.log (.repoGetRatingHistoryForDates memberID []),
          some { PlayerID := memberID, Ratings := some [] }, none) := by
    rw [GetPlayerRatings_eq, hnil]
    rfl
  refine ⟨hnil, ?_, hstore, hget, ?_⟩
  · intro n
    unfold generateMonthRange.loop
    rw [if_pos (by simpa [Time.After] using h)]
  · rw [hget]
    simp [log_trace, Event.isFetch]

/-- Witness of C29: the range from March 2024 back to January 2024, on a store whose
database fails every statement. -/
theorem GetPlayerRatings_empty_range_witness :
    generateMonthRange mar10 jan15 = [] ∧
    PlayerService.GetPlayerRatings brokenStoreEnv sampleWorld 7 mar10 jan15
      = (sampleWorld.log (.repoGetRatingHistoryForDates 7 []),
          some { PlayerID := 7, Ratings := some [] }, none) :=
  have h := GetPlayerRatings_empty_range brokenStoreEnv sampleWorld 7 mar10 jan15 (by decide)
  ⟨h.1, h.2.2.2.1⟩

/-! ## Counting the entries of a batch response -/

theorem length_filterMap_countP {α β : Type} (f : α → Option β) (l : List α) :
    (l.filterMap f).length = l.countP (fun a => (f a).isSome) := by
  induction l with
  | nil => rfl
  | cons a l ih =>
    cases h : f a with
    | none =>
      rw [List.filterMap_cons_none h, List.countP_cons_of_neg _ _ (by simp [h]), ih]
    | some b =>
      rw [List.filterMap_cons_some h, List.countP_cons_of_pos _ _ (by simp [h]),
        List.length_cons, ih]

theorem batchPayload_isSome (env : Env) (w : World) (ids : List Int) (date : Time)
    (fetch : Int → Except GoError PlayerInfo) (id : Int) :
    (batchPayload env w ids date fetch id).isSome = !batchFails env w ids date fetch id := by
  unfold batchPayload batchFails
  cases batchHits env w ids date id with
  | some p => rfl
  | none => cases fetch id <;> rfl

/-- The response of `GetPlayers` when the upstream answers the id `id` with
`fetch id`. -/
theorem GetPlayers_deterministic (env : Env) (w : World) (ids : List Int) (date : Time)
    (fetch : Int → Except GoError PlayerInfo)
    (hs : env.Completes)
    (hdet : ∀ t, ∀ id ∈ ids, env.upstreamGetPlayer t id date.FormatDate = fetch id) :
    ∃ resp, (PlayerService.GetPlayers env w ids date).2 = (some resp, none) ∧
      resp.Players = some (ids.filterMap (batchPayload env w ids date fetch)) ∧
      (resp.Errors.getD []).Perm
        ((ids.filter (batchFails env w ids date fetch)).map
          (fun id => { ID := id, Error := errorTextOf (fetch id) })) := by
  rw [GetPlayers_eq]
  have hfilter : (ids.filter (fun id => (batchHits env w ids date id).isNone)).filter
      (fun id => failedCall (fetch id)) = ids.filter (batchFails env w ids date fetch) := by
    rw [List.filter_filter]
    apply List.filter_congr
    intro id _
    unfold batchFails
    rw [Bool.and_comm]
  by_cases hlen : (ids.filter (fun id => (batchHits env w ids date id).isNone)).length > 0
  · rw [if_pos hlen]
    obtain ⟨hres, herr⟩ := fetchPlayersParallel_outcome env
      (w.log (.repoGetBatch ids (normalizeToMonthStart date)))
      (ids.filter (fun id => (batchHits env w ids date id).isNone)) date
      (normalizeToMonthStart date) fetch hs
      (fun t id hid => hdet t id (List.mem_filter.mp hid).1)
    rw [hfilter] at herr
    refine ⟨_, rfl, ?_, herr⟩
    dsimp only
    congr 1
    apply List.filterMap_congr
    intro id hid
    unfold batchPayload
    cases hh : batchHits env w ids date id with
    | some p =>
      have hn : (PlayerService.fetchPlayersParallel env
          (w.log (.repoGetBatch ids (normalizeToMonthStart date)))
          (ids.filter (fun id => (batchHits env w ids date id).isNone)) date
          (normalizeToMonthStart date)).2.1 id = none := by
        rw [Option.eq_none_iff_forall_not_mem]
        intro q hq
        have := (List.mem_filter.mp ((hres id q).mp hq).1).2
        rw [hh] at this
        simp at this
      rw [hn]
      rfl
    | none =>
      have hmem : id ∈ ids.filter (fun id => (batchHits env w ids date id).isNone) :=
        List.mem_filter.mpr ⟨hid, by rw [hh]; rfl⟩
      cases hf : fetch id with
      | error e =>
        have hn : (PlayerService.fetchPlayersParallel env
            (w.log (.repoGetBatch ids (normalizeToMonthStart date)))
            (ids.filter (fun id => (batchHits env w ids date id).isNone)) date
            (normalizeToMonthStart date)).2.1 id = none := by
          rw [Option.eq_none_iff_forall_not_mem]
          intro q hq
          have := ((hres id q).mp hq).2
          rw [hf] at this
          cases this
        rw [hn]
        rfl
      | ok p =>
        rw [(hres id p).mpr ⟨hmem, hf⟩]
        rfl
  · rw [if_neg hlen]
    have hnil : ids.filter (fun id => (batchHits env w ids date id).isNone) = [] :=
      List.eq_nil_of_length_eq_zero (by omega)
    rw [← hfilter, hnil]
    refine ⟨_, rfl, ?_, List.Perm.refl _⟩
    dsimp only
    congr 1
    apply List.filterMap_congr
    intro id hid
    unfold batchPayload
    cases hh : batchHits env w ids date id with
    | some p => rfl
    | none =>
      have : id ∈ ids.filter (fun id => (batchHits env w ids date id).isNone) :=
        List.mem_filter.mpr ⟨hid, by rw [hh]; rfl⟩
      rw [hnil] at this
      simp at this

/-- The calls of the upstream that `GetPlayers` adds to the trace. -/
theorem GetPlayers_fetch_events (env : Env) (w : World) (ids : List Int) (date : Time)
    (hs : env.Completes) :
    ((PlayerService.GetPlayers env w ids date).1.trace.filter Event.isFetch).Perm
      (w.trace.filter Event.isFetch ++
        (ids.filter (fun id => (batchHits env w ids date id).isNone)).map
          (fun id => Event.upstreamGetPlayer id date.FormatDate)) := by
  rw [GetPlayers_eq]
  by_cases hlen : (ids.filter (fun id => (batchHits env w ids date id).isNone)).length > 0
  · rw [if_pos hlen]
    have h := fetchPlayersParallel_fetches env
      (w.log (.repoGetBatch ids (normalizeToMonthStart date)))
      (ids.filter (fun id => (batchHits env w ids date id).isNone)) date
      (normalizeToMonthStart date) hs
    have hlog : (w.log (.repoGetBatch ids (normalizeToMonthStart date))).trace.filter
        Event.isFetch = w.trace.filter Event.isFetch := by
      simp [log_trace, Event.isFetch]
    rw [hlog] at h
    exact h
  · rw [if_neg hlen]
    have hnil : ids.filter (fun id => (batchHits env w ids date id).isNone) = [] :=
      List.eq_nil_of_length_eq_zero (by omega)
    rw [hnil]
    simp [log_trace, Event.isFetch]

/-- Claim C27: for every list `memberIDs`, duplicates included, when the scheduler
runs every goroutine to its end and the upstream answers the id `id` with
`fetch id` throughout the call, the response of `GetPlayers` has
`len(Players) + len(Errors) = len(memberIDs)`.  `Players` is the walk through
`memberIDs` that keeps the payload of each id that is a cache hit or whose
fetch succeeds, so an id that occurs `k` times contributes `k` payload entries
and no error entry; an id that is not a hit and whose fetch fails contributes
`k` error entries and no payload entry; and an id that is not a hit is fetched
`k` times. -/
theorem GetPlayers_entry_count (env : Env) (w : World) (ids : List Int) (date : Time)
    (fetch : Int → Except GoError PlayerInfo)
    (hs : env.Completes)
    (hdet : ∀ t, ∀ id ∈ ids, env.upstreamGetPlayer t id date.FormatDate = fetch id) :
    ∃ resp players, (PlayerService.GetPlayers env w ids date).2 = (some resp, none) ∧
      resp.Players = some players ∧
      players.length + (resp.Errors.getD []).length = ids.length ∧
      players = ids.filterMap (batchPayload env w ids date fetch) ∧
      (∀ id ∈ ids,
        ((batchPayload env w ids date fetch id).isSome = true ∧
          ((ids.filter (fun j => decide (j = id))).filterMap
            (batchPayload env w ids date fetch)).length = ids.count id ∧
          (resp.Errors.getD []).countP (fun e => decide (e.ID = id)) = 0) ∨
        ((batchPayload env w ids date fetch id = none ∧
            batchHits env w ids date id = none ∧ failedCall (fetch id) = true) ∧
          ((ids.filter (fun j => decide (j = id))).filterMap
            (batchPayload env w ids date fetch)).length = 0 ∧
          (resp.Errors.getD []).countP (fun e => decide (e.ID = id)) = ids.count id)) ∧
      (∀ id, batchHits env w ids date id = none →
        ((PlayerService.GetPlayers env w ids date).1.trace.filter Event.isFetch).count
            (Event.upstreamGetPlayer id date.FormatDate)
          = (w.trace.filter Event.isFetch).count (Event.upstreamGetPlayer id date.FormatDate)
            + ids.count id) := by
  obtain ⟨resp, hresp, hplayers, herrors⟩ := GetPlayers_deterministic env w ids date fetch hs hdet
  refine ⟨resp, _, hresp, hplayers, ?_, rfl, ?_, ?_⟩
  · rw [herrors.length_eq, List.length_map, length_filterMap_countP, ← List.countP_eq_length_filter]
    have hfun : (fun a => (batchPayload env w ids date fetch a).isSome)
        = fun a => !batchFails env w ids date fetch a := by
      funext a
      exact batchPayload_isSome env w ids date fetch a
    rw [hfun]
    have := filter_length_split (batchFails env w ids date fetch) ids
    rw [← List.countP_eq_length_filter, ← List.countP_eq_length_filter] at this
    omega
  · intro id hid
    have hcountE : (resp.Errors.getD []).countP (fun e => decide (e.ID = id))
        = if batchFails env w ids date fetch id then ids.count id else 0 := by
      rw [herrors.countP_eq, List.countP_map]
      have hcomp : ((fun e : PlayerError => decide (e.ID = id)) ∘
          fun id => ({ ID := id, Error := errorTextOf (fetch id) } : PlayerError))
          = fun j => decide (j = id) := rfl
      rw [hcomp, List.countP_eq_length_filter, List.filter_filter]
      by_cases hb : batchFails env w ids date fetch id = true
      · rw [if_pos hb, List.count_eq_countP, List.countP_eq_length_filter]
        congr 1
        apply List.filter_congr
        intro j _
        by_cases hj : j = id
        · subst hj
          simp [hb]
        · simp [hj]
      · rw [if_neg hb]
        rw [List.length_eq_zero, List.filter_eq_nil_iff]
        intro j _ hj
        simp only [Bool.and_eq_true, decide_eq_true_eq] at hj
        rw [hj.1] at hj
        exact hb hj.2
    have hcountP : ((ids.filter (fun j => decide (j = id))).filterMap
        (batchPayload env w ids date fetch)).length
        = if (batchPayload env w ids date fetch id).isSome then ids.count id else 0 := by
      rw [length_filterMap_countP, List.countP_eq_length_filter, List.filter_filter]
      by_cases hb : (batchPayload env w ids date fetch id).isSome = true
      · rw [if_pos hb, List.count_eq_countP, List.countP_eq_length_filter]
        congr 1
        apply List.filter_congr
        intro j _
        by_cases hj : j = id
        · subst hj
          simp [hb]
        · simp [hj]
      · rw [if_neg hb]
        rw [List.length_eq_zero, List.filter_eq_nil_iff]
        intro j _ hj
        simp only [Bool.and_eq_true, decide_eq_true_eq] at hj
        rw [hj.2] at hj
        exact hb hj.1
    have hiso := batchPayload_isSome env w ids date fetch id
    cases hb : batchFails env w ids date fetch id with
    | false =>
      left
      rw [hb] at hiso hcountE
      rw [hiso] at hcountP
      exact ⟨hiso, by simpa using hcountP, by simpa using hcountE⟩
    | true =>
      right
      rw [hb] at hiso hcountE
      rw [hiso] at hcountP
      have hb2 := hb
      unfold batchFails at hb2
      rw [Bool.and_eq_true, Option.isNone_iff_eq_none] at hb2
      refine ⟨⟨?_, hb2.1, hb2.2⟩, by simpa using hcountP, by simpa using hcountE⟩
      rw [← Option.not_isSome_iff_eq_none, hiso]
      simp
  · intro id hmiss
    rw [(GetPlayers_fetch_events env w ids date hs).count_eq, List.count_append]
    congr 1
    have hinj : Function.Injective (fun id => Event.upstreamGetPlayer id date.FormatDate) := by
      intro a b hab
      injection hab
    rw [List.count_map_of_injective _ _ hinj]
    exact List.count_filter (by rw [hmiss]; rfl)

/-- Witness of C27: the batch `[2, 3, 2, 12345, 3]` on the sample store, which holds
member 12345, with an upstream that fails for member 2: three payload entries
and two error entries. -/
theorem GetPlayers_entry_count_witness :
    ∃ resp players,
      (PlayerService.GetPlayers partialEnv sampleWorld [2, 3, 2, 12345, 3] june15).2
        = (some resp, none) ∧
      resp.Players = some players ∧
      players.length + (resp.Errors.getD []).length = 5 ∧
      players = [samplePlayer 3, samplePlayer 12345, samplePlayer 3] :=
  have h := GetPlayers_entry_count partialEnv sampleWorld [2, 3, 2, 12345, 3] june15
    (fun id => if id = 2 then .error (.errorString "upstream error: status=404 body=")
      else .ok (samplePlayer id))
    (fun _ _ => List.Perm.refl _) (fun _ _ _ => rfl)
  h.imp (fun _ h1 => h1.imp (fun _ h2 => ⟨h2.1, h2.2.1, h2.2.2.1, h2.2.2.2.1.trans (by decide)⟩))

/-! ## The upstream client and the pass-through handlers -/

/-- Counterexample to C23: the upstream answers with status 204, which is a 2xx
status, and an empty body; `GetRaw` returns no bytes and an error that carries
the status. -/
theorem GetRaw_rejects_204 :
    Client.GetRaw noContentEnv emptyWorld "/organisation/federation"
      = ({ rows := [],
           trace := [.limiterWait,
             .httpDo "https://member.schack.se/public/api/v1/organisation/federation"] },
         none, some (.errorString "upstream error: status=204 body=")) := by
  decide

/-- Claim C23, amended: `Client.GetRaw` returns the body unchanged and a nil error
exactly for a response with status 200 whose body is read without error.  For a
response with any other status, 2xx ones other than 200 too, it returns no
bytes and an error that carries the status and the body.  When the wait for the
rate limiter fails it returns an error and issues no HTTP request; an error of
the request or of reading the body is returned as well. -/
theorem GetRaw_spec (env : Env) (w : World) (path : String) :
    (∀ e, env.limiterWait w.trace = some e →
      Client.GetRaw env w path
        = (w.log .limiterWait, none, some (Errorf "rate limit wait: " e)) ∧
      ∀ url, Event.httpDo url ∉ (Client.GetRaw env w path).1.trace.drop w.trace.length) ∧
    (env.limiterWait w.trace = none → env.newRequest (env.baseURL ++ path) = none →
      ∀ resp, env.httpDo (w.trace ++ [.limiterWait]) (env.baseURL ++ path) = .ok resp →
      ∀ body, resp.Body = .ok body →
        (resp.StatusCode = 200 →
          Client.GetRaw env w path
            = ((w.log .limiterWait).log (.httpDo (env.baseURL ++ path)), some body, none)) ∧
        (resp.StatusCode ≠ 200 →
          Client.GetRaw env w path
            = ((w.log .limiterWait).log (.httpDo (env.baseURL ++ path)), none,
                some (.errorString ("upstream error: status=" ++ toString resp.StatusCode
                  ++ " body=" ++ body))))) ∧
    ((Client.GetRaw env w path).2.2 = none ↔
      env.limiterWait w.trace = none ∧ env.newRequest (env.baseURL ++ path) = none ∧
      ∃ resp body, env.httpDo (w.trace ++ [.limiterWait]) (env.baseURL ++ path) = .ok resp ∧
        resp.Body = .ok body ∧ resp.StatusCode = 200 ∧
        (Client.GetRaw env w path).2.1 = some body) ∧
    ((Client.GetRaw env w path).2.2.isSome = true → (Client.GetRaw env w path).2.1 = none) := by
  refine ⟨?_, ?_, ?_, ?_⟩
  · intro e he
    have h1 : Client.GetRaw env w path
        = (w.log .limiterWait, none, some (Errorf "rate limit wait: " e)) := by
      unfold Client.GetRaw
      simp only [he]
    refine ⟨h1, ?_⟩
    intro url
    rw [h1]
    simp [log_trace]
  · intro hl hn resp hd body hb
    constructor
    · intro hs
      unfold Client.GetRaw
      simp only [hl, hn, log_trace, hd, hb, hs, StatusOK]
      rfl
    · intro hs
      unfold Client.GetRaw
      simp only [hl, hn, log_trace, hd, hb, StatusOK]
      rw [if_pos hs]
  · cases hl : env.limiterWait w.trace with
    | some e =>
      unfold Client.GetRaw
      simp [hl]
    | none =>
      cases hn : env.newRequest (env.baseURL ++ path) with
      | some e =>
        unfold Client.GetRaw
        simp [hl, hn]
      | none =>
        cases hd : env.httpDo (w.trace ++ [.limiterWait]) (env.baseURL ++ path) with
        | error e =>
          unfold Client.GetRaw
          simp [hl, hn, log_trace, hd]
        | ok resp =>
          cases hb : resp.Body with
          | error e =>
            unfold Client.GetRaw
            simp [hl, hn, log_trace, hd, hb]
          | ok body =>
            by_cases hs : resp.StatusCode = 200
            · unfold Client.GetRaw
              simp [hl, hn, log_trace, hd, hb, hs, StatusOK]
            · unfold Client.GetRaw
              simp [hl, hn, log_trace, hd, hb, hs, StatusOK]
  · unfold Client.GetRaw
    dsimp only
    split
    · intro _; rfl
    · split
      · intro _; rfl
      · split
        · intro _; rfl
        · split
          · intro _; rfl
          · split
            · intro _; rfl
            · intro h; simp at h

/-- Witness of C23 (amended): the sample upstream answers with status 200 and the
body `[]`; without a permit of the rate limiter no request is issued. -/
theorem GetRaw_spec_witness :
    Client.GetRaw sampleEnv emptyWorld "/organisation/districts"
      = ((emptyWorld.log .limiterWait).log
          (.httpDo "https://member.schack.se/public/api/v1/organisation/districts"),
        some "[]", none) ∧
    Client.GetRaw limitedEnv emptyWorld "/organisation/districts"
      = (emptyWorld.log .limiterWait, none,
          some (Errorf "rate limit wait: " (.errorString "context canceled"))) :=
  ⟨((GetRaw_spec sampleEnv emptyWorld "/organisation/districts").2.1 rfl rfl
      { StatusCode := 200, Body := .ok "[]" } rfl "[]" rfl).1 rfl,
    ((GetRaw_spec limitedEnv emptyWorld "/organisation/districts").1
      (.errorString "context canceled") rfl).1⟩

/-- Claim C22: every handler that takes integer path parameters answers a parameter
that `strconv.Atoi` rejects (such as `abc`) with status 400 and an error body
whose message starts with `invalid`, and leaves the world as it was: it makes no
call of the upstream, of the store or of the service.  When several parameters
are malformed the first one checked decides the message: a later parameter is
looked at only when the earlier ones are well formed. -/
theorem handlers_reject_malformed_int (env : Env) (w : World) :
    (∀ idStr dateStr : String, malformedInt idStr → 
      PlayerHandler.GetPlayer env w idStr dateStr = (w, invalidParam "player id")) ∧
    (∀ idStr dateStr : String, malformedInt idStr → 
      PlayerHandler.GetPlayerByFideID env w idStr dateStr = (w, invalidParam "fide id")) ∧
    (∀ idStr monthsStr fromStr toStr : String, malformedInt idStr → 
      PlayerHandler.GetPlayerRatings env w idStr monthsStr fromStr toStr = (w, invalidParam "player id")) ∧
    (∀ districtIDStr : String, malformedInt districtIDStr → 
      OrganisationHandler.GetClubsInDistrict env w districtIDStr = (w, invalidParam "district id")) ∧
    (∀ clubIDStr : String, malformedInt clubIDStr → 
      OrganisationHandler.GetClub env w clubIDStr = (w, invalidParam "club id")) ∧
    (∀ name clubIDStr : String, malformedInt clubIDStr → 
      OrganisationHandler.ClubNameExists env w name clubIDStr = (w, invalidParam "club id")) ∧
    (∀ date ratingTypeStr categoryStr : String, malformedInt ratingTypeStr → 
      RatingListHandler.GetFederationRatingList env w date ratingTypeStr categoryStr = (w, invalidParam "rating type")) ∧
    (∀ date ratingTypeStr categoryStr : String, wellFormedInt ratingTypeStr → malformedInt categoryStr → 
      RatingListHandler.GetFederationRatingList env w date ratingTypeStr categoryStr = (w, invalidParam "category")) ∧
    (∀ districtIDStr date ratingTypeStr categoryStr : String, malformedInt districtIDStr → 
      RatingListHandler.GetDistrictRatingList env w districtIDStr date ratingTypeStr categoryStr = (w, invalidParam "district id")) ∧
    (∀ districtIDStr date ratingTypeStr categoryStr : String, wellFormedInt districtIDStr → malformedInt ratingTypeStr → 
      RatingListHandler.GetDistrictRatingList env w districtIDStr date ratingTypeStr categoryStr = (w, invalidParam "rating type")) ∧
    (∀ districtIDStr date ratingTypeStr categoryStr : String, wellFormedInt districtIDStr → wellFormedInt ratingTypeStr → malformedInt categoryStr → 
      RatingListHandler.GetDistrictRatingList env w districtIDStr date ratingTypeStr categoryStr = (w, invalidParam "category")) ∧
    (∀ clubIDStr date ratingTypeStr categoryStr : String, malformedInt clubIDStr → 
      RatingListHandler.GetClubRatingList env w clubIDStr date ratingTypeStr categoryStr = (w, invalidParam "club id")) ∧
    (∀ clubIDStr date ratingTypeStr categoryStr : String, wellFormedInt clubIDStr → malformedInt ratingTypeStr → 
      RatingListHandler.GetClubRatingList env w clubIDStr date ratingTypeStr categoryStr = (w, invalidParam "rating type")) ∧
    (∀ clubIDStr date ratingTypeStr categoryStr : String, wellFormedInt clubIDStr → wellFormedInt ratingTypeStr → malformedInt categoryStr → 
      RatingListHandler.GetClubRatingList env w clubIDStr date ratingTypeStr categoryStr = (w, invalidParam "category")) ∧
    (∀ idStr : String, malformedInt idStr → 
      TournamentHandler.GetTournament env w idStr = (w, invalidParam "tournament id")) ∧
    (∀ idStr : String, malformedInt idStr → 
      TournamentHandler.GetTournamentFromGroup env w idStr = (w, invalidParam "group id")) ∧
    (∀ idStr : String, malformedInt idStr → 
      TournamentHandler.GetTournamentFromClass env w idStr = (w, invalidParam "class id")) ∧
    (∀ districtIDStr : String, malformedInt districtIDStr → 
      TournamentHandler.GetComingTournamentsByDistrict env w districtIDStr = (w, invalidParam "district id")) ∧
    (∀ startDate endDate districtIDStr : String, malformedInt districtIDStr → 
      TournamentHandler.SearchUpdatedTournamentsByDistrict env w startDate endDate districtIDStr = (w, invalidParam "district id")) ∧
    (∀ startDate endDate districtIDStr : String, malformedInt districtIDStr → 
      TournamentHandler.SearchUpdatedGroupsByDistrict env w startDate endDate districtIDStr = (w, invalidParam "district id")) ∧
    (∀ idStr : String, malformedInt idStr → 
      ResultsHandler.GetResultTable env w idStr = (w, invalidParam "group id")) ∧
    (∀ idStr : String, malformedInt idStr → 
      ResultsHandler.GetMemberTableResults env w idStr = (w, invalidParam "member id")) ∧
    (∀ idStr : String, malformedInt idStr → 
      ResultsHandler.GetRoundResults env w idStr = (w, invalidParam "group id")) ∧
    (∀ idStr : String, malformedInt idStr → 
      ResultsHandler.GetTeamResultTable env w idStr = (w, invalidParam "group id")) ∧
    (∀ idStr : String, malformedInt idStr → 
      ResultsHandler.GetTeamRoundResults env w idStr = (w, invalidParam "group id")) ∧
    (∀ idStr memberIDStr : String, malformedInt idStr → 
      ResultsHandler.GetTeamRoundResultsForMember env w idStr memberIDStr = (w, invalidParam "group id")) ∧
    (∀ idStr memberIDStr : String, wellFormedInt idStr → malformedInt memberIDStr → 
      ResultsHandler.GetTeamRoundResultsForMember env w idStr memberIDStr = (w, invalidParam "member id")) ∧
    (∀ idStr : String, malformedInt idStr → 
      ResultsHandler.GetMemberGames env w idStr = (w, invalidParam "member id")) ∧
    (∀ tournamentIDStr clubIDStr : String, malformedInt tournamentIDStr → 
      RegistrationHandler.GetTeamRegistration env w tournamentIDStr clubIDStr = (w, invalidParam "tournament id")) ∧
    (∀ tournamentIDStr clubIDStr : String, wellFormedInt tournamentIDStr → malformedInt clubIDStr → 
      RegistrationHandler.GetTeamRegistration env w tournamentIDStr clubIDStr = (w, invalidParam "club id")) ∧
    (∀ what, (invalidParam what).status = StatusBadRequest ∧
      (invalidParam what).body = .error { Error := "invalid " ++ what, Code := 400 } ∧
      "invalid".data <+: ("invalid " ++ what).data) ∧
    malformedInt "abc" ∧ malformedInt "" ∧ malformedInt "1.5" ∧ wellFormedInt "6058" := by
  refine ⟨?_, ?_, ?_, ?_, ?_, ?_, ?_, ?_, ?_, ?_, ?_, ?_, ?_, ?_, ?_, ?_, ?_, ?_, ?_, ?_, ?_, ?_, ?_, ?_, ?_, ?_, ?_, ?_, ?_, ?_, ?_, ?_, ?_, ?_, ?_⟩
  · intro idStr dateStr  ⟨e, he⟩
    unfold PlayerHandler.GetPlayer
    rw [he]
    rfl
  · intro idStr dateStr  ⟨e, he⟩
    unfold PlayerHandler.GetPlayerByFideID
    rw [he]
    rfl
  · intro idStr monthsStr fromStr toStr  ⟨e, he⟩
    unfold PlayerHandler.GetPlayerRatings
    rw [he]
    rfl
  · intro districtIDStr  ⟨e, he⟩
    unfold OrganisationHandler.GetClubsInDistrict
    rw [he]
    rfl
  · intro clubIDStr  ⟨e, he⟩
    unfold OrganisationHandler.GetClub
    rw [he]
    rfl
  · intro name clubIDStr  ⟨e, he⟩
    unfold OrganisationHandler.ClubNameExists
    rw [he]
    rfl
  · intro date ratingTypeStr categoryStr  ⟨e, he⟩
    unfold RatingListHandler.GetFederationRatingList
    rw [he]
    rfl
  · intro date ratingTypeStr categoryStr ⟨n0, h0⟩ ⟨e, he⟩
    unfold RatingListHandler.GetFederationRatingList
    rw [h0]
    dsimp only
    rw [he]
    rfl
  · intro districtIDStr date ratingTypeStr categoryStr  ⟨e, he⟩
    unfold RatingListHandler.GetDistrictRatingList
    rw [he]
    rfl
  · intro districtIDStr date ratingTypeStr categoryStr ⟨n0, h0⟩ ⟨e, he⟩
    unfold RatingListHandler.GetDistrictRatingList
    rw [h0]
    dsimp only
    rw [he]
    rfl
  · intro districtIDStr date ratingTypeStr categoryStr ⟨n0, h0⟩ ⟨n1, h1⟩ ⟨e, he⟩
    unfold RatingListHandler.GetDistrictRatingList
    rw [h0]
    dsimp only
    rw [h1]
    dsimp only
    rw [he]
    rfl
  · intro clubIDStr date ratingTypeStr categoryStr  ⟨e, he⟩
    unfold RatingListHandler.GetClubRatingList
    rw [he]
    rfl
  · intro clubIDStr date ratingTypeStr categoryStr ⟨n0, h0⟩ ⟨e, he⟩
    unfold RatingListHandler.GetClubRatingList
    rw [h0]
    dsimp only
    rw [he]
    rfl
  · intro clubIDStr date ratingTypeStr categoryStr ⟨n0, h0⟩ ⟨n1, h1⟩ ⟨e, he⟩
    unfold RatingListHandler.GetClubRatingList
    rw [h0]
    dsimp only
    rw [h1]
    dsimp only
    rw [he]
    rfl
  · intro idStr  ⟨e, he⟩
    unfold TournamentHandler.GetTournament
    rw [he]
    rfl
  · intro idStr  ⟨e, he⟩
    unfold TournamentHandler.GetTournamentFromGroup
    rw [he]
    rfl
  · intro idStr  ⟨e, he⟩
    unfold TournamentHandler.GetTournamentFromClass
    rw [he]
    rfl
  · intro districtIDStr  ⟨e, he⟩
    unfold TournamentHandler.GetComingTournamentsByDistrict
    rw [he]
    rfl
  · intro startDate endDate districtIDStr  ⟨e, he⟩
    unfold TournamentHandler.SearchUpdatedTournamentsByDistrict
    rw [he]
    rfl
  · intro startDate endDate districtIDStr  ⟨e, he⟩
    unfold TournamentHandler.SearchUpdatedGroupsByDistrict
    rw [he]
    rfl
  · intro idStr  ⟨e, he⟩
    unfold ResultsHandler.GetResultTable
    rw [he]
    rfl
  · intro idStr  ⟨e, he⟩
    unfold ResultsHandler.GetMemberTableResults
    rw [he]
    rfl
  · intro idStr  ⟨e, he⟩
    unfold ResultsHandler.GetRoundResults
    rw [he]
    rfl
  · intro idStr  ⟨e, he⟩
    unfold ResultsHandler.GetTeamResultTable
    rw [he]
    rfl
  · intro idStr  ⟨e, he⟩
    unfold ResultsHandler.GetTeamRoundResults
    rw [he]
    rfl
  · intro idStr memberIDStr  ⟨e, he⟩
    unfold ResultsHandler.GetTeamRoundResultsForMember
    rw [he]
    rfl
  · intro idStr memberIDStr ⟨n0, h0⟩ ⟨e, he⟩
    unfold ResultsHandler.GetTeamRoundResultsForMember
    rw [h0]
    dsimp only
    rw [he]
    rfl
  · intro idStr  ⟨e, he⟩
    unfold ResultsHandler.GetMemberGames
    rw [he]
    rfl
  · intro tournamentIDStr clubIDStr  ⟨e, he⟩
    unfold RegistrationHandler.GetTeamRegistration
    rw [he]
    rfl
  · intro tournamentIDStr clubIDStr ⟨n0, h0⟩ ⟨e, he⟩
    unfold RegistrationHandler.GetTeamRegistration
    rw [h0]
    dsimp only
    rw [he]
    rfl
  · intro what
    refine ⟨rfl, rfl, ?_⟩
    rw [String.data_append]
    exact ⟨_, rfl⟩
  · exact ⟨_, rfl⟩
  · exact ⟨_, rfl⟩
  · exact ⟨_, rfl⟩
  · exact ⟨_, rfl⟩

/-- Witness of C22: the requests of the tests, `GetTournament` with the id `abc` and
`GetFederationRatingList` with the rating type `abc` or the category `abc`; with
both malformed the rating type, which is checked first, decides. -/
theorem handlers_reject_malformed_int_witness :
    TournamentHandler.GetTournament sampleEnv emptyWorld "abc"
      = (emptyWorld, WriteError StatusBadRequest "invalid tournament id") ∧
    RatingListHandler.GetFederationRatingList sampleEnv emptyWorld "2024-01-01" "abc" "0"
      = (emptyWorld, WriteError StatusBadRequest "invalid rating type") ∧
    RatingListHandler.GetFederationRatingList sampleEnv emptyWorld "2024-01-01" "1" "abc"
      = (emptyWorld, WriteError StatusBadRequest "invalid category") ∧
    RatingListHandler.GetFederationRatingList sampleEnv emptyWorld "2024-01-01" "abc" "xyz"
      = (emptyWorld, WriteError StatusBadRequest "invalid rating type") ∧
    (TournamentHandler.GetTournament sampleEnv emptyWorld "6058").2.status = StatusOK :=
  have h := handlers_reject_malformed_int sampleEnv emptyWorld
  ⟨(h.2.2.2.2.2.2.2.2.2.2.2.2.2.2.1 "abc" ⟨_, rfl⟩).trans rfl, (h.2.2.2.2.2.2.1 "2024-01-01" "abc" "0" ⟨_, rfl⟩).trans rfl, (h.2.2.2.2.2.2.2.1 "2024-01-01" "1" "abc" ⟨_, rfl⟩ ⟨_, rfl⟩).trans rfl, (h.2.2.2.2.2.2.1 "2024-01-01" "abc" "xyz" ⟨_, rfl⟩).trans rfl, by decide⟩

/-! ## The date sent to the upstream and the period of the record -/

theorem batchEvents_append (ids : List Int) (ds : String) (rd : Time) (a b : List Event)
    (ha : batchEvents ids ds rd a) (hb : batchEvents ids ds rd b) :
    batchEvents ids ds rd (a ++ b) := by
  intro e he
  rw [List.mem_append] at he
  rcases he with he | he
  · exact ha e he
  · exact hb e he

theorem Save_batchEvents (env : Env) (w : World) (ids : List Int) (ds : String)
    (p : PlayerInfo) (rd : Time) (exp : Option Time) :
    ∃ ext, (PlayerRepository.Save env w p rd exp).1.trace = w.trace ++ ext ∧
      batchEvents ids ds rd ext := by
  obtain ⟨ext, ht, hs⟩ := Save_trace_full env w p rd exp
  obtain ⟨ext2, ht2, hf⟩ := Save_trace_ext env w p rd exp
  have heq : ext2 = Event.repoSave p rd exp :: ext := by
    rw [ht] at ht2
    exact (List.append_cancel_left ht2).symm
  refine ⟨_, ht, ?_⟩
  intro e he
  constructor
  · intro hfe
    have : e ∈ ext2.filter Event.isFetch := List.mem_filter.mpr ⟨heq ▸ he, hfe⟩
    rw [hf] at this
    simp at this
  · intro hse
    rw [List.mem_cons] at he
    rcases he with he | he
    · exact ⟨p, exp, he⟩
    · rw [hs e he] at hse
      cases hse

theorem step_events (env : Env) (ids : List Int) (ds : String) (rd : Time)
    (exp : Option Time) (st : ParState) (i : Nat) :
    ∃ ext, (fetchPlayersParallel.step env ids ds rd exp st i).w.trace = st.w.trace ++ ext ∧
      batchEvents ids ds rd ext := by
  unfold fetchPlayersParallel.step
  split
  · exact ⟨[], by simp, fun e he => by simp at he⟩
  · rename_i memberID hget
    have hmem : memberID ∈ ids := List.get?_mem hget
    split
    · refine ⟨[Event.upstreamGetPlayer memberID ds], rfl, ?_⟩
      intro e he
      rw [List.mem_singleton] at he
      subst he
      exact ⟨fun _ => ⟨memberID, hmem, rfl⟩, fun h => by simp [Event.isSave] at h⟩
    · exact ⟨[], by simp, fun e he => by simp at he⟩
    · exact Save_batchEvents env st.w ids ds _ rd exp

theorem run_events (env : Env) (ids : List Int) (ds : String) (rd : Time)
    (exp : Option Time) (sched : List Nat) :
    ∀ st : ParState, ∃ ext,
      (sched.foldl (fetchPlayersParallel.step env ids ds rd exp) st).w.trace
        = st.w.trace ++ ext ∧ batchEvents ids ds rd ext := by
  induction sched with
  | nil => intro st; exact ⟨[], by simp, fun e he => by simp at he⟩
  | cons i sched ih =>
    intro st
    obtain ⟨e1, h1, b1⟩ := step_events env ids ds rd exp st i
    obtain ⟨e2, h2, b2⟩ := ih (fetchPlayersParallel.step env ids ds rd exp st i)
    refine ⟨e1 ++ e2, ?_, batchEvents_append _ _ _ _ _ b1 b2⟩
    rw [List.foldl_cons, h2, h1, List.append_assoc]

theorem GetPlayers_events (env : Env) (w : World) (ids : List Int) (date : Time) :
    ∃ ext, (PlayerService.GetPlayers env w ids date).1.trace = w.trace ++ ext ∧
      batchEvents ids date.FormatDate (normalizeToMonthStart date) ext := by
  have hsingle : ∀ e : Event, e.isFetch = false → e.isSave = false →
      batchEvents ids date.FormatDate (normalizeToMonthStart date) [e] := by
    intro e h1 h2 x hx
    rw [List.mem_singleton] at hx
    subst hx
    rw [h1, h2]
    exact ⟨fun h => absurd h (by decide), fun h => absurd h (by decide)⟩
  rw [GetPlayers_eq]
  split
  · dsimp only
    unfold PlayerService.fetchPlayersParallel
    dsimp only
    obtain ⟨ext, ht, hb⟩ := run_events env
      (ids.filter (fun id => (batchHits env w ids date id).isNone)) date.FormatDate
      (normalizeToMonthStart date)
      (PlayerService.determineTTL env (w.log (.repoGetBatch ids (normalizeToMonthStart date)))
        (normalizeToMonthStart date)).2
      (env.schedule (PlayerService.determineTTL env
        (w.log (.repoGetBatch ids (normalizeToMonthStart date)))
        (normalizeToMonthStart date)).1.trace
        (ids.filter (fun id => (batchHits env w ids date id).isNone)).length)
      { w := (PlayerService.determineTTL env
          (w.log (.repoGetBatch ids (normalizeToMonthStart date)))
          (normalizeToMonthStart date)).1
        waiting := [], results := GoMap.empty, errors := none }
    refine ⟨[Event.repoGetBatch ids (normalizeToMonthStart date)] ++ ([Event.timeNow] ++ ext),
      ?_, ?_⟩
    · rw [ht]
      dsimp only
      rw [determineTTL_trace]
      simp [log_trace]
    · refine batchEvents_append _ _ _ _ _ (hsingle _ rfl rfl)
        (batchEvents_append _ _ _ _ _ (hsingle _ rfl rfl) ?_)
      intro e he
      obtain ⟨h1, h2⟩ := hb e he
      refine ⟨fun hf => ?_, h2⟩
      obtain ⟨id, hid, heq⟩ := h1 hf
      exact ⟨id, (List.mem_filter.mp hid).1, heq⟩
  · exact ⟨[Event.repoGetBatch ids (normalizeToMonthStart date)], rfl, hsingle _ rfl rfl⟩

theorem rangeEvents_append (id : Int) (dates : List Time) (a b : List Event)
    (ha : rangeEvents id dates a) (hb : rangeEvents id dates b) :
    rangeEvents id dates (a ++ b) := by
  intro e he
  rw [List.mem_append] at he
  rcases he with he | he
  · exact ha e he
  · exact hb e he

theorem rangeEvents_mono (id : Int) (ds dates : List Time) (ext : List Event)
    (hsub : ∀ d ∈ ds, d ∈ dates) (h : rangeEvents id ds ext) : rangeEvents id dates ext := by
  intro e he
  obtain ⟨h1, h2⟩ := h e he
  constructor
  · intro hf
    obtain ⟨d, hd, heq⟩ := h1 hf
    exact ⟨d, hsub d hd, heq⟩
  · intro hs
    obtain ⟨p, exp, d, hd, heq⟩ := h2 hs
    exact ⟨p, exp, d, hsub d hd, heq⟩

theorem fetchLoop_events (env : Env) (memberID : Int) :
    ∀ (ds : List Time) (w : World) (cached : GoMap String PlayerInfo),
      ∃ ext, (GetPlayerRatings.fetchLoop env memberID ds w cached).1.trace = w.trace ++ ext ∧
        rangeEvents memberID ds ext := by
  intro ds
  induction ds with
  | nil =>
    intro w cached
    rw [fetchLoop_nil]
    exact ⟨[], by simp, fun e he => by simp at he⟩
  | cons d ds ih =>
    intro w cached
    rw [fetchLoop_cons]
    have hfetch : rangeEvents memberID (d :: ds)
        [Event.upstreamGetPlayer memberID d.FormatDate] := by
      intro e he
      rw [List.mem_singleton] at he
      subst he
      exact ⟨fun _ => ⟨d, List.mem_cons_self _ _, rfl⟩, fun h => by simp [Event.isSave] at h⟩
    have htail : ∀ ext, rangeEvents memberID ds ext → rangeEvents memberID (d :: ds) ext :=
      fun ext h => rangeEvents_mono memberID ds (d :: ds) ext
        (fun x hx => List.mem_cons_of_mem _ hx) h
    split
    · obtain ⟨ext, ht, hr⟩ := ih (w.log (.upstreamGetPlayer memberID d.FormatDate)) cached
      refine ⟨[Event.upstreamGetPlayer memberID d.FormatDate] ++ ext, ?_,
        rangeEvents_append _ _ _ _ hfetch (htail ext hr)⟩
      rw [ht, log_trace, List.append_assoc]
    · rename_i player _
      obtain ⟨ext, ht, hr⟩ := ih
        (PlayerRepository.Save env
          (PlayerService.determineTTL env (w.log (.upstreamGetPlayer memberID d.FormatDate)) d).1
          player d
          (PlayerService.determineTTL env
            (w.log (.upstreamGetPlayer memberID d.FormatDate)) d).2).1
        (cached.set d.FormatDate player)
      obtain ⟨e1, ht1, hs1⟩ := Save_trace_full env
        (PlayerService.determineTTL env (w.log (.upstreamGetPlayer memberID d.FormatDate)) d).1
        player d
        (PlayerService.determineTTL env (w.log (.upstreamGetPlayer memberID d.FormatDate)) d).2
      obtain ⟨e2, ht2, hf2⟩ := Save_trace_ext env
        (PlayerService.determineTTL env (w.log (.upstreamGetPlayer memberID d.FormatDate)) d).1
        player d
        (PlayerService.determineTTL env (w.log (.upstreamGetPlayer memberID d.FormatDate)) d).2
      have heq : e2 = Event.repoSave player d
          (PlayerService.determineTTL env
            (w.log (.upstreamGetPlayer memberID d.FormatDate)) d).2 :: e1 := by
        rw [ht1] at ht2
        exact (List.append_cancel_left ht2).symm
      have hsave : rangeEvents memberID (d :: ds) e2 := by
        intro e he
        constructor
        · intro hfe
          have : e ∈ e2.filter Event.isFetch := List.mem_filter.mpr ⟨he, hfe⟩
          rw [hf2] at this
          simp at this
        · intro hse
          rw [heq, List.mem_cons] at he
          rcases he with he | he
          · exact ⟨player, _, d, List.mem_cons_self _ _, he⟩
          · rw [hs1 e he] at hse
            cases hse
      have htime : rangeEvents memberID (d :: ds) [Event.timeNow] := by
        intro e he
        rw [List.mem_singleton] at he
        subst he
        exact ⟨fun h => absurd h (by decide), fun h => absurd h (by decide)⟩
      refine ⟨[Event.upstreamGetPlayer memberID d.FormatDate] ++ ([Event.timeNow] ++ (e2 ++ ext)),
        ?_, rangeEvents_append _ _ _ _ hfetch (rangeEvents_append _ _ _ _ htime
          (rangeEvents_append _ _ _ _ hsave (htail ext hr)))⟩
      rw [ht, ht2, determineTTL_trace]
      simp [log_trace]

theorem GetPlayerRatings_events (env : Env) (w : World) (memberID : Int)
    (fromDate toDate : Time) :
    ∃ ext, (PlayerService.GetPlayerRatings env w memberID fromDate toDate).1.trace
        = w.trace ++ ext ∧
      rangeEvents memberID (generateMonthRange fromDate toDate) ext := by
  rw [GetPlayerRatings_eq]
  dsimp only
  obtain ⟨ext, ht, hr⟩ := fetchLoop_events env memberID
    ((generateMonthRange fromDate toDate).filter (fun d =>
      (rangeHits env w memberID (generateMonthRange fromDate toDate) d.FormatDate).isNone))
    (w.log (.repoGetRatingHistoryForDates memberID (generateMonthRange fromDate toDate)))
    (rangeHits env w memberID (generateMonthRange fromDate toDate))
  refine ⟨[Event.repoGetRatingHistoryForDates memberID (generateMonthRange fromDate toDate)]
    ++ ext, ?_, rangeEvents_append _ _ _ _ ?_ ?_⟩
  · rw [ht, log_trace, List.append_assoc]
  · intro e he
    rw [List.mem_singleton] at he
    subst he
    exact ⟨fun h => absurd h (by simp [Event.isFetch]),
      fun h => absurd h (by simp [Event.isSave])⟩
  · exact rangeEvents_mono _ _ _ _ (fun d hd => (List.mem_filter.mp hd).1) hr

/-- The trace of a `GetPlayer` that misses and whose fetch succeeds. -/
theorem GetPlayer_miss_trace (env : Env) (w : World) (memberID : Int) (d : Time)
    (P : PlayerInfo)
    (hmiss : (PlayerRepository.Get env w memberID (normalizeToMonthStart d)).2.1 = none)
    (hfetch : env.upstreamGetPlayer
      (w.trace ++ [.repoGet memberID (normalizeToMonthStart d)]) memberID d.FormatDate = .ok P) :
    ∃ exp ext, (PlayerService.GetPlayer env w memberID d).1.trace
        = w.trace ++ [Event.repoGet memberID (normalizeToMonthStart d),
            Event.upstreamGetPlayer memberID d.FormatDate, Event.timeNow,
            Event.repoSave P (normalizeToMonthStart d) exp] ++ ext ∧
      (∀ x ∈ ext, x.isSave = false ∧ x.isFetch = false) ∧
      (PlayerService.GetPlayer env w memberID d).2 = (some P, none) := by
  rw [GetPlayer_of_fetch_ok env w memberID d P hmiss hfetch]
  obtain ⟨e1, ht1, hs1⟩ := Save_trace_full env
    (PlayerService.determineTTL env
      ((w.log (.repoGet memberID (normalizeToMonthStart d))).log
        (.upstreamGetPlayer memberID d.FormatDate)) (normalizeToMonthStart d)).1
    P (normalizeToMonthStart d)
    (PlayerService.determineTTL env
      ((w.log (.repoGet memberID (normalizeToMonthStart d))).log
        (.upstreamGetPlayer memberID d.FormatDate)) (normalizeToMonthStart d)).2
  obtain ⟨e2, ht2, hf2⟩ := Save_trace_ext env
    (PlayerService.determineTTL env
      ((w.log (.repoGet memberID (normalizeToMonthStart d))).log
        (.upstreamGetPlayer memberID d.FormatDate)) (normalizeToMonthStart d)).1
    P (normalizeToMonthStart d)
    (PlayerService.determineTTL env
      ((w.log (.repoGet memberID (normalizeToMonthStart d))).log
        (.upstreamGetPlayer memberID d.FormatDate)) (normalizeToMonthStart d)).2
  have heq : e2 = Event.repoSave P (normalizeToMonthStart d)
      (PlayerService.determineTTL env
        ((w.log (.repoGet memberID (normalizeToMonthStart d))).log
          (.upstreamGetPlayer memberID d.FormatDate)) (normalizeToMonthStart d)).2 :: e1 := by
    rw [ht1] at ht2
    exact (List.append_cancel_left ht2).symm
  refine ⟨(PlayerService.determineTTL env
      ((w.log (.repoGet memberID (normalizeToMonthStart d))).log
        (.upstreamGetPlayer memberID d.FormatDate)) (normalizeToMonthStart d)).2, e1, ?_, ?_, rfl⟩
  · dsimp only
    rw [ht1, determineTTL_trace]
    simp [log_trace]
  · intro x hx
    refine ⟨hs1 x hx, ?_⟩
    cases hfx : x.isFetch with
    | false => rfl
    | true =>
      have : x ∈ e2.filter Event.isFetch :=
        List.mem_filter.mpr ⟨heq ▸ List.mem_cons_of_mem _ hx, hfx⟩
      rw [hf2] at this
      simp at this

/-- A get that misses, fetches and saves is followed by a get of the same month that
is served from the store. -/
theorem GetPlayer_second_get (env : Env) (w : World) (memberID : Int) (d d2 : Time)
    (P : PlayerInfo)
    (hmiss : (PlayerRepository.Get env w memberID (normalizeToMonthStart d)).2.1 = none)
    (hfetch : env.upstreamGetPlayer
      (w.trace ++ [.repoGet memberID (normalizeToMonthStart d)]) memberID d.FormatDate = .ok P)
    (hid : P.ID = memberID)
    (hmonth : normalizeToMonthStart d2 = normalizeToMonthStart d)
    (hcodec : ∀ data, env.marshal P = .ok data → env.unmarshal data = .ok P) :
    let rd := normalizeToMonthStart d
    let ttl := PlayerService.determineTTL env
      ((w.log (.repoGet memberID rd)).log (.upstreamGetPlayer memberID d.FormatDate)) rd
    let w1 := (PlayerService.GetPlayer env w memberID d).1
    (PlayerRepository.Save env ttl.1 P rd ttl.2).2 = none →
    env.dbFault (w1.trace ++ [.repoGet memberID rd]) = .ok →
    (∀ e, ttl.2 = some e →
      (env.dbNow (w1.trace ++ [.repoGet memberID rd])).unixNano < e.unixNano) →
    (PlayerRepository.Get env w1 memberID rd).2 = (some P, none) ∧
    (PlayerService.GetPlayer env w1 memberID d2).2 = (some P, none) ∧
    (PlayerService.GetPlayer env w1 memberID d2).1.trace.filter Event.isFetch
      = w1.trace.filter Event.isFetch := by
  intro rd ttl w1 hsave hdb hlive
  have hout := GetPlayer_of_fetch_ok env w memberID d P hmiss hfetch
  obtain ⟨data, hm, hS⟩ := Save_ok env ttl.1 P rd ttl.2 hsave
  have hw1 : w1 = (PlayerRepository.Save env ttl.1 P rd ttl.2).1 := by
    show (PlayerService.GetPlayer env w memberID d).1 = _
    rw [hout]
  have hrows : w1.rows = upsert ttl.1.rows (Save.entry P rd data
      (env.timeNow (ttl.1.trace ++ [.repoSave P rd ttl.2])) ttl.2) := by
    rw [hw1, hS]
  have hfind : w1.rows.find? (fun r => decide (r.MemberID = memberID) &&
      sameDate r.RatingDate rd &&
      live (env.dbNow (w1.trace ++ [.repoGet memberID rd])) r)
      = some (Save.entry P rd data
        (env.timeNow (ttl.1.trace ++ [.repoSave P rd ttl.2])) ttl.2) := by
    rw [hrows]
    apply upsert_find
    · have hl : live (env.dbNow (w1.trace ++ [.repoGet memberID rd]))
          (Save.entry P rd data (env.timeNow (ttl.1.trace ++ [.repoSave P rd ttl.2])) ttl.2)
          = true := by
        unfold live
        cases hexp : ttl.2 with
        | none => simp [Save.entry, hexp]
        | some e => simpa [Save.entry, hexp, Time.Before] using hlive e hexp
      rw [hl, Bool.and_true]
      simp [Save.entry, hid, sameDate]
    · intro r hr
      simp only [Bool.and_eq_true, decide_eq_true_eq] at hr
      simp [Save.entry, hid, hr.1.1, hr.1.2]
  have hGet : PlayerRepository.Get env w1 memberID rd
      = (w1.log (.repoGet memberID rd), some P, none) := by
    unfold PlayerRepository.Get queryRow
    simp only [log_trace, log_rows, hdb, DBOutcome.rowsErrAt, DBOutcome.scanErrAt, hfind]
    simp [Save.entry, hcodec data hm]
  refine ⟨by rw [hGet], ?_⟩
  have h2 := GetPlayer_of_hit env w1 memberID d2 P (by rw [hmonth, hGet])
  rw [h2]
  simp [log_trace, Event.isFetch]

/-- Claim C26: on a cache miss `GetPlayer` calls the upstream with the caller's own
date in the format `2006-01-02` and saves the payload under the normalized
period; `GetPlayers` calls the upstream with the caller's own date for every id
it fetches and saves under the normalized period; `GetPlayerRatings` calls the
upstream with the formatted period itself, a first of a month, and saves under
that period.  So when a `GetPlayer` for `d1` has missed, fetched the payload
`P` and saved it (with `P.ID` the requested id, a document that decodes back to
`P`, and the record live at the next read of a working store), a `GetPlayer`
for a date `d2` of the same month returns `P`, the snapshot fetched for `d1`,
and makes no call of the upstream. -/
theorem fetch_date_and_period (env : Env) (w : World) :
    (∀ memberID d P,
      (PlayerRepository.Get env w memberID (normalizeToMonthStart d)).2.1 = none →
      env.upstreamGetPlayer (w.trace ++ [.repoGet memberID (normalizeToMonthStart d)])
        memberID d.FormatDate = .ok P →
      ∃ exp ext, (PlayerService.GetPlayer env w memberID d).1.trace
          = w.trace ++ [Event.repoGet memberID (normalizeToMonthStart d),
              Event.upstreamGetPlayer memberID d.FormatDate, Event.timeNow,
              Event.repoSave P (normalizeToMonthStart d) exp] ++ ext ∧
        (∀ x ∈ ext, x.isSave = false ∧ x.isFetch = false) ∧
        (PlayerService.GetPlayer env w memberID d).2 = (some P, none)) ∧
    (∀ memberIDs date, ∃ ext,
      (PlayerService.GetPlayers env w memberIDs date).1.trace = w.trace ++ ext ∧
      batchEvents memberIDs date.FormatDate (normalizeToMonthStart date) ext) ∧
    (∀ memberID fromDate toDate, ∃ ext,
      (PlayerService.GetPlayerRatings env w memberID fromDate toDate).1.trace
        = w.trace ++ ext ∧
      rangeEvents memberID (generateMonthRange fromDate toDate) ext ∧
      ∀ d ∈ generateMonthRange fromDate toDate, normalizeToMonthStart d = d ∧ d.Day = 1) ∧
    (∀ (memberID : Int) (d d2 : Time) (P : PlayerInfo),
      (PlayerRepository.Get env w memberID (normalizeToMonthStart d)).2.1 = none →
      env.upstreamGetPlayer (w.trace ++ [.repoGet memberID (normalizeToMonthStart d)])
        memberID d.FormatDate = .ok P →
      P.ID = memberID →
      normalizeToMonthStart d2 = normalizeToMonthStart d →
      (∀ data, env.marshal P = .ok data → env.unmarshal data = .ok P) →
      let rd := normalizeToMonthStart d
      let ttl := PlayerService.determineTTL env
        ((w.log (.repoGet memberID rd)).log (.upstreamGetPlayer memberID d.FormatDate)) rd
      let w1 := (PlayerService.GetPlayer env w memberID d).1
      (PlayerRepository.Save env ttl.1 P rd ttl.2).2 = none →
      env.dbFault (w1.trace ++ [.repoGet memberID rd]) = .ok →
      (∀ e, ttl.2 = some e →
        (env.dbNow (w1.trace ++ [.repoGet memberID rd])).unixNano < e.unixNano) →
      (PlayerRepository.Get env w1 memberID rd).2 = (some P, none) ∧
      (PlayerService.GetPlayer env w1 memberID d2).2 = (some P, none) ∧
      (PlayerService.GetPlayer env w1 memberID d2).1.trace.filter Event.isFetch
        = w1.trace.filter Event.isFetch) := by
  refine ⟨?_, ?_, ?_, ?_⟩
  · intro memberID d P hmiss hfetch
    exact GetPlayer_miss_trace env w memberID d P hmiss hfetch
  · intro ids date
    exact GetPlayers_events env w ids date
  · intro memberID fromDate toDate
    obtain ⟨ext, ht, hr⟩ := GetPlayerRatings_events env w memberID fromDate toDate
    refine ⟨ext, ht, hr, ?_⟩
    intro d hd
    rw [generateMonthRange_eq] at hd
    obtain ⟨i, _, rfl⟩ := (mem_monthsFrom _ _ d).mp hd
    exact ⟨normalize_monthStart _, (monthStart_fields _).2.2.1⟩
  · intro memberID d d2 P hmiss hfetch hid hmonth hcodec
    exact GetPlayer_second_get env w memberID d d2 P hmiss hfetch hid hmonth hcodec

/-- Witness of C26: on the empty store the get of member 7 for 2024-06-15 asks the
upstream for `2024-06-15` and saves under 2024-06-01; the get for 2024-06-20
returns the payload fetched for 2024-06-15. -/
theorem fetch_date_and_period_witness :
    (PlayerService.GetPlayer snapshotEnv emptyWorld 7 june15).1.trace.filter Event.isFetch
      = [.upstreamGetPlayer 7 "2024-06-15"] ∧
    (PlayerService.GetPlayer snapshotEnv emptyWorld 7 june15).1.rows.map
      (fun r => (r.MemberID, r.RatingDate.FormatDate)) = [(7, "2024-06-01")] ∧
    (PlayerService.GetPlayer snapshotEnv
      (PlayerService.GetPlayer snapshotEnv emptyWorld 7 june15).1 7 june20).2
      = (some (datedPlayer 7 2024 6 15), none) ∧
    (PlayerService.GetPlayerRatings datedEnv emptyWorld 7 jan15 mar10).1.trace.filter
        Event.isFetch
      = [.upstreamGetPlayer 7 "2024-01-01", .upstreamGetPlayer 7 "2024-02-01",
         .upstreamGetPlayer 7 "2024-03-01"] :=
  have h := (fetch_date_and_period snapshotEnv emptyWorld).2.2.2 7 june15 june20
    (datedPlayer 7 2024 6 15) (by decide) rfl (by decide) (by decide)
    (fun data hd => by
      have hdata : data = "7 as of 2024-06-15" := by
        have h1 : (Except.ok "7 as of 2024-06-15" : Except GoError Bytes) = Except.ok data := hd
        injection h1 with h2
        exact h2.symm
      subst hdata
      rfl)
    (by decide) rfl (by decide)
  ⟨by decide, by decide, h.2.1, by decide⟩

/-! ## The range of months of a rating history -/

/-- The clock that a time shows lies within a day. -/
theorem clock_range (t : Time) :
    t.Hour * 3600 + t.Minute * 60 + t.Second = t.localSeconds % secondsPerDay ∧
    0 ≤ t.Nanosecond ∧ t.Nanosecond < nanosPerSecond := by
  unfold Time.Hour Time.Minute Time.Second Time.Nanosecond secondsPerDay nanosPerSecond
  generalize t.localSeconds = ls
  generalize t.unixNano = u
  refine ⟨?_, ?_, ?_⟩ <;> omega

/-- The date shown by `time.Date` for a day that the month has, and a clock within
the day. -/
theorem Date_fields (y m d h mi s ns loc : Int) (hd1 : 1 ≤ d) (hd28 : d ≤ 28)
    (htod0 : 0 ≤ h * 3600 + mi * 60 + s) (htod1 : h * 3600 + mi * 60 + s < 86400)
    (hns0 : 0 ≤ ns) (hns1 : ns < 1000000000) :
    (time.Date y m d h mi s ns loc).Year = y + (m - 1) / 12 ∧
    (time.Date y m d h mi s ns loc).Month = (m - 1) % 12 + 1 ∧
    (time.Date y m d h mi s ns loc).Day = d := by
  have hdays : (time.Date y m d h mi s ns loc).localDays
      = daysFromCivil (y + (m - 1) / 12) ((m - 1) % 12 + 1) d := by
    rw [daysFromCivil_day]
    unfold Time.localDays time.Date secondsPerDay nanosPerSecond
    dsimp only
    generalize daysFromCivil (y + (m - 1) / 12) ((m - 1) % 12 + 1) 1 = D
    generalize htod : h * 3600 + mi * 60 + s = tod at htod0 htod1
    have e : ((D + (d - 1)) * 86400 + h * 3600 + mi * 60 + s - loc) * 1000000000 + ns
        + loc * 1000000000 = ((D + (d - 1)) * 86400 + tod) * 1000000000 + ns := by
      rw [← htod]
      ring
    rw [e]
    omega
  have hciv := civilFromDays_daysFromCivil (y + (m - 1) / 12) ((m - 1) % 12 + 1) d
    (by omega) (by omega) hd1 (by
      have := (daysIn_bounds ((m - 1) % 12 + 1) (y + (m - 1) / 12)).1
      omega)
  unfold Time.Year Time.Month Time.Day
  rw [hdays, hciv]
  exact ⟨rfl, rfl, rfl⟩

/-- Method `AddDate(0, m, 0)` moves a time whose day is at most the 28th by `m`
calendar months, to the same day of the month. -/
theorem AddDate_months (t : Time) (m : Int) (hd : t.Day ≤ 28) :
    (t.AddDate 0 m 0).monthIndex = t.monthIndex + m ∧ (t.AddDate 0 m 0).Day = t.Day := by
  have hc := clock_range t
  have hciv := civilFromDays_spec t.localDays
  have hm : 1 ≤ t.Month ∧ t.Month ≤ 12 := ⟨hciv.1, hciv.2.1⟩
  have hday : 1 ≤ t.Day := hciv.2.2.1
  unfold secondsPerDay at hc
  unfold nanosPerSecond at hc
  have hf := Date_fields (t.Year + 0) (t.Month + m) (t.Day + 0) t.Hour t.Minute t.Second
    t.Nanosecond t.offset (by omega) (by omega) (by omega) (by omega) hc.2.1 hc.2.2
  unfold Time.AddDate
  unfold Time.monthIndex
  rw [hf.1, hf.2.1, hf.2.2]
  constructor <;> omega

/-- When the clock shows a day up to the 28th, a `months` value `n > 0` gives `to = now` and a `from` in the month `n` months before the
month of `now`, so the range has `n + 1` periods; with no parameters the range
starts 12 months before (13 periods). -/
theorem parseDateRange_months_back (env : Env) (w : World) (monthsStr : String) (n : Int)
    (hday : (env.timeNow w.trace).Day ≤ 28) :
    (monthsStr ≠ "" → Atoi monthsStr.data = .ok n → 0 < n →
      ∀ fromStr toStr,
        (parseDateRange env w monthsStr fromStr toStr).2.2 = env.timeNow w.trace ∧
        (parseDateRange env w monthsStr fromStr toStr).2.1.monthIndex
          = (env.timeNow w.trace).monthIndex - n ∧
        ((generateMonthRange (parseDateRange env w monthsStr fromStr toStr).2.1
          (parseDateRange env w monthsStr fromStr toStr).2.2).length : Int) = n + 1) ∧
    ((parseDateRange env w "" "" "").2.2 = env.timeNow w.trace ∧
      (parseDateRange env w "" "" "").2.1.monthIndex = (env.timeNow w.trace).monthIndex - 12 ∧
      (generateMonthRange (parseDateRange env w "" "" "").2.1
        (parseDateRange env w "" "" "").2.2).length = 13) := by
  constructor
  · intro hne hatoi hpos fromStr toStr
    have hp : parseDateRange env w monthsStr fromStr toStr
        = (w.log .timeNow, (env.timeNow w.trace).AddDate 0 (-n) 0, env.timeNow w.trace) := by
      unfold parseDateRange timeNow
      simp only [hne, hatoi, hpos, ne_eq, not_false_eq_true, if_true]
    rw [hp]
    dsimp only
    have ha := AddDate_months (env.timeNow w.trace) (-n) hday
    refine ⟨rfl, by rw [ha.1]; ring, ?_⟩
    rw [generateMonthRange_eq, monthsFrom_length, ha.1]
    omega
  · have hp : parseDateRange env w "" "" ""
        = (w.log .timeNow, (env.timeNow w.trace).AddDate 0 (-12) 0, env.timeNow w.trace) := by
      unfold parseDateRange timeNow
      simp
    rw [hp]
    dsimp only
    have ha := AddDate_months (env.timeNow w.trace) (-12) hday
    refine ⟨rfl, by rw [ha.1]; ring, ?_⟩
    rw [generateMonthRange_eq, monthsFrom_length, ha.1]
    omega

/-- Claim C24 at its failing inputs.  At noon of 2024-03-31 the value `months=1`
gives `from = now.AddDate(0, -1, 0)`, which is February 31st and so 2024-03-02:
`from` lies in the month of `now`, not in the month before, and the range has
one period instead of two.  At noon of 2024-02-29 the default range starts on
2023-03-01 (February 29th of 2023), eleven months before the month of `now`,
and has 12 periods instead of 13.  On 2024-06-20 `months=1` gives the two
periods of May and June. -/
theorem parseDateRange_month_end :
    (parseDateRange march31Env emptyWorld "1" "" "").2
      = (time.Date 2024 3 2 12 0 0 0 UTC, time.Date 2024 3 31 12 0 0 0 UTC) ∧
    generateMonthRange (parseDateRange march31Env emptyWorld "1" "" "").2.1
        (parseDateRange march31Env emptyWorld "1" "" "").2.2
      = [time.Date 2024 3 1 0 0 0 0 UTC] ∧
    (parseDateRange leapDayEnv emptyWorld "" "" "").2
      = (time.Date 2023 3 1 12 0 0 0 UTC, time.Date 2024 2 29 12 0 0 0 UTC) ∧
    (generateMonthRange (parseDateRange leapDayEnv emptyWorld "" "" "").2.1
        (parseDateRange leapDayEnv emptyWorld "" "" "").2.2).length = 12 ∧
    generateMonthRange (parseDateRange sampleEnv emptyWorld "1" "" "").2.1
        (parseDateRange sampleEnv emptyWorld "1" "" "").2.2
      = [time.Date 2024 5 1 0 0 0 0 UTC, time.Date 2024 6 1 0 0 0 0 UTC] := by
  refine ⟨by decide, by decide, by decide, by decide, by decide⟩

/-- On the sample clock, 2024-06-20, `months=3` gives the four periods from March to
June. -/
theorem parseDateRange_months_back_witness :
    ((generateMonthRange (parseDateRange sampleEnv emptyWorld "3" "" "").2.1
      (parseDateRange sampleEnv emptyWorld "3" "" "").2.2).length : Int) = 3 + 1 :=
  ((parseDateRange_months_back sampleEnv emptyWorld "3" 3 (by decide)).1
    (by decide) rfl (by decide) "" "").2.2

/-! ## The JSON form of a date -/

theorem digitChar_isDigit (k : Nat) (h : k < 10) : (Nat.digitChar k).isDigit = true := by
  interval_cases k <;> decide

theorem toDigitsCore_digits (f n : Nat) :
    ∀ c ∈ Nat.toDigitsCore 10 f n [], c.isDigit = true := by
  induction f generalizing n with
  | zero => intro c hc; simp [Nat.toDigitsCore] at hc
  | succ f ih =>
    have hd := digitChar_isDigit (n % 10) (Nat.mod_lt _ (by decide))
    intro c hc
    simp only [Nat.toDigitsCore] at hc
    split at hc
    · rw [List.mem_singleton] at hc
      rw [hc]
      exact hd
    · rw [toDigitsCore_append, List.mem_append, List.mem_singleton] at hc
      rcases hc with hc | hc
      · exact ih _ c hc
      · rw [hc]
        exact hd

theorem toString_digits (n : Nat) : ∀ c ∈ (toString n).data, c.isDigit = true := by
  show ∀ c ∈ (Nat.repr n).data, c.isDigit = true
  unfold Nat.repr Nat.toDigits
  exact toDigitsCore_digits (n + 1) n

/-- The digits of a number that fits the width: as many as the width, with the value
of the number. -/
theorem padNat_data (w n : Nat) (hw : 0 < w) (h : n < 10 ^ w) :
    (padNat w n).data.length = w ∧ (∀ c ∈ (padNat w n).data, c.isDigit = true) ∧
    digitsValue (padNat w n).data = n := by
  have hlen : (toString n).length ≤ w := Nat.repr_length n w hw h
  refine ⟨?_, ?_, (padNat_value w n).1⟩
  · unfold padNat
    simp only [String.data_append, List.length_append, List.length_replicate]
    have : (toString n).data.length = (toString n).length := rfl
    omega
  · unfold padNat
    simp only [String.data_append, List.mem_append]
    intro c hc
    rcases hc with hc | hc
    · rw [List.eq_of_mem_replicate hc]
      decide
    · exact toString_digits n c hc

theorem appendInt_two (n : Int) (h0 : 0 ≤ n) (h : n < 100) :
    ∃ a b, (appendInt n 2).data = [a, b] ∧ a.isDigit = true ∧ b.isDigit = true ∧
      digitsValue [a, b] = n := by
  have hp := padNat_data 2 n.toNat (by decide) (by omega)
  unfold appendInt
  rw [if_neg (by omega)]
  generalize (padNat 2 n.toNat).data = l at hp
  obtain ⟨hlen, hdig, hval⟩ := hp
  match l, hlen with
  | [a, b], _ =>
    refine ⟨a, b, rfl, hdig a (by simp), hdig b (by simp), ?_⟩
    rw [hval]
    omega

theorem appendInt_four (n : Int) (h0 : 0 ≤ n) (h : n < 10000) :
    ∃ a b c d, (appendInt n 4).data = [a, b, c, d] ∧ a.isDigit = true ∧ b.isDigit = true ∧
      c.isDigit = true ∧ d.isDigit = true ∧ digitsValue [a, b, c, d] = n := by
  have hp := padNat_data 4 n.toNat (by decide) (by omega)
  unfold appendInt
  rw [if_neg (by omega)]
  generalize (padNat 4 n.toNat).data = l at hp
  obtain ⟨hlen, hdig, hval⟩ := hp
  match l, hlen with
  | [a, b, c, d], _ =>
    refine ⟨a, b, c, d, rfl, hdig a (by simp), hdig b (by simp), hdig c (by simp),
      hdig d (by simp), ?_⟩
    rw [hval]
    omega

theorem digit_ne_quote (c : Char) (h : c.isDigit = true) :
    c ≠ '"' ∧ c ≠ 'n' ∧ c ≠ 'Z' ∧ c ≠ '.' ∧ c ≠ ',' := by
  refine ⟨?_, ?_, ?_, ?_, ?_⟩ <;> (intro hc; rw [hc] at h; exact absurd h (by decide))

theorem parseZone_minus (a b c d : Char) (rest : List Char) :
    parseZone ('-' :: a :: b :: ':' :: c :: d :: rest) =
      if (!(a.isDigit && b.isDigit && c.isDigit && d.isDigit)) = true then none
      else if digitsValue [a, b] > 24 ∨ digitsValue [c, d] > 60 then none
      else some (-((digitsValue [a, b] * 60 + digitsValue [c, d]) * 60), rest) := rfl

theorem parseZone_plus (a b c d : Char) (rest : List Char) :
    parseZone ('+' :: a :: b :: ':' :: c :: d :: rest) =
      if (!(a.isDigit && b.isDigit && c.isDigit && d.isDigit)) = true then none
      else if digitsValue [a, b] > 24 ∨ digitsValue [c, d] > 60 then none
      else some ((digitsValue [a, b] * 60 + digitsValue [c, d]) * 60, rest) := rfl

/-- The zone that `Format` writes for an offset of whole minutes below 25 hours:
`Parse` reads the offset back from it, and no fraction of a second before it. -/
theorem formatZone_parse (z : Int) (hz : z % 60 = 0) (h1 : -90000 < z) (h2 : z < 90000) :
    ∃ front last, (formatZone z).data = front ++ [last] ∧
      parseFraction (front ++ [last]) = (0, front ++ [last]) ∧
      parseZone (front ++ [last]) = some (z, []) ∧ last ≠ '"' := by
  unfold formatZone
  by_cases h0 : z = 0
  · rw [if_pos h0, h0]
    exact ⟨[], 'Z', rfl, rfl, rfl, by decide⟩
  · rw [if_neg h0]
    by_cases hneg : z < 0
    · have hzone : (if z < 0 then -((-z) / 60) else z / 60) = -((-z) / 60) := if_pos hneg
      dsimp only
      rw [hzone, if_pos (by omega)]
      have e : -(-((-z) / 60)) = (-z) / 60 := by omega
      rw [e]
      obtain ⟨a, b, hab, ha, hb, hv1⟩ := appendInt_two ((-z) / 60 / 60) (by omega) (by omega)
      obtain ⟨c, d, hcd, hc, hd, hv2⟩ := appendInt_two ((-z) / 60 % 60) (by omega) (by omega)
      refine ⟨['-', a, b, ':', c], d, ?_, ?_, ?_, (digit_ne_quote d hd).1⟩
      · simp only [String.data_append, hab, hcd]
        rfl
      · rfl
      · have g1 : ¬ ((-z) / 60 / 60 > 24 ∨ (-z) / 60 % 60 > 60) := by omega
        have g2 : -(((-z) / 60 / 60 * 60 + (-z) / 60 % 60) * 60) = z := by omega
        show parseZone ('-' :: a :: b :: ':' :: c :: d :: []) = _
        rw [parseZone_minus, ha, hb, hc, hd, hv1, hv2, if_neg (by decide), if_neg g1, g2]
    · have hzone : (if z < 0 then -((-z) / 60) else z / 60) = z / 60 := if_neg hneg
      dsimp only
      rw [hzone, if_neg (by omega)]
      obtain ⟨a, b, hab, ha, hb, hv1⟩ := appendInt_two (z / 60 / 60) (by omega) (by omega)
      obtain ⟨c, d, hcd, hc, hd, hv2⟩ := appendInt_two (z / 60 % 60) (by omega) (by omega)
      refine ⟨['+', a, b, ':', c], d, ?_, ?_, ?_, (digit_ne_quote d hd).1⟩
      · simp only [String.data_append, hab, hcd]
        rfl
      · rfl
      · have g1 : ¬ (z / 60 / 60 > 24 ∨ z / 60 % 60 > 60) := by omega
        have g2 : (z / 60 / 60 * 60 + z / 60 % 60) * 60 = z := by omega
        show parseZone ('+' :: a :: b :: ':' :: c :: d :: []) = _
        rw [parseZone_plus, ha, hb, hc, hd, hv1, hv2, if_neg (by decide), if_neg g1, g2]

/-- The date and clock that a time of whole seconds shows give the time back. -/
theorem Date_of_fields (t : Time) (hns : t.Nanosecond = 0) :
    (time.Date t.Year t.Month t.Day t.Hour t.Minute t.Second 0 UTC).unixNano
      - t.offset * nanosPerSecond = t.unixNano := by
  have hm := Month_range t
  have hc := (clock_range t).1
  have hday : daysFromCivil t.Year t.Month 1 + (t.Day - 1) = t.localDays := by
    rw [← daysFromCivil_day]
    exact (civilFromDays_spec t.localDays).2.2.2.2
  have e1 : (t.Month - 1) / 12 = 0 := by omega
  have e2 : (t.Month - 1) % 12 + 1 = t.Month := by omega
  unfold time.Date
  dsimp only
  rw [e1, e2]
  simp only [add_zero]
  rw [hday]
  unfold Time.localDays Time.localSeconds Time.Nanosecond secondsPerDay nanosPerSecond UTC
    at *
  generalize t.Hour = h at *
  generalize t.Minute = mi at *
  generalize t.Second = s at *
  generalize t.unixNano = u at *
  generalize t.offset = off at *
  omega

/-- What `Parse` reads from the nineteen characters of a date and a clock in RFC 3339
form, followed by a zone. -/
theorem ParseRFC3339_digits (y1 y2 y3 y4 m1 m2 d1 d2 h1 h2 i1 i2 s1 s2 : Char)
    (zd : List Char) (z : Int)
    (hy1 : y1.isDigit = true) (hy2 : y2.isDigit = true) (hy3 : y3.isDigit = true)
    (hy4 : y4.isDigit = true) (hm1 : m1.isDigit = true) (hm2 : m2.isDigit = true)
    (hd1 : d1.isDigit = true) (hd2 : d2.isDigit = true) (hh1 : h1.isDigit = true)
    (hh2 : h2.isDigit = true) (hi1 : i1.isDigit = true) (hi2 : i2.isDigit = true)
    (hs1 : s1.isDigit = true) (hs2 : s2.isDigit = true)
    (hmonth : 1 ≤ digitsValue [m1, m2] ∧ digitsValue [m1, m2] ≤ 12)
    (hday : 1 ≤ digitsValue [d1, d2] ∧
      digitsValue [d1, d2] ≤ daysIn (digitsValue [m1, m2]) (digitsValue [y1, y2, y3, y4]))
    (hhour : digitsValue [h1, h2] < 24) (hmin : digitsValue [i1, i2] < 60)
    (hsec : digitsValue [s1, s2] < 60)
    (hfrac : parseFraction zd = (0, zd)) (hzone : parseZone zd = some (z, [])) :
    time.ParseRFC3339 (y1 :: y2 :: y3 :: y4 :: '-' :: m1 :: m2 :: '-' :: d1 :: d2 :: 'T' ::
        h1 :: h2 :: ':' :: i1 :: i2 :: ':' :: s1 :: s2 :: zd) =
      some { unixNano := (time.Date (digitsValue [y1, y2, y3, y4]) (digitsValue [m1, m2])
                (digitsValue [d1, d2]) (digitsValue [h1, h2]) (digitsValue [i1, i2])
                (digitsValue [s1, s2]) 0 UTC).unixNano - z * nanosPerSecond
             offset := z } := by
  have g1 : ¬ (digitsValue [m1, m2] ≤ 0 ∨ 12 < digitsValue [m1, m2]) := by omega
  have g2 : ¬ (digitsValue [d1, d2] < 1 ∨
      digitsValue [d1, d2] > daysIn (digitsValue [m1, m2]) (digitsValue [y1, y2, y3, y4])) := by
    omega
  have g3 : ¬ (24 ≤ digitsValue [h1, h2]) := by omega
  have g4 : ¬ (60 ≤ digitsValue [i1, i2]) := by omega
  have g5 : ¬ (60 ≤ digitsValue [s1, s2]) := by omega
  have hclock : parseClock (h1 :: h2 :: ':' :: i1 :: i2 :: ':' :: s1 :: s2 :: zd) =
      some (digitsValue [h1, h2], digitsValue [i1, i2], digitsValue [s1, s2], 0, zd) := by
    simp [parseClock, getnum1, getnum2, skipChar, hh1, hh2, hi1, hi2, hs1, hs2, hfrac,
      g3, g4, g5]
  simp [time.ParseRFC3339, getYear4, getnum2, skipDash, skipChar, hy1, hy2, hy3, hy4,
    hm1, hm2, hd1, hd2, hclock, hzone, g1, g2]

theorem Trim_quoted (x y : Char) (mid : List Char) (hx : x ≠ '"') (hy : y ≠ '"') :
    Trim ('"' :: x :: (mid ++ [y]) ++ ['"']) '"' = x :: (mid ++ [y]) := by
  have e : (x :: (mid ++ [y] ++ ['"'])).reverse = '"' :: y :: (x :: mid).reverse := by simp
  unfold Trim
  have e1 : List.dropWhile (fun c => decide (c = '"')) ('"' :: x :: (mid ++ [y]) ++ ['"'])
      = x :: (mid ++ [y] ++ ['"']) := by
    simp [List.dropWhile, hx]
  rw [e1, e]
  have e2 : List.dropWhile (fun c => decide (c = '"')) ('"' :: y :: (x :: mid).reverse)
      = y :: (x :: mid).reverse := by
    simp [List.dropWhile, hy]
  rw [e2]
  simp

theorem clock_fields_range (t : Time) :
    0 ≤ t.Hour ∧ t.Hour < 24 ∧ 0 ≤ t.Minute ∧ t.Minute < 60 ∧ 0 ≤ t.Second ∧ t.Second < 60 ∧
    1 ≤ t.Day ∧ t.Day ≤ daysIn t.Month t.Year ∧ t.Day ≤ 31 := by
  have hs := civilFromDays_spec t.localDays
  have hb := daysIn_bounds t.Month t.Year
  have hd1 : 1 ≤ t.Day := hs.2.2.1
  have hd2 : t.Day ≤ daysIn t.Month t.Year := hs.2.2.2.1
  have hc : 0 ≤ t.Hour ∧ t.Hour < 24 ∧ 0 ≤ t.Minute ∧ t.Minute < 60 ∧ 0 ≤ t.Second ∧
      t.Second < 60 := by
    unfold Time.Hour Time.Minute Time.Second secondsPerDay
    omega
  exact ⟨hc.1, hc.2.1, hc.2.2.1, hc.2.2.2.1, hc.2.2.2.2.1, hc.2.2.2.2.2, hd1, hd2, by omega⟩

/-- The text that `Format` writes for a time of whole seconds, of a year of four
digits, in a zone of whole minutes: it starts with a digit, does not end in a
quote, and `Parse` reads the time back from it. -/
theorem FormatRFC3339_parse (t : Time) (hns : t.Nanosecond = 0) (hy0 : 0 ≤ t.Year)
    (hy1 : t.Year ≤ 9999) (hz : t.offset % 60 = 0) (hz1 : -90000 < t.offset)
    (hz2 : t.offset < 90000) :
    ∃ x mid y, t.FormatRFC3339.data = x :: (mid ++ [y]) ∧ x.isDigit = true ∧ y ≠ '"' ∧
      time.ParseRFC3339 (x :: (mid ++ [y])) = some t := by
  have hm := Month_range t
  obtain ⟨hh0, hh1, hi0, hi1, hs0, hs1, hd0, hd1, hd31⟩ := clock_fields_range t
  obtain ⟨y1, y2, y3, y4, eY, dy1, dy2, dy3, dy4, vY⟩ := appendInt_four t.Year hy0 (by omega)
  obtain ⟨m1, m2, eM, dm1, dm2, vM⟩ := appendInt_two t.Month (by omega) (by omega)
  obtain ⟨d1, d2, eD, dd1, dd2, vD⟩ := appendInt_two t.Day (by omega) (by omega)
  obtain ⟨h1, h2, eH, dh1, dh2, vH⟩ := appendInt_two t.Hour hh0 (by omega)
  obtain ⟨i1, i2, eI, di1, di2, vI⟩ := appendInt_two t.Minute hi0 (by omega)
  obtain ⟨s1, s2, eS, ds1, ds2, vS⟩ := appendInt_two t.Second hs0 (by omega)
  obtain ⟨front, last, eZ, hfrac, hzone, hlast⟩ := formatZone_parse t.offset hz hz1 hz2
  have hdata : t.FormatRFC3339.data = y1 :: ([y2, y3, y4, '-', m1, m2, '-', d1, d2, 'T',
      h1, h2, ':', i1, i2, ':', s1, s2] ++ front ++ [last]) := by
    unfold Time.FormatRFC3339
    simp only [String.data_append, eY, eM, eD, eH, eI, eS, eZ]
    rfl
  refine ⟨y1, [y2, y3, y4, '-', m1, m2, '-', d1, d2, 'T', h1, h2, ':', i1, i2, ':', s1, s2]
    ++ front, last, hdata, dy1, hlast, ?_⟩
  have hp := ParseRFC3339_digits y1 y2 y3 y4 m1 m2 d1 d2 h1 h2 i1 i2 s1 s2 (front ++ [last])
    t.offset dy1 dy2 dy3 dy4 dm1 dm2 dd1 dd2 dh1 dh2 di1 di2 ds1 ds2
    (by rw [vM]; exact hm) (by rw [vD, vM, vY]; exact ⟨hd0, hd1⟩) (by rw [vH]; exact hh1)
    (by rw [vI]; exact hi1) (by rw [vS]; exact hs1) hfrac hzone
  rw [vY, vM, vD, vH, vI, vS, Date_of_fields t hns] at hp
  simp only [List.append_assoc, List.cons_append, List.nil_append]
  exact hp

/-- Counterexample to C25: four dates of whole seconds, none the zero time, that do
not come back from their JSON form.  A date of the year 10000 is written with five
digits of year, one of the year before 0 with a sign, and one in a zone 25 hours
east with the hour 25 in the zone: `UnmarshalJSON` returns an error for each and
leaves the zero time in the receiver.  A date in a zone thirty seconds east of
UTC is written with the zone `+00:00` and read back thirty seconds later. -/
theorem Date_round_trip_fails :
    (year10000.Time.IsZero = false ∧ year10000.Time.Nanosecond = 0 ∧
      (Date.MarshalJSON year10000) = ("\"10000-01-01T00:00:00Z\"", none) ∧
      Date.UnmarshalJSON juneAfternoonEast (Date.MarshalJSON year10000).1 =
        ({ Time := Time.zero }, some (parseError "2006-01-02" "10000-01-01T00:00:00Z"))) ∧
    (yearBeforeZero.Time.IsZero = false ∧ yearBeforeZero.Time.Nanosecond = 0 ∧
      (Date.MarshalJSON yearBeforeZero) = ("\"-0001-01-01T00:00:00Z\"", none) ∧
      Date.UnmarshalJSON juneAfternoonEast (Date.MarshalJSON yearBeforeZero).1 =
        ({ Time := Time.zero }, some (parseError "2006-01-02" "-0001-01-01T00:00:00Z"))) ∧
    (juneFarEast.Time.IsZero = false ∧ juneFarEast.Time.Nanosecond = 0 ∧
      (Date.MarshalJSON juneFarEast) = ("\"2024-06-15T14:30:05+25:00\"", none) ∧
      Date.UnmarshalJSON juneAfternoonEast (Date.MarshalJSON juneFarEast).1 =
        ({ Time := Time.zero },
          some (parseError "2006-01-02" "2024-06-15T14:30:05+25:00"))) ∧
    (juneHalfMinuteEast.Time.IsZero = false ∧ juneHalfMinuteEast.Time.Nanosecond = 0 ∧
      (Date.MarshalJSON juneHalfMinuteEast) = ("\"2024-06-15T14:30:05+00:00\"", none) ∧
      (Date.UnmarshalJSON juneAfternoonEast (Date.MarshalJSON juneHalfMinuteEast).1).2 = none ∧
      (Date.UnmarshalJSON juneAfternoonEast (Date.MarshalJSON juneHalfMinuteEast).1).1.Time.unixNano
        = juneHalfMinuteEast.Time.unixNano + 30 * nanosPerSecond) := by
  decide

/-- Claim C25, amended: a Date that is not the zero time, has whole seconds, shows a
year from 0 to 9999 and lies in a zone whose offset is a whole number of minutes
and less than 25 hours comes back from its JSON form.  `MarshalJSON` returns no
error and the RFC 3339 text in quotes, the first `Parse` of `UnmarshalJSON`, with
the RFC 3339 layout, reads that text, and `UnmarshalJSON` returns nil and leaves
in any receiver the same instant in the same zone.  A Date of the zero time
marshals to `null`, and unmarshalling the empty input, the empty JSON string or
`null` returns nil and leaves the receiver as it was. -/
theorem Date_json_round_trip (d d0 : Date) (hnz : d.Time.IsZero = false)
    (hns : d.Time.Nanosecond = 0) (hy0 : 0 ≤ d.Time.Year) (hy1 : d.Time.Year ≤ 9999)
    (hz : d.Time.offset % 60 = 0) (hz1 : -90000 < d.Time.offset)
    (hz2 : d.Time.offset < 90000) :
    Date.MarshalJSON d = ("\"" ++ d.Time.FormatRFC3339 ++ "\"", none) ∧
    time.ParseRFC3339 (Trim (Date.MarshalJSON d).1.data '"') = some d.Time ∧
    Date.UnmarshalJSON d0 (Date.MarshalJSON d).1 = (d, none) ∧
    (∀ z : Date, z.Time.IsZero = true → Date.MarshalJSON z = ("null", none)) ∧
    Date.MarshalJSON { Time := Time.zero } = ("null", none) ∧
    Date.UnmarshalJSON d0 "" = (d0, none) ∧ Date.UnmarshalJSON d0 "\"\"" = (d0, none) ∧
    Date.UnmarshalJSON d0 "null" = (d0, none) := by
  obtain ⟨x, mid, y, hdata, hx, hy, hparse⟩ :=
    FormatRFC3339_parse d.Time hns hy0 hy1 hz hz1 hz2
  have hm : Date.MarshalJSON d = ("\"" ++ d.Time.FormatRFC3339 ++ "\"", none) := by
    unfold Date.MarshalJSON
    rw [hnz]
    rfl
  have hq := digit_ne_quote x hx
  have htrim : Trim (Date.MarshalJSON d).1.data '"' = x :: (mid ++ [y]) := by
    rw [hm]
    have e : ("\"" ++ d.Time.FormatRFC3339 ++ "\"").data
        = '"' :: x :: (mid ++ [y]) ++ ['"'] := by
      simp only [String.data_append, hdata]
      rfl
    rw [e]
    exact Trim_quoted x y mid hq.1 hy
  refine ⟨hm, by rw [htrim]; exact hparse, ?_, ?_, rfl, rfl, rfl, rfl⟩
  · unfold Date.UnmarshalJSON
    dsimp only
    rw [htrim, if_neg, hparse]
    intro h
    rcases h with h | h
    · exact absurd h (by simp)
    · have hxn : x = 'n' := by
        have := congrArg List.head? h
        simpa using this
      exact hq.2.1 hxn
  · intro z hzero
    unfold Date.MarshalJSON
    rw [hzero]
    rfl

/-- Witness for C25: the round trip of 2024-06-15 14:30:05 at two hours east of UTC. -/
theorem Date_json_round_trip_witness :
    Date.MarshalJSON juneAfternoonEast = ("\"2024-06-15T14:30:05+02:00\"", none) ∧
    Date.UnmarshalJSON year10000 (Date.MarshalJSON juneAfternoonEast).1
      = (juneAfternoonEast, none) :=
  ⟨by decide,
   (Date_json_round_trip juneAfternoonEast year10000 (by decide) (by decide) (by decide)
      (by decide) (by decide) (by decide) (by decide)).2.2.1⟩

/-! ## The record that a get saves -/

/-- After an upsert of `e` the table holds `e`, and `e` is its only row with the
key of `e`. -/
theorem upsert_holds (rows : List PlayerCacheEntry) (e : PlayerCacheEntry) :
    e ∈ upsert rows e ∧ ∀ r ∈ upsert rows e, sameKey e r = true → r = e := by
  rw [upsert_eq]
  split
  · rename_i hany
    constructor
    · obtain ⟨a, ha, hs⟩ := List.any_eq_true.mp hany
      exact List.mem_map.mpr ⟨a, ha, by rw [if_pos hs]⟩
    · intro r hr hs
      obtain ⟨a, _, rfl⟩ := List.mem_map.mp hr
      by_cases hsa : sameKey e a = true
      · rw [if_pos hsa]
      · rw [if_neg hsa] at hs
        exact absurd hs hsa
  · rename_i hany
    constructor
    · simp
    · intro r hr hs
      rw [List.mem_append, List.mem_singleton] at hr
      rcases hr with hr | hr
      · exact absurd (List.any_eq_true.mpr ⟨r, hr, hs⟩) hany
      · exact hr

/-- The store's `Get` for the key of a row that an upsert has just written: it
returns the payload that the row's document decodes to, when the row is live at
that read and the read is not struck by a fault. -/
theorem Get_after_upsert (env : Env) (w1 : World) (rows0 : List PlayerCacheEntry)
    (P : PlayerInfo) (rd : Time) (data : Bytes) (fetchedAt : Time) (exp : Option Time)
    (hrows : w1.rows = upsert rows0 (Save.entry P rd data fetchedAt exp))
    (hcodec : env.unmarshal data = .ok P)
    (hdb : env.dbFault (w1.trace ++ [.repoGet P.ID rd]) = .ok)
    (hlive : ∀ e, exp = some e →
      (env.dbNow (w1.trace ++ [.repoGet P.ID rd])).unixNano < e.unixNano) :
    PlayerRepository.Get env w1 P.ID rd = (w1.log (.repoGet P.ID rd), some P, none) := by
  have hfind : w1.rows.find? (fun r => decide (r.MemberID = P.ID) &&
      sameDate r.RatingDate rd &&
      live (env.dbNow (w1.trace ++ [.repoGet P.ID rd])) r)
      = some (Save.entry P rd data fetchedAt exp) := by
    rw [hrows]
    apply upsert_find
    · have hl : live (env.dbNow (w1.trace ++ [.repoGet P.ID rd]))
          (Save.entry P rd data fetchedAt exp) = true := by
        unfold live
        cases hexp : exp with
        | none => simp [Save.entry]
        | some e => simpa [Save.entry, hexp, Time.Before] using hlive e hexp
      rw [hl, Bool.and_true]
      simp [Save.entry, sameDate]
    · intro r hr
      simp only [Bool.and_eq_true, decide_eq_true_eq] at hr
      simp [Save.entry, hr.1.1, hr.1.2]
  unfold PlayerRepository.Get queryRow
  simp only [log_trace, log_rows, hdb, DBOutcome.rowsErrAt, DBOutcome.scanErrAt, hfind]
  simp [Save.entry, hcodec]

/-- Claim C5, amended: `Save` files the record under the id of the fetched
payload.  After `GetPlayer(memberID, d)` misses and the fetch (with payload `P`,
any payload) and the `Save` succeed, the table is the one before the call with
the row of `P` upserted: it holds that row, with the member id `P.ID`, the
period `normalizeToMonthStart d`, the marshalled `P` as its document and the
expiry that `determineTTL` chose, and no other row with that key.  If the
stored document decodes back to `P` and the record is live at the next read
(its `expiresAt` is nil or later than the clock of the database at that read,
which is not struck by a fault), the store's `Get` for
`(P.ID, normalizeToMonthStart d)` returns `P`.  If moreover `P.ID` is
`memberID`, the store's `Get` for `(memberID, normalizeToMonthStart d)` returns
`P`, and a repeated `GetPlayer(memberID, d2)` with `d2` in the same month
returns `P` and makes no upstream fetch. -/
theorem GetPlayer_populates_cache (env : Env) (w : World) (memberID : Int) (d d2 : Time)
    (P : PlayerInfo)
    (hmiss : (PlayerRepository.Get env w memberID (normalizeToMonthStart d)).2.1 = none)
    (hfetch : env.upstreamGetPlayer
      (w.trace ++ [.repoGet memberID (normalizeToMonthStart d)]) memberID d.FormatDate = .ok P) :
    let rd := normalizeToMonthStart d
    let ttl := PlayerService.determineTTL env
      ((w.log (.repoGet memberID rd)).log (.upstreamGetPlayer memberID d.FormatDate)) rd
    let w1 := (PlayerService.GetPlayer env w memberID d).1
    (PlayerRepository.Save env ttl.1 P rd ttl.2).2 = none →
    (∃ data row, env.marshal P = .ok data ∧
      row = Save.entry P rd data (env.timeNow (ttl.1.trace ++ [.repoSave P rd ttl.2])) ttl.2 ∧
      w1.rows = upsert w.rows row ∧ row ∈ w1.rows ∧
      row.MemberID = P.ID ∧ row.RatingDate = rd ∧ row.Data = data ∧ row.ExpiresAt = ttl.2 ∧
      ∀ r ∈ w1.rows, r.MemberID = P.ID → r.RatingDate.unixNano = rd.unixNano → r = row) ∧
    ((∀ data, env.marshal P = .ok data → env.unmarshal data = .ok P) →
      env.dbFault (w1.trace ++ [.repoGet P.ID rd]) = .ok →
      (∀ e, ttl.2 = some e →
        (env.dbNow (w1.trace ++ [.repoGet P.ID rd])).unixNano < e.unixNano) →
      (PlayerRepository.Get env w1 P.ID rd).2 = (some P, none)) ∧
    (P.ID = memberID → normalizeToMonthStart d2 = normalizeToMonthStart d →
      (∀ data, env.marshal P = .ok data → env.unmarshal data = .ok P) →
      env.dbFault (w1.trace ++ [.repoGet memberID rd]) = .ok →
      (∀ e, ttl.2 = some e →
        (env.dbNow (w1.trace ++ [.repoGet memberID rd])).unixNano < e.unixNano) →
      (PlayerRepository.Get env w1 memberID rd).2 = (some P, none) ∧
      (PlayerService.GetPlayer env w1 memberID d2).2 = (some P, none) ∧
      (PlayerService.GetPlayer env w1 memberID d2).1.trace.filter Event.isFetch
        = w1.trace.filter Event.isFetch) := by
  intro rd ttl w1 hsave
  have hout := GetPlayer_of_fetch_ok env w memberID d P hmiss hfetch
  obtain ⟨data, hm, hS⟩ := Save_ok env ttl.1 P rd ttl.2 hsave
  have hw1 : w1 = (PlayerRepository.Save env ttl.1 P rd ttl.2).1 := by
    show (PlayerService.GetPlayer env w memberID d).1 = _
    rw [hout]
  have httl : ttl.1.rows = w.rows := by
    show (PlayerService.determineTTL env _ rd).1.rows = w.rows
    rw [determineTTL_trace]
    rfl
  have hrows : w1.rows = upsert w.rows (Save.entry P rd data
      (env.timeNow (ttl.1.trace ++ [.repoSave P rd ttl.2])) ttl.2) := by
    rw [hw1, hS, httl]
  have hholds := upsert_holds w.rows (Save.entry P rd data
      (env.timeNow (ttl.1.trace ++ [.repoSave P rd ttl.2])) ttl.2)
  have hGet : (∀ data, env.marshal P = .ok data → env.unmarshal data = .ok P) →
      env.dbFault (w1.trace ++ [.repoGet P.ID rd]) = .ok →
      (∀ e, ttl.2 = some e →
        (env.dbNow (w1.trace ++ [.repoGet P.ID rd])).unixNano < e.unixNano) →
      PlayerRepository.Get env w1 P.ID rd = (w1.log (.repoGet P.ID rd), some P, none) :=
    fun hcodec hdb hlive =>
      Get_after_upsert env w1 w.rows P rd data _ ttl.2 hrows (hcodec data hm) hdb hlive
  refine ⟨⟨data, _, hm, rfl, hrows, by rw [hrows]; exact hholds.1, rfl, rfl, rfl, rfl, ?_⟩,
    fun hcodec hdb hlive => by rw [hGet hcodec hdb hlive], ?_⟩
  · intro r hr h1 h2
    rw [hrows] at hr
    exact hholds.2 r hr ((sameKey_iff _ r).mpr ⟨h1, h2⟩)
  · intro hid hmonth hcodec hdb hlive
    subst hid
    have hG := hGet hcodec hdb hlive
    refine ⟨by rw [hG], ?_⟩
    have h2 := GetPlayer_of_hit env w1 P.ID d2 P (by rw [hmonth, hG])
    rw [h2]
    simp [log_trace, Event.isFetch]

/-- Witness of C5 (amended): on the empty store, the get of member 12345 for
2024-06-15 fetches and saves; the get for 2024-06-20 is served from the store. -/
theorem GetPlayer_populates_cache_witness :
    (PlayerService.GetPlayer sampleEnv emptyWorld 12345 june15).1.trace.filter Event.isFetch
      = [.upstreamGetPlayer 12345 "2024-06-15"] ∧
    (PlayerService.GetPlayer sampleEnv
      (PlayerService.GetPlayer sampleEnv emptyWorld 12345 june15).1 12345 june20).2
      = (some (samplePlayer 12345), none) ∧
    (PlayerService.GetPlayer sampleEnv
      (PlayerService.GetPlayer sampleEnv emptyWorld 12345 june15).1 12345 june20).1.trace.filter
        Event.isFetch = [.upstreamGetPlayer 12345 "2024-06-15"] :=
  have h := (GetPlayer_populates_cache sampleEnv emptyWorld 12345 june15 june20
    (samplePlayer 12345) (by decide) rfl (by decide)).2.2 (by decide) (by decide)
    (fun data hd => by
      have hdata : data = "12345" := by
        have h1 : (Except.ok "12345" : Except GoError Bytes) = Except.ok data := hd
        injection h1 with h2
        exact h2.symm
      subst hdata
      rfl)
    rfl (by decide)
  ⟨by decide, h.2.1, h.2.2.trans (by decide)⟩

/-- The store's `GetByFideID` for the FIDE id of a row that an upsert has just
written: it returns the payload that the row's document decodes to, when no
row of another member carries that FIDE id for the period, the row is live at
that read and the read is not struck by a fault. -/
theorem GetByFideID_after_upsert (env : Env) (w1 : World) (rows0 : List PlayerCacheEntry)
    (P : PlayerInfo) (rd : Time) (data : Bytes) (fetchedAt : Time) (exp : Option Time)
    (hrows : w1.rows = upsert rows0 (Save.entry P rd data fetchedAt exp))
    (hnz : P.FideID ≠ 0)
    (hothers : ∀ r ∈ rows0, r.FideID = some P.FideID →
      r.RatingDate.unixNano = rd.unixNano → r.MemberID = P.ID)
    (hcodec : env.unmarshal data = .ok P)
    (hdb : env.dbFault (w1.trace ++ [.repoGetByFideID P.FideID rd]) = .ok)
    (hlive : ∀ e, exp = some e →
      (env.dbNow (w1.trace ++ [.repoGetByFideID P.FideID rd])).unixNano < e.unixNano) :
    PlayerRepository.GetByFideID env w1 P.FideID rd
      = (w1.log (.repoGetByFideID P.FideID rd), some P, none) := by
  have hfind : w1.rows.find? (fun r => decide (r.FideID = some P.FideID) &&
      sameDate r.RatingDate rd &&
      live (env.dbNow (w1.trace ++ [.repoGetByFideID P.FideID rd])) r)
      = some (Save.entry P rd data fetchedAt exp) := by
    rw [hrows]
    apply upsert_find_mem
    · have hl : live (env.dbNow (w1.trace ++ [.repoGetByFideID P.FideID rd]))
          (Save.entry P rd data fetchedAt exp) = true := by
        unfold live
        cases hexp : exp with
        | none => simp [Save.entry]
        | some e => simpa [Save.entry, hexp, Time.Before] using hlive e hexp
      rw [hl, Bool.and_true]
      simp [Save.entry, hnz, sameDate]
    · intro r hr hc
      simp only [Bool.and_eq_true, decide_eq_true_eq, sameDate] at hc
      rw [sameKey_iff]
      exact ⟨hothers r hr hc.1.1 hc.1.2, hc.1.2⟩
  unfold PlayerRepository.GetByFideID queryRow
  simp only [log_trace, log_rows, hdb, DBOutcome.rowsErrAt, DBOutcome.scanErrAt, hfind]
  simp [Save.entry, hcodec]

/-- Claim C19, amended: `Save` files the record under the member id and the FIDE id
of the fetched payload.  After `GetPlayerByFideID(fideID, d)` misses and the
fetch (with payload `P`, any payload) and the `Save` succeed, the table is the
one before the call with the row of `P` upserted: it holds that row, with the
member id `P.ID`, the period `normalizeToMonthStart d`, the FIDE id `P.FideID`
(null when that is 0), the marshalled `P` as its document and the expiry that
`determineTTL` chose, and no other row with that key.  If `P.FideID` is not
zero, the stored document decodes back to `P`, no record of another member for
that period carries this FIDE id, and the record is live at the next read (its
`expiresAt` is nil or later than the clock of the database at that read, which
is not struck by a fault), the store's `GetByFideID` for
`(P.FideID, normalizeToMonthStart d)` returns `P`.  If moreover `P.FideID` is
`fideID`, the store's `GetByFideID` for `(fideID, normalizeToMonthStart d)`
returns `P`, and a repeated `GetPlayerByFideID(fideID, d2)` with `d2` in the
same month returns `P` and makes no upstream fetch. -/
theorem GetPlayerByFideID_populates_cache (env : Env) (w : World) (fideID : Int)
    (d d2 : Time) (P : PlayerInfo)
    (hmiss : (PlayerRepository.GetByFideID env w fideID (normalizeToMonthStart d)).2.1 = none)
    (hfetch : env.upstreamGetPlayerByFideID
      (w.trace ++ [.repoGetByFideID fideID (normalizeToMonthStart d)]) fideID d.FormatDate
        = .ok P) :
    let rd := normalizeToMonthStart d
    let ttl := PlayerService.determineTTL env
      ((w.log (.repoGetByFideID fideID rd)).log
        (.upstreamGetPlayerByFideID fideID d.FormatDate)) rd
    let w1 := (PlayerService.GetPlayerByFideID env w fideID d).1
    (PlayerRepository.Save env ttl.1 P rd ttl.2).2 = none →
    (∃ data row, env.marshal P = .ok data ∧
      row = Save.entry P rd data (env.timeNow (ttl.1.trace ++ [.repoSave P rd ttl.2])) ttl.2 ∧
      w1.rows = upsert w.rows row ∧ row ∈ w1.rows ∧
      row.MemberID = P.ID ∧ row.RatingDate = rd ∧
      row.FideID = (if P.FideID ≠ 0 then some P.FideID else none) ∧
      row.Data = data ∧ row.ExpiresAt = ttl.2 ∧
      ∀ r ∈ w1.rows, r.MemberID = P.ID → r.RatingDate.unixNano = rd.unixNano → r = row) ∧
    (P.FideID ≠ 0 →
      (∀ r ∈ w.rows, r.FideID = some P.FideID →
        r.RatingDate.unixNano = rd.unixNano → r.MemberID = P.ID) →
      (∀ data, env.marshal P = .ok data → env.unmarshal data = .ok P) →
      env.dbFault (w1.trace ++ [.repoGetByFideID P.FideID rd]) = .ok →
      (∀ e, ttl.2 = some e →
        (env.dbNow (w1.trace ++ [.repoGetByFideID P.FideID rd])).unixNano < e.unixNano) →
      (PlayerRepository.GetByFideID env w1 P.FideID rd).2 = (some P, none)) ∧
    (P.FideID = fideID → fideID ≠ 0 →
      (∀ r ∈ w.rows, r.FideID = some fideID →
        r.RatingDate.unixNano = rd.unixNano → r.MemberID = P.ID) →
      normalizeToMonthStart d2 = normalizeToMonthStart d →
      (∀ data, env.marshal P = .ok data → env.unmarshal data = .ok P) →
      env.dbFault (w1.trace ++ [.repoGetByFideID fideID rd]) = .ok →
      (∀ e, ttl.2 = some e →
        (env.dbNow (w1.trace ++ [.repoGetByFideID fideID rd])).unixNano < e.unixNano) →
      (PlayerRepository.GetByFideID env w1 fideID rd).2 = (some P, none) ∧
      (PlayerService.GetPlayerByFideID env w1 fideID d2).2 = (some P, none) ∧
      (PlayerService.GetPlayerByFideID env w1 fideID d2).1.trace.filter Event.isFetch
        = w1.trace.filter Event.isFetch) := by
  intro rd ttl w1 hsave
  have hout := GetPlayerByFideID_of_fetch_ok env w fideID d P hmiss hfetch
  obtain ⟨data, hm, hS⟩ := Save_ok env ttl.1 P rd ttl.2 hsave
  have hw1 : w1 = (PlayerRepository.Save env ttl.1 P rd ttl.2).1 := by
    show (PlayerService.GetPlayerByFideID env w fideID d).1 = _
    rw [hout]
  have httl : ttl.1.rows = w.rows := by
    show (PlayerService.determineTTL env _ rd).1.rows = w.rows
    rw [determineTTL_trace]
    rfl
  have hrows : w1.rows = upsert w.rows (Save.entry P rd data
      (env.timeNow (ttl.1.trace ++ [.repoSave P rd ttl.2])) ttl.2) := by
    rw [hw1, hS, httl]
  have hholds := upsert_holds w.rows (Save.entry P rd data
      (env.timeNow (ttl.1.trace ++ [.repoSave P rd ttl.2])) ttl.2)
  have hGet : P.FideID ≠ 0 →
      (∀ r ∈ w.rows, r.FideID = some P.FideID →
        r.RatingDate.unixNano = rd.unixNano → r.MemberID = P.ID) →
      (∀ data, env.marshal P = .ok data → env.unmarshal data = .ok P) →
      env.dbFault (w1.trace ++ [.repoGetByFideID P.FideID rd]) = .ok →
      (∀ e, ttl.2 = some e →
        (env.dbNow (w1.trace ++ [.repoGetByFideID P.FideID rd])).unixNano < e.unixNano) →
      PlayerRepository.GetByFideID env w1 P.FideID rd
        = (w1.log (.repoGetByFideID P.FideID rd), some P, none) :=
    fun hnz hothers hcodec hdb hlive =>
      GetByFideID_after_upsert env w1 w.rows P rd data _ ttl.2 hrows hnz hothers
        (hcodec data hm) hdb hlive
  refine ⟨⟨data, _, hm, rfl, hrows, by rw [hrows]; exact hholds.1, rfl, rfl, rfl, rfl, rfl,
      ?_⟩,
    fun hnz hothers hcodec hdb hlive => by rw [hGet hnz hothers hcodec hdb hlive], ?_⟩
  · intro r hr h1 h2
    rw [hrows] at hr
    exact hholds.2 r hr ((sameKey_iff _ r).mpr ⟨h1, h2⟩)
  · intro hid hnz hothers hmonth hcodec hdb hlive
    subst hid
    have hG := hGet hnz hothers hcodec hdb hlive
    refine ⟨by rw [hG], ?_⟩
    have h2 := GetPlayerByFideID_of_hit env w1 P.FideID d2 P (by rw [hmonth, hG])
    rw [h2]
    simp [log_trace, Event.isFetch]

/-- Witness of C19 (amended): on the empty store, the get of the FIDE id 1503014 for
2024-06-15 fetches and saves; the get for 2024-06-20 is served from the store. -/
theorem GetPlayerByFideID_populates_cache_witness :
    (PlayerService.GetPlayerByFideID fideEnv emptyWorld 1503014 june15).1.trace.filter
        Event.isFetch = [.upstreamGetPlayerByFideID 1503014 "2024-06-15"] ∧
    (PlayerService.GetPlayerByFideID fideEnv
      (PlayerService.GetPlayerByFideID fideEnv emptyWorld 1503014 june15).1 1503014 june20).2
      = (some fidePlayer, none) ∧
    (PlayerService.GetPlayerByFideID fideEnv
      (PlayerService.GetPlayerByFideID fideEnv emptyWorld 1503014 june15).1 1503014
        june20).1.trace.filter Event.isFetch
      = [.upstreamGetPlayerByFideID 1503014 "2024-06-15"] :=
  have h := (GetPlayerByFideID_populates_cache fideEnv emptyWorld 1503014 june15 june20
    fidePlayer (by decide) rfl (by decide)).2.2 (by decide) (by decide) (by decide)
    (by decide)
    (fun data hd => by
      have hdata : data = "12345" := by
        have h1 : (Except.ok "12345" : Except GoError Bytes) = Except.ok data := hd
        injection h1 with h2
        exact h2.symm
      subst hdata
      rfl)
    rfl (by decide)
  ⟨by decide, h.2.1, h.2.2.trans (by decide)⟩

/-! ## The batch get: which fetches make up the result -/

/-- A trace that ends in `e` and is a prefix of `tr ++ ext` is a prefix of `tr`, or
`e` is an event of `ext`, reached after `tr` and a part of `ext`. -/
theorem prefix_snoc_cases (t tr ext : List Event) (e : Event)
    (h : (t ++ [e]) <+: (tr ++ ext)) :
    (t ++ [e]) <+: tr ∨ ∃ a b, ext = a ++ e :: b ∧ t = tr ++ a := by
  obtain ⟨s, hs⟩ := h
  rw [List.append_assoc, List.append_eq_append_iff] at hs
  rcases hs with ⟨a, h1, h2⟩ | ⟨c, h1, h2⟩
  · cases a with
    | nil =>
      right
      refine ⟨[], s, ?_, ?_⟩
      · simpa using h2.symm
      · simpa using h1.symm
    | cons x a =>
      left
      rw [List.cons_append] at h2
      have hx : e = x := by
        have := congrArg List.head? h2
        simpa using this
      subst hx
      rw [h1]
      exact ⟨a, by simp⟩
  · right
    exact ⟨c, s, by simpa using h2, h1⟩

theorem prefix_length_lt (t tr : List Event) (e : Event) (h : (t ++ [e]) <+: tr) :
    t.length < tr.length := by
  have := h.length_le
  simp at this
  omega

theorem RunCalls_fetch (env : Env) (ids : List Int) (ds : String) (rd : Time)
    (exp : Option Time) (tr0 : List Event) (moment : Nat → List Event) (st : ParState)
    (j : Nat) (rest : List Nat)
    (hc : RunCount ids st (j :: rest)) (h : RunCalls env ids ds tr0 moment st (j :: rest))
    (hl : st.waiting.lookup j = none) :
    RunCalls env ids ds tr0 (Function.update moment j st.w.trace)
      (fetchPlayersParallel.step env ids ds rd exp st j) rest := by
  have hjlt := hc.bound j (List.mem_cons_self _ _)
  obtain ⟨id, hid, hidAt⟩ := idAt_of_lt ids j hjlt
  have hj1 : rest.count j = 1 := (RunCount_head_count hc).1 hl
  have hcnt : ∀ i, i ≠ j → (j :: rest).count i = rest.count i := by
    intro i hi
    rw [count_cons_nat, if_neg hi, Nat.add_zero]
  have hup : ∀ i, i ≠ j → Function.update moment j st.w.trace i = moment i :=
    fun i hi => Function.update_noteq hi _ _
  have hupj : Function.update moment j st.w.trace j = st.w.trace :=
    Function.update_same _ _ _
  have hpre : st.w.trace <+: st.w.trace ++ [Event.upstreamGetPlayer id ds] :=
    List.prefix_append _ _
  rw [step_fetch env ids ds rd exp st j id hid hl]
  refine ⟨?_, ?_, ?_, ?_, ?_, ?_, ?_⟩
  · exact h.grows.trans hpre
  · intro i r hi
    dsimp only at hi
    rw [lookup_cons_nat] at hi
    by_cases hij : i = j
    · rw [if_pos hij] at hi
      rw [hij, hupj, hidAt]
      exact (Option.some.inj hi).symm
    · rw [if_neg hij] at hi
      rw [hup i hij]
      exact h.waiting i r hi
  · intro i hlt hne
    dsimp only
    rw [log_trace]
    by_cases hij : i = j
    · rw [hij, hupj, hidAt]
      exact ⟨h.grows, List.prefix_refl _⟩
    · rw [hup i hij]
      have hm := h.made i hlt (by rw [hcnt i hij]; exact hne)
      exact ⟨hm.1, hm.2.trans hpre⟩
  · intro i k hi hk hci hck hm
    have hlen : ∀ x, x ≠ j → x < ids.length → rest.count x ≠ 2 →
        moment x ≠ st.w.trace := by
      intro x hxj hx hcx hmx
      have hmd := (h.made x hx (by rw [hcnt x hxj]; exact hcx)).2
      have := prefix_length_lt _ _ _ hmd
      rw [hmx] at this
      omega
    by_cases hij : i = j
    · by_cases hkj : k = j
      · rw [hij, hkj]
      · rw [hij, hupj, hup k hkj] at hm
        exact absurd hm.symm (hlen k hkj hk hck)
    · by_cases hkj : k = j
      · rw [hkj, hupj, hup i hij] at hm
        exact absurd hm (hlen i hij hi hci)
      · rw [hup i hij, hup k hkj] at hm
        exact h.distinct i k hi hk (by rw [hcnt i hij]; exact hci)
          (by rw [hcnt k hkj]; exact hck) hm
  · intro t id1 s hp
    dsimp only at hp
    rw [log_trace] at hp
    rcases prefix_snoc_cases _ _ _ _ hp with h1 | ⟨a, b, hab, ht⟩
    · rcases h.covered t id1 s h1 with h2 | ⟨i, hi, hci, hm⟩
      · exact Or.inl h2
      · have hij : i ≠ j := by
          rintro rfl
          apply hci
          rw [count_cons_nat, if_pos rfl]
          omega
        exact Or.inr ⟨i, hi, by rw [← hcnt i hij]; exact hci, by rw [hup i hij]; exact hm⟩
    · have ha : a = [] := by
        cases a with
        | nil => rfl
        | cons x a =>
          have := congrArg List.length hab
          simp at this
      rw [ha, List.append_nil] at ht
      exact Or.inr ⟨j, hjlt, by omega, by rw [hupj, ht]⟩
  · intro id1
    dsimp only
    rw [h.present id1]
    constructor
    · rintro ⟨i, p, h1, h2, h3⟩
      have hij : i ≠ j := by
        rintro rfl
        rw [count_cons_nat, if_pos rfl] at h2
        omega
      exact ⟨i, p, h1, by rw [← hcnt i hij]; exact h2, by rw [hup i hij]; exact h3⟩
    · rintro ⟨i, p, h1, h2, h3⟩
      have hij : i ≠ j := by
        rintro rfl
        omega
      exact ⟨i, p, h1, by rw [hcnt i hij]; exact h2, by rw [← hup i hij]; exact h3⟩
  · intro id1 p hp
    dsimp only at hp
    obtain ⟨i, h1, h2, h3⟩ := h.payload id1 p hp
    have hij : i ≠ j := by
      rintro rfl
      rw [count_cons_nat, if_pos rfl] at h2
      omega
    exact ⟨i, h1, by rw [← hcnt i hij]; exact h2, by rw [hup i hij]; exact h3⟩

theorem RunCalls_mutex (env : Env) (ids : List Int) (ds : String) (rd : Time)
    (exp : Option Time) (tr0 : List Event) (moment : Nat → List Event) (st : ParState)
    (j : Nat) (rest : List Nat)
    (hc : RunCount ids st (j :: rest)) (h : RunCalls env ids ds tr0 moment st (j :: rest))
    (r : Except GoError PlayerInfo) (hl : st.waiting.lookup j = some r) :
    RunCalls env ids ds tr0 moment (fetchPlayersParallel.step env ids ds rd exp st j) rest := by
  have hjlt := hc.bound j (List.mem_cons_self _ _)
  obtain ⟨id, hid, hidAt⟩ := idAt_of_lt ids j hjlt
  have hj0 : rest.count j = 0 := (RunCount_head_count hc).2 r hl
  have hcnt : ∀ i, i ≠ j → (j :: rest).count i = rest.count i := by
    intro i hi
    rw [count_cons_nat, if_neg hi, Nat.add_zero]
  have hcj : (j :: rest).count j = 1 := by
    rw [count_cons_nat, if_pos rfl]
    omega
  have hne2 : ∀ i, rest.count i ≠ 2 → (j :: rest).count i ≠ 2 := by
    intro i hi
    by_cases hij : i = j
    · rw [hij, hcj]
      omega
    · rw [hcnt i hij]
      exact hi
  have hr : r = env.upstreamGetPlayer (moment j) id ds := by
    have := h.waiting j r hl
    rwa [hidAt] at this
  have hwait := step_waiting_some env ids ds rd exp st j id r hid hl
  have htr : ∃ ext, (fetchPlayersParallel.step env ids ds rd exp st j).w.trace
      = st.w.trace ++ ext ∧ ext.filter Event.isFetch = [] := by
    cases r with
    | error err =>
      rw [step_error env ids ds rd exp st j id err hid hl]
      exact ⟨[], by simp, rfl⟩
    | ok player =>
      rw [step_ok env ids ds rd exp st j id player hid hl]
      exact Save_trace_ext env st.w player rd exp
  have hres : (fetchPlayersParallel.step env ids ds rd exp st j).results
      = (match r with
        | .ok p => st.results.set id p
        | .error _ => st.results) := by
    cases r with
    | error err => rw [step_error env ids ds rd exp st j id err hid hl]
    | ok player => rw [step_ok env ids ds rd exp st j id player hid hl]
  obtain ⟨ext, hext, hnofetch⟩ := htr
  have hpre : st.w.trace <+: (fetchPlayersParallel.step env ids ds rd exp st j).w.trace := by
    rw [hext]
    exact List.prefix_append _ _
  refine ⟨h.grows.trans hpre, ?_, ?_, ?_, ?_, ?_, ?_⟩
  · intro i r1 hi
    rw [hwait, lookup_filter_ne] at hi
    by_cases hij : i = j
    · rw [if_pos hij] at hi
      exact absurd hi (by simp)
    · rw [if_neg hij] at hi
      exact h.waiting i r1 hi
  · intro i hlt hne
    have hm := h.made i hlt (hne2 i hne)
    exact ⟨hm.1, hm.2.trans hpre⟩
  · intro i k hi hk hci hck hm
    exact h.distinct i k hi hk (hne2 i hci) (hne2 k hck) hm
  · intro t id1 s hp
    rw [hext] at hp
    rcases prefix_snoc_cases _ _ _ _ hp with h1 | ⟨a, b, hab, _⟩
    · rcases h.covered t id1 s h1 with h2 | ⟨i, hi, hci, hm⟩
      · exact Or.inl h2
      · refine Or.inr ⟨i, hi, ?_, hm⟩
        by_cases hij : i = j
        · rw [hij, hj0]
          omega
        · rw [← hcnt i hij]
          exact hci
    · exfalso
      have hmem : Event.upstreamGetPlayer id1 s ∈ ext.filter Event.isFetch := by
        rw [List.mem_filter, hab]
        exact ⟨by simp, rfl⟩
      rw [hnofetch] at hmem
      simp at hmem
  · intro id1
    rw [hres]
    cases r with
    | error err =>
      dsimp only
      rw [h.present id1]
      constructor
      · rintro ⟨i, p, h1, h2, h3⟩
        have hij : i ≠ j := by
          rintro rfl
          rw [hcj] at h2
          omega
        exact ⟨i, p, h1, by rw [← hcnt i hij]; exact h2, h3⟩
      · rintro ⟨i, p, h1, h2, h3⟩
        have hij : i ≠ j := by
          rintro rfl
          rw [hid] at h1
          rw [← Option.some.inj h1, ← hr] at h3
          cases h3
        exact ⟨i, p, h1, by rw [hcnt i hij]; exact h2, h3⟩
    | ok player =>
      dsimp only [GoMap.set]
      by_cases hid1 : id1 = id
      · rw [if_pos hid1]
        constructor
        · intro _
          exact ⟨j, player, by rw [hid1]; exact hid, hj0, by rw [hid1, ← hr]⟩
        · intro _
          rfl
      · rw [if_neg hid1, h.present id1]
        constructor
        · rintro ⟨i, p, h1, h2, h3⟩
          have hij : i ≠ j := by
            rintro rfl
            rw [hcj] at h2
            omega
          exact ⟨i, p, h1, by rw [← hcnt i hij]; exact h2, h3⟩
        · rintro ⟨i, p, h1, h2, h3⟩
          have hij : i ≠ j := by
            rintro rfl
            rw [hid] at h1
            exact hid1 (Option.some.inj h1).symm
          exact ⟨i, p, h1, by rw [hcnt i hij]; exact h2, h3⟩
  · intro id1 p hp
    rw [hres] at hp
    have hold : st.results id1 = some p →
        ∃ i, ids.get? i = some id1 ∧ rest.count i = 0 ∧
          env.upstreamGetPlayer (moment i) id1 ds = .ok p := by
      intro hp1
      obtain ⟨i, h1, h2, h3⟩ := h.payload id1 p hp1
      have hij : i ≠ j := by
        rintro rfl
        rw [hcj] at h2
        omega
      exact ⟨i, h1, by rw [← hcnt i hij]; exact h2, h3⟩
    cases r with
    | error err => exact hold hp
    | ok player =>
      dsimp only [GoMap.set] at hp
      by_cases hid1 : id1 = id
      · rw [if_pos hid1] at hp
        exact ⟨j, by rw [hid1]; exact hid, hj0,
          by rw [hid1, ← hr, Option.some.inj hp]⟩
      · rw [if_neg hid1] at hp
        exact hold hp

/-- Whatever the interleaving, the calls of a run are kept track of to its end. -/
theorem run_calls (env : Env) (ids : List Int) (ds : String) (rd : Time) (exp : Option Time)
    (tr0 : List Event) :
    ∀ (rest : List Nat) (st : ParState) (moment : Nat → List Event),
      RunCount ids st rest → RunCalls env ids ds tr0 moment st rest →
      ∃ moment1, RunCalls env ids ds tr0 moment1
        (rest.foldl (fetchPlayersParallel.step env ids ds rd exp) st) [] := by
  intro rest
  induction rest with
  | nil => intro st moment _ h; exact ⟨moment, h⟩
  | cons j rest ih =>
    intro st moment hc h
    have hc1 := RunCount_step env ids ds rd exp st j rest hc
    cases hl : st.waiting.lookup j with
    | none =>
      exact ih _ _ hc1 (RunCalls_fetch env ids ds rd exp tr0 moment st j rest hc h hl)
    | some r =>
      exact ih _ _ hc1 (RunCalls_mutex env ids ds rd exp tr0 moment st j rest hc h r hl)

/-- The calls of `fetchPlayersParallel` when every goroutine runs to its end: each
position of the list has its call of the upstream, made within the run, at a
moment of its own; the run makes no other call; `results` holds exactly the ids
for which some position was answered with a payload, each with the payload of
such a position. -/
theorem fetchPlayersParallel_calls (env : Env) (w : World) (ids : List Int) (date rd : Time)
    (hs : env.Completes) :
    ∃ moment : Nat → List Event,
      (∀ i id, ids.get? i = some id →
        (w.log .timeNow).trace <+: moment i ∧
        (moment i ++ [Event.upstreamGetPlayer id date.FormatDate]) <+:
          (PlayerService.fetchPlayersParallel env w ids date rd).1.trace) ∧
      (∀ i j, i < ids.length → j < ids.length → moment i = moment j → i = j) ∧
      (∀ t id s, (t ++ [Event.upstreamGetPlayer id s]) <+:
          (PlayerService.fetchPlayersParallel env w ids date rd).1.trace →
        (t ++ [Event.upstreamGetPlayer id s]) <+: (w.log .timeNow).trace ∨
          ∃ i, i < ids.length ∧ moment i = t) ∧
      (∀ id, ((PlayerService.fetchPlayersParallel env w ids date rd).2.1 id).isSome = true ↔
        ∃ i p, ids.get? i = some id ∧
          env.upstreamGetPlayer (moment i) id date.FormatDate = .ok p) ∧
      (∀ id p, (PlayerService.fetchPlayersParallel env w ids date rd).2.1 id = some p →
        ∃ i, ids.get? i = some id ∧
          env.upstreamGetPlayer (moment i) id date.FormatDate = .ok p) := by
  unfold PlayerService.fetchPlayersParallel
  have hT := determineTTL_trace env w rd
  rcases hTT : PlayerService.determineTTL env w rd with ⟨w1, exp⟩
  rw [hTT] at hT
  dsimp only at hT ⊢
  subst hT
  have hsched := hs (w.log .timeNow).trace ids.length
  have hc := RunCount_init ids (w.log .timeNow) _ hsched
  have hinit : RunCalls env ids date.FormatDate (w.log .timeNow).trace (fun _ => [])
      { w := w.log .timeNow, waiting := [], results := GoMap.empty, errors := none }
      (env.schedule (w.log .timeNow).trace ids.length) := by
    refine ⟨List.prefix_refl _, ?_, ?_, ?_, ?_, ?_, ?_⟩
    · intro i r hi
      simp [List.lookup] at hi
    · intro i hlt hne
      exact absurd (Schedule_count_two hsched i hlt) hne
    · intro i k hi _ hci
      exact absurd (Schedule_count_two hsched i hi) hci
    · intro t id s hp
      exact Or.inl hp
    · intro id
      constructor
      · intro hp
        simp [GoMap.empty] at hp
      · rintro ⟨i, p, h1, h2, _⟩
        have hlt : i < ids.length := by
          by_contra hge
          rw [List.get?_eq_none.mpr (by omega)] at h1
          simp at h1
        rw [Schedule_count_two hsched i hlt] at h2
        omega
    · intro id p hp
      simp [GoMap.empty] at hp
  obtain ⟨moment, hfin⟩ := run_calls env ids date.FormatDate rd exp _ _ _ _ hc hinit
  refine ⟨moment, ?_, ?_, ?_, ?_, ?_⟩
  · intro i id hi
    have hlt : i < ids.length := by
      by_contra hge
      rw [List.get?_eq_none.mpr (by omega)] at hi
      simp at hi
    obtain ⟨id1, hid1, hidAt⟩ := idAt_of_lt ids i hlt
    rw [hi] at hid1
    have hm := hfin.made i hlt (by simp)
    rw [hidAt, ← Option.some.inj hid1] at hm
    exact hm
  · intro i j hi hj hm
    exact hfin.distinct i j hi hj (by simp) (by simp) hm
  · intro t id s hp
    rcases hfin.covered t id s hp with h1 | ⟨i, hi, _, hm⟩
    · exact Or.inl h1
    · exact Or.inr ⟨i, hi, hm⟩
  · intro id
    rw [hfin.present id]
    constructor
    · rintro ⟨i, p, h1, _, h3⟩
      exact ⟨i, p, h1, h3⟩
    · rintro ⟨i, p, h1, h3⟩
      exact ⟨i, p, h1, List.count_nil _, h3⟩
  · intro id p hp
    obtain ⟨i, h1, _, h3⟩ := hfin.payload id p hp
    exact ⟨i, h1, h3⟩

theorem get?_unique_of_count_one (l : List Int) (a : Int) (h : l.count a = 1) :
    ∀ i j, l.get? i = some a → l.get? j = some a → i = j := by
  induction l with
  | nil => simp at h
  | cons x l ih =>
    have hmem : ∀ k, l.get? k = some a → 0 < l.count a := fun k hk =>
      List.count_pos_iff.mpr (List.get?_mem hk)
    rw [List.count_cons] at h
    intro i j hi hj
    by_cases hx : x = a
    · have h0 : l.count a = 0 := by
        rw [hx] at h
        simpa using h
      cases i with
      | zero =>
        cases j with
        | zero => rfl
        | succ j =>
          have := hmem j (by simpa using hj)
          omega
      | succ i =>
        have := hmem i (by simpa using hi)
        omega
    · have h1 : l.count a = 1 := by
        have hb : (x == a) = false := by simpa using hx
        rw [hb] at h
        simpa using h
      cases i with
      | zero => exact absurd (by simpa using hi) hx
      | succ i =>
        cases j with
        | zero => exact absurd (by simpa using hj) hx
        | succ j =>
          have := ih h1 i j (by simpa using hi) (by simpa using hj)
          omega

/-- Claim C7: when every goroutine of the fan-out runs to its end, the `Players`
list of `GetPlayers` is the walk through `memberIDs` in the caller's order that
keeps, for each id present in the union of the cache hits and the successful
fetches, the payload of that id, and nothing for the other ids.  The successful
fetches are the `results` of `fetchPlayersParallel` on the missed ids (none when
nothing was missed), and they are these: each position of the missed ids has
its own call of the upstream, made within this `GetPlayers` (`moment i` is the
trace at which it was made), and the get makes no other call; an id is among
the fetched ones exactly when the call of some position of that id returned a
payload, and its payload is then the payload returned to such a position.  So
an id whose successful calls all returned the payload `p` has the payload `p`;
an id requested once has the payload of its one call, and none when that call
failed.  No cache hit is fetched. -/
theorem GetPlayers_order (env : Env) (w : World) (ids : List Int) (date : Time)
    (hs : env.Completes) :
    ∃ (resp : PlayersResponse) (fetched : GoMap Int PlayerInfo) (moment : Nat → List Event),
      (PlayerService.GetPlayers env w ids date).2 = (some resp, none) ∧
      fetched =
        (if (batchMisses env w ids date).length > 0 then
          (PlayerService.fetchPlayersParallel env
            (w.log (.repoGetBatch ids (normalizeToMonthStart date)))
            (batchMisses env w ids date) date (normalizeToMonthStart date)).2.1
        else GoMap.empty) ∧
      resp.Players = some (ids.filterMap
        (fun id => (fetched id).orElse (fun _ => batchHits env w ids date id))) ∧
      (∀ id, (fetched id).isSome = true → id ∈ ids ∧ batchHits env w ids date id = none) ∧
      (∀ i id, (batchMisses env w ids date).get? i = some id →
        w.trace <+: moment i ∧
        (moment i ++ [Event.upstreamGetPlayer id date.FormatDate]) <+:
          (PlayerService.GetPlayers env w ids date).1.trace) ∧
      (∀ i j, i < (batchMisses env w ids date).length → j < (batchMisses env w ids date).length →
        moment i = moment j → i = j) ∧
      (∀ t id s, (t ++ [Event.upstreamGetPlayer id s]) <+:
          (PlayerService.GetPlayers env w ids date).1.trace →
        (t ++ [Event.upstreamGetPlayer id s]) <+: w.trace ∨
          ∃ i, i < (batchMisses env w ids date).length ∧ moment i = t) ∧
      (∀ id, (fetched id).isSome = true ↔
        ∃ i p, (batchMisses env w ids date).get? i = some id ∧
          env.upstreamGetPlayer (moment i) id date.FormatDate = .ok p) ∧
      (∀ id p, fetched id = some p →
        ∃ i, (batchMisses env w ids date).get? i = some id ∧
          env.upstreamGetPlayer (moment i) id date.FormatDate = .ok p) ∧
      (∀ i id p, (batchMisses env w ids date).get? i = some id →
        env.upstreamGetPlayer (moment i) id date.FormatDate = .ok p →
        (∀ k q, (batchMisses env w ids date).get? k = some id →
          env.upstreamGetPlayer (moment k) id date.FormatDate = .ok q → q = p) →
        fetched id = some p) ∧
      (∀ i id, (batchMisses env w ids date).get? i = some id →
        (batchMisses env w ids date).count id = 1 →
        fetched id = payloadOf (env.upstreamGetPlayer (moment i) id date.FormatDate)) := by
  -- the last three facts follow from the two before them
  have hrest : ∀ (fetched : GoMap Int PlayerInfo) (moment : Nat → List Event),
      (∀ id, (fetched id).isSome = true ↔
        ∃ i p, (batchMisses env w ids date).get? i = some id ∧
          env.upstreamGetPlayer (moment i) id date.FormatDate = .ok p) →
      (∀ id p, fetched id = some p →
        ∃ i, (batchMisses env w ids date).get? i = some id ∧
          env.upstreamGetPlayer (moment i) id date.FormatDate = .ok p) →
      (∀ id, (fetched id).isSome = true → id ∈ ids ∧ batchHits env w ids date id = none) ∧
      (∀ i id p, (batchMisses env w ids date).get? i = some id →
        env.upstreamGetPlayer (moment i) id date.FormatDate = .ok p →
        (∀ k q, (batchMisses env w ids date).get? k = some id →
          env.upstreamGetPlayer (moment k) id date.FormatDate = .ok q → q = p) →
        fetched id = some p) ∧
      (∀ i id, (batchMisses env w ids date).get? i = some id →
        (batchMisses env w ids date).count id = 1 →
        fetched id = payloadOf (env.upstreamGetPlayer (moment i) id date.FormatDate)) := by
    intro fetched moment hpres hpay
    have hagree : ∀ i id p, (batchMisses env w ids date).get? i = some id →
        env.upstreamGetPlayer (moment i) id date.FormatDate = .ok p →
        (∀ k q, (batchMisses env w ids date).get? k = some id →
          env.upstreamGetPlayer (moment k) id date.FormatDate = .ok q → q = p) →
        fetched id = some p := by
      intro i id p hi hok hall
      have hsome := (hpres id).mpr ⟨i, p, hi, hok⟩
      obtain ⟨q, hq⟩ := Option.isSome_iff_exists.mp hsome
      obtain ⟨k, hk, hkq⟩ := hpay id q hq
      rw [hq, hall k q hk hkq]
    refine ⟨?_, hagree, ?_⟩
    · intro id hsome
      obtain ⟨i, p, hi, _⟩ := (hpres id).mp hsome
      have hmem := List.get?_mem hi
      unfold batchMisses at hmem
      rw [List.mem_filter] at hmem
      refine ⟨hmem.1, ?_⟩
      have := hmem.2
      rwa [Option.isNone_iff_eq_none] at this
    · intro i id hi hone
      cases hcall : env.upstreamGetPlayer (moment i) id date.FormatDate with
      | ok p =>
        refine hagree i id p hi hcall ?_
        intro k q hk hkq
        have hki := get?_unique_of_count_one _ id hone k i hk hi
        rw [hki, hcall] at hkq
        exact (Except.ok.inj hkq).symm
      | error err =>
        show fetched id = none
        cases hf : fetched id with
        | none => rfl
        | some q =>
          obtain ⟨k, hk, hkq⟩ := hpay id q hf
          have hki := get?_unique_of_count_one _ id hone k i hk hi
          rw [hki, hcall] at hkq
          cases hkq
  have hnofetch : ∀ (t : List Event) (id : Int) (s : String) (ext : List Event),
      ext.filter Event.isFetch = [] →
      (t ++ [Event.upstreamGetPlayer id s]) <+: (w.trace ++ ext) →
      (t ++ [Event.upstreamGetPlayer id s]) <+: w.trace := by
    intro t id s ext hext hp
    rcases prefix_snoc_cases _ _ _ _ hp with h1 | ⟨a, b, hab, _⟩
    · exact h1
    · exfalso
      have hmem : Event.upstreamGetPlayer id s ∈ ext.filter Event.isFetch := by
        rw [List.mem_filter, hab]
        exact ⟨by simp, rfl⟩
      rw [hext] at hmem
      simp at hmem
  rw [GetPlayers_eq]
  by_cases hlen : (batchMisses env w ids date).length > 0
  · have hlen1 : (ids.filter (fun id => (batchHits env w ids date id).isNone)).length > 0 :=
      hlen
    rw [if_pos hlen1, if_pos hlen]
    obtain ⟨moment, hmade, hdist, hcov, hpres, hpay⟩ := fetchPlayersParallel_calls env
      (w.log (.repoGetBatch ids (normalizeToMonthStart date)))
      (batchMisses env w ids date) date (normalizeToMonthStart date) hs
    have h3 := hrest _ moment hpres hpay
    have hw : w.trace <+: ((w.log (.repoGetBatch ids (normalizeToMonthStart date))).log
        .timeNow).trace := by
      rw [log_trace, log_trace, List.append_assoc]
      exact List.prefix_append _ _
    refine ⟨_, _, moment, rfl, rfl, rfl, h3.1, ?_, hdist, ?_, hpres, hpay, h3.2.1, h3.2.2⟩
    · intro i id hi
      have hm := hmade i id hi
      exact ⟨hw.trans hm.1, hm.2⟩
    · intro t id s hp
      rcases hcov t id s hp with h1 | h2
      · left
        rw [log_trace, log_trace, List.append_assoc] at h1
        exact hnofetch t id s
          ([Event.repoGetBatch ids (normalizeToMonthStart date)] ++ [Event.timeNow]) rfl h1
      · exact Or.inr h2
  · have hlen1 : ¬ (ids.filter (fun id => (batchHits env w ids date id).isNone)).length > 0 :=
      hlen
    have hnil : batchMisses env w ids date = [] := by
      cases hb : batchMisses env w ids date with
      | nil => rfl
      | cons x l =>
        rw [hb] at hlen
        simp at hlen
    rw [if_neg hlen1, if_neg hlen]
    have hpres : ∀ id, ((GoMap.empty : GoMap Int PlayerInfo) id).isSome = true ↔
        ∃ i p, (batchMisses env w ids date).get? i = some id ∧
          env.upstreamGetPlayer ((fun _ => ([] : List Event)) i) id date.FormatDate = .ok p := by
      intro id
      rw [hnil]
      simp [GoMap.empty]
    have hpay : ∀ id p, (GoMap.empty : GoMap Int PlayerInfo) id = some p →
        ∃ i, (batchMisses env w ids date).get? i = some id ∧
          env.upstreamGetPlayer ((fun _ => ([] : List Event)) i) id date.FormatDate = .ok p := by
      intro id p hp
      simp [GoMap.empty] at hp
    have h3 := hrest _ _ hpres hpay
    refine ⟨_, _, fun _ => [], rfl, rfl, rfl, h3.1, ?_, ?_, ?_, hpres, hpay, h3.2.1, h3.2.2⟩
    · intro i id hi
      rw [hnil] at hi
      simp at hi
    · intro i j hi
      rw [hnil] at hi
      simp at hi
    · intro t id s hp
      left
      rw [log_trace] at hp
      exact hnofetch t id s [Event.repoGetBatch ids (normalizeToMonthStart date)] rfl hp

/-- Witness of C7: the batch `[2, 3, 2, 12345, 3]` on the sample store, which holds
member 12345, with an upstream that fails for member 2.  Member 3 is among the
fetched ids with the payload of its calls, member 2 is not, and member 12345 is
served from the store. -/
theorem GetPlayers_order_witness :
    batchMisses partialEnv sampleWorld [2, 3, 2, 12345, 3] june15 = [2, 3, 2, 3] ∧
    ∃ (resp : PlayersResponse) (fetched : GoMap Int PlayerInfo),
      (PlayerService.GetPlayers partialEnv sampleWorld [2, 3, 2, 12345, 3] june15).2
        = (some resp, none) ∧
      resp.Players = some ([2, 3, 2, 12345, 3].filterMap
        (fun id => (fetched id).orElse
          (fun _ => batchHits partialEnv sampleWorld [2, 3, 2, 12345, 3] june15 id))) ∧
      fetched 3 = some (samplePlayer 3) ∧ fetched 2 = none ∧ fetched 12345 = none ∧
      resp.Players = some [samplePlayer 3, samplePlayer 12345, samplePlayer 3] := by
  have hm : batchMisses partialEnv sampleWorld [2, 3, 2, 12345, 3] june15 = [2, 3, 2, 3] := by
    decide
  obtain ⟨resp, fetched, moment, h1, _, h3, h4, _, _, _, h8, h9, h10, _⟩ :=
    GetPlayers_order partialEnv sampleWorld [2, 3, 2, 12345, 3] june15
      (fun _ _ => List.Perm.refl _)
  rw [hm] at h8 h9 h10
  have f3 : fetched 3 = some (samplePlayer 3) :=
    h10 1 3 (samplePlayer 3) rfl rfl (fun k q _ hq => by
      have e : partialEnv.upstreamGetPlayer (moment k) 3 june15.FormatDate
          = .ok (samplePlayer 3) := rfl
      rw [e] at hq
      exact (Except.ok.inj hq).symm)
  have f2 : fetched 2 = none := by
    cases hf : fetched 2 with
    | none => rfl
    | some q =>
      obtain ⟨k, _, hk⟩ := h9 2 q hf
      have e : partialEnv.upstreamGetPlayer (moment k) 2 june15.FormatDate
          = .error (.errorString "upstream error: status=404 body=") := rfl
      rw [e] at hk
      cases hk
  have f5 : fetched 12345 = none := by
    cases hf : fetched 12345 with
    | none => rfl
    | some q =>
      have := (h4 12345 (by rw [hf]; rfl)).2
      exact absurd this (by decide)
  refine ⟨hm, resp, fetched, h1, h3, f3, f2, f5, ?_⟩
  rw [h3]
  have hb : batchHits partialEnv sampleWorld [2, 3, 2, 12345, 3] june15 12345
      = some (samplePlayer 12345) := by decide
  have hb2 : batchHits partialEnv sampleWorld [2, 3, 2, 12345, 3] june15 2 = none := by decide
  simp [List.filterMap, f3, f2, f5, hb, hb2]

end Mchess
